import Mathlib

/-!
PropScript: a verification development

A shallow embedding of the PropScript sources (`propscript.hpp`, `definitions.hpp`,
`lexer.cpp`, `parser.cpp`, `interpreter.cpp`) and theorems about them.

Conventions of the embedding

* Machine integers are natural numbers or integers; every place where the source
  truncates (`uint32_t` handles and cursors, `int32_t` arithmetic) carries an explicit
  reduction modulo `2 ^ 32`.
* A `std::string` is a Lean `String` whose characters stand for the bytes of the string.
* The scalar members of a default-constructed `PSnode` are indeterminate in C++.  The one
  the parser reads before anything assigns it, `op.inParens` of an operator node built by
  `_ps_get_op_node` in the operator loop or for a leading minus, is a parameter of the
  parser (`uninit`).  The other ones are never read before they are assigned; the
  embedding holds zero there (`false`, tag `0`, handle `0`).  Containers start empty, as
  in the source.
* `_ps_add_node` appends to `ast->nodePool` with `push_back`, which moves the pool to new
  storage when its capacity is used up and then invalidates every pointer into it.  At
  which sizes that happens is left to the implementation; it is a parameter of the parser
  (`moves`; `moves n` says that the `push_back` on a pool of `n` nodes moves it).
* A default-constructed `PSdata` has an indeterminate `type` in C++ (`PSdata() \x7b\x7d`,
  `propscript.hpp` 184, assigns no member).  Such a value is what `return \x7b\x7d` gives (a
  call whose body ends with the return flag false, a statement or library function that
  yields no value), what `g_psReturnVal = \x7b\x7d` stores for a `ret` without a value, and
  what `operator[]` creates for a missing entry in `_ps_equal`.  The embedding writes
  `VOID` at these places.  The theorems about calls are stated on the globals a call
  leaves (the variable map, the return flag, the stored return value), not on that value.
* The lexer reads `PS_LEXER_OPERATORS[i][idx]` beyond the end of an entry after every
  match of two characters; what such a read gives is a parameter of the lexer (`oob`).
* Behaviour the C++ standard leaves undefined (reading outside a vector, writing through
  an invalidated pointer, integer division by zero, a float that does not fit the integer
  it is cast to) is a separate outcome of the model, never a value.
* Recursion over the token stream or the node pool is bounded by a fuel argument; running
  out of fuel is a separate outcome.
-/

namespace PropScript

deriving instance DecidableEq for Except

/-! ## Data model (`propscript.hpp`) -/

/-- Kind of a lexical token (`PStoken::Type`). -/
inductive PStokenType where
  | ID
  | OP
  | NEWLINE
deriving DecidableEq, Repr

/-- A lexical token (`PStoken`). -/
structure PStoken where
  type : PStokenType
  str : String
  lineNum : Nat
deriving DecidableEq, Repr

/-- Node handle (`PSnodeHandle`, a `uint32_t`). -/
abbrev PSnodeHandle := Nat

/-- The value `UINT32_MAX`. -/
abbrev UINT32_MAX : Nat := 4294967295

/-- Reduction of a natural number to `uint32_t`. -/
def u32 (n : Nat) : Nat := n % 4294967296

/-- Reduction of an integer to `int32_t` (two's complement wrap-around). -/
def i32 (n : Int) : Int := (n + 2147483648) % 4294967296 - 2147483648

namespace PSnodeType
/-- Tag `PSnode::OP`. -/
abbrev OP : Nat := 0
/-- Tag `PSnode::KEYWORD`. -/
abbrev KEYWORD : Nat := 1
/-- Tag `PSnode::ID`. -/
abbrev ID : Nat := 2
/-- Tag `PSnode::NUMBER`. -/
abbrev NUMBER : Nat := 3
end PSnodeType

namespace PSopType
/-- Tag `PSnode::OP::IN`. -/
abbrev IN : Nat := 0
/-- Tag `PSnode::OP::MULT`. -/
abbrev MULT : Nat := 10
/-- Tag `PSnode::OP::DIV`. -/
abbrev DIV : Nat := 11
/-- Tag `PSnode::OP::MOD`. -/
abbrev MOD : Nat := 12
/-- Tag `PSnode::OP::ADD`. -/
abbrev ADD : Nat := 20
/-- Tag `PSnode::OP::SUB`. -/
abbrev SUB : Nat := 21
/-- Tag `PSnode::OP::EQUAL`. -/
abbrev EQUAL : Nat := 30
/-- Tag `PSnode::OP::MULTEQUAL`. -/
abbrev MULTEQUAL : Nat := 31
/-- Tag `PSnode::OP::DIVEQUAL`. -/
abbrev DIVEQUAL : Nat := 32
/-- Tag `PSnode::OP::MODEQUAL`. -/
abbrev MODEQUAL : Nat := 33
/-- Tag `PSnode::OP::ADDEQUAL`. -/
abbrev ADDEQUAL : Nat := 34
/-- Tag `PSnode::OP::SUBEQUAL`. -/
abbrev SUBEQUAL : Nat := 35
/-- Tag `PSnode::OP::LESSTHAN`. -/
abbrev LESSTHAN : Nat := 40
/-- Tag `PSnode::OP::GREATERTHAN`. -/
abbrev GREATERTHAN : Nat := 41
/-- Tag `PSnode::OP::LESSTHANEQUAL`. -/
abbrev LESSTHANEQUAL : Nat := 42
/-- Tag `PSnode::OP::GREATERTHANEQUAL`. -/
abbrev GREATERTHANEQUAL : Nat := 43
/-- Tag `PSnode::OP::EQUALITY`. -/
abbrev EQUALITY : Nat := 44
/-- Tag `PSnode::OP::NONEQUALITY`. -/
abbrev NONEQUALITY : Nat := 45
/-- Tag `PSnode::OP::AND`. -/
abbrev AND : Nat := 50
/-- Tag `PSnode::OP::OR`. -/
abbrev OR : Nat := 51
end PSopType

namespace PSkeywordType
/-- Tag `PSnode::Keyword::IF`. -/
abbrev IF : Nat := 0
/-- Tag `PSnode::Keyword::FOR`. -/
abbrev FOR : Nat := 1
/-- Tag `PSnode::Keyword::FUNC`. -/
abbrev FUNC : Nat := 2
/-- Tag `PSnode::Keyword::RETURN`. -/
abbrev RETURN : Nat := 3
/-- Tag `PSnode::Keyword::BREAK`. -/
abbrev BREAK : Nat := 4
/-- Tag `PSnode::Keyword::CONTINUE`. -/
abbrev CONTINUE : Nat := 5
end PSkeywordType

namespace PSidType
/-- Tag `PSnode::ID::FUNC`. -/
abbrev FUNC : Nat := 0
/-- Tag `PSnode::ID::VAR`. -/
abbrev VAR : Nat := 1
end PSidType

namespace PSliteralType
/-- Tag `PSnode::Literal::INT`. -/
abbrev INT : Nat := 0
/-- Tag `PSnode::Literal::FLOAT`. -/
abbrev FLOAT : Nat := 1
end PSliteralType

/-- Operator part of a node (`PSnode::OP`). -/
structure PSnode.OP where
  type : Nat := 0
  left : PSnodeHandle := 0
  right : PSnodeHandle := 0
  inParens : Bool := false
deriving DecidableEq, Repr

/-- Keyword part of a node (`PSnode::Keyword`). -/
structure PSnode.Keyword where
  type : Nat := 0
  code : List PSnodeHandle := []
  condition : PSnodeHandle := 0
  hasElse : Bool := false
  elseCode : List PSnodeHandle := []
  name : String := ""
  paramNames : List String := []
  returnVal : PSnodeHandle := 0
deriving DecidableEq, Repr

/-- Identifier part of a node (`PSnode::ID`). -/
structure PSnode.ID where
  type : Nat := 0
  name : String := ""
  params : List PSnodeHandle := []
deriving DecidableEq, Repr

/-- Literal part of a node (`PSnode::Literal`); `floatNum` is the bit pattern of the
`float`. -/
structure PSnode.Literal where
  type : Nat := 0
  intNum : Int := 0
  floatNum : Nat := 0
deriving DecidableEq, Repr

/-- An abstract syntax tree node (`PSnode`): the source keeps all four parts side by side
and discriminates them by `type`. -/
structure PSnode where
  type : Nat := 0
  lineNum : Nat := 0
  op : PSnode.OP := {}
  keyword : PSnode.Keyword := {}
  id : PSnode.ID := {}
  literal : PSnode.Literal := {}
deriving DecidableEq, Repr

/-- An abstract syntax tree (`PSast`). -/
structure PSast where
  parentNodes : List PSnodeHandle := []
  nodePool : List PSnode := []
deriving DecidableEq, Repr

/-! ## Serializer (`ps_save_ast`, `ps_load_ast` in `parser.cpp`) -/

/-- Little-endian bytes of `n`, `w` bytes wide (a raw `file.write` of a `w`-byte integer). -/
def leBytes : Nat → Nat → List Nat
  | 0, _ => []
  | w + 1, n => (n % 256) :: leBytes w (n / 256)

/-- Value of a little-endian byte string. -/
def ofLeBytes : List Nat → Nat
  | [] => 0
  | b :: bs => b + 256 * ofLeBytes bs

/-- Raw bytes of a `bool`. -/
def boolByte (b : Bool) : Nat := if b then 1 else 0

/-- Raw bytes of a `std::string`'s character data. -/
def strBytes (s : String) : List Nat := s.data.map (fun c => c.toNat % 256)

/-- Raw bytes of a vector of handles. -/
def handleBytes (l : List PSnodeHandle) : List Nat := (l.map (leBytes 4)).flatten

/-- Raw bytes of an `int32_t`. -/
def i32Bytes (i : Int) : List Nat := leBytes 4 (i % 4294967296).toNat

/-- Bytes written for the parameter names of a keyword node (`parser.cpp` 181-186). -/
def saveParamNames : List String → List Nat
  | [] => []
  | p :: ps => leBytes 8 p.length ++ strBytes p ++ saveParamNames ps

/-- Bytes written for one node of the pool (`parser.cpp` 147-214).  `sizeof(PSnode::OP)` is
16: three 4-byte words, the flag, and three padding bytes (written as zero here). -/
def saveNode (node : PSnode) : List Nat :=
  leBytes 4 node.type ++ leBytes 4 node.lineNum ++
  (if node.type = PSnodeType.OP then
    (leBytes 4 node.op.type ++ leBytes 4 node.op.left ++ leBytes 4 node.op.right ++
      [boolByte node.op.inParens, 0, 0, 0]) ++
    leBytes 4 node.op.left ++ leBytes 4 node.op.right
  else if node.type = PSnodeType.KEYWORD then
    leBytes 4 node.keyword.type ++
    leBytes 8 node.keyword.code.length ++ handleBytes node.keyword.code ++
    leBytes 4 node.keyword.condition ++
    [boolByte node.keyword.hasElse] ++
    leBytes 8 node.keyword.elseCode.length ++ handleBytes node.keyword.elseCode ++
    leBytes 8 node.keyword.name.length ++ strBytes node.keyword.name ++
    leBytes 8 node.keyword.paramNames.length ++ saveParamNames node.keyword.paramNames ++
    leBytes 4 node.keyword.returnVal
  else if node.type = PSnodeType.ID then
    leBytes 4 node.id.type ++
    leBytes 8 node.id.name.length ++ strBytes node.id.name ++
    leBytes 8 node.id.params.length ++ handleBytes node.id.params
  else if node.type = PSnodeType.NUMBER then
    leBytes 4 node.literal.type ++ i32Bytes node.literal.intNum ++
    leBytes 4 node.literal.floatNum
  else [])

/-- Bytes written for the node pool, node after node. -/
def saveNodes : List PSnode → List Nat
  | [] => []
  | n :: ns => saveNode n ++ saveNodes ns

/-- The bytes `ps_save_ast` writes to the file (`parser.cpp` 136-216). -/
def ps_save_ast (ast : PSast) : List Nat :=
  leBytes 8 ast.parentNodes.length ++ handleBytes ast.parentNodes ++
  leBytes 8 ast.nodePool.length ++ saveNodes ast.nodePool

/-- A `file.read` of `k` bytes: the bytes and the rest of the stream; `none` when the
stream is too short (the source then carries on with unset memory). -/
def readBytes (k : Nat) (bs : List Nat) : Option (List Nat × List Nat) :=
  if k ≤ bs.length then some (bs.take k, bs.drop k) else none

/-- Read a `w`-byte little-endian unsigned integer. -/
def readLe (w : Nat) (bs : List Nat) : Option (Nat × List Nat) :=
  match readBytes w bs with
  | some (b, rest) => some (ofLeBytes b, rest)
  | none => none

/-- Read a `bool`. -/
def readBool (bs : List Nat) : Option (Bool × List Nat) :=
  match readLe 1 bs with
  | some (b, rest) => some (decide (b ≠ 0), rest)
  | none => none

/-- Read an `int32_t`. -/
def readI32 (bs : List Nat) : Option (Int × List Nat) :=
  match readLe 4 bs with
  | some (n, rest) => some (if n < 2147483648 then (n : Int) else (n : Int) - 4294967296, rest)
  | none => none

/-- Read `n` handles into a vector resized to `n`. -/
def readHandles : Nat → List Nat → Option (List PSnodeHandle × List Nat)
  | 0, bs => some ([], bs)
  | n + 1, bs =>
    match readLe 4 bs with
    | some (h, rest) =>
      match readHandles n rest with
      | some (hs, rest2) => some (h :: hs, rest2)
      | none => none
    | none => none

/-- Read the character data of a string resized to `n`. -/
def readStr (n : Nat) (bs : List Nat) : Option (String × List Nat) :=
  match readBytes n bs with
  | some (b, rest) => some (String.mk (b.map Char.ofNat), rest)
  | none => none

/-- Read `n` length-prefixed parameter names (`parser.cpp` 285-291). -/
def readParamNames : Nat → List Nat → Option (List String × List Nat)
  | 0, bs => some ([], bs)
  | n + 1, bs =>
    match readLe 8 bs with
    | some (len, r1) =>
      match readStr len r1 with
      | some (s, r2) =>
        match readParamNames n r2 with
        | some (ss, r3) => some (s :: ss, r3)
        | none => none
      | none => none
    | none => none

/-- Read the operator part (`parser.cpp` 255-257): the raw 16-byte struct, then `left` and
`right` once more. -/
def loadOp (bs : List Nat) : Option (PSnode.OP × List Nat) := do
  let (ty, r1) ← readLe 4 bs
  let (l0, r2) ← readLe 4 r1
  let (rt0, r3) ← readLe 4 r2
  let (ip, r4) ← readBool r3
  let (_, r5) ← readBytes 3 r4
  let op0 : PSnode.OP := { type := ty, left := l0, right := rt0, inParens := ip }
  let (l, r6) ← readLe 4 r5
  let (rt, r7) ← readLe 4 r6
  pure ({ op0 with left := l, right := rt }, r7)

/-- Read the keyword part (`parser.cpp` 262-293). -/
def loadKeyword (bs : List Nat) : Option (PSnode.Keyword × List Nat) := do
  let (ty, r1) ← readLe 4 bs
  let (codeSize, r2) ← readLe 8 r1
  let (code, r3) ← readHandles codeSize r2
  let (cond, r4) ← readLe 4 r3
  let (hasElse, r5) ← readBool r4
  let (elseCodeSize, r6) ← readLe 8 r5
  let (elseCode, r7) ← readHandles elseCodeSize r6
  let (nameLen, r8) ← readLe 8 r7
  let (name, r9) ← readStr nameLen r8
  let (paramNameSize, r10) ← readLe 8 r9
  let (paramNames, r11) ← readParamNames paramNameSize r10
  let (returnVal, r12) ← readLe 4 r11
  pure ({ type := ty, code := code, condition := cond, hasElse := hasElse,
          elseCode := elseCode, name := name, paramNames := paramNames,
          returnVal := returnVal }, r12)

/-- Read the identifier part (`parser.cpp` 299-309). -/
def loadId (bs : List Nat) : Option (PSnode.ID × List Nat) := do
  let (ty, r1) ← readLe 4 bs
  let (nameLen, r2) ← readLe 8 r1
  let (name, r3) ← readStr nameLen r2
  let (paramSize, r4) ← readLe 8 r3
  let (params, r5) ← readHandles paramSize r4
  pure ({ type := ty, name := name, params := params }, r5)

/-- Read the literal part (`parser.cpp` 315-317). -/
def loadLiteral (bs : List Nat) : Option (PSnode.Literal × List Nat) := do
  let (ty, r1) ← readLe 4 bs
  let (i, r2) ← readI32 r1
  let (f, r3) ← readLe 4 r2
  pure ({ type := ty, intNum := i, floatNum := f }, r3)

/-- Read one node (`parser.cpp` 247-323) into a default-constructed `PSnode`. -/
def loadNode (bs : List Nat) : Option (PSnode × List Nat) := do
  let (ty, r1) ← readLe 4 bs
  let (line, r2) ← readLe 4 r1
  let node : PSnode := { type := ty, lineNum := line }
  if ty = PSnodeType.OP then
    let (op, r) ← loadOp r2
    pure ({ node with op := op }, r)
  else if ty = PSnodeType.KEYWORD then
    let (kw, r) ← loadKeyword r2
    pure ({ node with keyword := kw }, r)
  else if ty = PSnodeType.ID then
    let (i, r) ← loadId r2
    pure ({ node with id := i }, r)
  else if ty = PSnodeType.NUMBER then
    let (l, r) ← loadLiteral r2
    pure ({ node with literal := l }, r)
  else
    pure (node, r2)

/-- Read `n` nodes, pushing each onto the pool (`parser.cpp` 245-324). -/
def loadNodes : Nat → List Nat → Option (List PSnode × List Nat)
  | 0, bs => some ([], bs)
  | n + 1, bs =>
    match loadNode bs with
    | some (node, rest) =>
      match loadNodes n rest with
      | some (nodes, rest2) => some (node :: nodes, rest2)
      | none => none
    | none => none

/-- The AST `ps_load_ast` builds from the bytes of a file (`parser.cpp` 233-327). -/
def ps_load_ast (bs : List Nat) : Option PSast := do
  let (parentNodeSize, r1) ← readLe 8 bs
  let (parents, r2) ← readHandles parentNodeSize r1
  let (nodePoolSize, r3) ← readLe 8 r2
  let (pool, _) ← loadNodes nodePoolSize r3
  pure { parentNodes := parents, nodePool := pool }

/-- Every handle of the list fits a `uint32_t`. -/
def handlesFit (l : List PSnodeHandle) : Prop := ∀ h ∈ l, h < 4294967296

/-- Every character of the string is one byte. -/
def strFits (s : String) : Prop := ∀ c ∈ s.data, c.toNat < 256

/-- The members of a node that `ps_save_ast` writes hold values of their C++ types:
32-bit tags, handles and line numbers, a 32-bit signed literal, byte strings, and
container sizes that fit a `size_t`. -/
def PSnode.Fits (node : PSnode) : Prop :=
  node.type < 4294967296 ∧ node.lineNum < 4294967296 ∧
  (node.type = PSnodeType.OP →
    node.op.type < 4294967296 ∧ node.op.left < 4294967296 ∧ node.op.right < 4294967296) ∧
  (node.type = PSnodeType.KEYWORD →
    node.keyword.type < 4294967296 ∧
    node.keyword.code.length < 18446744073709551616 ∧ handlesFit node.keyword.code ∧
    node.keyword.condition < 4294967296 ∧
    node.keyword.elseCode.length < 18446744073709551616 ∧
    handlesFit node.keyword.elseCode ∧
    node.keyword.name.length < 18446744073709551616 ∧ strFits node.keyword.name ∧
    node.keyword.paramNames.length < 18446744073709551616 ∧
    (∀ p ∈ node.keyword.paramNames, p.length < 18446744073709551616 ∧ strFits p) ∧
    node.keyword.returnVal < 4294967296) ∧
  (node.type = PSnodeType.ID →
    node.id.type < 4294967296 ∧
    node.id.name.length < 18446744073709551616 ∧ strFits node.id.name ∧
    node.id.params.length < 18446744073709551616 ∧ handlesFit node.id.params) ∧
  (node.type = PSnodeType.NUMBER →
    node.literal.type < 4294967296 ∧
    -2147483648 ≤ node.literal.intNum ∧ node.literal.intNum < 2147483648 ∧
    node.literal.floatNum < 4294967296)

/-- The AST holds values of its C++ types. -/
def PSast.Fits (ast : PSast) : Prop :=
  ast.parentNodes.length < 18446744073709551616 ∧ handlesFit ast.parentNodes ∧
  ast.nodePool.length < 18446744073709551616 ∧ ∀ node ∈ ast.nodePool, node.Fits

/-- Two nodes agree on the type tag, the line number and the part selected by the tag. -/
def PSnode.SameVariant (a b : PSnode) : Prop :=
  b.type = a.type ∧ b.lineNum = a.lineNum ∧
  (a.type = PSnodeType.OP → b.op = a.op) ∧
  (a.type = PSnodeType.KEYWORD → b.keyword = a.keyword) ∧
  (a.type = PSnodeType.ID → b.id = a.id) ∧
  (a.type = PSnodeType.NUMBER → b.literal = a.literal)

/-- What `ps_load_ast` rebuilds of a saved node: tag, line and the part selected by the
tag, inside a default-constructed node. -/
def PSnode.stored (a : PSnode) : PSnode :=
  let node : PSnode := { type := a.type, lineNum := a.lineNum }
  if a.type = PSnodeType.OP then { node with op := a.op }
  else if a.type = PSnodeType.KEYWORD then { node with keyword := a.keyword }
  else if a.type = PSnodeType.ID then { node with id := a.id }
  else if a.type = PSnodeType.NUMBER then { node with literal := a.literal }
  else node

/-- A small AST with one node of each kind: the pool of `g` declared as
`func g(a) { x = f(5) }`. -/
def roundtripExample : PSast :=
  { parentNodes := [4],
    nodePool := [
      { type := PSnodeType.ID, lineNum := 1, id := { type := PSidType.VAR, name := "x" } },
      { type := PSnodeType.NUMBER, lineNum := 1,
        literal := { type := PSliteralType.INT, intNum := -5 } },
      { type := PSnodeType.ID, lineNum := 1,
        id := { type := PSidType.FUNC, name := "f", params := [1] } },
      { type := PSnodeType.OP, lineNum := 1,
        op := { type := PSopType.EQUAL, left := 0, right := 2, inParens := true } },
      { type := PSnodeType.KEYWORD, lineNum := 1,
        keyword := { type := PSkeywordType.FUNC, code := [3], name := "g",
                     paramNames := ["a"], returnVal := UINT32_MAX } } ] }

/-! ## String tables (`definitions.hpp`) -/

/-- The table `PS_KEYWORDS`. -/
def PS_KEYWORDS : List String := ["func", "ret", "if", "else", "for", "in"]

/-- The table `PS_OPERATORS` (operators as seen by the parser). -/
def PS_OPERATORS : List String :=
  ["+", "-", "*", "/", "%", "=", "+=", "-=", "*=", "/=", "<", ">", "<=", ">=", "==", "!=",
   "and", "or"]

/-- The table `PS_LEXER_OPERATORS` (operators as seen by the lexer). -/
def PS_LEXER_OPERATORS : List String :=
  ["+", "-", "*", "/", "%", "=", "+=", "-=", "*=", "/=", "<", ">", "<=", ">=", "==", "!=",
   "(", ")", "\x7b", "\x7d", "[", "]", ",", "#"]

/-- The table `PS_CLOSED_SEPERATORS`. -/
def PS_CLOSED_SEPERATORS : List String := [")", "\x7d", "]", ","]

/-! ## Parser (`parser.cpp`) -/

/-- The parse errors (`PSparseError`). -/
inductive PSparseError where
  | EXPECTED_CLOSING_PAREN
  | UNEXPECTED_OPERATOR
  | EXPECTED_OPERATOR
  | INVALID_TOKEN
  | EXPECTED_OPENING_CURLY
deriving DecidableEq, Repr

/-- Ways in which a run of the parser ends without an AST: `error` is `_ps_error` (the
exception `ps_parse_tokens` catches, with the offending token), `stdException` an
exception thrown by `std::stoi` or `std::stof` (caught by the same handler), `undefined`
a read outside the token vector or the node pool, `outOfFuel` the bound of the model. -/
inductive PSparseFail where
  | error (e : PSparseError) (errorToken : PStoken)
  | stdException
  | undefined
  | outOfFuel
deriving DecidableEq, Repr

/-- The table `PS_STRING_TO_OP_TYPE` (`parser.cpp` 49-68). -/
def PS_STRING_TO_OP_TYPE : List (String × Nat) :=
  [("in", PSopType.IN), ("*", PSopType.MULT), ("/", PSopType.DIV), ("%", PSopType.MOD),
   ("+", PSopType.ADD), ("-", PSopType.SUB), ("=", PSopType.EQUAL),
   ("*=", PSopType.MULTEQUAL), ("/=", PSopType.DIVEQUAL), ("%=", PSopType.MODEQUAL),
   ("+=", PSopType.ADDEQUAL), ("-=", PSopType.SUBEQUAL), ("<", PSopType.LESSTHAN),
   (">", PSopType.GREATERTHAN), ("<=", PSopType.LESSTHANEQUAL),
   (">=", PSopType.GREATERTHANEQUAL), ("==", PSopType.EQUALITY),
   ("!=", PSopType.NONEQUALITY)]

/-- The mutable state of the parser: the AST under construction and the two cursors that
the source passes by reference. -/
structure PSparseState where
  ast : PSast := {}
  curTokenIdx : Nat := 0
  numOpenParens : Nat := 0
deriving DecidableEq, Repr

/-- The read `tokens[i]`. -/
def tokenAt (tokens : List PStoken) (i : Nat) : Except PSparseFail PStoken :=
  match tokens[i]? with
  | some t => .ok t
  | none => .error .undefined

/-- The read `ast->nodePool[h]`. -/
def nodeAt (pool : List PSnode) (h : PSnodeHandle) : Except PSparseFail PSnode :=
  match pool[h]? with
  | some n => .ok n
  | none => .error .undefined

/-- Advance the token cursor by `k` (`uint32_t` arithmetic). -/
def PSparseState.advance (st : PSparseState) (k : Nat) : PSparseState :=
  { st with curTokenIdx := u32 (st.curTokenIdx + k) }

/-- The increment `numOpenParens++`. -/
def PSparseState.openParen (st : PSparseState) : PSparseState :=
  { st with numOpenParens := u32 (st.numOpenParens + 1) }

/-- The decrement `numOpenParens--`. -/
def PSparseState.closeParen (st : PSparseState) : PSparseState :=
  { st with numOpenParens := u32 (st.numOpenParens + 4294967295) }

/-- Function `_ps_add_node` (`parser.cpp` 763-767): push the node, return its index as a
32-bit handle. -/
def _ps_add_node (st : PSparseState) (node : PSnode) : PSnodeHandle × PSparseState :=
  (u32 st.ast.nodePool.length,
   { st with ast := { st.ast with nodePool := st.ast.nodePool ++ [node] } })

/-- Function `_ps_continue_statement` (`parser.cpp` 769-777). -/
def _ps_continue_statement (tokens : List PStoken) (st : PSparseState) :
    Except PSparseFail PSparseState := do
  let t ← tokenAt tokens st.curTokenIdx
  if t.type = PStokenType.NEWLINE ∧ st.numOpenParens ≠ 0 then
    let st1 := st.advance 1
    if st1.curTokenIdx ≥ tokens.length then
      let prev ← tokenAt tokens (u32 (st1.curTokenIdx + 4294967295))
      .error (.error .EXPECTED_CLOSING_PAREN prev)
    else pure st1
  else pure st

/-- Function `_ps_remove_newline` (`parser.cpp` 779-783). -/
def _ps_remove_newline (tokens : List PStoken) (st : PSparseState) :
    Except PSparseFail PSparseState := do
  let t ← tokenAt tokens st.curTokenIdx
  if t.type = PStokenType.NEWLINE then pure (st.advance 1) else pure st

/-- Function `_ps_precedence` (`parser.cpp` 785-788). -/
def _ps_precedence (op : Nat) : Nat := op / 10

/-- Function `_ps_force_id` (`parser.cpp` 790-797). -/
def _ps_force_id (token : PStoken) : Except PSparseFail Unit :=
  if token.type ≠ PStokenType.ID then .error (.error .UNEXPECTED_OPERATOR token)
  else if token.str ∈ PS_KEYWORDS then .error (.error .INVALID_TOKEN token)
  else pure ()

/-- The test that ends an expression (`parser.cpp` 507-508, 523-524): a newline, an
opening curly brace or a closing separator. -/
def isStatementEnd (t : PStoken) : Bool :=
  t.type = PStokenType.NEWLINE || t.str = "\x7b" || decide (t.str ∈ PS_CLOSED_SEPERATORS)

/-- The test of `ret`, `break` and `continue` (`parser.cpp` 474-475, 492-493): a newline
or a closing separator follows. -/
def isNewlineOrClosed (t : PStoken) : Bool :=
  t.type = PStokenType.NEWLINE || decide (t.str ∈ PS_CLOSED_SEPERATORS)

/-- The library test `std::isdigit` on a character of a token. -/
def isdigit (c : Char) : Bool := decide (48 ≤ c.toNat ∧ c.toNat ≤ 57)

/-- The library function `std::stoi` on a string of decimal digits: the value, or `none`
when it does not fit an `int` (the library throws `std::out_of_range`). -/
def stoi (s : String) : Option Int :=
  let v : Nat := s.data.foldl (fun acc c => 10 * acc + (c.toNat - 48)) 0
  if v ≤ 2147483647 then some (v : Int) else none

/-- The product `floatNum *= -1.0f` on the bit pattern of a float: the sign bit flips. -/
def negFloatBits (b : Nat) : Nat :=
  if b < 2147483648 then b + 2147483648 else b - 2147483648

/-- The check of a numeric token (`parser.cpp` 662-674): `some isFloat`, or `none` when
the token has a second `.` or a character that is not a digit. -/
def scanNumber : List Char → Bool → Option Bool
  | [], isFloat => some isFloat
  | c :: cs, isFloat =>
    if c = '.' then
      if isFloat then none else scanNumber cs true
    else if !isdigit c then none
    else scanNumber cs isFloat

/-- Function `_ps_get_op_node` (`parser.cpp` 742-759).  The node is default-constructed;
only `type`, `lineNum` and `op.type` are assigned, so `op.inParens` is indeterminate: the
model takes it from `uninit`, at twice the cursor of the operator token. -/
def _ps_get_op_node (uninit : Nat → Bool) (tokens : List PStoken) (st : PSparseState) : Except PSparseFail (PSnode × PSparseState) := do
  let t ← tokenAt tokens st.curTokenIdx
  if t.type ≠ PStokenType.OP then .error (.error .EXPECTED_OPERATOR t)
  else
    match PS_STRING_TO_OP_TYPE.lookup t.str with
    | none => .error (.error .INVALID_TOKEN t)
    | some ty =>
      let opNode : PSnode :=
        { type := PSnodeType.OP, lineNum := t.lineNum,
          op := { type := ty, inParens := uninit (2 * st.curTokenIdx) } }
      let st1 ← _ps_continue_statement tokens (st.advance 1)
      pure (opNode, st1)

/-- The nodes built for a leading `-` (`parser.cpp` 636-652 and 721-737): the literal
`-1`, the operand, and the `SUB` node over them, pushed in this order.  The source never
assigns `op.inParens` of the `SUB` node; the model takes it from `uninit`, at twice the
cursor plus one. -/
def addMinusNode (uninit : Nat → Bool) (lineNum : Nat) (operand : PSnode) (st : PSparseState) :
    PSnodeHandle × PSparseState :=
  let negOne : PSnode :=
    { type := PSnodeType.NUMBER, lineNum := lineNum,
      literal := { type := PSliteralType.INT, intNum := -1 } }
  let (l, st1) := _ps_add_node st negOne
  let (r, st2) := _ps_add_node st1 operand
  let minusNode : PSnode :=
    { type := PSnodeType.OP, lineNum := lineNum,
      op := { type := PSopType.SUB, left := l, right := r,
              inParens := uninit (2 * st.curTokenIdx + 1) } }
  _ps_add_node st2 minusNode

/-- The argument loop of a call (`parser.cpp` 620-631); `stmt` is the recursive call of
`_ps_parse_statement`. -/
def parseArgs (stmt : PSparseState → Except PSparseFail (PSnodeHandle × PSparseState)) (tokens : List PStoken) :
    Nat → List PSnodeHandle → PSparseState → Except PSparseFail (List PSnodeHandle × PSparseState)
  | 0, _, _ => .error .outOfFuel
  | fuel + 1, params, st => do
    let (h, st1) ← stmt st
    let params1 := params ++ [h]
    let t ← tokenAt tokens st1.curTokenIdx
    if t.str = ")" then pure (params1, st1)
    else if t.str ≠ "," then .error (.error .EXPECTED_OPERATOR t)
    else
      let st2 ← _ps_continue_statement tokens (st1.advance 1)
      parseArgs stmt tokens fuel params1 st2

/-- Function `_ps_parse_id` (`parser.cpp` 587-740); `stmt` is the recursive call of
`_ps_parse_statement`, `fuel` bounds the argument loop, `stof` is the library function
`std::stof` (bit pattern of the result, `none` when it throws). -/
def _ps_parse_id (stof : String → Option Nat) (uninit : Nat → Bool) (stmt : PSparseState → Except PSparseFail (PSnodeHandle × PSparseState))
    (fuel : Nat) (tokens : List PStoken) (st : PSparseState) : Except PSparseFail (PSnodeHandle × PSparseState) := do
  let t0 ← tokenAt tokens st.curTokenIdx
  let negative : Bool := t0.str = "-"
  let st := if negative then st.advance 1 else st
  let t ← tokenAt tokens st.curTokenIdx
  _ps_force_id t
  let next ← tokenAt tokens (u32 (st.curTokenIdx + 1))
  if next.str = "(" then
    -- FUNCTION
    let funcNode : PSnode :=
      { type := PSnodeType.ID, lineNum := t.lineNum,
        id := { type := PSidType.FUNC, name := t.str } }
    let st1 ← _ps_continue_statement tokens (st.advance 2).openParen
    let t1 ← tokenAt tokens st1.curTokenIdx
    if t1.str = ")" then
      pure (_ps_add_node (st1.advance 1).closeParen funcNode)
    else
      let (params, st2) ← parseArgs stmt tokens fuel [] st1
      let funcNode := { funcNode with id := { funcNode.id with params := params } }
      let st3 := (st2.advance 1).closeParen
      if negative then
        let t3 ← tokenAt tokens st3.curTokenIdx
        pure (addMinusNode uninit t3.lineNum funcNode st3)
      else pure (_ps_add_node st3 funcNode)
  else
    let token := t
    let st := st.advance 1
    if isdigit (token.str.data.headD (Char.ofNat 0)) || token.str.data.headD (Char.ofNat 0) = '.' then
      -- NUMBER
      match scanNumber token.str.data false with
      | none =>
        let bad ← tokenAt tokens st.curTokenIdx
        .error (.error .INVALID_TOKEN bad)
      | some isFloat =>
        let prev ← tokenAt tokens (u32 (st.curTokenIdx + 4294967295))
        let numNode : PSnode := { type := PSnodeType.NUMBER, lineNum := prev.lineNum }
        if isFloat then
          match stof token.str with
          | none => .error .stdException
          | some f =>
            pure (_ps_add_node st
              { numNode with literal :=
                  { type := PSliteralType.FLOAT,
                    floatNum := if negative then negFloatBits f else f } })
        else
          match stoi token.str with
          | none => .error .stdException
          | some i =>
            pure (_ps_add_node st
              { numNode with literal :=
                  { type := PSliteralType.INT,
                    intNum := if negative then i32 (i * -1) else i } })
    else
      -- VARIABLE
      let t1 ← tokenAt tokens st.curTokenIdx
      let varNode : PSnode :=
        { type := PSnodeType.ID, lineNum := t1.lineNum,
          id := { type := PSidType.VAR, name := token.str } }
      let (varNode, st) ←
        (if t1.str = "[" then do
          let st1 ← _ps_continue_statement tokens st.openParen
          let (h, st2) ← stmt (st1.advance 1)
          let st3 ← _ps_continue_statement tokens st2
          let t3 ← tokenAt tokens st3.curTokenIdx
          if t3.str ≠ "]" then .error (.error .EXPECTED_CLOSING_PAREN t3)
          else
            pure ({ varNode with id := { varNode.id with params := varNode.id.params ++ [h] } },
                  (st3.closeParen).advance 1)
        else pure (varNode, st) : Except PSparseFail (PSnode × PSparseState))
      if negative then
        let t4 ← tokenAt tokens st.curTokenIdx
        pure (addMinusNode uninit t4.lineNum varNode st)
      else pure (_ps_add_node st varNode)

/-- Function `_ps_parse_statement_in_parens` (`parser.cpp` 574-585); `stmt` is the
recursive call of `_ps_parse_statement`. -/
def _ps_parse_statement_in_parens (stmt : PSparseState → Except PSparseFail (PSnodeHandle × PSparseState))
    (tokens : List PStoken) (st : PSparseState) : Except PSparseFail (PSnodeHandle × PSparseState) := do
  let (node, st1) ← stmt (st.advance 1).openParen
  let t ← tokenAt tokens st1.curTokenIdx
  if t.str ≠ ")" then .error (.error .EXPECTED_CLOSING_PAREN t)
  else
    let n ← nodeAt st1.ast.nodePool node
    let pool := st1.ast.nodePool.set node { n with op := { n.op with inParens := true } }
    let st2 : PSparseState := { st1 with ast := { st1.ast with nodePool := pool } }
    pure (node, (st2.closeParen).advance 1)

/-- Function `_ps_parse_non_op` (`parser.cpp` 561-572). -/
def _ps_parse_non_op (stof : String → Option Nat) (uninit : Nat → Bool)
    (stmt : PSparseState → Except PSparseFail (PSnodeHandle × PSparseState))
    (fuel : Nat) (tokens : List PStoken) (st : PSparseState) : Except PSparseFail (PSnodeHandle × PSparseState) := do
  let t ← tokenAt tokens st.curTokenIdx
  let (node, st1) ←
    (if t.str = "(" then _ps_parse_statement_in_parens stmt tokens st
     else _ps_parse_id stof uninit stmt fuel tokens st)
  let st2 ← _ps_continue_statement tokens st1
  pure (node, st2)

/-- The statement loop of a block (`parser.cpp` 356-360, 385-389, 454-458), up to the
closing curly brace; `stmt` is the recursive call of `_ps_parse_statement`. -/
def parseBlock (stmt : PSparseState → Except PSparseFail (PSnodeHandle × PSparseState))
    (tokens : List PStoken) :
    Nat → List PSnodeHandle → PSparseState →
      Except PSparseFail (List PSnodeHandle × PSparseState)
  | 0, _, _ => .error .outOfFuel
  | fuel + 1, code, st => do
    let t ← tokenAt tokens st.curTokenIdx
    if t.str ≠ "\x7d" then
      let (h, st1) ← stmt st
      let st2 ← _ps_remove_newline tokens st1
      parseBlock stmt tokens fuel (code ++ [h]) st2
    else pure (code, st)

/-- The body of an `if`, `else` or `for` (`parser.cpp` 351-365 and 380-394): a block in
curly braces or a single statement. -/
def parseBody (stmt : PSparseState → Except PSparseFail (PSnodeHandle × PSparseState))
    (fuel : Nat) (tokens : List PStoken) (st : PSparseState) :
    Except PSparseFail (List PSnodeHandle × PSparseState) := do
  let t ← tokenAt tokens st.curTokenIdx
  if t.str = "\x7b" then
    let st1 ← _ps_remove_newline tokens (st.advance 1)
    let (code, st2) ← parseBlock stmt tokens fuel [] st1
    pure (code, st2.advance 1)
  else
    let (h, st1) ← stmt st
    pure ([h], st1)

/-- The parameter-name loop of a function declaration (`parser.cpp` 426-439). -/
def parseParamNames (tokens : List PStoken) :
    Nat → List String → PSparseState → Except PSparseFail (List String × PSparseState)
  | 0, _, _ => .error .outOfFuel
  | fuel + 1, names, st => do
    let t ← tokenAt tokens st.curTokenIdx
    _ps_force_id t
    let names1 := names ++ [t.str]
    let st1 := st.advance 1
    let t1 ← tokenAt tokens st1.curTokenIdx
    if t1.str = ")" then pure (names1, st1)
    else if t1.str ≠ "," then .error (.error .EXPECTED_OPERATOR t1)
    else
      let st2 ← _ps_continue_statement tokens (st1.advance 1)
      parseParamNames tokens fuel names1 st2

/-- The walk down the right spine (`parser.cpp` 540-548).  `rightMost` is `none` for the
local `opNode` and `some i` for the pool node `i`; `right` is `rightMost->op.right`.  The
walk goes on while the node at `right` is an operator of larger precedence value than the
new operator and is not flagged `inParens`. -/
def findRightMost (pool : List PSnode) (newPrec : Nat) :
    Nat → Option PSnodeHandle → PSnodeHandle →
      Except PSparseFail (Option PSnodeHandle × PSnodeHandle)
  | 0, _, _ => .error .outOfFuel
  | fuel + 1, rightMost, right => do
    let rightModeRight ← nodeAt pool right
    if rightModeRight.type = PSnodeType.OP ∧
        newPrec < _ps_precedence rightModeRight.op.type ∧
        rightModeRight.op.inParens = false then
      findRightMost pool newPrec fuel (some right) rightModeRight.op.right
    else pure (rightMost, right)

/-- One turn of the operator loop after `newOp` and `right` have been read
(`parser.cpp` 530-553): the new local `opNode` and the new state.  When the walk has gone
down at least one node, `rightMost` points into the pool, and the source writes
`rightMost->op.right` through that pointer after the `push_back` of `_ps_add_node`
(`parser.cpp` 552, 765): when that `push_back` moves the pool (`moves` at the size the pool
has before it), the pointer is invalid and the write is undefined. -/
def insertOp (moves : Nat → Bool) (opNode newOp : PSnode) (right : PSnodeHandle)
    (st : PSparseState) : Except PSparseFail (PSnode × PSparseState) :=
  if _ps_precedence newOp.op.type ≥ _ps_precedence opNode.op.type then
    let (h, st1) := _ps_add_node st opNode
    pure ({ newOp with op := { newOp.op with left := h, right := right } }, st1)
  else do
    let (rightMost, rmRight) ←
      findRightMost st.ast.nodePool (_ps_precedence newOp.op.type)
        (st.ast.nodePool.length + 1) none opNode.op.right
    let newOp := { newOp with op := { newOp.op with left := rmRight, right := right } }
    let (h, st1) := _ps_add_node st newOp
    match rightMost with
    | none => pure ({ opNode with op := { opNode.op with right := h } }, st1)
    | some i =>
      if moves st.ast.nodePool.length then .error .undefined
      else do
        let n ← nodeAt st1.ast.nodePool i
        let pool := st1.ast.nodePool.set i { n with op := { n.op with right := h } }
        pure (opNode, { st1 with ast := { st1.ast with nodePool := pool } })

/-- The operator loop (`parser.cpp` 523-554); `opNode` is the running top operator,
`fuel` bounds the operand parser and the next argument the number of turns. -/
def parseOps (stof : String → Option Nat) (uninit moves : Nat → Bool)
    (stmt : PSparseState → Except PSparseFail (PSnodeHandle × PSparseState))
    (fuel : Nat) (tokens : List PStoken) :
    Nat → PSnode → PSparseState → Except PSparseFail (PSnode × PSparseState)
  | 0, _, _ => .error .outOfFuel
  | n + 1, opNode, st =>
    if st.curTokenIdx < tokens.length then do
      let t ← tokenAt tokens st.curTokenIdx
      if isStatementEnd t then pure (opNode, st)
      else
        let (newOp, st1) ← _ps_get_op_node uninit tokens st
        let (right, st2) ← _ps_parse_non_op stof uninit stmt fuel tokens st1
        let (opNode1, st3) ← insertOp moves opNode newOp right st2
        parseOps stof uninit moves stmt fuel tokens n opNode1 st3
    else pure (opNode, st)

/-- The body of `_ps_parse_statement` (`parser.cpp` 331-557); `stmt` stands for its
recursive calls and `fuel` bounds its loops. -/
def parseStatementBody (stof : String → Option Nat) (uninit moves : Nat → Bool)
    (stmt : PSparseState → Except PSparseFail (PSnodeHandle × PSparseState))
    (fuel : Nat) (tokens : List PStoken) (st : PSparseState) :
    Except PSparseFail (PSnodeHandle × PSparseState) := do
  let t ← tokenAt tokens st.curTokenIdx
  if t.str = "if" ∨ t.str = "for" then
    -- CONTROL FLOW STATEMENT
    let isFor : Bool := t.str = "for"
    if st.numOpenParens > 0 then .error (.error .INVALID_TOKEN t)
    else
      let kwType := if isFor then PSkeywordType.FOR else PSkeywordType.IF
      let (condition, st1) ← stmt (st.advance 1)
      let st2 ← _ps_remove_newline tokens st1
      let (code, st3) ← parseBody stmt fuel tokens st2
      let controlNode : PSnode :=
        { type := PSnodeType.KEYWORD, lineNum := t.lineNum,
          keyword := { type := kwType, condition := condition, code := code } }
      if isFor then pure (_ps_add_node st3 controlNode)
      else
        let st4 ← _ps_remove_newline tokens st3
        let t4 ← tokenAt tokens st4.curTokenIdx
        if t4.str = "else" then
          let st5 ← _ps_remove_newline tokens (st4.advance 1)
          let (elseCode, st6) ← parseBody stmt fuel tokens st5
          pure (_ps_add_node st6
            { controlNode with
              keyword := { controlNode.keyword with hasElse := true, elseCode := elseCode } })
        else
          pure (_ps_add_node st4
            { controlNode with keyword := { controlNode.keyword with hasElse := false } })
  else if t.str = "func" then
    -- FUNCTION DEFINITION
    let st1 ← _ps_remove_newline tokens (st.advance 1)
    let nameTok ← tokenAt tokens st1.curTokenIdx
    _ps_force_id nameTok
    let st2 ← _ps_remove_newline tokens (st1.advance 1)
    let t2 ← tokenAt tokens st2.curTokenIdx
    let (paramNames, st3) ←
      (if t2.str = "(" then do
        let st21 ← _ps_continue_statement tokens (st2.advance 1).openParen
        let (names, st22) ← parseParamNames tokens fuel [] st21
        pure (names, (st22.advance 1).closeParen)
      else pure ([], st2) : Except PSparseFail (List String × PSparseState))
    let st4 ← _ps_remove_newline tokens st3
    let t4 ← tokenAt tokens st4.curTokenIdx
    if t4.str ≠ "\x7b" then .error (.error .EXPECTED_OPENING_CURLY t4)
    else
      let st5 ← _ps_remove_newline tokens (st4.advance 1)
      let (code, st6) ← parseBlock stmt tokens fuel [] st5
      pure (_ps_add_node (st6.advance 1)
        { type := PSnodeType.KEYWORD, lineNum := t.lineNum,
          keyword := { type := PSkeywordType.FUNC, name := nameTok.str,
                       paramNames := paramNames, code := code } })
  else if t.str = "ret" then
    -- RETURN STATEMENT
    let st1 := st.advance 1
    let t1 ← tokenAt tokens st1.curTokenIdx
    if !isNewlineOrClosed t1 then
      let (returnVal, st2) ← stmt st1
      pure (_ps_add_node st2
        { type := PSnodeType.KEYWORD, lineNum := t.lineNum,
          keyword := { type := PSkeywordType.RETURN, returnVal := returnVal } })
    else
      pure (_ps_add_node st1
        { type := PSnodeType.KEYWORD, lineNum := t.lineNum,
          keyword := { type := PSkeywordType.RETURN, returnVal := UINT32_MAX } })
  else if t.str = "break" ∨ t.str = "continue" then
    -- BREAK/CONTINUE STATEMENT
    let kwType := if t.str = "break" then PSkeywordType.BREAK else PSkeywordType.CONTINUE
    let st1 := st.advance 1
    let t1 ← tokenAt tokens st1.curTokenIdx
    if !isNewlineOrClosed t1 then .error (.error .INVALID_TOKEN t1)
    else
      pure (_ps_add_node st1
        { type := PSnodeType.KEYWORD, lineNum := t.lineNum, keyword := { type := kwType } })
  else
    -- REGULAR OPERATION
    let (left, st1) ← _ps_parse_non_op stof uninit stmt fuel tokens st
    let t1 ← tokenAt tokens st1.curTokenIdx
    if isStatementEnd t1 then pure (left, st1)
    else
      let (opNode, st2) ← _ps_get_op_node uninit tokens st1
      let (right, st3) ← _ps_parse_non_op stof uninit stmt fuel tokens st2
      let opNode :=
        { opNode with op := { opNode.op with inParens := false, left := left, right := right } }
      let (opNode, st4) ← parseOps stof uninit moves stmt fuel tokens fuel opNode st3
      pure (_ps_add_node st4 opNode)

/-- Function `_ps_parse_statement` (`parser.cpp` 331-557), with the depth of its recursion
bounded by the fuel. -/
def _ps_parse_statement (stof : String → Option Nat) (uninit : Nat → Bool)
    (moves : Nat → Bool) (tokens : List PStoken) :
    Nat → PSparseState → Except PSparseFail (PSnodeHandle × PSparseState)
  | 0, _ => .error .outOfFuel
  | fuel + 1, st =>
    parseStatementBody stof uninit moves (_ps_parse_statement stof uninit moves tokens fuel)
      fuel tokens st

/-- The loop of `ps_parse_tokens` (`parser.cpp` 81-85); `fuel` bounds every statement,
the next argument the number of turns. -/
def parseTop (stof : String → Option Nat) (uninit moves : Nat → Bool)
    (tokens : List PStoken) (fuel : Nat) :
    Nat → PSparseState → Except PSparseFail PSparseState
  | 0, _ => .error .outOfFuel
  | n + 1, st =>
    if st.curTokenIdx < tokens.length then do
      let (h, st1) ← _ps_parse_statement stof uninit moves tokens fuel st
      let st2 : PSparseState :=
        { st1 with ast := { st1.ast with parentNodes := st1.ast.parentNodes ++ [h] } }
      let st3 ← _ps_remove_newline tokens st2
      parseTop stof uninit moves tokens fuel n st3
    else pure st

/-- Function `ps_parse_tokens` (`parser.cpp` 72-115): the AST, or the way the run ended
without one (the source then returns `nullptr`). -/
def ps_parse_tokens (stof : String → Option Nat) (uninit moves : Nat → Bool)
    (fuel : Nat) (tokens : List PStoken) :
    Except PSparseFail PSast :=
  match parseTop stof uninit moves tokens fuel fuel {} with
  | .ok st => .ok st.ast
  | .error e => .error e

/-- An identifier token on line 1. -/
def tokId (s : String) : PStoken := { type := PStokenType.ID, str := s, lineNum := 1 }

/-- An operator token on line 1. -/
def tokOp (s : String) : PStoken := { type := PStokenType.OP, str := s, lineNum := 1 }

/-- A newline token on line 1. -/
def tokNl : PStoken := { type := PStokenType.NEWLINE, str := "", lineNum := 1 }

/-- A `std::stof` that always throws, for token streams without float literals. -/
def stofNone : String → Option Nat := fun _ => none

/-- Every read of a never-assigned `op.inParens` gives `false`. -/
def uninitFalse : Nat → Bool := fun _ => false

/-- Every read of a never-assigned `op.inParens` gives `true`. -/
def uninitTrue : Nat → Bool := fun _ => true

/-- A pool whose capacity doubles (0, 1, 2, 4, 8, ...), as in libstdc++ and libc++: the
`push_back` on a pool of `n` nodes moves it when `n` is zero or a power of two. -/
def movesDoubling (n : Nat) : Bool := decide (Nat.land n (n - 1) = 0)

/-! ## Values (`PSdata` in `propscript.hpp`) and `float` arithmetic -/

/-- A value of the C++ type `float` (IEEE binary32): a finite value, given by the rational
it denotes, an infinity or a NaN.  The sign of zero and NaN payloads are not kept. -/
inductive F32 where
  | finite (q : ℚ)
  | inf (negative : Bool)
  | nan
deriving DecidableEq, Repr

/-- The power `2 ^ e` for an integer exponent. -/
def pow2 (e : Int) : ℚ :=
  if 0 ≤ e then ((2 ^ e.toNat : Nat) : ℚ) else 1 / ((2 ^ (-e).toNat : Nat) : ℚ)

/-- The number of halvings that bring `n` below 2, at most `fuel` of them. -/
def log2Fuel : Nat → Nat → Nat
  | 0, _ => 0
  | fuel + 1, n => if n < 2 then 0 else log2Fuel fuel (n / 2) + 1

/-- The binary logarithm of a natural number, rounded down (0 for 0). -/
def natLog2 (n : Nat) : Nat := log2Fuel n n

/-- The binary exponent of a positive rational: the `e` with `2 ^ e ≤ a < 2 ^ (e + 1)`. -/
def ilog2 (a : ℚ) : Int :=
  let e0 : Int := (natLog2 a.num.toNat : Int) - (natLog2 a.den : Int)
  if pow2 e0 ≤ a then e0 else e0 - 1

/-- Rounding of a non-negative rational to the nearest integer, ties to even. -/
def roundHalfEven (x : ℚ) : Int :=
  let f : Int := x.floor
  let r : ℚ := x - f
  if r < 1 / 2 then f
  else if 1 / 2 < r then f + 1
  else if f % 2 = 0 then f else f + 1

/-- Rounding of a rational to binary32: 24 significant bits, ties to even, gradual
underflow below `2 ^ -126`, overflow to infinity. -/
def F32.round (q : ℚ) : F32 :=
  if q = 0 then .finite 0
  else
    let a : ℚ := |q|
    let e : Int := max (ilog2 a) (-126)
    let ulp : ℚ := pow2 (e - 23)
    let r : ℚ := (roundHalfEven (a / ulp) : ℚ) * ulp
    if pow2 128 ≤ r then .inf (decide (q < 0))
    else .finite (if q < 0 then -r else r)

/-- The conversion `(float)i` of an `int32_t`. -/
def F32.ofInt (i : Int) : F32 := F32.round (i : ℚ)

/-- The value of a binary32 bit pattern. -/
def F32.ofBits (b : Nat) : F32 :=
  let negative : Bool := decide (2147483648 ≤ b % 4294967296)
  let ex : Nat := b / 8388608 % 256
  let man : Nat := b % 8388608
  if ex = 255 then (if man = 0 then .inf negative else .nan)
  else
    let m : ℚ := if ex = 0 then pow2 (-149) * (man : ℚ)
                 else pow2 ((ex : Int) - 150) * ((8388608 + man : Nat) : ℚ)
    .finite (if negative then -m else m)

/-- Negation of a float. -/
def F32.neg : F32 → F32
  | .finite q => .finite (-q)
  | .inf s => .inf (!s)
  | .nan => .nan

/-- The sum of two floats. -/
def F32.add : F32 → F32 → F32
  | .finite a, .finite b => F32.round (a + b)
  | .finite _, .inf s => .inf s
  | .inf s, .finite _ => .inf s
  | .inf s, .inf t => if s = t then .inf s else .nan
  | _, _ => .nan

/-- The difference of two floats. -/
def F32.sub (a b : F32) : F32 := F32.add a (F32.neg b)

/-- The product of two floats. -/
def F32.mul : F32 → F32 → F32
  | .finite a, .finite b => F32.round (a * b)
  | .finite a, .inf s => if a = 0 then .nan else .inf (decide (a < 0) != s)
  | .inf s, .finite b => if b = 0 then .nan else .inf (s != decide (b < 0))
  | .inf s, .inf t => .inf (s != t)
  | _, _ => .nan

/-- The quotient of two floats (a finite non-zero value over zero is an infinity of the
sign of the dividend, the sign of the zero being not kept). -/
def F32.div : F32 → F32 → F32
  | .finite a, .finite b =>
    if b = 0 then (if a = 0 then .nan else .inf (decide (a < 0))) else F32.round (a / b)
  | .finite _, .inf _ => .finite 0
  | .inf s, .finite b => .inf (s != decide (b < 0))
  | _, _ => .nan

/-- The comparison `a < b` of two floats. -/
def F32.lt : F32 → F32 → Bool
  | .finite a, .finite b => decide (a < b)
  | .finite _, .inf s => !s
  | .inf s, .finite _ => s
  | .inf s, .inf t => s && !t
  | _, _ => false

/-- The comparison `a == b` of two floats. -/
def F32.eq : F32 → F32 → Bool
  | .finite a, .finite b => decide (a = b)
  | .inf s, .inf t => s == t
  | _, _ => false

/-- The comparison `a <= b` of two floats. -/
def F32.le (a b : F32) : Bool := F32.lt a b || F32.eq a b

/-- The conversion of a float to `bool`: every value but zero is true. -/
def F32.toBool (a : F32) : Bool := !F32.eq a (.finite 0)

/-- The cast `(int32_t)ceilf(x)`; `none` when the result does not fit (undefined). -/
def F32.ceilToInt : F32 → Option Int
  | .finite q =>
    if -2147483648 ≤ q.ceil ∧ q.ceil ≤ 2147483647 then some q.ceil else none
  | _ => none

/-- The cast `(int32_t)floorf(x)`; `none` when the result does not fit (undefined). -/
def F32.floorToInt : F32 → Option Int
  | .finite q =>
    if -2147483648 ≤ q.floor ∧ q.floor ≤ 2147483647 then some q.floor else none
  | _ => none

/-- The cast `(int)x`, truncating toward zero; `none` when the result does not fit
(undefined). -/
def F32.truncToInt : F32 → Option Int
  | .finite q =>
    let t : Int := if 0 ≤ q then q.floor else q.ceil
    if -2147483648 ≤ t ∧ t ≤ 2147483647 then some t else none
  | _ => none

/-- The tags of `PSdata::Type`. -/
inductive PSdataType where
  | VOID
  | INT
  | FLOAT
  | VEC2
  | VEC3
  | VEC4
  | QUATERNION
deriving DecidableEq, Repr

/-- A runtime value (`PSdata`): the tag and the member of the union it selects. -/
inductive PSdata where
  | VOID
  | INT (intVal : Int)
  | FLOAT (floatVal : F32)
  | VEC2 (x y : F32)
  | VEC3 (x y z : F32)
  | VEC4 (x y z w : F32)
  | QUATERNION (x y z w : F32)
deriving DecidableEq, Repr

/-- The member `type` of a value. -/
def PSdata.type : PSdata → PSdataType
  | .VOID => .VOID
  | .INT _ => .INT
  | .FLOAT _ => .FLOAT
  | .VEC2 _ _ => .VEC2
  | .VEC3 _ _ _ => .VEC3
  | .VEC4 _ _ _ _ => .VEC4
  | .QUATERNION _ _ _ _ => .QUATERNION

/-! ## Maps (`std::unordered_map<std::string, T>`) -/

/-- A map from names to values, as an association list with one entry per name. -/
abbrev PSmap (α : Type) := List (String × α)

/-- The lookup `m.find(name)`. -/
def PSmap.find {α : Type} (m : PSmap α) (name : String) : Option α := List.lookup name m

/-- The test `m.count(name) > 0`. -/
def PSmap.has {α : Type} (m : PSmap α) (name : String) : Bool := (m.find name).isSome

/-- The assignment `m[name] = v`. -/
def PSmap.set {α : Type} : PSmap α → String → α → PSmap α
  | [], name, v => [(name, v)]
  | (k, w) :: rest, name, v =>
    if k = name then (k, v) :: rest else (k, w) :: PSmap.set rest name v

/-- The call `m.erase(name)`. -/
def PSmap.erase {α : Type} (m : PSmap α) (name : String) : PSmap α :=
  m.filter (fun kv => kv.1 ≠ name)

/-- Erase every name of a list, in order. -/
def PSmap.eraseAll {α : Type} (m : PSmap α) (names : List String) : PSmap α :=
  names.foldl PSmap.erase m

/-! ## Interpreter state (`interpreter.cpp` 80-120) -/

/-- The runtime errors (`PSruntimeError`). -/
inductive PSruntimeError where
  | INVALID_ASSIGNMENT
  | INVALID_OP
  | UNSUPPORTED_NODE_TYPE
  | UNDEFINED_VARIABLE
  | UNDEFINED_FUNCTION
  | INVALID_PARAMS
  | INVALID_INDEX
  | INVALID_CONDITION
  | INVALID_BREAK_CONTINUE
  | FUNCTION_REDEFINITION
  | ARGUMENT_NAME_REDEFINITION
deriving DecidableEq, Repr

/-- What a native function can reach outside the interpreter: the lines written to the
standard output (one list of values per completed or interrupted `print`) and the number
of calls made to the C function `rand`. -/
structure PSworld where
  output : List (List PSdata) := []
  randCalls : Nat := 0
deriving DecidableEq, Repr

/-- Result of a native function: a value and the new world, the exception of `_ps_error`
(error code and node), or undefined behaviour. -/
inductive PSlibResult where
  | ok (val : PSdata) (world : PSworld)
  | throw (e : PSruntimeError) (errorNode : PSnode) (world : PSworld)
  | undefined

/-- A native function (`PSfunctionSignature::func`): parameters and call node. -/
abbrev PSlibFunction := List PSdata → PSnode → PSworld → PSlibResult

/-- The registries filled by the host: `g_psLibFunctions` and `g_psConstants`. -/
structure PSenv where
  g_psLibFunctions : PSmap PSlibFunction := []
  g_psConstants : PSmap PSdata := []

/-- The globals of the interpreter that change during a run: `g_psFunctions`,
`g_psVariables`, `g_psInLoop`, the three control flags, `g_psReturnVal`, and the world
the native functions act on. -/
structure PSstate where
  g_psFunctions : PSmap PSnode := []
  g_psVariables : PSmap PSdata := []
  g_psInLoop : Bool := false
  g_psReturnFlag : Bool := false
  g_psBreakFlag : Bool := false
  g_psContinueFlag : Bool := false
  g_psReturnVal : PSdata := .VOID
  world : PSworld := {}
deriving DecidableEq, Repr

/-- Ways in which an evaluation ends without a value: `throw` is the exception of
`_ps_error` with the globals as they are when it is thrown, `undefined` is undefined
behaviour, `outOfFuel` the bound of the model. -/
inductive PSfail where
  | throw (e : PSruntimeError) (errorNode : PSnode) (st : PSstate)
  | undefined
  | outOfFuel
deriving DecidableEq, Repr

/-- What `_ps_evaluate_statement` leaves behind: the value returned, the two vectors passed
by reference, and the globals. -/
structure PSevalResult where
  val : PSdata
  addedFuncs : List String
  addedVars : List String
  st : PSstate
deriving DecidableEq, Repr

/-- The type of `_ps_evaluate_statement` once the registries and the AST are fixed: node,
`addedFuncs`, `addedVars` and globals in, result out. -/
abbrev PSeval := PSnode → List String → List String → PSstate → Except PSfail PSevalResult

/-- The read `ast->nodePool[h]` during execution. -/
def poolAt (ast : PSast) (h : PSnodeHandle) : Except PSfail PSnode :=
  match ast.nodePool[h]? with
  | some n => .ok n
  | none => .error .undefined

/-! ## Operators (`interpreter.cpp` 525-947) -/

/-- Function `_ps_get_scalar` (`interpreter.cpp` 525-535). -/
def _ps_get_scalar (data : PSdata) (potentialError : PSruntimeError) (node : PSnode)
    (st : PSstate) : Except PSfail F32 :=
  match data with
  | .INT i => .ok (F32.ofInt i)
  | .FLOAT f => .ok f
  | _ => .error (.throw potentialError node st)

/-- Whether a value is an `INT` or a `FLOAT`. -/
def PSdata.isScalar : PSdata → Bool
  | .INT _ => true
  | .FLOAT _ => true
  | _ => false

/-- The scalar of an `INT` or `FLOAT` value as a float (0 for the other types, which the
callers exclude). -/
def PSdata.scalar : PSdata → F32
  | .INT i => F32.ofInt i
  | .FLOAT f => f
  | _ => .finite 0

/-- Modelled from the spec: `quickmath.hpp` is not among the sources; the product of two
quaternions is "the linear-algebra quaternion product supplied by the host", taken here as
the Hamilton product on the components `x y z w`. -/
def qmQuaternionMul (x y z w x2 y2 z2 w2 : F32) : PSdata :=
  .QUATERNION
    (F32.sub (F32.add (F32.add (F32.mul w x2) (F32.mul x w2)) (F32.mul y z2)) (F32.mul z y2))
    (F32.add (F32.add (F32.sub (F32.mul w y2) (F32.mul x z2)) (F32.mul y w2)) (F32.mul z x2))
    (F32.add (F32.sub (F32.add (F32.mul w z2) (F32.mul x y2)) (F32.mul y x2)) (F32.mul z w2))
    (F32.sub (F32.sub (F32.sub (F32.mul w w2) (F32.mul x x2)) (F32.mul y y2)) (F32.mul z z2))

/-- Function `_ps_mult` (`interpreter.cpp` 546-630).  The vector operators of the host
library are element-wise. -/
def _ps_mult (left right : PSdata) (node : PSnode)
    (st : PSstate) : Except PSfail PSdata :=
  match left, right with
  | .INT a, .INT b => .ok (.INT (i32 (a * b)))
  | .FLOAT a, .FLOAT b => .ok (.FLOAT (F32.mul a b))
  | .INT a, .FLOAT b => .ok (.FLOAT (F32.mul (F32.ofInt a) b))
  | .FLOAT a, .INT b => .ok (.FLOAT (F32.mul a (F32.ofInt b)))
  | .VEC2 x y, .VEC2 x2 y2 => .ok (.VEC2 (F32.mul x x2) (F32.mul y y2))
  | .VEC3 x y z, .VEC3 x2 y2 z2 => .ok (.VEC3 (F32.mul x x2) (F32.mul y y2) (F32.mul z z2))
  | .VEC4 x y z w, .VEC4 x2 y2 z2 w2 =>
    .ok (.VEC4 (F32.mul x x2) (F32.mul y y2) (F32.mul z z2) (F32.mul w w2))
  | .QUATERNION x y z w, .QUATERNION x2 y2 z2 w2 =>
    .ok (qmQuaternionMul x y z w x2 y2 z2 w2)
  | .VEC2 x y, s =>
    if s.isScalar then .ok (.VEC2 (F32.mul x s.scalar) (F32.mul y s.scalar))
    else .error (.throw .INVALID_OP node st)
  | s, .VEC2 x y =>
    if s.isScalar then .ok (.VEC2 (F32.mul x s.scalar) (F32.mul y s.scalar))
    else .error (.throw .INVALID_OP node st)
  | .VEC3 x y z, s =>
    if s.isScalar then
      .ok (.VEC3 (F32.mul x s.scalar) (F32.mul y s.scalar) (F32.mul z s.scalar))
    else .error (.throw .INVALID_OP node st)
  | s, .VEC3 x y z =>
    if s.isScalar then
      .ok (.VEC3 (F32.mul x s.scalar) (F32.mul y s.scalar) (F32.mul z s.scalar))
    else .error (.throw .INVALID_OP node st)
  | .VEC4 x y z w, s =>
    if s.isScalar then
      .ok (.VEC4 (F32.mul x s.scalar) (F32.mul y s.scalar) (F32.mul z s.scalar)
        (F32.mul w s.scalar))
    else .error (.throw .INVALID_OP node st)
  | s, .VEC4 x y z w =>
    if s.isScalar then
      .ok (.VEC4 (F32.mul x s.scalar) (F32.mul y s.scalar) (F32.mul z s.scalar)
        (F32.mul w s.scalar))
    else .error (.throw .INVALID_OP node st)
  | .QUATERNION x y z w, s =>
    if s.isScalar then
      .ok (.QUATERNION (F32.mul x s.scalar) (F32.mul y s.scalar) (F32.mul z s.scalar)
        (F32.mul w s.scalar))
    else .error (.throw .INVALID_OP node st)
  | s, .QUATERNION x y z w =>
    if s.isScalar then
      .ok (.QUATERNION (F32.mul x s.scalar) (F32.mul y s.scalar) (F32.mul z s.scalar)
        (F32.mul w s.scalar))
    else .error (.throw .INVALID_OP node st)
  | _, _ => .error (.throw .INVALID_OP node st)

/-- The quotient `a / b` of two `int32_t`: truncated; undefined for a zero divisor and for
the overflow of `INT_MIN / -1`. -/
def intDiv (a b : Int) : Option Int :=
  if b = 0 then none
  else if a = -2147483648 ∧ b = -1 then none
  else some (Int.tdiv a b)

/-- The remainder `a % b` of two `int32_t`: that of the truncated quotient; undefined for
a zero divisor and for `INT_MIN % -1`. -/
def intMod (a b : Int) : Option Int :=
  if b = 0 then none
  else if a = -2147483648 ∧ b = -1 then none
  else some (Int.tmod a b)

/-- Function `_ps_div` (`interpreter.cpp` 632-711).  There is no case for two
quaternions; a scalar on the left of a quaternion divides the quaternion by the scalar, as
in the source. -/
def _ps_div (left right : PSdata) (node : PSnode) (st : PSstate) : Except PSfail PSdata :=
  match left, right with
  | .INT a, .INT b =>
    match intDiv a b with
    | some q => .ok (.INT q)
    | none => .error .undefined
  | .FLOAT a, .FLOAT b => .ok (.FLOAT (F32.div a b))
  | .INT a, .FLOAT b => .ok (.FLOAT (F32.div (F32.ofInt a) b))
  | .FLOAT a, .INT b => .ok (.FLOAT (F32.div a (F32.ofInt b)))
  | .VEC2 x y, .VEC2 x2 y2 => .ok (.VEC2 (F32.div x x2) (F32.div y y2))
  | .VEC3 x y z, .VEC3 x2 y2 z2 => .ok (.VEC3 (F32.div x x2) (F32.div y y2) (F32.div z z2))
  | .VEC4 x y z w, .VEC4 x2 y2 z2 w2 =>
    .ok (.VEC4 (F32.div x x2) (F32.div y y2) (F32.div z z2) (F32.div w w2))
  | .VEC2 x y, s =>
    if s.isScalar then .ok (.VEC2 (F32.div x s.scalar) (F32.div y s.scalar))
    else .error (.throw .INVALID_OP node st)
  | s, .VEC2 x y =>
    if s.isScalar then .ok (.VEC2 (F32.div s.scalar x) (F32.div s.scalar y))
    else .error (.throw .INVALID_OP node st)
  | .VEC3 x y z, s =>
    if s.isScalar then
      .ok (.VEC3 (F32.div x s.scalar) (F32.div y s.scalar) (F32.div z s.scalar))
    else .error (.throw .INVALID_OP node st)
  | s, .VEC3 x y z =>
    if s.isScalar then
      .ok (.VEC3 (F32.div s.scalar x) (F32.div s.scalar y) (F32.div s.scalar z))
    else .error (.throw .INVALID_OP node st)
  | .VEC4 x y z w, s =>
    if s.isScalar then
      .ok (.VEC4 (F32.div x s.scalar) (F32.div y s.scalar) (F32.div z s.scalar)
        (F32.div w s.scalar))
    else .error (.throw .INVALID_OP node st)
  | s, .VEC4 x y z w =>
    if s.isScalar then
      .ok (.VEC4 (F32.div s.scalar x) (F32.div s.scalar y) (F32.div s.scalar z)
        (F32.div s.scalar w))
    else .error (.throw .INVALID_OP node st)
  | .QUATERNION x y z w, s =>
    if s.isScalar then
      .ok (.QUATERNION (F32.div x s.scalar) (F32.div y s.scalar) (F32.div z s.scalar)
        (F32.div w s.scalar))
    else .error (.throw .INVALID_OP node st)
  | s, .QUATERNION x y z w =>
    if s.isScalar then
      .ok (.QUATERNION (F32.div x s.scalar) (F32.div y s.scalar) (F32.div z s.scalar)
        (F32.div w s.scalar))
    else .error (.throw .INVALID_OP node st)
  | _, _ => .error (.throw .INVALID_OP node st)

/-- Function `_ps_mod` (`interpreter.cpp` 713-726). -/
def _ps_mod (left right : PSdata) (node : PSnode) (st : PSstate) : Except PSfail PSdata :=
  match left, right with
  | .INT a, .INT b =>
    match intMod a b with
    | some r => .ok (.INT r)
    | none => .error .undefined
  | _, _ => .error (.throw .INVALID_OP node st)

/-- Function `_ps_add` (`interpreter.cpp` 728-772). -/
def _ps_add (left right : PSdata) (node : PSnode) (st : PSstate) : Except PSfail PSdata :=
  match left, right with
  | .INT a, .INT b => .ok (.INT (i32 (a + b)))
  | .FLOAT a, .FLOAT b => .ok (.FLOAT (F32.add a b))
  | .INT a, .FLOAT b => .ok (.FLOAT (F32.add (F32.ofInt a) b))
  | .FLOAT a, .INT b => .ok (.FLOAT (F32.add a (F32.ofInt b)))
  | .VEC2 x y, .VEC2 x2 y2 => .ok (.VEC2 (F32.add x x2) (F32.add y y2))
  | .VEC3 x y z, .VEC3 x2 y2 z2 => .ok (.VEC3 (F32.add x x2) (F32.add y y2) (F32.add z z2))
  | .VEC4 x y z w, .VEC4 x2 y2 z2 w2 =>
    .ok (.VEC4 (F32.add x x2) (F32.add y y2) (F32.add z z2) (F32.add w w2))
  | .QUATERNION x y z w, .QUATERNION x2 y2 z2 w2 =>
    .ok (.QUATERNION (F32.add x x2) (F32.add y y2) (F32.add z z2) (F32.add w w2))
  | _, _ => .error (.throw .INVALID_OP node st)

/-- Function `_ps_sub` (`interpreter.cpp` 774-818). -/
def _ps_sub (left right : PSdata) (node : PSnode) (st : PSstate) : Except PSfail PSdata :=
  match left, right with
  | .INT a, .INT b => .ok (.INT (i32 (a - b)))
  | .FLOAT a, .FLOAT b => .ok (.FLOAT (F32.sub a b))
  | .INT a, .FLOAT b => .ok (.FLOAT (F32.sub (F32.ofInt a) b))
  | .FLOAT a, .INT b => .ok (.FLOAT (F32.sub a (F32.ofInt b)))
  | .VEC2 x y, .VEC2 x2 y2 => .ok (.VEC2 (F32.sub x x2) (F32.sub y y2))
  | .VEC3 x y z, .VEC3 x2 y2 z2 => .ok (.VEC3 (F32.sub x x2) (F32.sub y y2) (F32.sub z z2))
  | .VEC4 x y z w, .VEC4 x2 y2 z2 w2 =>
    .ok (.VEC4 (F32.sub x x2) (F32.sub y y2) (F32.sub z z2) (F32.sub w w2))
  | .QUATERNION x y z w, .QUATERNION x2 y2 z2 w2 =>
    .ok (.QUATERNION (F32.sub x x2) (F32.sub y y2) (F32.sub z z2) (F32.sub w w2))
  | _, _ => .error (.throw .INVALID_OP node st)

/-- The value `INT 1` or `INT 0` of a C++ `bool`. -/
def boolData (b : Bool) : PSdata := .INT (if b then 1 else 0)

/-- Function `_ps_lessthan` (`interpreter.cpp` 870-878). -/
def _ps_lessthan (left right : PSdata) (node : PSnode) (st : PSstate) :
    Except PSfail PSdata := do
  let l ← _ps_get_scalar left .INVALID_OP node st
  let r ← _ps_get_scalar right .INVALID_OP node st
  pure (boolData (F32.lt l r))

/-- Function `_ps_greaterthan` (`interpreter.cpp` 880-888). -/
def _ps_greaterthan (left right : PSdata) (node : PSnode) (st : PSstate) :
    Except PSfail PSdata := do
  let l ← _ps_get_scalar left .INVALID_OP node st
  let r ← _ps_get_scalar right .INVALID_OP node st
  pure (boolData (F32.lt r l))

/-- Function `_ps_lessthanequal` (`interpreter.cpp` 890-898). -/
def _ps_lessthanequal (left right : PSdata) (node : PSnode) (st : PSstate) :
    Except PSfail PSdata := do
  let l ← _ps_get_scalar left .INVALID_OP node st
  let r ← _ps_get_scalar right .INVALID_OP node st
  pure (boolData (F32.le l r))

/-- Function `_ps_greaterthanequal` (`interpreter.cpp` 900-908). -/
def _ps_greaterthanequal (left right : PSdata) (node : PSnode) (st : PSstate) :
    Except PSfail PSdata := do
  let l ← _ps_get_scalar left .INVALID_OP node st
  let r ← _ps_get_scalar right .INVALID_OP node st
  pure (boolData (F32.le r l))

/-- Function `_ps_equality` (`interpreter.cpp` 910-927). -/
def _ps_equality (left right : PSdata) (node : PSnode) (st : PSstate) :
    Except PSfail PSdata :=
  match left, right with
  | .VEC2 x y, .VEC2 x2 y2 => .ok (boolData (F32.eq x x2 && F32.eq y y2))
  | .VEC3 x y z, .VEC3 x2 y2 z2 =>
    .ok (boolData (F32.eq x x2 && F32.eq y y2 && F32.eq z z2))
  | .VEC4 x y z w, .VEC4 x2 y2 z2 w2 =>
    .ok (boolData (F32.eq x x2 && F32.eq y y2 && F32.eq z z2 && F32.eq w w2))
  | l, r =>
    if l.isScalar ∧ r.isScalar then .ok (boolData (F32.eq l.scalar r.scalar))
    else .error (.throw .INVALID_OP node st)

/-- Function `_ps_and` (`interpreter.cpp` 929-937): the C++ `&&` reads the right scalar
only when the left one is not zero. -/
def _ps_and (left right : PSdata) (node : PSnode) (st : PSstate) : Except PSfail PSdata := do
  let l ← _ps_get_scalar left .INVALID_OP node st
  if l.toBool then
    let r ← _ps_get_scalar right .INVALID_OP node st
    pure (boolData r.toBool)
  else pure (boolData false)

/-- Function `_ps_or` (`interpreter.cpp` 939-947): the C++ `||` reads the right scalar
only when the left one is zero. -/
def _ps_or (left right : PSdata) (node : PSnode) (st : PSstate) : Except PSfail PSdata := do
  let l ← _ps_get_scalar left .INVALID_OP node st
  if l.toBool then pure (boolData true)
  else
    let r ← _ps_get_scalar right .INVALID_OP node st
    pure (boolData r.toBool)

/-! ## Default library (`interpreter.cpp` 951-1330) -/

/-- The functions of the C library and of the host's linear-algebra library that the
default natives call: `rand` (its successive results), `RAND_MAX`, the float functions of
`math.h`, and the quaternion constructors of `quickmath.hpp`. -/
structure PShost where
  rand : Nat → Int
  RAND_MAX : Int
  sqrtf : F32 → F32
  powf : F32 → F32 → F32
  sinf : F32 → F32
  cosf : F32 → F32
  tanf : F32 → F32
  asinf : F32 → F32
  acosf : F32 → F32
  atanf : F32 → F32
  rad_to_deg : F32 → F32
  quaternion_identity : PSdata
  quaternion_from_euler : F32 → F32 → F32 → PSdata
  quaternion_from_axis_angle : F32 → F32 → F32 → F32 → PSdata

/-- The scalar of a parameter of a native, or the exception `INVALID_PARAMS`
(`_ps_get_scalar` with that error). -/
def paramScalar (d : PSdata) : Option F32 :=
  if d.isScalar then some d.scalar else none

/-- Function `_ps_range` (`interpreter.cpp` 951-960). -/
def _ps_range : PSlibFunction := fun params node world =>
  match params with
  | [.INT a, .INT b] => .ok (.VEC2 (F32.ofInt a) (F32.ofInt b)) world
  | _ => .throw .INVALID_PARAMS node world

/-- The values `_ps_print` writes before it meets a value it cannot print
(`interpreter.cpp` 964-989): the printed prefix, and whether all were printed. -/
def printable : List PSdata → List PSdata × Bool
  | [] => ([], true)
  | d :: ds =>
    match d with
    | .VOID => ([], false)
    | .QUATERNION _ _ _ _ => ([], false)
    | _ => let (l, ok) := printable ds
           (d :: l, ok)

/-- Function `_ps_print` (`interpreter.cpp` 962-994). -/
def _ps_print : PSlibFunction := fun params node world =>
  match printable params with
  | (l, true) => .ok .VOID { world with output := world.output ++ [l] }
  | (l, false) => .throw .INVALID_PARAMS node { world with output := world.output ++ [l] }

/-- Function `_ps_scalar_rand` (`interpreter.cpp` 996-999) on the `n`-th result of `rand`. -/
def _ps_scalar_rand (host : PShost) (n : Nat) (min max : F32) : F32 :=
  F32.add (F32.mul (F32.div (F32.ofInt (host.rand n)) (F32.ofInt host.RAND_MAX))
    (F32.sub max min)) min

/-- Function `_ps_rand` (`interpreter.cpp` 1001-1056). -/
def _ps_rand (host : PShost) : PSlibFunction := fun params node world =>
  let n := world.randCalls
  match params with
  | [.VEC2 x y, .VEC2 x2 y2] =>
    .ok (.VEC2 (_ps_scalar_rand host n x x2) (_ps_scalar_rand host (n + 1) y y2))
      { world with randCalls := n + 2 }
  | [.VEC3 x y z, .VEC3 x2 y2 z2] =>
    .ok (.VEC3 (_ps_scalar_rand host n x x2) (_ps_scalar_rand host (n + 1) y y2)
        (_ps_scalar_rand host (n + 2) z z2))
      { world with randCalls := n + 3 }
  | [.VEC4 x y z w, .VEC4 x2 y2 z2 w2] =>
    .ok (.VEC4 (_ps_scalar_rand host n x x2) (_ps_scalar_rand host (n + 1) y y2)
        (_ps_scalar_rand host (n + 2) z z2) (_ps_scalar_rand host (n + 3) w w2))
      { world with randCalls := n + 4 }
  | [.INT min, .INT max] =>
    match intMod (host.rand n) (i32 (max - min)) with
    | some r => .ok (.INT (i32 (r + min))) { world with randCalls := n + 1 }
    | none => .undefined
  | [a, b] =>
    match paramScalar a, paramScalar b with
    | some min, some max =>
      .ok (.FLOAT (_ps_scalar_rand host n min max)) { world with randCalls := n + 1 }
    | _, _ => .throw .INVALID_PARAMS node world
  | _ => .throw .INVALID_PARAMS node world

/-- Function `_ps_int` (`interpreter.cpp` 1058-1068). -/
def _ps_int : PSlibFunction := fun params node world =>
  match params with
  | [a] =>
    match paramScalar a with
    | some f =>
      match f.truncToInt with
      | some i => .ok (.INT i) world
      | none => .undefined
    | none => .throw .INVALID_PARAMS node world
  | _ => .throw .INVALID_PARAMS node world

/-- Function `_ps_vec2` (`interpreter.cpp` 1070-1100). -/
def _ps_vec2 : PSlibFunction := fun params node world =>
  match params with
  | [] => .ok (.VEC2 (.finite 0) (.finite 0)) world
  | [a] =>
    match paramScalar a with
    | some v => .ok (.VEC2 v v) world
    | none => .throw .INVALID_PARAMS node world
  | [a, b] =>
    match paramScalar a, paramScalar b with
    | some x, some y => .ok (.VEC2 x y) world
    | _, _ => .throw .INVALID_PARAMS node world
  | _ => .throw .INVALID_PARAMS node world

/-- Function `_ps_vec3` (`interpreter.cpp` 1102-1143). -/
def _ps_vec3 : PSlibFunction := fun params node world =>
  match params with
  | [] => .ok (.VEC3 (.finite 0) (.finite 0) (.finite 0)) world
  | [a] =>
    match paramScalar a with
    | some v => .ok (.VEC3 v v v) world
    | none => .throw .INVALID_PARAMS node world
  | [.VEC2 x y, b] =>
    match paramScalar b with
    | some v => .ok (.VEC3 x y v) world
    | none => .throw .INVALID_PARAMS node world
  | [_, _] => .throw .INVALID_PARAMS node world
  | [a, b, c] =>
    match paramScalar a, paramScalar b, paramScalar c with
    | some x, some y, some z => .ok (.VEC3 x y z) world
    | _, _, _ => .throw .INVALID_PARAMS node world
  | _ => .throw .INVALID_PARAMS node world

/-- Function `_ps_vec4` (`interpreter.cpp` 1145-1187).  With three parameters the source
reads `params[3]`, outside the vector, after the three scalars; with four parameters it
takes the `default` branch. -/
def _ps_vec4 : PSlibFunction := fun params node world =>
  match params with
  | [] => .ok (.VEC4 (.finite 0) (.finite 0) (.finite 0) (.finite 0)) world
  | [a] =>
    match paramScalar a with
    | some v => .ok (.VEC4 v v v v) world
    | none => .throw .INVALID_PARAMS node world
  | [.VEC3 x y z, b] =>
    match paramScalar b with
    | some v => .ok (.VEC4 x y z v) world
    | none => .throw .INVALID_PARAMS node world
  | [_, _] => .throw .INVALID_PARAMS node world
  | [a, b, c] =>
    match paramScalar a, paramScalar b, paramScalar c with
    | some _, some _, some _ => .undefined
    | _, _, _ => .throw .INVALID_PARAMS node world
  | _ => .throw .INVALID_PARAMS node world

/-- Function `_ps_quaternion` (`interpreter.cpp` 1189-1220). -/
def _ps_quaternion (host : PShost) : PSlibFunction := fun params node world =>
  match params with
  | [] => .ok host.quaternion_identity world
  | [.VEC3 x y z] =>
    .ok (host.quaternion_from_euler (host.rad_to_deg x) (host.rad_to_deg y)
      (host.rad_to_deg z)) world
  | [.VEC3 x y z, b] =>
    match paramScalar b with
    | some angle => .ok (host.quaternion_from_axis_angle x y z (host.rad_to_deg angle)) world
    | none => .throw .INVALID_PARAMS node world
  | _ => .throw .INVALID_PARAMS node world

/-- The natives of one scalar parameter (`_ps_sqrt`, `_ps_sin`, ... in `interpreter.cpp`
1222-1330): the float function `f` of `math.h` applied to the scalar. -/
def mathNative (f : F32 → F32) : PSlibFunction := fun params node world =>
  match params with
  | [a] =>
    match paramScalar a with
    | some x => .ok (.FLOAT (f x)) world
    | none => .throw .INVALID_PARAMS node world
  | _ => .throw .INVALID_PARAMS node world

/-- Function `_ps_pow` (`interpreter.cpp` 1236-1249). -/
def _ps_pow (host : PShost) : PSlibFunction := fun params node world =>
  match params with
  | [a, b] =>
    match paramScalar a, paramScalar b with
    | some base, some exp => .ok (.FLOAT (host.powf base exp)) world
    | _, _ => .throw .INVALID_PARAMS node world
  | _ => .throw .INVALID_PARAMS node world

/-- The table `PS_DEFAULT_LIB_FUNCTIONS` (`interpreter.cpp` 83-100). -/
def PS_DEFAULT_LIB_FUNCTIONS (host : PShost) : List (String × PSlibFunction) :=
  [("range", _ps_range), ("print", _ps_print), ("rand", _ps_rand host), ("int", _ps_int),
   ("vec2", _ps_vec2), ("vec3", _ps_vec3), ("vec4", _ps_vec4),
   ("quaternion", _ps_quaternion host), ("sqrt", mathNative host.sqrtf),
   ("pow", _ps_pow host), ("sin", mathNative host.sinf), ("cos", mathNative host.cosf),
   ("tan", mathNative host.tanf), ("asin", mathNative host.asinf),
   ("acos", mathNative host.acosf), ("atan", mathNative host.atanf)]

/-- The table `PS_DEFAULT_CONSTANTS` (`interpreter.cpp` 102-106): the floats nearest to
pi and e, and twice the former. -/
def PS_DEFAULT_CONSTANTS : List (String × PSdata) :=
  [("M_PI", .FLOAT (F32.ofBits 1078530011)),
   ("M_TAU", .FLOAT (F32.mul (F32.ofInt 2) (F32.ofBits 1078530011))),
   ("M_E", .FLOAT (F32.ofBits 1076754516))]

/-- Function `ps_set_functions` (`interpreter.cpp` 124-133). -/
def ps_set_functions (host : PShost) (functions : List (String × PSlibFunction))
    (env : PSenv) : PSenv :=
  { env with g_psLibFunctions :=
      (functions.foldl (fun m f => PSmap.set m f.1 f.2)
        ((PS_DEFAULT_LIB_FUNCTIONS host).foldl (fun m f => PSmap.set m f.1 f.2) [])) }

/-- Function `ps_set_constants` (`interpreter.cpp` 135-144). -/
def ps_set_constants (constants : List (String × PSdata)) (env : PSenv) : PSenv :=
  { env with g_psConstants :=
      (constants.foldl (fun m c => PSmap.set m c.1 c.2)
        (PS_DEFAULT_CONSTANTS.foldl (fun m c => PSmap.set m c.1 c.2) [])) }

/-! ## Evaluation (`interpreter.cpp` 156-521 and 820-868) -/

/-- The float components of a vector value, in memory order; none for the other types. -/
def PSdata.components : PSdata → List F32
  | .VEC2 x y => [x, y]
  | .VEC3 x y z => [x, y, z]
  | .VEC4 x y z w => [x, y, z, w]
  | _ => []

/-- The vector value of the same type with the component `i` replaced. -/
def PSdata.setComponent : PSdata → Nat → F32 → PSdata
  | .VEC2 x y, i, f => if i = 0 then .VEC2 f y else .VEC2 x f
  | .VEC3 x y z, i, f => if i = 0 then .VEC3 f y z else if i = 1 then .VEC3 x f z else .VEC3 x y f
  | .VEC4 x y z w, i, f =>
    if i = 0 then .VEC4 f y z w else if i = 1 then .VEC4 x f z w
    else if i = 2 then .VEC4 x y f w else .VEC4 x y z f
  | d, _, _ => d

/-- The test of the index chains (`interpreter.cpp` 338-345 and 844-851): a vector type
and an index not above its last component.  A negative index passes the test. -/
def PSdata.indexAccepted (var : PSdata) (index : Int) : Bool :=
  var.components ≠ [] && decide (index ≤ (var.components.length : Int) - 1)

/-- The result of an evaluation that changes nothing but the value. -/
def PSevalResult.mk0 (val : PSdata) (addedFuncs addedVars : List String) (st : PSstate) :
    PSevalResult :=
  { val := val, addedFuncs := addedFuncs, addedVars := addedVars, st := st }

/-- Function `_ps_equal` (`interpreter.cpp` 820-868); `eval` is the call of
`_ps_evaluate_statement` on the index. -/
def _ps_equal (eval : PSeval) (ast : PSast) (var : PSnode) (val : PSdata)
    (addedFuncs addedVars : List String) (st : PSstate) : Except PSfail PSevalResult :=
  if var.type ≠ PSnodeType.ID ∨ var.id.type ≠ PSidType.VAR then
    .error (.throw .INVALID_ASSIGNMENT var st)
  else if val.type = PSdataType.VOID then .error (.throw .INVALID_ASSIGNMENT var st)
  else
    let name := var.id.name
    let store : Except PSfail PSevalResult :=
      .ok (PSevalResult.mk0 val addedFuncs addedVars
        { st with g_psVariables := st.g_psVariables.set name val })
    match st.g_psVariables.find name with
    | some cur =>
      match cur, val with
      | .FLOAT _, .INT i =>
        let new := PSdata.FLOAT (F32.ofInt i)
        .ok (PSevalResult.mk0 new addedFuncs addedVars
          { st with g_psVariables := st.g_psVariables.set name new })
      | _, _ =>
        if var.id.params.length = 1 then do
          let indexNode ← poolAt ast (var.id.params.headD 0)
          let r ← eval indexNode addedFuncs addedVars st
          match r.val with
          | .INT index =>
            -- `&g_psVariables[var.id.name]` creates the entry when it is missing
            let vars1 := if r.st.g_psVariables.has name then r.st.g_psVariables
                         else r.st.g_psVariables.set name .VOID
            let st1 := { r.st with g_psVariables := vars1 }
            let varRef := (vars1.find name).getD .VOID
            let floatVal ← _ps_get_scalar val .INVALID_ASSIGNMENT var st1
            if varRef.indexAccepted index then
              if index < 0 then .error .undefined
              else
                .ok (PSevalResult.mk0 (.FLOAT floatVal) r.addedFuncs r.addedVars
                  { st1 with g_psVariables :=
                      vars1.set name (varRef.setComponent index.toNat floatVal) })
            else .error (.throw .INVALID_INDEX var st1)
          | _ => .error (.throw .INVALID_INDEX var r.st)
        else if cur.type ≠ val.type then .error (.throw .INVALID_ASSIGNMENT var st)
        else store
    | none =>
      if var.id.params.length ≠ 0 then .error (.throw .INVALID_INDEX var st)
      else
        .ok (PSevalResult.mk0 val addedFuncs (addedVars ++ [name])
          { st with g_psVariables := st.g_psVariables.set name val })

/-- The statement loop of `_ps_execute_statements` (`interpreter.cpp` 227-233): the two
vectors of added names and the globals when the loop ends. -/
def executeLoop (eval : PSeval) (ast : PSast) :
    List PSnodeHandle → List String → List String → PSstate →
      Except PSfail (List String × List String × PSstate)
  | [], addedFuncs, addedVars, st => .ok (addedFuncs, addedVars, st)
  | h :: rest, addedFuncs, addedVars, st => do
    let node ← poolAt ast h
    let r ← eval node addedFuncs addedVars st
    if r.st.g_psReturnFlag || r.st.g_psBreakFlag || r.st.g_psContinueFlag then
      pure (r.addedFuncs, r.addedVars, r.st)
    else executeLoop eval ast rest r.addedFuncs r.addedVars r.st

/-- Function `_ps_execute_statements` (`interpreter.cpp` 222-239). -/
def _ps_execute_statements (eval : PSeval) (ast : PSast) (nodes : List PSnodeHandle)
    (st : PSstate) : Except PSfail PSstate := do
  let (addedFuncs, addedVars, st1) ← executeLoop eval ast nodes [] [] st
  pure { st1 with g_psFunctions := st1.g_psFunctions.eraseAll addedFuncs,
                  g_psVariables := st1.g_psVariables.eraseAll addedVars }

/-- The loop that fills `funcVars` (`interpreter.cpp` 499-505): every argument is
evaluated in the caller's scope and bound to the parameter name of the same position. -/
def bindParams (eval : PSeval) (ast : PSast) (funcNode : PSnode) :
    List String → List PSnodeHandle → PSmap PSdata → List String → List String → PSstate →
      Except PSfail (PSmap PSdata × List String × List String × PSstate)
  | [], _, funcVars, addedFuncs, addedVars, st => .ok (funcVars, addedFuncs, addedVars, st)
  | _ :: _, [], _, _, _, _ => .error .undefined
  | p :: ps, a :: as, funcVars, addedFuncs, addedVars, st =>
    if funcVars.has p then .error (.throw .ARGUMENT_NAME_REDEFINITION funcNode st)
    else do
      let argNode ← poolAt ast a
      let r ← eval argNode addedFuncs addedVars st
      bindParams eval ast funcNode ps as (funcVars.set p r.val) r.addedFuncs r.addedVars r.st

/-- Function `_ps_execute_function` (`interpreter.cpp` 490-521).  When the body ends with
the return flag false the source returns a default-constructed `PSdata`
(`return \x7b\x7d`, 519-520), whose `type` is indeterminate; `VOID` stands for it here. -/
def _ps_execute_function (eval : PSeval) (ast : PSast) (node : PSnode)
    (addedFuncs addedVars : List String) (st : PSstate) : Except PSfail PSevalResult :=
  let funcNode : PSnode := (st.g_psFunctions.find node.id.name).getD {}
  if funcNode.keyword.paramNames.length ≠ node.id.params.length then
    .error (.throw .INVALID_PARAMS node st)
  else do
    let (funcVars, addedFuncs1, addedVars1, st1) ←
      bindParams eval ast funcNode funcNode.keyword.paramNames node.id.params []
        addedFuncs addedVars st
    -- funcVars.swap(g_psVariables)
    let callerVars := st1.g_psVariables
    let st2 ← _ps_execute_statements eval ast funcNode.keyword.code
      { st1 with g_psVariables := funcVars }
    -- funcVars.swap(g_psVariables), then the parameter names are erased
    let st3 : PSstate :=
      { st2 with g_psVariables := callerVars.eraseAll funcNode.keyword.paramNames }
    if st3.g_psReturnFlag then
      pure (PSevalResult.mk0 st3.g_psReturnVal addedFuncs1 addedVars1
        { st3 with g_psReturnFlag := false })
    else pure (PSevalResult.mk0 .VOID addedFuncs1 addedVars1 st3)

/-- The loop that evaluates the arguments of a call (`interpreter.cpp` 305-307). -/
def evalParams (eval : PSeval) (ast : PSast) :
    List PSnodeHandle → List PSdata → List String → List String → PSstate →
      Except PSfail (List PSdata × List String × List String × PSstate)
  | [], params, addedFuncs, addedVars, st => .ok (params, addedFuncs, addedVars, st)
  | a :: as, params, addedFuncs, addedVars, st => do
    let argNode ← poolAt ast a
    let r ← eval argNode addedFuncs addedVars st
    evalParams eval ast as (params ++ [r.val]) r.addedFuncs r.addedVars r.st

/-- The loop `for(int32_t i = min; i <= max; i++)` of a `for` statement
(`interpreter.cpp` 409-429), with the number of turns left and the value of `i`. -/
def forLoop (eval : PSeval) (ast : PSast) (var : PSnode) (code : List PSnodeHandle) :
    Nat → Int → List String → List String → PSstate →
      Except PSfail (List String × List String × PSstate)
  | 0, _, forFuncs, forVars, st => .ok (forFuncs, forVars, st)
  | n + 1, i, forFuncs, forVars, st => do
    let r ← _ps_equal eval ast var (.INT i) forFuncs forVars st
    let st1 ← _ps_execute_statements eval ast code r.st
    if st1.g_psBreakFlag then
      pure (r.addedFuncs, r.addedVars, { st1 with g_psBreakFlag := false })
    else
      let st2 := if st1.g_psContinueFlag then { st1 with g_psContinueFlag := false } else st1
      -- `i++` overflows when `i` is `INT_MAX`
      if i = 2147483647 then .error .undefined
      else forLoop eval ast var code n (i + 1) r.addedFuncs r.addedVars st2

/-- The body of `_ps_evaluate_statement` (`interpreter.cpp` 241-488); `eval` stands for
its recursive calls. -/
def evaluateBody (eval : PSeval) (env : PSenv) (ast : PSast) (node : PSnode)
    (addedFuncs addedVars : List String) (st : PSstate) : Except PSfail PSevalResult :=
  if node.type = PSnodeType.OP then
    if node.op.type = PSopType.EQUAL then do
      let varNode ← poolAt ast node.op.left
      let rightNode ← poolAt ast node.op.right
      let r ← eval rightNode addedFuncs addedVars st
      _ps_equal eval ast varNode r.val r.addedFuncs r.addedVars r.st
    else do
      let leftNode ← poolAt ast node.op.left
      let l ← eval leftNode addedFuncs addedVars st
      let rightNode ← poolAt ast node.op.right
      let r ← eval rightNode l.addedFuncs l.addedVars l.st
      let left := l.val
      let right := r.val
      let ret (v : Except PSfail PSdata) : Except PSfail PSevalResult := do
        let d ← v
        pure (PSevalResult.mk0 d r.addedFuncs r.addedVars r.st)
      let assign (v : Except PSfail PSdata) : Except PSfail PSevalResult := do
        let d ← v
        let varNode ← poolAt ast node.op.left
        _ps_equal eval ast varNode d r.addedFuncs r.addedVars r.st
      if node.op.type = PSopType.MULT then ret (_ps_mult left right node r.st)
      else if node.op.type = PSopType.DIV then ret (_ps_div left right node r.st)
      else if node.op.type = PSopType.MOD then ret (_ps_mod left right node r.st)
      else if node.op.type = PSopType.ADD then ret (_ps_add left right node r.st)
      else if node.op.type = PSopType.SUB then ret (_ps_sub left right node r.st)
      else if node.op.type = PSopType.MULTEQUAL then assign (_ps_mult left right node r.st)
      else if node.op.type = PSopType.DIVEQUAL then assign (_ps_div left right node r.st)
      else if node.op.type = PSopType.MODEQUAL then assign (_ps_mod left right node r.st)
      else if node.op.type = PSopType.ADDEQUAL then assign (_ps_add left right node r.st)
      else if node.op.type = PSopType.SUBEQUAL then assign (_ps_sub left right node r.st)
      else if node.op.type = PSopType.LESSTHAN then ret (_ps_lessthan left right node r.st)
      else if node.op.type = PSopType.GREATERTHAN then
        ret (_ps_greaterthan left right node r.st)
      else if node.op.type = PSopType.LESSTHANEQUAL then
        ret (_ps_lessthanequal left right node r.st)
      else if node.op.type = PSopType.GREATERTHANEQUAL then
        ret (_ps_greaterthanequal left right node r.st)
      else if node.op.type = PSopType.EQUALITY then ret (_ps_equality left right node r.st)
      else if node.op.type = PSopType.NONEQUALITY then
        ret (do
          let equality ← _ps_equality left right node r.st
          match equality with
          | .INT v => pure (.INT (if v = 0 then 1 else 0))
          | d => pure d)
      else if node.op.type = PSopType.AND then ret (_ps_and left right node r.st)
      else if node.op.type = PSopType.OR then ret (_ps_or left right node r.st)
      else .error (.throw .UNSUPPORTED_NODE_TYPE node r.st)
  else if node.type = PSnodeType.ID then
    if node.id.type = PSidType.FUNC then do
      let (params, addedFuncs1, addedVars1, st1) ←
        evalParams eval ast node.id.params [] addedFuncs addedVars st
      match env.g_psLibFunctions.find node.id.name with
      | some func =>
        match func params node st1.world with
        | .ok val world => pure (PSevalResult.mk0 val addedFuncs1 addedVars1
                                  { st1 with world := world })
        | .throw e errorNode world => .error (.throw e errorNode { st1 with world := world })
        | .undefined => .error .undefined
      | none =>
        if st1.g_psFunctions.has node.id.name then
          _ps_execute_function eval ast node addedFuncs1 addedVars1 st1
        else .error (.throw .UNDEFINED_FUNCTION node st1)
    else
      match env.g_psConstants.find node.id.name with
      | some c => .ok (PSevalResult.mk0 c addedFuncs addedVars st)
      | none =>
        match st.g_psVariables.find node.id.name with
        | none => .error (.throw .UNDEFINED_VARIABLE node st)
        | some var =>
          if node.id.params.length = 0 then .ok (PSevalResult.mk0 var addedFuncs addedVars st)
          else if var.type = PSdataType.INT ∨ var.type = PSdataType.FLOAT then
            .error (.throw .INVALID_INDEX node st)
          else do
            let indexNode ← poolAt ast (node.id.params.headD 0)
            let r ← eval indexNode addedFuncs addedVars st
            match r.val with
            | .INT index =>
              if var.indexAccepted index then
                if index < 0 then .error .undefined
                else
                  match var.components[index.toNat]? with
                  | some f => pure (PSevalResult.mk0 (.FLOAT f) r.addedFuncs r.addedVars r.st)
                  | none => .error .undefined
              else .error (.throw .INVALID_INDEX node r.st)
            | _ => .error (.throw .INVALID_INDEX node r.st)
  else if node.type = PSnodeType.NUMBER then
    if node.literal.type = PSliteralType.INT then
      .ok (PSevalResult.mk0 (.INT node.literal.intNum) addedFuncs addedVars st)
    else
      .ok (PSevalResult.mk0 (.FLOAT (F32.ofBits node.literal.floatNum)) addedFuncs addedVars st)
  else if node.type = PSnodeType.KEYWORD then
    if node.keyword.type = PSkeywordType.IF then do
      let condNode ← poolAt ast node.keyword.condition
      -- the two vectors are passed in the other order here
      let c ← eval condNode addedVars addedFuncs st
      let addedVars1 := c.addedFuncs
      let addedFuncs1 := c.addedVars
      let scalar ← _ps_get_scalar c.val .INVALID_CONDITION node c.st
      if scalar.toBool then
        let st1 ← _ps_execute_statements eval ast node.keyword.code c.st
        pure (PSevalResult.mk0 .VOID addedFuncs1 addedVars1 st1)
      else if node.keyword.hasElse then
        let st1 ← _ps_execute_statements eval ast node.keyword.elseCode c.st
        pure (PSevalResult.mk0 .VOID addedFuncs1 addedVars1 st1)
      else pure (PSevalResult.mk0 .VOID addedFuncs1 addedVars1 c.st)
    else if node.keyword.type = PSkeywordType.FOR then do
      let condNode ← poolAt ast node.keyword.condition
      if condNode.type ≠ PSnodeType.OP ∨ condNode.op.type ≠ PSopType.IN then
        .error (.throw .INVALID_CONDITION node st)
      else
        let var ← poolAt ast condNode.op.left
        if var.type ≠ PSnodeType.ID ∨ var.id.type ≠ PSidType.VAR ∨
            st.g_psVariables.has var.id.name then
          .error (.throw .INVALID_CONDITION node st)
        else
          let rangeNode ← poolAt ast condNode.op.right
          let range ← eval rangeNode [] [] st
          match range.val with
          | .VEC2 x y =>
            let outermostLoop : Bool := !range.st.g_psInLoop
            let st1 : PSstate := { range.st with g_psInLoop := true }
            match x.ceilToInt, y.floorToInt with
            | some min, some max =>
              let (forFuncs, forVars, st2) ←
                forLoop eval ast var node.keyword.code (max - min + 1).toNat min
                  range.addedFuncs range.addedVars st1
              let st3 : PSstate :=
                { st2 with g_psFunctions := st2.g_psFunctions.eraseAll forFuncs,
                           g_psVariables := st2.g_psVariables.eraseAll forVars }
              let st4 := if outermostLoop then { st3 with g_psInLoop := false } else st3
              pure (PSevalResult.mk0 .VOID addedFuncs addedVars st4)
            | _, _ => .error .undefined
          | _ => .error (.throw .INVALID_CONDITION node range.st)
    else if node.keyword.type = PSkeywordType.FUNC then
      if st.g_psFunctions.has node.keyword.name then
        .error (.throw .FUNCTION_REDEFINITION node st)
      else
        .ok (PSevalResult.mk0 .VOID (addedFuncs ++ [node.keyword.name]) addedVars
          { st with g_psFunctions := st.g_psFunctions.set node.keyword.name node })
    else if node.keyword.type = PSkeywordType.RETURN then
      let st1 : PSstate := { st with g_psReturnFlag := true }
      if node.keyword.returnVal < UINT32_MAX then do
        let valNode ← poolAt ast node.keyword.returnVal
        let r ← eval valNode addedFuncs addedVars st1
        pure (PSevalResult.mk0 .VOID r.addedFuncs r.addedVars
          { r.st with g_psReturnVal := r.val })
      else
        .ok (PSevalResult.mk0 .VOID addedFuncs addedVars { st1 with g_psReturnVal := .VOID })
    else if node.keyword.type = PSkeywordType.BREAK then
      if !st.g_psInLoop then .error (.throw .INVALID_BREAK_CONTINUE node st)
      else .ok (PSevalResult.mk0 .VOID addedFuncs addedVars { st with g_psBreakFlag := true })
    else if node.keyword.type = PSkeywordType.CONTINUE then
      if !st.g_psInLoop then .error (.throw .INVALID_BREAK_CONTINUE node st)
      else
        .ok (PSevalResult.mk0 .VOID addedFuncs addedVars { st with g_psContinueFlag := true })
    else .error (.throw .UNSUPPORTED_NODE_TYPE node st)
  else .error (.throw .UNSUPPORTED_NODE_TYPE node st)

/-- Function `_ps_evaluate_statement` (`interpreter.cpp` 241-488), with the depth of its
recursion bounded by the fuel. -/
def _ps_evaluate_statement (env : PSenv) (ast : PSast) : Nat → PSeval
  | 0, _, _, _, _ => .error .outOfFuel
  | fuel + 1, node, addedFuncs, addedVars, st =>
    evaluateBody (_ps_evaluate_statement env ast fuel) env ast node addedFuncs addedVars st

/-- How `ps_execute` ends: it returns, leaving the registries and the globals (and having
reported `error`, if the run threw), or the run is undefined, or the model's bound is
reached. -/
inductive PSexecuteResult where
  | returned (env : PSenv) (st : PSstate) (error : Option (PSruntimeError × PSnode))
  | undefined
  | outOfFuel

/-- Function `ps_execute` (`interpreter.cpp` 156-218). -/
def ps_execute (host : PShost) (fuel : Nat) (env : PSenv) (st : PSstate) (ast : PSast) :
    PSexecuteResult :=
  let env1 := if env.g_psLibFunctions.length = 0 then ps_set_functions host [] env else env
  let env2 := if env1.g_psConstants.length = 0 then ps_set_constants [] env1 else env1
  match _ps_execute_statements (_ps_evaluate_statement env2 ast fuel) ast ast.parentNodes st with
  | .ok st1 => .returned env2 { st1 with g_psReturnFlag := false } none
  | .error (.throw e errorNode st1) =>
    .returned env2 { st1 with g_psFunctions := [], g_psVariables := [] } (some (e, errorNode))
  | .error .undefined => .undefined
  | .error .outOfFuel => .outOfFuel

/-- The globals `ps_execute` leaves when it returns. -/
def PSexecuteResult.state? : PSexecuteResult → Option PSstate
  | .returned _ st _ => some st
  | _ => none

/-- The error `ps_execute` reports, if it returns after one. -/
def PSexecuteResult.error? : PSexecuteResult → Option PSruntimeError
  | .returned _ _ (some (e, _)) => some e
  | _ => none

/-- A host whose library functions return zero, for programs that call none of them. -/
def hostZero : PShost :=
  { rand := fun _ => 0, RAND_MAX := 2147483647,
    sqrtf := fun _ => .finite 0, powf := fun _ _ => .finite 0,
    sinf := fun _ => .finite 0, cosf := fun _ => .finite 0, tanf := fun _ => .finite 0,
    asinf := fun _ => .finite 0, acosf := fun _ => .finite 0, atanf := fun _ => .finite 0,
    rad_to_deg := fun _ => .finite 0,
    quaternion_identity := .QUATERNION (.finite 0) (.finite 0) (.finite 0) (.finite 1),
    quaternion_from_euler := fun _ _ _ =>
      .QUATERNION (.finite 0) (.finite 0) (.finite 0) (.finite 1),
    quaternion_from_axis_angle := fun _ _ _ _ =>
      .QUATERNION (.finite 0) (.finite 0) (.finite 0) (.finite 1) }

/-! ## Vocabulary of the parser theorems -/

/-- The strings that make `_ps_parse_statement` leave the expression branch
(`parser.cpp` 334, 403, 466, 484). -/
def statementKeywords : List String := ["if", "for", "func", "ret", "break", "continue"]

/-- The operand parser as a statement of depth `fuel + 1` calls it: `_ps_parse_non_op`
whose recursive calls are `_ps_parse_statement` with `fuel`. -/
def parseOperand (stof : String → Option Nat) (uninit moves : Nat → Bool)
    (tokens : List PStoken) (fuel : Nat)
    (st : PSparseState) : Except PSparseFail (PSnodeHandle × PSparseState) :=
  _ps_parse_non_op stof uninit (_ps_parse_statement stof uninit moves tokens fuel) fuel tokens st

/-- The pool holds at `h` an operator node of tag `ty` with children `l` and `r`. -/
def IsOp (pool : List PSnode) (h : PSnodeHandle) (ty : Nat) (l r : PSnodeHandle) : Prop :=
  ∃ n, pool[h]? = some n ∧ n.type = PSnodeType.OP ∧ n.op.type = ty ∧ n.op.left = l ∧
    n.op.right = r

/-- The first operator node of a statement with its members assigned (`parser.cpp`
518-520): `op.inParens = false`, `op.left` and `op.right`. -/
def PSnode.asTop (n : PSnode) (l r : PSnodeHandle) : PSnode :=
  { n with op := { n.op with inParens := false, left := l, right := r } }

/-- An operator node with its children assigned (`op.left` and `op.right`). -/
def PSnode.withChildren (n : PSnode) (l r : PSnodeHandle) : PSnode :=
  { n with op := { n.op with left := l, right := r } }

/-- A variable node on line 1. -/
def varNode (name : String) : PSnode :=
  { type := PSnodeType.ID, lineNum := 1, id := { type := PSidType.VAR, name := name } }

/-- An integer literal node on line 1. -/
def intNode (i : Int) : PSnode :=
  { type := PSnodeType.NUMBER, lineNum := 1,
    literal := { type := PSliteralType.INT, intNum := i } }

/-- An operator node on line 1. -/
def opNode (ty : Nat) (l r : PSnodeHandle) : PSnode :=
  { type := PSnodeType.OP, lineNum := 1, op := { type := ty, left := l, right := r } }

/-- A call node on line 1. -/
def callNode (name : String) (params : List PSnodeHandle) : PSnode :=
  { type := PSnodeType.ID, lineNum := 1,
    id := { type := PSidType.FUNC, name := name, params := params } }

/-- The token stream of `a - b - c`. -/
def tokensSubSub : List PStoken :=
  [tokId "a", tokOp "-", tokId "b", tokOp "-", tokId "c", tokNl]

/-- The AST of `a - b - c`. -/
def astSubSub : PSast :=
  { parentNodes := [4],
    nodePool := [varNode "a", varNode "b", varNode "c", opNode PSopType.SUB 0 1,
                 opNode PSopType.SUB 3 2] }

/-- The handles a node stores in the members of its variant are below `n`: the children of
an operator; the code and else-code entries of a keyword node, the condition of an `if`
or `for`, the value of a `ret` unless it is the sentinel `UINT32_MAX`; the parameters of
an identifier. -/
def PSnode.HandlesBelow (n : Nat) (node : PSnode) : Prop :=
  (node.type = PSnodeType.OP → node.op.left < n ∧ node.op.right < n) ∧
  (node.type = PSnodeType.KEYWORD →
    (∀ h ∈ node.keyword.code, h < n) ∧ (∀ h ∈ node.keyword.elseCode, h < n) ∧
    ((node.keyword.type = PSkeywordType.IF ∨ node.keyword.type = PSkeywordType.FOR) →
      node.keyword.condition < n) ∧
    (node.keyword.type = PSkeywordType.RETURN →
      node.keyword.returnVal = UINT32_MAX ∨ node.keyword.returnVal < n)) ∧
  (node.type = PSnodeType.ID → ∀ h ∈ node.id.params, h < n)

/-- Every node of the pool stores handles below the size of the pool. -/
def PoolOK (pool : List PSnode) : Prop := ∀ node ∈ pool, node.HandlesBelow pool.length


/-- A parser state with the given pool and cursor, no top-level statement yet and no open
parenthesis. -/
def stAt (pool : List PSnode) (cur : Nat) : PSparseState :=
  { ast := { parentNodes := [], nodePool := pool }, curTokenIdx := cur, numOpenParens := 0 }

/-- The token stream of `a + b * c - d`. -/
def tokensAddMulSub : List PStoken :=
  [tokId "a", tokOp "+", tokId "b", tokOp "*", tokId "c", tokOp "-", tokId "d", tokNl]

/-- The token stream of the program `x = 3 + 4 * 2`, `print(x)`. -/
def tokensAssign11 : List PStoken :=
  [tokId "x", tokOp "=", tokId "3", tokOp "+", tokId "4", tokOp "*", tokId "2", tokNl,
   tokId "print", tokOp "(", tokId "x", tokOp ")", tokNl]

/-- The output of a run, when `ps_execute` returned. -/
def PSexecuteResult.output? : PSexecuteResult → Option (List (List PSdata))
  | .returned _ st _ => some st.world.output
  | _ => none


/-- A keyword node on line 1. -/
def kwNode (kw : PSnode.Keyword) : PSnode :=
  { type := PSnodeType.KEYWORD, lineNum := 1, keyword := kw }

/-- A node with the `inParens` flag set. -/
def parenNode (n : PSnode) : PSnode := { n with op := { n.op with inParens := true } }

/-- The token stream of the program
`func f(x) \x7b ret x * 2 \x7d`,
`for i in range(0, 2) \x7b if f(i) > 1 \x7b print(i) \x7d else \x7b print((0 - i) * 3) \x7d \x7d`. -/
def tokensFuncFor : List PStoken :=
  [tokId "func", tokId "f", tokOp "(", tokId "x", tokOp ")", tokOp "\x7b", tokId "ret",
   tokId "x", tokOp "*", tokId "2", tokOp "\x7d", tokNl,
   tokId "for", tokId "i", tokOp "in", tokId "range", tokOp "(", tokId "0", tokOp ",",
   tokId "2", tokOp ")", tokOp "\x7b", tokId "if", tokId "f", tokOp "(", tokId "i", tokOp ")",
   tokOp ">", tokId "1", tokOp "\x7b", tokId "print", tokOp "(", tokId "i", tokOp ")",
   tokOp "\x7d", tokId "else", tokOp "\x7b", tokId "print", tokOp "(", tokOp "(", tokId "0",
   tokOp "-", tokId "i", tokOp ")", tokOp "*", tokId "3", tokOp ")", tokOp "\x7d",
   tokOp "\x7d", tokNl]

/-- The AST of `tokensFuncFor`. -/
def astFuncFor : PSast :=
  { parentNodes := [4, 23],
    nodePool :=
      [varNode "x", intNode 2, opNode PSopType.MULT 0 1,
       kwNode { type := PSkeywordType.RETURN, returnVal := 2 },
       kwNode { type := PSkeywordType.FUNC, code := [3], name := "f", paramNames := ["x"] },
       varNode "i", intNode 0, intNode 2, callNode "range" [6, 7], opNode PSopType.IN 5 8,
       varNode "i", callNode "f" [10], intNode 1, opNode PSopType.GREATERTHAN 11 12,
       varNode "i", callNode "print" [14],
       intNode 0, varNode "i", parenNode (opNode PSopType.SUB 16 17), intNode 3,
       opNode PSopType.MULT 18 19, callNode "print" [20],
       kwNode { type := PSkeywordType.IF, code := [15], condition := 13, hasElse := true,
                elseCode := [21] },
       kwNode { type := PSkeywordType.FOR, code := [22], condition := 9 }] }

/-- An interpreter state in which `a`, `b`, `c` hold the ints 7, 2 and 1. -/
def stateABC : PSstate :=
  { g_psVariables := [("a", .INT 7), ("b", .INT 2), ("c", .INT 1)] }

/-! ## Invariants of the parser state -/

/-- The pool of the second state keeps the invariant of the first, is at least as long,
and the list of top-level statements is the same. -/
structure Grows (st st1 : PSparseState) : Prop where
  ok : PoolOK st.ast.nodePool → PoolOK st1.ast.nodePool
  len : st.ast.nodePool.length ≤ st1.ast.nodePool.length
  parents : st1.ast.parentNodes = st.ast.parentNodes

/-- A parsing function keeps the pool invariant and returns a handle of the pool. -/
def GoodStmt (p : PSparseState → Except PSparseFail (PSnodeHandle × PSparseState)) : Prop :=
  ∀ st h st1, p st = .ok (h, st1) → Grows st st1 ∧ h < st1.ast.nodePool.length

/-- The local operator node of the operator loop: an operator whose children are in the
pool. -/
def TopOK (opNode : PSnode) (st : PSparseState) : Prop :=
  opNode.type = PSnodeType.OP ∧ opNode.op.left < st.ast.nodePool.length ∧
    opNode.op.right < st.ast.nodePool.length

/-- Every operator node at index `L` or above has its right child at `L` or above. -/
def Scoped (L : Nat) (pool : List PSnode) : Prop :=
  ∀ i n, L ≤ i → pool[i]? = some n → n.type = PSnodeType.OP → L ≤ n.op.right

/-- The pool only grows and, as long as handles do not wrap around, a scoped level `L` of
the first pool stays scoped and the nodes below it stay the same. -/
structure Frame (L : Nat) (st st1 : PSparseState) : Prop where
  len : st.ast.nodePool.length ≤ st1.ast.nodePool.length
  keeps : st1.ast.nodePool.length ≤ 4294967296 → L ≤ st.ast.nodePool.length →
    Scoped L st.ast.nodePool →
    (∀ i, i < L → st1.ast.nodePool[i]? = st.ast.nodePool[i]?) ∧ Scoped L st1.ast.nodePool

/-- A parsing function frames every level, and returns a handle at or above the size the
pool had at its start. -/
def FrameStmt (p : PSparseState → Except PSparseFail (PSnodeHandle × PSparseState)) : Prop :=
  ∀ st h st1, p st = .ok (h, st1) →
    (∀ L, Frame L st st1) ∧
      (st1.ast.nodePool.length ≤ 4294967296 → st.ast.nodePool.length ≤ h)


/-! ## Example programs -/

/-- The token stream of `(a + b) * c`. -/
def tokensParenMul : List PStoken :=
  [tokOp "(", tokId "a", tokOp "+", tokId "b", tokOp ")", tokOp "*", tokId "c", tokNl]

/-- The AST of `(a + b) * c`: `MULT(ADD(a, b), c)` with the `ADD` node flagged. -/
def astParenMul : PSast :=
  { parentNodes := [4],
    nodePool := [varNode "a", varNode "b", parenNode (opNode PSopType.ADD 0 1), varNode "c",
                 opNode PSopType.MULT 2 3] }

/-- The token stream of `x + (a + b) * c`. -/
def tokensAddParenMul : List PStoken :=
  [tokId "x", tokOp "+", tokOp "(", tokId "a", tokOp "+", tokId "b", tokOp ")", tokOp "*",
   tokId "c", tokNl]

/-- The AST of `x + (a + b) * c`: `ADD(x, MULT(ADD(a, b), c))` with the inner `ADD` node
flagged. -/
def astAddParenMul : PSast :=
  { parentNodes := [6],
    nodePool := [varNode "x", varNode "a", varNode "b", parenNode (opNode PSopType.ADD 1 2),
                 varNode "c", opNode PSopType.MULT 3 4, opNode PSopType.ADD 0 5] }


/-- The AST of `func f(p) \x7b y \x7d` with the call `f(1)`: the body reads the variable
`y`, which is no parameter. -/
def astReadsCaller : PSast :=
  { parentNodes := [3, 4],
    nodePool := [varNode "y", intNode 1, callNode "f" [1],
                 kwNode { type := PSkeywordType.FUNC, code := [0], name := "f",
                          paramNames := ["p"] },
                 callNode "f" [1]] }

/-- An interpreter state in which `f` of `astReadsCaller` is defined and the caller holds
`y = 5`. -/
def stateCallerY : PSstate :=
  { g_psFunctions := [("f", kwNode { type := PSkeywordType.FUNC, code := [0], name := "f",
                                     paramNames := ["p"] })],
    g_psVariables := [("y", .INT 5)] }


/-- Parse a token stream and, when that succeeds, execute the AST from empty maps with the
default registries. -/
def runTokens (stof : String → Option Nat) (uninit moves : Nat → Bool)
    (fuel : Nat) (tokens : List PStoken) :
    Option PSexecuteResult :=
  (ps_parse_tokens stof uninit moves fuel tokens).toOption.map (ps_execute hostZero fuel {} {})

/-- What a run leaves behind: the reported error, the variable map, the names of the
function map and the output. -/
structure PSrunSummary where
  error : Option PSruntimeError
  vars : PSmap PSdata
  funcs : List String
  output : List (List PSdata)
deriving DecidableEq, Repr

/-- The summary of a run, when `ps_execute` returned. -/
def PSexecuteResult.summary? (r : PSexecuteResult) : Option PSrunSummary :=
  r.state?.map (fun st =>
    { error := r.error?, vars := st.g_psVariables,
      funcs := st.g_psFunctions.map Prod.fst, output := st.world.output })

/-- The registries `ps_execute` installs when none were set. -/
def defaultEnv : PSenv := ps_set_constants [] (ps_set_functions hostZero [] {})

/-- The token stream of the program `if x = 1 \x7b \x7d`, `print(7)`. -/
def tokensIfLeak : List PStoken :=
  [tokId "if", tokId "x", tokOp "=", tokId "1", tokOp "\x7b", tokOp "\x7d", tokNl,
   tokId "print", tokOp "(", tokId "7", tokOp ")", tokNl]

/-- The token stream of the program `x = 1`, `func f(x) \x7b \x7d`, `f(2)`, `print(x)`. -/
def tokensCallErases : List PStoken :=
  [tokId "x", tokOp "=", tokId "1", tokNl,
   tokId "func", tokId "f", tokOp "(", tokId "x", tokOp ")", tokOp "\x7b", tokOp "\x7d", tokNl,
   tokId "f", tokOp "(", tokId "2", tokOp ")", tokNl,
   tokId "print", tokOp "(", tokId "x", tokOp ")", tokNl]

/-- The AST of `tokensCallErases`. -/
def astCallErases : PSast :=
  { parentNodes := [2, 3, 5, 7],
    nodePool := [varNode "x", intNode 1, opNode PSopType.EQUAL 0 1,
                 kwNode { type := PSkeywordType.FUNC, name := "f", paramNames := ["x"] },
                 intNode 2, callNode "f" [4], varNode "x", callNode "print" [6]] }

/-- The globals of `astCallErases` before its third statement, the call `f(2)`. -/
def stateBeforeCall : PSstate :=
  { g_psFunctions := [("f", kwNode { type := PSkeywordType.FUNC, name := "f",
                                     paramNames := ["x"] })],
    g_psVariables := [("x", .INT 1)] }

/-- The token stream of the program `func sq(x) \x7b ret x * x \x7d`,
`func h(y) \x7b ret sq(y) \x7d`, `z = h(3)`. -/
def tokensNestedRet : List PStoken :=
  [tokId "func", tokId "sq", tokOp "(", tokId "x", tokOp ")", tokOp "\x7b", tokId "ret",
   tokId "x", tokOp "*", tokId "x", tokOp "\x7d", tokNl,
   tokId "func", tokId "h", tokOp "(", tokId "y", tokOp ")", tokOp "\x7b", tokId "ret",
   tokId "sq", tokOp "(", tokId "y", tokOp ")", tokOp "\x7d", tokNl,
   tokId "z", tokOp "=", tokId "h", tokOp "(", tokId "3", tokOp ")", tokNl]

/-- The AST of `tokensNestedRet`. -/
def astNestedRet : PSast :=
  { parentNodes := [4, 8, 12],
    nodePool := [varNode "x", varNode "x", opNode PSopType.MULT 0 1,
                 kwNode { type := PSkeywordType.RETURN, returnVal := 2 },
                 kwNode { type := PSkeywordType.FUNC, code := [3], name := "sq",
                          paramNames := ["x"] },
                 varNode "y", callNode "sq" [5],
                 kwNode { type := PSkeywordType.RETURN, returnVal := 6 },
                 kwNode { type := PSkeywordType.FUNC, code := [7], name := "h",
                          paramNames := ["y"] },
                 varNode "z", intNode 3, callNode "h" [10], opNode PSopType.EQUAL 9 11] }

/-- The globals of `astNestedRet` before its third statement, with the given variables. -/
def stateNestedRet (vars : PSmap PSdata) : PSstate :=
  { g_psFunctions :=
      [("sq", kwNode { type := PSkeywordType.FUNC, code := [3], name := "sq",
                       paramNames := ["x"] }),
       ("h", kwNode { type := PSkeywordType.FUNC, code := [7], name := "h",
                      paramNames := ["y"] })],
    g_psVariables := vars }

/-- The token stream of the program `func sq(x) \x7b ret x * x \x7d`, `print(sq(5))`. -/
def tokensSq5 : List PStoken :=
  [tokId "func", tokId "sq", tokOp "(", tokId "x", tokOp ")", tokOp "\x7b", tokId "ret",
   tokId "x", tokOp "*", tokId "x", tokOp "\x7d", tokNl,
   tokId "print", tokOp "(", tokId "sq", tokOp "(", tokId "5", tokOp ")", tokOp ")", tokNl]

/-- A `std::stof` that knows the literal `0.5` (bit pattern `0x3F000000`). -/
def stofHalf : String → Option Nat := fun s => if s = "0.5" then some 1056964608 else none

/-- The token stream of the program `func f(i) \x7b \x7d`,
`for i in range(0, 1) \x7b print(i)`, `f(i)`, `if i = 0.5 \x7b \x7d \x7d`. -/
def tokensForFloat : List PStoken :=
  [tokId "func", tokId "f", tokOp "(", tokId "i", tokOp ")", tokOp "\x7b", tokOp "\x7d", tokNl,
   tokId "for", tokId "i", tokOp "in", tokId "range", tokOp "(", tokId "0", tokOp ",",
   tokId "1", tokOp ")", tokOp "\x7b", tokId "print", tokOp "(", tokId "i", tokOp ")", tokNl,
   tokId "f", tokOp "(", tokId "i", tokOp ")", tokNl,
   tokId "if", tokId "i", tokOp "=", tokId "0.5", tokOp "\x7b", tokOp "\x7d", tokNl,
   tokOp "\x7d", tokNl]

/-- The token stream of the program `for i in range(0, 4) \x7b print(i) \x7d`. -/
def tokensFor04 : List PStoken :=
  [tokId "for", tokId "i", tokOp "in", tokId "range", tokOp "(", tokId "0", tokOp ",",
   tokId "4", tokOp ")", tokOp "\x7b", tokId "print", tokOp "(", tokId "i", tokOp ")",
   tokOp "\x7d", tokNl]


/-- An interpreter state whose only variable is `x`, holding `v`. -/
def stateX (v : PSdata) : PSstate := { g_psVariables := [("x", v)] }


/-- The AST of `5 == 5`. -/
def astEq55 : PSast :=
  { parentNodes := [2], nodePool := [intNode 5, intNode 5, opNode PSopType.EQUALITY 0 1] }


/-- Whether a run ended in undefined behaviour. -/
def PSexecuteResult.isUndefined : PSexecuteResult → Bool
  | .undefined => true
  | _ => false

/-- The token stream of `v = vec2(1, 2)` followed by one more statement. -/
def tokensVec2Then (rest : List PStoken) : List PStoken :=
  [tokId "v", tokOp "=", tokId "vec2", tokOp "(", tokId "1", tokOp ",", tokId "2", tokOp ")",
   tokNl] ++ rest

/-- The statement `print(v[-1])`. -/
def tokensReadMinusOne : List PStoken :=
  [tokId "print", tokOp "(", tokId "v", tokOp "[", tokOp "-", tokId "1", tokOp "]", tokOp ")",
   tokNl]

/-- The statement `v[-1] = 5`. -/
def tokensWriteMinusOne : List PStoken :=
  [tokId "v", tokOp "[", tokOp "-", tokId "1", tokOp "]", tokOp "=", tokId "5", tokNl]

/-- The statement `print(v[2])`. -/
def tokensReadTwo : List PStoken :=
  [tokId "print", tokOp "(", tokId "v", tokOp "[", tokId "2", tokOp "]", tokOp ")", tokNl]

/-- The statement `v[2] = 5`. -/
def tokensWriteTwo : List PStoken :=
  [tokId "v", tokOp "[", tokId "2", tokOp "]", tokOp "=", tokId "5", tokNl]

/-- The AST of `print(0 and vec2(1, 2))`, as `ps_load_ast` can deliver it (the parser has
no entry for `and`). -/
def astAndVector : PSast :=
  { parentNodes := [5],
    nodePool := [intNode 0, intNode 1, intNode 2, callNode "vec2" [1, 2],
                 opNode PSopType.AND 0 3, callNode "print" [4]] }

/-- The AST of `print(1 or vec2(1, 2))`. -/
def astOrVector : PSast :=
  { parentNodes := [5],
    nodePool := [intNode 1, intNode 1, intNode 2, callNode "vec2" [1, 2],
                 opNode PSopType.OR 0 3, callNode "print" [4]] }

/-- The AST of `print(vec2(1, 2) and 0)`. -/
def astVectorAnd : PSast :=
  { parentNodes := [5],
    nodePool := [intNode 0, intNode 1, intNode 2, callNode "vec2" [1, 2],
                 opNode PSopType.AND 3 0, callNode "print" [4]] }

/-- The summary of the run of an AST from empty maps with the default registries. -/
def runAst (fuel : Nat) (ast : PSast) : Option PSrunSummary :=
  (ps_execute hostZero fuel {} {} ast).summary?

/-- The token stream of the program `func f \x7b break \x7d`,
`for i in range(0, 2) \x7b f()`, `print(i) \x7d`, `print(9)`. -/
def tokensBreakInCallee : List PStoken :=
  [tokId "func", tokId "f", tokOp "\x7b", tokId "break", tokOp "\x7d", tokNl,
   tokId "for", tokId "i", tokOp "in", tokId "range", tokOp "(", tokId "0", tokOp ",",
   tokId "2", tokOp ")", tokOp "\x7b", tokId "f", tokOp "(", tokOp ")", tokNl,
   tokId "print", tokOp "(", tokId "i", tokOp ")", tokOp "\x7d", tokNl,
   tokId "print", tokOp "(", tokId "9", tokOp ")", tokNl]

/-- The token stream of the program `break`. -/
def tokensBreakAlone : List PStoken := [tokId "break", tokNl]

/-- The token stream of the program `print(vec4(1, 2, 3, 4))`. -/
def tokensVec4Four : List PStoken :=
  [tokId "print", tokOp "(", tokId "vec4", tokOp "(", tokId "1", tokOp ",", tokId "2",
   tokOp ",", tokId "3", tokOp ",", tokId "4", tokOp ")", tokOp ")", tokNl]


/-- A variable node with one index, on line 1. -/
def indexedVarNode (name : String) (index : PSnodeHandle) : PSnode :=
  { type := PSnodeType.ID, lineNum := 1,
    id := { type := PSidType.VAR, name := name, params := [index] } }

/-- The order of the outcomes under the bound of the model: `x` ran out of fuel, or it is
the outcome `y`. -/
def FuelLe {α : Type} (x y : Except PSfail α) : Prop :=
  x = .error .outOfFuel ∨ x = y

/-- One evaluator ends as another does wherever it does not run out of fuel. -/
def EvalLe (e1 e2 : PSeval) : Prop :=
  ∀ node addedFuncs addedVars st, FuelLe (e1 node addedFuncs addedVars st)
    (e2 node addedFuncs addedVars st)


/-- Two outcomes that agree in the value, the globals and the error code: they are equal,
or both throw the same error with the same globals, the first naming the node `n1` and the
second the node `n2`. -/
def SameOutcome {α : Type} (n1 n2 : PSnode) (x y : Except PSfail α) : Prop :=
  x = y ∨ ∃ e st, x = .error (.throw e n1 st) ∧ y = .error (.throw e n2 st)

/-- The arithmetic tag whose result a compound assignment tag assigns (`interpreter.cpp`
263-272). -/
def compoundBase (ty : Nat) : Option Nat :=
  if ty = PSopType.MULTEQUAL then some PSopType.MULT
  else if ty = PSopType.DIVEQUAL then some PSopType.DIV
  else if ty = PSopType.MODEQUAL then some PSopType.MOD
  else if ty = PSopType.ADDEQUAL then some PSopType.ADD
  else if ty = PSopType.SUBEQUAL then some PSopType.SUB
  else none

/-- The operator function called for an arithmetic tag (`interpreter.cpp` 253-262). -/
def arith (ty : Nat) (left right : PSdata) (node : PSnode) (st : PSstate) :
    Except PSfail PSdata :=
  if ty = PSopType.MULT then _ps_mult left right node st
  else if ty = PSopType.DIV then _ps_div left right node st
  else if ty = PSopType.MOD then _ps_mod left right node st
  else if ty = PSopType.ADD then _ps_add left right node st
  else _ps_sub left right node st

/-- A pool with `x`, `2`, the node `x += 2`, the node `x + 2` and the node `x = (x + 2)`. -/
def astCompound : PSast :=
  { parentNodes := [2],
    nodePool := [varNode "x", intNode 2, opNode PSopType.ADDEQUAL 0 1, opNode PSopType.ADD 0 1,
                 opNode PSopType.EQUAL 0 3] }

/-- The token stream of the program `x = 1`, `x += 2`, `print(x)`. -/
def tokensCompound : List PStoken :=
  [tokId "x", tokOp "=", tokId "1", tokNl, tokId "x", tokOp "+=", tokId "2", tokNl,
   tokId "print", tokOp "(", tokId "x", tokOp ")", tokNl]


/-! ## Lexer (`lexer.cpp`)

The file is the list of its characters.  `PS_LEXER_OPERATORS[i][idx]` is read at every
`idx` the scan reaches: at `idx` equal to the length of the entry the read gives the
terminator, above it the read is outside the string and the model takes the character from
the parameter `oob` (entry, index). -/

/-- The string `PS_COMMENT`. -/
def PS_COMMENT : String := "#"

/-- The value of `g_maxOpLen` after the first loop of `ps_lex_file` (`lexer.cpp` 24-26). -/
def g_maxOpLen : Nat :=
  PS_LEXER_OPERATORS.foldl (fun m s => if s.length > m then s.length else m) 0

/-- The character `(char)EOF` that `file.peek()` yields at the end of the file. -/
def eofChar : Char := Char.ofNat 255

/-- The read `PS_LEXER_OPERATORS[i][idx]`. -/
def opCharAt (oob : Nat → Nat → Char) (i : Nat) (s : String) (idx : Nat) : Char :=
  if idx < s.length then s.data.getD idx (Char.ofNat 0)
  else if idx = s.length then Char.ofNat 0
  else oob i idx

/-- The loop of `is_op_char` from entry `i` on. -/
def isOpCharFrom (oob : Nat → Nat → Char) (ch : Char) (idx : Nat) : Nat → List String → Bool
  | _, [] => false
  | i, s :: rest =>
    if opCharAt oob i s idx = ch then true else isOpCharFrom oob ch idx (i + 1) rest

/-- Function `is_op_char` (`lexer.cpp` 131-138). -/
def is_op_char (oob : Nat → Nat → Char) (ch : Char) (idx : Nat) : Bool :=
  isOpCharFrom oob ch idx 0 PS_LEXER_OPERATORS

/-- Function `is_op_str` (`lexer.cpp` 140-147). -/
def is_op_str (str : String) : Bool :=
  PS_LEXER_OPERATORS.any (fun s => s = str)

/-- Function `try_add_id_token` (`lexer.cpp` 149-164): the token list afterwards; the
caller's `idLen` is zero afterwards in both cases. -/
def try_add_id_token (idString : List Char) (lineNum : Nat) (tokens : List PStoken) :
    List PStoken :=
  if idString.length = 0 then tokens
  else
    let str := String.mk idString
    let type :=
      if str = "and" ∨ str = "or" ∨ str = "in" then PStokenType.OP else PStokenType.ID
    tokens ++ [{ type := type, str := str, lineNum := lineNum }]

/-- How `ps_lex_file` ends: it returns the tokens, its behaviour is undefined, the loop
that shortens the operator string never ends, or the bound of the model is reached. -/
inductive PSlexResult where
  | tokens (ts : List PStoken)
  | undefined
  | diverges
  | outOfFuel
deriving DecidableEq, Repr

/-- The loop `while(is_op_char(file.peek(), opLen))` (`lexer.cpp` 81-85): `room` is the
number of positions of `opString` from `opLen` on, the terminator included (`g_maxOpLen +
1 - opLen`).  The write `opString[opLen] = curCh` is defined below the length of the
string, and at the length when the character is the terminator; `none` is undefined
behaviour.  At the end of the file the peeked character is `(char)EOF`, which no entry
holds at an index inside it, so a match there comes from a read outside an entry and the
write that follows is outside the string.  The result is the string, `opLen`, and the
characters not yet read. -/
def scanOp (oob : Nat → Nat → Char) :
    Nat → List Char → Nat → List Char → Option (List Char × Nat × List Char)
  | _, opString, opLen, [] =>
    if is_op_char oob eofChar opLen then none else some (opString, opLen, [])
  | 0, opString, opLen, ch :: rest =>
    if is_op_char oob ch opLen then none else some (opString, opLen, ch :: rest)
  | room + 1, opString, opLen, ch :: rest =>
    if is_op_char oob ch opLen then
      if opLen < opString.length then scanOp oob room (opString.set opLen ch) (opLen + 1) rest
      else if ch = Char.ofNat 0 then scanOp oob room opString (opLen + 1) rest
      else none
    else some (opString, opLen, ch :: rest)

/-- The loop `while(!is_op_str(opString.substr(0, opLen)))` (`lexer.cpp` 87-91): the
final `opLen`.  The empty string is no entry of the table, so at `opLen = 0` the decrement
wraps around and `substr` yields the whole string for ever after: `none` is a loop that
never ends. -/
def shortenOp (opString : List Char) : Nat → Option Nat
  | 0 => none
  | opLen + 1 =>
    if is_op_str (String.mk (opString.take (opLen + 1))) then some (opLen + 1)
    else shortenOp opString opLen

/-- Function `std::isspace` in the "C" locale, on a `char` below 128. -/
def isspace (ch : Char) : Bool :=
  ch = ' ' ∨ (9 ≤ ch.toNat ∧ ch.toNat ≤ 13)

/-- The local variables of `ps_lex_file` that change in its main loop. -/
structure PSlexState where
  tokens : List PStoken := []
  inComment : Bool := false
  curLine : Nat := 1
  idString : List Char := []
deriving DecidableEq, Repr

/-- The statements after the main loop of `ps_lex_file` (`lexer.cpp` 113-125).  The read
`tokens[tokens.size() - 1]` is outside the vector when there is no token. -/
def lexFinish (s : PSlexState) : PSlexResult :=
  let tokens := try_add_id_token s.idString s.curLine s.tokens
  match tokens.getLast? with
  | none => .undefined
  | some last =>
    if last.type ≠ PStokenType.NEWLINE then
      .tokens (tokens ++ [{ type := PStokenType.NEWLINE, str := "", lineNum := s.curLine }])
    else .tokens tokens

/-- The main loop of `ps_lex_file` (`lexer.cpp` 45-111) on the characters not yet read.
A `char` of 128 or more is negative where `char` is signed, and `std::isspace` is not
defined on it. -/
def lexLoop (oob : Nat → Nat → Char) : Nat → List Char → PSlexState → PSlexResult
  | _, [], s => lexFinish s
  | 0, _ :: _, _ => .outOfFuel
  | fuel + 1, curCh :: rest, s =>
    if curCh = '\n' then
      let tokens := try_add_id_token s.idString s.curLine s.tokens
      let tokens1 :=
        if tokens.length > 1 ∧ (tokens.getLast?.map PStoken.type) ≠ some PStokenType.NEWLINE
        then tokens ++ [{ type := PStokenType.NEWLINE, str := "", lineNum := s.curLine }]
        else tokens
      lexLoop oob fuel rest
        { tokens := tokens1, inComment := false, curLine := (s.curLine + 1) % 4294967296,
          idString := [] }
    else if s.inComment then lexLoop oob fuel rest s
    else if curCh.toNat ≥ 128 then .undefined
    else if isspace curCh then
      lexLoop oob fuel rest
        { s with tokens := try_add_id_token s.idString s.curLine s.tokens, idString := [] }
    else if is_op_char oob curCh 0 then
      let tokens := try_add_id_token s.idString s.curLine s.tokens
      match scanOp oob g_maxOpLen (List.replicate g_maxOpLen curCh) 1 rest with
      | none => .undefined
      | some (opString, opLen, _) =>
        match shortenOp opString opLen with
        | none => .diverges
        | some opLen1 =>
          -- `file.unget()` was called `opLen - opLen1` times
          let rest1 := rest.drop (opLen1 - 1)
          let opString1 := String.mk (opString.take opLen1)
          let opToken : PStoken :=
            { type := PStokenType.OP, str := opString1, lineNum := s.curLine }
          if opString1 = PS_COMMENT then
            lexLoop oob fuel rest1 { s with tokens := tokens, inComment := true, idString := [] }
          else lexLoop oob fuel rest1 { s with tokens := tokens ++ [opToken], idString := [] }
    else lexLoop oob fuel rest { s with idString := s.idString ++ [curCh] }

/-- Function `ps_lex_file` (`lexer.cpp` 21-127) on the contents of the file at `path`,
`none` when the file cannot be opened. -/
def ps_lex_file (oob : Nat → Nat → Char) (file : Option (List Char)) : PSlexResult :=
  match file with
  | none => .tokens []
  | some chars => lexLoop oob chars.length chars {}

/-- Every read outside an entry of the operator table gives the terminator. -/
def oobNul : Nat → Nat → Char := fun _ _ => Char.ofNat 0

/-- The file `x OP y` with a newline at its end. -/
def fileBinary (op : String) : Option (List Char) :=
  some ("x ".toList ++ op.toList ++ " y\n".toList)

/-- The spellings of the precedence table other than the percent sign followed by the
equals sign, with the tag of the same name. -/
def spellingsLexed : List (String × Nat) :=
  [("*", PSopType.MULT), ("/", PSopType.DIV), ("%", PSopType.MOD), ("+", PSopType.ADD),
   ("-", PSopType.SUB), ("=", PSopType.EQUAL), ("*=", PSopType.MULTEQUAL),
   ("/=", PSopType.DIVEQUAL), ("+=", PSopType.ADDEQUAL), ("-=", PSopType.SUBEQUAL),
   ("<", PSopType.LESSTHAN), (">", PSopType.GREATERTHAN), ("<=", PSopType.LESSTHANEQUAL),
   (">=", PSopType.GREATERTHANEQUAL), ("==", PSopType.EQUALITY),
   ("!=", PSopType.NONEQUALITY)]


/-- Whether two NEWLINE tokens stand next to each other in a token stream. -/
def hasAdjacentNewlines : List PStoken → Bool
  | t1 :: t2 :: rest =>
    (t1.type = PStokenType.NEWLINE && t2.type = PStokenType.NEWLINE) ||
      hasAdjacentNewlines (t2 :: rest)
  | _ => false

/-- Whether the last token of a stream is a NEWLINE token. -/
def endsWithNewline (ts : List PStoken) : Bool :=
  ts.getLast?.map PStoken.type = some PStokenType.NEWLINE

/-- An identifier token on the given line. -/
def tokIdAt (s : String) (line : Nat) : PStoken :=
  { type := PStokenType.ID, str := s, lineNum := line }

/-- An operator token on the given line. -/
def tokOpAt (s : String) (line : Nat) : PStoken :=
  { type := PStokenType.OP, str := s, lineNum := line }

/-- A newline token on the given line. -/
def tokNlAt (line : Nat) : PStoken :=
  { type := PStokenType.NEWLINE, str := "", lineNum := line }

/-- A text with runs of line terminators, blank lines and a comment-only line. -/
def textBlankLines : List Char :=
  "x = 1\n\n\n# c\n   \n\ny = 2\n\n".toList


/-- The token stream of the program `print(vec4(1, 2, 3))`. -/
def tokensVec4Three : List PStoken :=
  [tokId "print", tokOp "(", tokId "vec4", tokOp "(", tokId "1", tokOp ",", tokId "2",
   tokOp ",", tokId "3", tokOp ")", tokOp ")", tokNl]


/-- The first two calls of `main` (`main.cpp` 7-9): lex the file, then parse its tokens;
`none` when the lexer does not return. -/
def lexThenParse (oob : Nat → Nat → Char) (stof : String → Option Nat)
    (uninit moves : Nat → Bool)
    (fuel : Nat) (file : Option (List Char)) : Option (Except PSparseFail PSast) :=
  match ps_lex_file oob file with
  | .tokens ts => some (ps_parse_tokens stof uninit moves fuel ts)
  | _ => none

/-- Whether the parser ended with one of its parse errors (it then returns `nullptr`). -/
def isParseError : Option (Except PSparseFail PSast) → Bool
  | some (.error (.error _ _)) => true
  | _ => false

/-- The file `func k \x7b \x7d` with a newline at its end. -/
def fileFuncNamed (k : String) : Option (List Char) :=
  some ("func ".toList ++ k.toList ++ " \x7b \x7d\n".toList)

/-- The AST of a declaration `func k \x7b \x7d`. -/
def astFuncNamed (k : String) : PSast :=
  { parentNodes := [0], nodePool := [kwNode { type := PSkeywordType.FUNC, name := k }] }

/-- The AST of `(a + b) * c`. -/
def astParenSum : PSast :=
  { parentNodes := [4],
    nodePool := [varNode "a", varNode "b", parenNode (opNode PSopType.ADD 0 1), varNode "c",
                 opNode PSopType.MULT 2 3] }

/-- The AST of `f(a, b)`. -/
def astCallAB : PSast :=
  { parentNodes := [2], nodePool := [varNode "a", varNode "b", callNode "f" [0, 1]] }

/-- The AST of `x[0]`. -/
def astIndexZero : PSast :=
  { parentNodes := [1], nodePool := [intNode 0, indexedVarNode "x" 0] }

/-- The AST of `func f \x7b print(1) \x7d`. -/
def astFuncPrint : PSast :=
  { parentNodes := [2],
    nodePool := [intNode 1, callNode "print" [0],
                 kwNode { type := PSkeywordType.FUNC, code := [1], name := "f" }] }


/-- The longest entry of the lexer's operator table that is a prefix of the input, as the
specification words the rule for operators; `none` when no entry is a prefix. -/
def specLongestOp (input : List Char) : Option String :=
  (PS_LEXER_OPERATORS.filter (fun e => e.data.isPrefixOf input)).foldl
    (fun best e =>
      match best with
      | none => some e
      | some b => if b.length < e.length then some e else some b) none

/-- The state of the lexer after the operator `e` has been read: the pending identifier
and the operator token are pushed, or the comment has begun when `e` is the comment sign. -/
def afterOp (s : PSlexState) (e : String) : PSlexState :=
  let tokens := try_add_id_token s.idString s.curLine s.tokens
  if e = PS_COMMENT then { s with tokens := tokens, inComment := true, idString := [] }
  else
    { s with tokens := tokens ++ [{ type := PStokenType.OP, str := e, lineNum := s.curLine }],
             idString := [] }

/-- The text `x <=` followed by a NUL character, `y` and a newline. -/
def textNulAfterLe : List Char := ['x', ' ', '<', '=', Char.ofNat 0, 'y', '\n']

/-- The text `x <` followed by a NUL character, `y` and a newline. -/
def textNulAfterLt : List Char := ['x', ' ', '<', Char.ofNat 0, 'y', '\n']

/-! ## Registries: the value of the last occurrence of a name -/

/-- The value paired with the last occurrence of `name` in a list of named entries
(the reading of "the value of its last occurrence"), `none` when the name does not occur. -/
def lastValue {α : Type} : List (String × α) → String → Option α
  | [], _ => none
  | (k, v) :: rest, name =>
    match lastValue rest name with
    | some w => some w
    | none => if k = name then some v else none

/-- A host registration that overrides `M_PI`, names `G` twice and adds `H`. -/
def constantsExample : List (String × PSdata) :=
  [("G", .INT 1), ("M_PI", .INT 3), ("G", .INT 2), ("H", .INT 7)]

/-! ## Runs of a source text -/

/-- The calls of `main` (`main.cpp` 7-13) on a source text, on an interpreter whose
registries and globals are `env` and `st`: lex the text, parse the tokens, execute the AST.
The result is `none` when the lexer does not return or the parser returns no AST. -/
def runTextFrom (fuel : Nat) (env : PSenv) (st : PSstate) (text : String) :
    Option PSexecuteResult :=
  match lexThenParse oobNul stofNone uninitFalse movesDoubling fuel (some text.toList) with
  | some (.ok ast) => some (ps_execute hostZero fuel env st ast)
  | _ => none

/-- The run of a source text on a fresh interpreter. -/
def runText (fuel : Nat) (text : String) : Option PSexecuteResult :=
  runTextFrom fuel {} {} text

/-- Two runs on one interpreter: the second text is run on the registries and globals the
run of the first one left. -/
def runTextAfter (fuel : Nat) (first second : String) : Option PSexecuteResult :=
  match runText fuel first with
  | some (.returned env st _) => runTextFrom fuel env st second
  | _ => none

/-- The four control flags `g_psInLoop`, `g_psReturnFlag`, `g_psBreakFlag` and
`g_psContinueFlag` (`interpreter.cpp` 116-119). -/
structure PSflags where
  in_loop : Bool
  return_flag : Bool
  break_flag : Bool
  continue_flag : Bool
deriving DecidableEq, Repr

/-- The control flags of the globals. -/
def PSstate.flags (st : PSstate) : PSflags :=
  { in_loop := st.g_psInLoop, return_flag := st.g_psReturnFlag,
    break_flag := st.g_psBreakFlag, continue_flag := st.g_psContinueFlag }

/-- The control flags `ps_execute` leaves when it returns. -/
def PSexecuteResult.flags? (r : PSexecuteResult) : Option PSflags :=
  r.state?.map PSstate.flags

/-- The program `func f \x7b for i in range(0, 3) \x7b ret i \x7d \x7d`, `print(f())`. -/
def textRetInLoop : String :=
  "func f \x7b for i in range(0, 3) \x7b ret i \x7d \x7d\nprint(f())\n"

/-- A function whose loop body prints `i`, returns `i` and prints 8, and that prints 9 after
the loop; the program prints the value of the call. -/
def textRetInLoopTrace : String :=
  "func g \x7b\nfor i in range(0, 3) \x7b\nprint(i)\nret i\nprint(8)\n\x7d\nprint(9)\n\x7d\n" ++
  "x = g()\nprint(x)\n"

/-- The program `x = 0`, `func f(a) \x7b \x7d`, `f(x += 1)`, `print(x)`. -/
def textArgOnce : String :=
  "x = 0\nfunc f(a) \x7b \x7d\nf(x += 1)\nprint(x)\n"

/-- A `for` loop whose body reads an undefined variable. -/
def textErrorInFor : String := "for i in range(0, 1) \x7b y = z \x7d\n"

/-- A function whose `ret` reads an undefined variable, and a call of it. -/
def textErrorInRet : String := "func f \x7b ret z \x7d\nf()\n"

/-- A `break` outside every loop, between an assignment and a `print`. -/
def textBreakOutside : String := "x = 1\nbreak\nprint(x)\n"

/-- Two `print` statements. -/
def textTwoPrints : String := "print(1)\nprint(2)\n"

/-- A program whose last statement is an `if` block without `else`. -/
def textIfLast : String := "if x \x7b y = 1 \x7d\n"

/-- The tokens of `textIfLast`. -/
def tokensIfLast : List PStoken :=
  [tokId "if", tokId "x", tokOp "\x7b", tokId "y", tokOp "=", tokId "1", tokOp "\x7d", tokNl]

/-- A program that leaves the `\x7b` of a function body unclosed. -/
def textUnclosed : String := "func f \x7b y = 1\n"

/-- The tokens of `textUnclosed`. -/
def tokensUnclosed : List PStoken :=
  [tokId "func", tokId "f", tokOp "\x7b", tokId "y", tokOp "=", tokId "1", tokNl]

/-- The program of `textIfLast` followed by one more statement. -/
def textIfThenMore : String := "if x \x7b y = 1 \x7d\nz = 2\n"

/-! ## Reading a variable back -/

/-- The plain assignment of `val` to the variable node `var` (`_ps_equal`) followed by the
evaluation of the identifier node `ident` with the vectors and globals the assignment left:
the value read, `none` when one of the two steps ends without a value. -/
def readBack (env : PSenv) (ast : PSast) (fuel : Nat) (var : PSnode) (val : PSdata)
    (ident : PSnode) (st : PSstate) : Option PSdata :=
  match _ps_equal (_ps_evaluate_statement env ast fuel) ast var val [] [] st with
  | .ok r =>
    match _ps_evaluate_statement env ast (fuel + 1) ident r.addedFuncs r.addedVars r.st with
    | .ok r2 => some r2.val
    | .error _ => none
  | .error _ => none

/-! ## Expression trees: the precedence invariant and the in-order listing -/

/-- The precedence invariant of one operator node, in the words of the specification: its
right child, when that is an operator node not flagged `inParens`, has a strictly smaller
precedence value; its left child, when that is an operator node not flagged `inParens`, has
a precedence value that is smaller or equal. -/
def specChildrenOK (pool : List PSnode) (n : PSnode) : Bool :=
  (match pool[n.op.right]? with
   | some c =>
     if c.type = PSnodeType.OP ∧ c.op.inParens = false then
       decide (_ps_precedence c.op.type < _ps_precedence n.op.type)
     else true
   | none => false) &&
  (match pool[n.op.left]? with
   | some c =>
     if c.type = PSnodeType.OP ∧ c.op.inParens = false then
       decide (_ps_precedence c.op.type ≤ _ps_precedence n.op.type)
     else true
   | none => false)

/-- The precedence invariant of the specification for every operator node of the binary
tree below the handle `h` (a node of another type is a leaf); `false` as well when a
handle lies outside the pool or the tree is deeper than `fuel`. -/
def specPrecedenceOK (pool : List PSnode) : Nat → PSnodeHandle → Bool
  | 0, _ => false
  | fuel + 1, h =>
    match pool[h]? with
    | none => false
    | some n =>
      if n.type = PSnodeType.OP then
        specChildrenOK pool n && specPrecedenceOK pool fuel n.op.left &&
          specPrecedenceOK pool fuel n.op.right
      else true

/-- The in-order listing of the binary tree below the handle `h`: for an operator node the
listing of its left child, the node, the listing of its right child; a node of another
type is a leaf.  `none` when a handle lies outside the pool or the tree is deeper than
`fuel`. -/
def specInOrder (pool : List PSnode) : Nat → PSnodeHandle → Option (List PSnodeHandle)
  | 0, _ => none
  | fuel + 1, h =>
    match pool[h]? with
    | none => none
    | some n =>
      if n.type = PSnodeType.OP then
        match specInOrder pool fuel n.op.left, specInOrder pool fuel n.op.right with
        | some l, some r => some (l ++ [h] ++ r)
        | _, _ => none
      else some [h]

/-- How a leaf or an operator of a chain is spelled in the source, for the nodes of a chain
of variables and the operators `=`, `+`, `-`, `*`. -/
def spelling (n : PSnode) : String :=
  if n.type = PSnodeType.OP then
    if n.op.type = PSopType.EQUAL then "="
    else if n.op.type = PSopType.ADD then "+"
    else if n.op.type = PSopType.SUB then "-"
    else if n.op.type = PSopType.MULT then "*"
    else "?"
  else if n.type = PSnodeType.ID then n.id.name
  else "?"

/-- The spellings of the in-order listing of the tree below the last top-level statement
of an AST. -/
def inOrderSpellings (fuel : Nat) (ast : PSast) : Option (List String) :=
  match ast.parentNodes.getLast? with
  | none => none
  | some h =>
    (specInOrder ast.nodePool fuel h).map
      (fun hs => hs.map (fun i => (ast.nodePool[i]?.map spelling).getD "?"))

/-- The AST of `a * -b`: the operand `-b` is the node `SUB(-1, b)`. -/
def astMulMinus : PSast :=
  { parentNodes := [4],
    nodePool := [varNode "a", intNode (-1), varNode "b", opNode PSopType.SUB 1 2,
                 opNode PSopType.MULT 0 3] }

/-- The AST of `-a * b`. -/
def astMinusMul : PSast :=
  { parentNodes := [4],
    nodePool := [intNode (-1), varNode "a", opNode PSopType.SUB 0 1, varNode "b",
                 opNode PSopType.MULT 2 3] }

/-- The AST of `x = a + b * c`. -/
def astAssignChain : PSast :=
  { parentNodes := [6],
    nodePool := [varNode "x", varNode "a", varNode "b", opNode PSopType.ADD 1 5, varNode "c",
                 opNode PSopType.MULT 2 4, opNode PSopType.EQUAL 0 3] }

/-- The chain `x = a + b * c` after one earlier statement. -/
def textChainSecond : String := "p = 1\nx = a + b * c\n"

/-- The tokens of `textChainSecond`. -/
def tokensChainSecond : List PStoken :=
  [tokIdAt "p" 1, tokOpAt "=" 1, tokIdAt "1" 1, tokNlAt 1,
   tokIdAt "x" 2, tokOpAt "=" 2, tokIdAt "a" 2, tokOpAt "+" 2, tokIdAt "b" 2, tokOpAt "*" 2,
   tokIdAt "c" 2, tokNlAt 2]

/-! ## Operator chains: listings and invariants as propositions -/

/-- The in-order listing of the binary tree below the handle `h`, as a relation: a node
that is no operator is a leaf and lists itself; an operator node lists its left child,
itself, its right child. -/
inductive InOrder (pool : List PSnode) : PSnodeHandle → List PSnodeHandle → Prop where
  | leaf {h : PSnodeHandle} {n : PSnode} :
      pool[h]? = some n → n.type ≠ PSnodeType.OP → InOrder pool h [h]
  | op {h : PSnodeHandle} {n : PSnode} {l r : List PSnodeHandle} :
      pool[h]? = some n → n.type = PSnodeType.OP →
      InOrder pool n.op.left l → InOrder pool n.op.right r → InOrder pool h (l ++ h :: r)

/-- The precedence invariant of one operator node, as a proposition: a right child that is
an operator node not flagged `inParens` has a strictly smaller precedence value, a left
child that is one has a precedence value that is smaller or equal. -/
def ChildrenOK (pool : List PSnode) (n : PSnode) : Prop :=
  (∀ c, pool[n.op.right]? = some c → c.type = PSnodeType.OP → c.op.inParens = false →
    _ps_precedence c.op.type < _ps_precedence n.op.type) ∧
  (∀ c, pool[n.op.left]? = some c → c.type = PSnodeType.OP → c.op.inParens = false →
    _ps_precedence c.op.type ≤ _ps_precedence n.op.type)

/-- What a chain is made of: an operand, named by its handle, or an operator, named by
its tag. -/
inductive ChainItem where
  | operand (h : PSnodeHandle)
  | operator (tag : Nat)
deriving DecidableEq, Repr

/-- The item a node of a listing stands for: its operator tag for an operator node, its
handle for a leaf. -/
def chainItem (pool : List PSnode) (h : PSnodeHandle) : ChainItem :=
  match pool[h]? with
  | some n => if n.type = PSnodeType.OP then .operator n.op.type else .operand h
  | none => .operand h

/-- The items of a chain in source order: the first operand, then every operator with the
operand that follows it. -/
def chainItems (first : PSnodeHandle) (rest : List (Nat × PSnodeHandle)) : List ChainItem :=
  .operand first :: rest.flatMap (fun it => [.operator it.1, .operand it.2])

/-- The second pool holds, at every handle of the first, a node of the same type, operator
tag and `inParens` flag. -/
def SameShape (pool pool2 : List PSnode) : Prop :=
  ∀ (j : Nat) (n : PSnode), pool[j]? = some n → ∃ n2, pool2[j]? = some n2 ∧ n2.type = n.type ∧
    n2.op.type = n.op.type ∧ n2.op.inParens = n.op.inParens

/-- The state of the operator loop: the local top operator `opNode`, the listings `hl` and
`hr` of its two children, which share no node, and the precedence invariant for the top
and for every operator node of the two listings. -/
structure ChainInv (pool : List PSnode) (opNode : PSnode) (hl hr : List PSnodeHandle) :
    Prop where
  top : opNode.type = PSnodeType.OP
  left : InOrder pool opNode.op.left hl
  right : InOrder pool opNode.op.right hr
  nodup : (hl ++ hr).Nodup
  prec : ∀ h ∈ hl ++ hr, ∀ n, pool[h]? = some n → n.type = PSnodeType.OP → ChildrenOK pool n
  precTop : ChildrenOK pool opNode

/-- The operator loop (`parser.cpp` 523-554) with a record of what it reads: the tag of
every operator and the handle of the operand that follows it, in the order of the source.
Apart from the record it is `parseOps`. -/
def parseOpsTrace (stof : String → Option Nat) (uninit moves : Nat → Bool)
    (stmt : PSparseState → Except PSparseFail (PSnodeHandle × PSparseState))
    (fuel : Nat) (tokens : List PStoken) :
    Nat → PSnode → PSparseState →
      Except PSparseFail (List (Nat × PSnodeHandle) × PSnode × PSparseState)
  | 0, _, _ => .error .outOfFuel
  | n + 1, opNode, st =>
    if st.curTokenIdx < tokens.length then do
      let t ← tokenAt tokens st.curTokenIdx
      if isStatementEnd t then pure ([], opNode, st)
      else
        let (newOp, st1) ← _ps_get_op_node uninit tokens st
        let (right, st2) ← _ps_parse_non_op stof uninit stmt fuel tokens st1
        let (opNode1, st3) ← insertOp moves opNode newOp right st2
        let (items, r) ← parseOpsTrace stof uninit moves stmt fuel tokens n opNode1 st3
        pure ((newOp.op.type, right) :: items, r)
    else pure ([], opNode, st)
/-- Whether the pool holds at `h` a node that is no operator node (an identifier, call,
number or keyword node): a leaf of an expression tree. -/
def isLeafAt (pool : List PSnode) (h : PSnodeHandle) : Bool :=
  match pool[h]? with
  | some n => decide (n.type ≠ PSnodeType.OP)
  | none => false

/-- The token stream of `x = a + b * c`. -/
def tokensAssignChain : List PStoken :=
  [tokId "x", tokOp "=", tokId "a", tokOp "+", tokId "b", tokOp "*", tokId "c", tokNl]

/-! ## Theorems: serializer -/

theorem length_leBytes (w n : Nat) : (leBytes w n).length = w := by
  induction w generalizing n with
  | zero => rfl
  | succ w ih => simp [leBytes, ih]

theorem ofLeBytes_leBytes (w n : Nat) : ofLeBytes (leBytes w n) = n % 256 ^ w := by
  induction w generalizing n with
  | zero => simp [leBytes, ofLeBytes, Nat.mod_one]
  | succ w ih =>
    simp only [leBytes, ofLeBytes, ih]
    rw [pow_succ, Nat.mul_comm (256 ^ w) 256, Nat.mod_mul, Nat.add_comm]

theorem readBytes_append (l rest : List Nat) :
    readBytes l.length (l ++ rest) = some (l, rest) := by
  simp [readBytes]

theorem readBytes_append_of_length (k : Nat) (l rest : List Nat) (h : l.length = k) :
    readBytes k (l ++ rest) = some (l, rest) := by
  subst h; exact readBytes_append l rest

theorem readLe_leBytes (w n : Nat) (rest : List Nat) (h : n < 256 ^ w) :
    readLe w (leBytes w n ++ rest) = some (n, rest) := by
  simp [readLe, readBytes_append_of_length w _ rest (length_leBytes w n), ofLeBytes_leBytes,
    Nat.mod_eq_of_lt h]

theorem readLe4 (n : Nat) (rest : List Nat) (h : n < 4294967296) :
    readLe 4 (leBytes 4 n ++ rest) = some (n, rest) :=
  readLe_leBytes 4 n rest (by norm_num; exact h)

theorem readLe8 (n : Nat) (rest : List Nat) (h : n < 18446744073709551616) :
    readLe 8 (leBytes 8 n ++ rest) = some (n, rest) :=
  readLe_leBytes 8 n rest (by norm_num; exact h)

theorem readBool_boolByte (b : Bool) (rest : List Nat) :
    readBool (boolByte b :: rest) = some (b, rest) := by
  cases b <;> simp [readBool, readLe, readBytes, boolByte, ofLeBytes]

theorem readI32_i32Bytes (i : Int) (rest : List Nat)
    (h1 : -2147483648 ≤ i) (h2 : i < 2147483648) :
    readI32 (i32Bytes i ++ rest) = some (i, rest) := by
  unfold readI32 i32Bytes
  have hlt : (i % 4294967296).toNat < 4294967296 := by omega
  rw [readLe4 _ _ hlt]
  simp only [Option.some.injEq, Prod.mk.injEq, and_true]
  split_ifs with h <;> omega

theorem readHandles_handleBytes (l : List PSnodeHandle) (rest : List Nat)
    (h : handlesFit l) :
    readHandles l.length (handleBytes l ++ rest) = some (l, rest) := by
  induction l with
  | nil => simp [readHandles, handleBytes]
  | cons a l ih =>
    have ha : a < 4294967296 := h a (List.mem_cons_self _ _)
    have hl : handlesFit l := fun x hx => h x (List.mem_cons_of_mem _ hx)
    have ih2 := ih hl
    simp only [handleBytes] at ih2
    simp only [handleBytes, List.map_cons, List.flatten_cons, List.append_assoc,
      List.length_cons, readHandles, readLe4 a _ ha, ih2]

theorem length_strBytes (s : String) : (strBytes s).length = s.length := by
  show (s.data.map _).length = s.data.length
  exact List.length_map _ _

theorem readStr_strBytes (s : String) (rest : List Nat) (h : strFits s) :
    readStr s.length (strBytes s ++ rest) = some (s, rest) := by
  unfold readStr
  rw [readBytes_append_of_length _ _ _ (length_strBytes s)]
  simp only [Option.some.injEq, Prod.mk.injEq, and_true]
  cases s with
  | mk data =>
    congr 1
    simp only [strBytes, List.map_map]
    have : ∀ l : List Char, (∀ c ∈ l, c.toNat < 256) →
        l.map (Char.ofNat ∘ fun c => c.toNat % 256) = l := by
      intro l hl
      induction l with
      | nil => rfl
      | cons c l ih =>
        simp only [List.map_cons, Function.comp]
        rw [ih (fun x hx => hl x (List.mem_cons_of_mem _ hx))]
        have hc := hl c (List.mem_cons_self _ _)
        rw [Nat.mod_eq_of_lt hc, Char.ofNat_toNat]
    exact this data h

theorem readParamNames_saveParamNames (ps : List String) (rest : List Nat)
    (h : ∀ p ∈ ps, p.length < 18446744073709551616 ∧ strFits p) :
    readParamNames ps.length (saveParamNames ps ++ rest) = some (ps, rest) := by
  induction ps with
  | nil => simp [readParamNames, saveParamNames]
  | cons p ps ih =>
    have hp := h p (List.mem_cons_self _ _)
    have ih2 := ih (fun x hx => h x (List.mem_cons_of_mem _ hx))
    simp only [saveParamNames, List.append_assoc, List.length_cons, readParamNames,
      readLe8 _ _ hp.1, readStr_strBytes _ _ hp.2, ih2]

theorem loadOp_save (op : PSnode.OP) (rest : List Nat)
    (h : op.type < 4294967296 ∧ op.left < 4294967296 ∧ op.right < 4294967296) :
    loadOp ((leBytes 4 op.type ++ leBytes 4 op.left ++ leBytes 4 op.right ++
      [boolByte op.inParens, 0, 0, 0]) ++ leBytes 4 op.left ++ leBytes 4 op.right ++ rest)
      = some (op, rest) := by
  obtain ⟨h1, h2, h3⟩ := h
  simp only [loadOp, List.append_assoc, readLe4 _ _ h1, readLe4 _ _ h2, readLe4 _ _ h3,
    List.cons_append, List.nil_append, readBool_boolByte, Option.bind_eq_bind,
    Option.some_bind, Option.pure_def]
  have : readBytes 3 (0 :: 0 :: 0 :: (leBytes 4 op.left ++ (leBytes 4 op.right ++ rest)))
      = some ([0, 0, 0], leBytes 4 op.left ++ (leBytes 4 op.right ++ rest)) := by
    simp [readBytes]
  simp only [this, Option.some_bind, readLe4 _ _ h2, readLe4 _ _ h3]

theorem loadKeyword_save (kw : PSnode.Keyword) (rest : List Nat)
    (h : kw.type < 4294967296 ∧
      kw.code.length < 18446744073709551616 ∧ handlesFit kw.code ∧
      kw.condition < 4294967296 ∧
      kw.elseCode.length < 18446744073709551616 ∧ handlesFit kw.elseCode ∧
      kw.name.length < 18446744073709551616 ∧ strFits kw.name ∧
      kw.paramNames.length < 18446744073709551616 ∧
      (∀ p ∈ kw.paramNames, p.length < 18446744073709551616 ∧ strFits p) ∧
      kw.returnVal < 4294967296) :
    loadKeyword (leBytes 4 kw.type ++
      leBytes 8 kw.code.length ++ handleBytes kw.code ++
      leBytes 4 kw.condition ++
      [boolByte kw.hasElse] ++
      leBytes 8 kw.elseCode.length ++ handleBytes kw.elseCode ++
      leBytes 8 kw.name.length ++ strBytes kw.name ++
      leBytes 8 kw.paramNames.length ++ saveParamNames kw.paramNames ++
      leBytes 4 kw.returnVal ++ rest) = some (kw, rest) := by
  obtain ⟨h1, h2, h3, h4, h5, h6, h7, h8, h9, h10, h11⟩ := h
  simp only [loadKeyword, List.append_assoc, readLe4 _ _ h1, readLe8 _ _ h2,
    readHandles_handleBytes _ _ h3, readLe4 _ _ h4, List.cons_append, List.nil_append,
    readBool_boolByte, readLe8 _ _ h5, readHandles_handleBytes _ _ h6, readLe8 _ _ h7,
    readStr_strBytes _ _ h8, readLe8 _ _ h9, readParamNames_saveParamNames _ _ h10,
    readLe4 _ _ h11, Option.bind_eq_bind, Option.some_bind, Option.pure_def]

theorem loadId_save (i : PSnode.ID) (rest : List Nat)
    (h : i.type < 4294967296 ∧
      i.name.length < 18446744073709551616 ∧ strFits i.name ∧
      i.params.length < 18446744073709551616 ∧ handlesFit i.params) :
    loadId (leBytes 4 i.type ++
      leBytes 8 i.name.length ++ strBytes i.name ++
      leBytes 8 i.params.length ++ handleBytes i.params ++ rest) = some (i, rest) := by
  obtain ⟨h1, h2, h3, h4, h5⟩ := h
  simp only [loadId, List.append_assoc, readLe4 _ _ h1, readLe8 _ _ h2,
    readStr_strBytes _ _ h3, readLe8 _ _ h4, readHandles_handleBytes _ _ h5,
    Option.bind_eq_bind, Option.some_bind, Option.pure_def]

theorem loadLiteral_save (l : PSnode.Literal) (rest : List Nat)
    (h : l.type < 4294967296 ∧ -2147483648 ≤ l.intNum ∧ l.intNum < 2147483648 ∧
      l.floatNum < 4294967296) :
    loadLiteral (leBytes 4 l.type ++ i32Bytes l.intNum ++ leBytes 4 l.floatNum ++ rest)
      = some (l, rest) := by
  obtain ⟨h1, h2, h3, h4⟩ := h
  simp only [loadLiteral, List.append_assoc, readLe4 _ _ h1, readI32_i32Bytes _ _ h2 h3,
    readLe4 _ _ h4, Option.bind_eq_bind, Option.some_bind, Option.pure_def]

theorem loadNode_saveNode (node : PSnode) (rest : List Nat) (h : node.Fits) :
    loadNode (saveNode node ++ rest) = some (node.stored, rest) := by
  obtain ⟨h1, h2, hop, hkw, hid, hlit⟩ := h
  unfold saveNode loadNode PSnode.stored
  simp only [List.append_assoc, readLe4 _ _ h1, readLe4 _ _ h2, Option.bind_eq_bind,
    Option.some_bind]
  by_cases c1 : node.type = PSnodeType.OP
  · have := loadOp_save node.op rest (hop c1)
    simp only [List.append_assoc] at this
    simp only [if_pos c1, List.append_assoc, this, Option.some_bind, Option.pure_def]
  · by_cases c2 : node.type = PSnodeType.KEYWORD
    · have := loadKeyword_save node.keyword rest (hkw c2)
      simp only [List.append_assoc] at this
      simp only [if_neg c1, if_pos c2, List.append_assoc, this, Option.some_bind,
        Option.pure_def]
    · by_cases c3 : node.type = PSnodeType.ID
      · have := loadId_save node.id rest (hid c3)
        simp only [List.append_assoc] at this
        simp only [if_neg c1, if_neg c2, if_pos c3, List.append_assoc, this,
          Option.some_bind, Option.pure_def]
      · by_cases c4 : node.type = PSnodeType.NUMBER
        · have := loadLiteral_save node.literal rest (hlit c4)
          simp only [List.append_assoc] at this
          simp only [if_neg c1, if_neg c2, if_neg c3, if_pos c4, List.append_assoc, this,
            Option.some_bind, Option.pure_def]
        · simp only [if_neg c1, if_neg c2, if_neg c3, if_neg c4, List.nil_append,
            Option.pure_def]

theorem loadNodes_saveNodes (pool : List PSnode) (rest : List Nat)
    (h : ∀ node ∈ pool, node.Fits) :
    loadNodes pool.length (saveNodes pool ++ rest) = some (pool.map PSnode.stored, rest) := by
  induction pool with
  | nil => simp [loadNodes, saveNodes]
  | cons a pool ih =>
    have ha := h a (List.mem_cons_self _ _)
    have ih2 := ih (fun x hx => h x (List.mem_cons_of_mem _ hx))
    simp only [saveNodes, List.append_assoc, List.length_cons, loadNodes,
      loadNode_saveNode _ _ ha, ih2, List.map_cons]

theorem ps_load_ast_save (ast : PSast) (h : ast.Fits) :
    ps_load_ast (ps_save_ast ast)
      = some { parentNodes := ast.parentNodes, nodePool := ast.nodePool.map PSnode.stored } := by
  obtain ⟨h1, h2, h3, h4⟩ := h
  have := loadNodes_saveNodes ast.nodePool [] h4
  simp only [List.append_nil] at this
  simp only [ps_load_ast, ps_save_ast, List.append_assoc, readLe8 _ _ h1,
    readHandles_handleBytes _ _ h2, readLe8 _ _ h3, this, Option.bind_eq_bind,
    Option.some_bind, Option.pure_def]

theorem PSnode.sameVariant_stored (a : PSnode) : a.SameVariant a.stored := by
  unfold PSnode.SameVariant PSnode.stored
  by_cases c1 : a.type = PSnodeType.OP
  · rw [if_pos c1]
    refine ⟨rfl, rfl, fun _ => rfl, ?_, ?_, ?_⟩ <;> intro c <;> rw [c1] at c <;> cases c
  · by_cases c2 : a.type = PSnodeType.KEYWORD
    · rw [if_neg c1, if_pos c2]
      refine ⟨rfl, rfl, ?_, fun _ => rfl, ?_, ?_⟩ <;> intro c <;> rw [c2] at c <;> cases c
    · by_cases c3 : a.type = PSnodeType.ID
      · rw [if_neg c1, if_neg c2, if_pos c3]
        refine ⟨rfl, rfl, ?_, ?_, fun _ => rfl, ?_⟩ <;> intro c <;> rw [c3] at c <;> cases c
      · by_cases c4 : a.type = PSnodeType.NUMBER
        · rw [if_neg c1, if_neg c2, if_neg c3, if_pos c4]
          refine ⟨rfl, rfl, ?_, ?_, ?_, fun _ => rfl⟩ <;> intro c <;> rw [c4] at c <;> cases c
        · rw [if_neg c1, if_neg c2, if_neg c3, if_neg c4]
          exact ⟨rfl, rfl, fun c => absurd c c1, fun c => absurd c c2, fun c => absurd c c3,
            fun c => absurd c c4⟩

/-- C1. Serializer round trip: loading the bytes written by `ps_save_ast` for an AST whose
members hold values of their C++ types succeeds and yields an AST with the same parent
list and a pool of the same length, in which every node has the type tag, the line number
and the part selected by its tag (operator, keyword, identifier or literal part, with all
their members) of the node saved at the same index. -/
theorem ps_load_save_roundtrip (ast : PSast) (h : ast.Fits) :
    ∃ loaded : PSast, ps_load_ast (ps_save_ast ast) = some loaded ∧
      loaded.parentNodes = ast.parentNodes ∧
      loaded.nodePool.length = ast.nodePool.length ∧
      ∀ i : Nat, ∀ a ∈ ast.nodePool[i]?, ∃ b ∈ loaded.nodePool[i]?, a.SameVariant b := by
  refine ⟨_, ps_load_ast_save ast h, rfl, by simp, ?_⟩
  intro i a ha
  refine ⟨a.stored, ?_, a.sameVariant_stored⟩
  simp only [Option.mem_def] at ha ⊢
  simp [List.getElem?_map, ha]

theorem roundtripExample_fits : roundtripExample.Fits := by
  simp [PSast.Fits, PSnode.Fits, handlesFit, strFits, roundtripExample]
  decide

/-- Witness of C1 on an AST with one node of each kind. -/
theorem ps_load_save_roundtrip_witness :
    roundtripExample.Fits ∧
    ∃ loaded : PSast, ps_load_ast (ps_save_ast roundtripExample) = some loaded ∧
      loaded.parentNodes = roundtripExample.parentNodes ∧
      loaded.nodePool.length = roundtripExample.nodePool.length ∧
      ∀ i : Nat, ∀ a ∈ roundtripExample.nodePool[i]?, ∃ b ∈ loaded.nodePool[i]?,
        a.SameVariant b :=
  ⟨roundtripExample_fits, ps_load_save_roundtrip roundtripExample roundtripExample_fits⟩

/-! ## Theorems: parser -/

theorem u32_of_lt {n : Nat} (h : n < 4294967296) : u32 n = n := Nat.mod_eq_of_lt h

@[simp] theorem add_node_cur (st : PSparseState) (n : PSnode) :
    (_ps_add_node st n).2.curTokenIdx = st.curTokenIdx := rfl

@[simp] theorem add_node_parens (st : PSparseState) (n : PSnode) :
    (_ps_add_node st n).2.numOpenParens = st.numOpenParens := rfl

@[simp] theorem add_node_pool (st : PSparseState) (n : PSnode) :
    (_ps_add_node st n).2.ast.nodePool = st.ast.nodePool ++ [n] := rfl

@[simp] theorem add_node_parents (st : PSparseState) (n : PSnode) :
    (_ps_add_node st n).2.ast.parentNodes = st.ast.parentNodes := rfl

@[simp] theorem add_node_handle (st : PSparseState) (n : PSnode) :
    (_ps_add_node st n).1 = u32 st.ast.nodePool.length := rfl

theorem tokenAt_ok {tokens : List PStoken} {i : Nat} {t : PStoken}
    (h : tokenAt tokens i = .ok t) : tokens[i]? = some t ∧ i < tokens.length := by
  unfold tokenAt at h
  cases hh : tokens[i]? with
  | none => rw [hh] at h; cases h
  | some t2 =>
    rw [hh] at h
    cases h
    exact ⟨rfl, (List.getElem?_eq_some_iff.mp hh).1⟩

theorem lookup_op_not_end {s : String} {ty : Nat}
    (h : PS_STRING_TO_OP_TYPE.lookup s = some ty) :
    s ≠ "\x7b" ∧ s ∉ PS_CLOSED_SEPERATORS := by
  have e1 : PS_STRING_TO_OP_TYPE.lookup "\x7b" = none := by decide
  have e2 : PS_STRING_TO_OP_TYPE.lookup ")" = none := by decide
  have e3 : PS_STRING_TO_OP_TYPE.lookup "\x7d" = none := by decide
  have e4 : PS_STRING_TO_OP_TYPE.lookup "]" = none := by decide
  have e5 : PS_STRING_TO_OP_TYPE.lookup "," = none := by decide
  refine ⟨?_, ?_⟩
  · rintro rfl
    rw [e1] at h; cases h
  · intro hm
    simp only [PS_CLOSED_SEPERATORS, List.mem_cons, List.mem_singleton, List.not_mem_nil,
      or_false] at hm
    rcases hm with rfl | rfl | rfl | rfl
    · rw [e2] at h; cases h
    · rw [e3] at h; cases h
    · rw [e4] at h; cases h
    · rw [e5] at h; cases h

/-- What a successful `_ps_get_op_node` says about the token under the cursor. -/
theorem get_op_node_ok {uninit : Nat → Bool} {tokens : List PStoken} {st st1 : PSparseState} {n : PSnode}
    (h : _ps_get_op_node uninit tokens st = .ok (n, st1)) :
    ∃ t, tokenAt tokens st.curTokenIdx = .ok t ∧ isStatementEnd t = false ∧
      n.type = PSnodeType.OP ∧ st1.ast = st.ast ∧
      n.op.inParens = uninit (2 * st.curTokenIdx) ∧ n.op.left = 0 ∧ n.op.right = 0 := by
  unfold _ps_get_op_node at h
  cases ht : tokenAt tokens st.curTokenIdx with
  | error e => rw [ht] at h; cases h
  | ok t =>
    rw [ht] at h
    simp only [bind, Except.bind, ne_eq, ite_not] at h
    by_cases hty : t.type = PStokenType.OP
    · rw [if_pos hty] at h
      cases hl : PS_STRING_TO_OP_TYPE.lookup t.str with
      | none => rw [hl] at h; cases h
      | some ty =>
        rw [hl] at h
        simp only at h
        cases hc : _ps_continue_statement tokens (st.advance 1) with
        | error e => rw [hc] at h; cases h
        | ok st2 =>
          rw [hc] at h
          simp only [pure, Except.pure, Except.ok.injEq, Prod.mk.injEq] at h
          obtain ⟨hn, hst⟩ := h
          refine ⟨t, rfl, ?_, ?_, ?_, ?_, ?_, ?_⟩
          · have := lookup_op_not_end hl
            simp [isStatementEnd, hty, this.1, this.2]
          · rw [← hn]
          rotate_left
          · rw [← hn]
          · rw [← hn]
          · rw [← hn]
          · rw [← hst]
            unfold _ps_continue_statement at hc
            cases ht2 : tokenAt tokens (st.advance 1).curTokenIdx with
            | error e => rw [ht2] at hc; cases hc
            | ok t2 =>
              rw [ht2] at hc
              simp only [bind, Except.bind] at hc
              split at hc
              · split at hc
                · cases hp : tokenAt tokens (u32 (((st.advance 1).advance 1).curTokenIdx + 4294967295)) with
                  | error e => rw [hp] at hc; cases hc
                  | ok p => rw [hp] at hc; cases hc
                · cases hc; rfl
              · cases hc; rfl
    · rw [if_neg hty] at h; cases h
theorem not_keyword {t : PStoken} (hk : t.str ∉ statementKeywords) :
    ¬ (t.str = "if" ∨ t.str = "for") ∧ t.str ≠ "func" ∧ t.str ≠ "ret" ∧
      ¬ (t.str = "break" ∨ t.str = "continue") := by
  simp only [statementKeywords, List.mem_cons, List.mem_singleton, List.not_mem_nil,
    or_false, not_or] at hk
  obtain ⟨h1, h2, h3, h4, h5, h6⟩ := hk
  exact ⟨by simp [h1, h2], h3, h4, by simp [h5, h6]⟩

/-- The expression branch of `_ps_parse_statement`: when the first token is no statement
keyword, the first operand is parsed; if an operator follows, the second operand and the
operator loop follow. -/
theorem parse_statement_expr {stof : String → Option Nat} {uninit moves : Nat → Bool} {tokens : List PStoken}
    {fuel : Nat} {st0 s1 s1' s2 : PSparseState} {a b : PSnodeHandle} {n1 : PSnode}
    {t0 : PStoken}
    (h0 : tokenAt tokens st0.curTokenIdx = .ok t0) (hk : t0.str ∉ statementKeywords)
    (ha : parseOperand stof uninit moves tokens fuel st0 = .ok (a, s1))
    (hop1 : _ps_get_op_node uninit tokens s1 = .ok (n1, s1'))
    (hb : parseOperand stof uninit moves tokens fuel s1' = .ok (b, s2)) :
    _ps_parse_statement stof uninit moves tokens (fuel + 1) st0 =
      (parseOps stof uninit moves (_ps_parse_statement stof uninit moves tokens fuel) fuel tokens fuel
        (n1.asTop a b) s2).bind (fun r => .ok (_ps_add_node r.2 r.1)) := by
  obtain ⟨t1, ht1, hne1, -, -, -, -, -⟩ := get_op_node_ok hop1
  obtain ⟨k1, k2, k3, k4⟩ := not_keyword hk
  unfold parseOperand at ha hb
  have e : ({ n1 with op := { n1.op with inParens := false, left := a, right := b } } : PSnode)
      = n1.asTop a b := rfl
  rw [_ps_parse_statement, parseStatementBody]
  simp only [h0, bind, Except.bind, if_neg k1, if_neg k2, if_neg k3, if_neg k4, ha, ht1, hne1,
    hop1, hb, Bool.false_eq_true, if_false, e, pure, Except.pure]

/-- One turn of the operator loop: an operator and an operand are read and inserted. -/
theorem parseOps_step {stof : String → Option Nat} {uninit moves : Nat → Bool} {tokens : List PStoken}
    {fuel n : Nat} {s s' s2 : PSparseState} {c : PSnodeHandle} {newOp opNode : PSnode}
    (hop : _ps_get_op_node uninit tokens s = .ok (newOp, s'))
    (hc : parseOperand stof uninit moves tokens fuel s' = .ok (c, s2)) :
    parseOps stof uninit moves (_ps_parse_statement stof uninit moves tokens fuel) fuel tokens (n + 1) opNode s =
      (insertOp moves opNode newOp c s2).bind (fun r =>
        parseOps stof uninit moves (_ps_parse_statement stof uninit moves tokens fuel) fuel tokens n r.1 r.2) := by
  obtain ⟨t1, ht1, hne1, -, -, -, -, -⟩ := get_op_node_ok hop
  have hlt := (tokenAt_ok ht1).2
  unfold parseOperand at hc
  rw [parseOps]
  simp only [if_pos hlt, ht1, bind, Except.bind, hne1, Bool.false_eq_true, if_false, hop, hc]

/-- The operator loop stops at a statement end. -/
theorem parseOps_end {stof : String → Option Nat} {uninit moves : Nat → Bool} {tokens : List PStoken}
    {fuel n : Nat} {s : PSparseState} {opNode : PSnode} {tEnd : PStoken}
    (hend : tokenAt tokens s.curTokenIdx = .ok tEnd) (hend2 : isStatementEnd tEnd = true) :
    parseOps stof uninit moves (_ps_parse_statement stof uninit moves tokens fuel) fuel tokens (n + 1) opNode s =
      .ok (opNode, s) := by
  have hlt := (tokenAt_ok hend).2
  rw [parseOps]
  simp only [if_pos hlt, hend, bind, Except.bind, hend2, if_true, pure, Except.pure]

/-- Insertion of an operator whose precedence value is not below that of the running top:
the old top is pushed and becomes the left child of the new top. -/
theorem insertOp_wrap {moves : Nat → Bool} {opNode newOp : PSnode} {right : PSnodeHandle} {st : PSparseState}
    (h : _ps_precedence newOp.op.type ≥ _ps_precedence opNode.op.type) :
    insertOp moves opNode newOp right st =
      .ok (newOp.withChildren (u32 st.ast.nodePool.length) right,
           (_ps_add_node st opNode).2) := by
  unfold insertOp
  rw [if_pos h]
  rfl

theorem isOp_append_left {pool : List PSnode} {h ty l r : Nat} (n : PSnode)
    (hop : IsOp pool h ty l r) : IsOp (pool ++ [n]) h ty l r := by
  obtain ⟨m, hm, rest⟩ := hop
  refine ⟨m, ?_, rest⟩
  have hlt : h < pool.length := (List.getElem?_eq_some_iff.mp hm).1
  rw [List.getElem?_append_left hlt]
  exact hm

theorem isOp_append_last (pool : List PSnode) (n : PSnode) (hn : n.type = PSnodeType.OP) :
    IsOp (pool ++ [n]) pool.length n.op.type n.op.left n.op.right := by
  refine ⟨n, ?_, hn, rfl, rfl, rfl⟩
  simp

/-- C3. Left associativity: when an expression is made of three operands `a`, `b`, `c`
separated by two operators of the same precedence bucket (tag / 10 equal) and is followed
by a statement end, `_ps_parse_statement` succeeds and returns a node `op2(op1(a, b), c)`;
and with `a`, `b`, `c` variables holding the ints `va`, `vb`, `vc`, the tree parsed from
`a - b - c` evaluates to `(va - vb) - vc` in 32-bit arithmetic. -/
theorem parse_left_associative :
    (∀ (stof : String → Option Nat) (uninit moves : Nat → Bool) (tokens : List PStoken) (fuel : Nat)
      (st0 s1 s1' s2 s2' s3 : PSparseState) (a b c : PSnodeHandle) (n1 n2 : PSnode)
      (t0 tEnd : PStoken),
      2 ≤ fuel →
      tokenAt tokens st0.curTokenIdx = .ok t0 → t0.str ∉ statementKeywords →
      parseOperand stof uninit moves tokens fuel st0 = .ok (a, s1) →
      _ps_get_op_node uninit tokens s1 = .ok (n1, s1') →
      parseOperand stof uninit moves tokens fuel s1' = .ok (b, s2) →
      _ps_get_op_node uninit tokens s2 = .ok (n2, s2') →
      parseOperand stof uninit moves tokens fuel s2' = .ok (c, s3) →
      tokenAt tokens s3.curTokenIdx = .ok tEnd → isStatementEnd tEnd = true →
      _ps_precedence n1.op.type = _ps_precedence n2.op.type →
      s3.ast.nodePool.length + 2 ≤ 4294967296 →
      ∃ h h1 st', _ps_parse_statement stof uninit moves tokens (fuel + 1) st0 = .ok (h, st') ∧
        IsOp st'.ast.nodePool h n2.op.type h1 c ∧
        IsOp st'.ast.nodePool h1 n1.op.type a b) ∧
    (∀ (env : PSenv) (va vb vc : Int) (st : PSstate) (addedFuncs addedVars : List String),
      env.g_psConstants.find "a" = none → env.g_psConstants.find "b" = none →
      env.g_psConstants.find "c" = none →
      st.g_psVariables.find "a" = some (.INT va) →
      st.g_psVariables.find "b" = some (.INT vb) →
      st.g_psVariables.find "c" = some (.INT vc) →
      ps_parse_tokens stofNone uninitFalse movesDoubling 3 tokensSubSub = .ok astSubSub ∧
        _ps_evaluate_statement env astSubSub 3 (opNode PSopType.SUB 3 2) addedFuncs addedVars st
          = .ok (PSevalResult.mk0 (.INT (i32 (i32 (va - vb) - vc))) addedFuncs addedVars st)) := by
  refine ⟨?_, ?_⟩
  · intro stof uninit moves tokens fuel st0 s1 s1' s2 s2' s3 a b c n1 n2 t0 tEnd hfuel h0 hk ha hop1 hb
      hop2 hc hend hend2 hprec hsize
    obtain ⟨k, rfl⟩ : ∃ k, fuel = k + 2 := ⟨fuel - 2, by omega⟩
    obtain ⟨_, _, _, hn1, _, _, _, _⟩ := get_op_node_ok hop1
    obtain ⟨_, _, _, hn2, _, _, _, _⟩ := get_op_node_ok hop2
    rw [parse_statement_expr h0 hk ha hop1 hb, parseOps_step hop2 hc,
      insertOp_wrap (by exact le_of_eq hprec)]
    simp only [Except.bind]
    rw [parseOps_end (by simpa using hend) hend2]
    simp only [Except.bind]
    have e1 : u32 s3.ast.nodePool.length = s3.ast.nodePool.length := u32_of_lt (by omega)
    have e2 : u32 (s3.ast.nodePool.length + 1) = s3.ast.nodePool.length + 1 :=
      u32_of_lt (by omega)
    refine ⟨_, s3.ast.nodePool.length, _, rfl, ?_, ?_⟩
    · simp only [add_node_pool, add_node_handle, List.length_append, List.length_singleton, e1,
        e2]
      have := isOp_append_last (s3.ast.nodePool ++ [n1.asTop a b])
        (n2.withChildren s3.ast.nodePool.length c) hn2
      simpa [PSnode.withChildren, PSnode.asTop] using this
    · simp only [add_node_pool]
      apply isOp_append_left
      have := isOp_append_last s3.ast.nodePool (n1.asTop a b) hn1
      simpa [PSnode.withChildren, PSnode.asTop] using this
  · intro env va vb vc st addedFuncs addedVars ca cb cc ha hb hc
    refine ⟨by decide!, ?_⟩
    simp [_ps_evaluate_statement, evaluateBody, poolAt, bind, Except.bind, ca, cb, cc, ha, hb,
      hc, _ps_sub, PSevalResult.mk0, pure, Except.pure, astSubSub, opNode, varNode]

/-! ## Theorems: handles stay inside the pool -/

theorem bind_eq_ok {ε α β : Type} {x : Except ε α} {f : α → Except ε β} {b : β}
    (h : (x >>= f) = .ok b) : ∃ a, x = .ok a ∧ f a = .ok b := by
  cases x with
  | error e => cases h
  | ok a => exact ⟨a, rfl, h⟩

theorem Grows.grefl (st : PSparseState) : Grows st st := ⟨id, le_refl _, rfl⟩

theorem Grows.gtrans {a b c : PSparseState} (h1 : Grows a b) (h2 : Grows b c) : Grows a c :=
  ⟨fun h => h2.ok (h1.ok h), le_trans h1.len h2.len, Eq.trans h2.parents h1.parents⟩

theorem Grows.of_same {st st1 : PSparseState} (h : st1.ast = st.ast) : Grows st st1 := by
  refine ⟨?_, ?_, ?_⟩ <;> rw [h] <;> intro x <;> exact x

theorem HandlesBelow.mono {n m : Nat} {node : PSnode} (h : node.HandlesBelow n) (hnm : n ≤ m) :
    node.HandlesBelow m := by
  obtain ⟨h1, h2, h3⟩ := h
  refine ⟨fun c => ?_, fun c => ?_, fun c x hx => ?_⟩
  · exact ⟨lt_of_lt_of_le (h1 c).1 hnm, lt_of_lt_of_le (h1 c).2 hnm⟩
  · obtain ⟨a, b, c1, d⟩ := h2 c
    refine ⟨fun x hx => lt_of_lt_of_le (a x hx) hnm, fun x hx => lt_of_lt_of_le (b x hx) hnm,
      fun k => lt_of_lt_of_le (c1 k) hnm, fun k => ?_⟩
    rcases d k with e | e
    · exact Or.inl e
    · exact Or.inr (lt_of_lt_of_le e hnm)
  · exact lt_of_lt_of_le (h3 c x hx) hnm

theorem u32_le (n : Nat) : u32 n ≤ n := Nat.mod_le _ _

theorem u32_lt_of_lt {n m : Nat} (h : n < m) : u32 n < m := lt_of_le_of_lt (u32_le n) h

/-- Pushing a node whose handles are below the new size keeps the invariant. -/
theorem grows_add_node (st : PSparseState) (node : PSnode)
    (hnode : node.HandlesBelow (st.ast.nodePool.length + 1)) :
    Grows st (_ps_add_node st node).2 ∧
      (_ps_add_node st node).1 < (_ps_add_node st node).2.ast.nodePool.length := by
  refine ⟨⟨?_, ?_, rfl⟩, ?_⟩
  · intro hok n hn
    simp only [add_node_pool, List.mem_append, List.mem_singleton, List.length_append,
      List.length_singleton] at hn ⊢
    rcases hn with hn | rfl
    · exact HandlesBelow.mono (hok n hn) (Nat.le_succ _)
    · exact hnode
  · simp
  · simp only [add_node_handle, add_node_pool, List.length_append, List.length_singleton]
    exact Nat.lt_succ_of_le (u32_le _)

theorem continue_statement_ast {tokens : List PStoken} {st st1 : PSparseState}
    (h : _ps_continue_statement tokens st = .ok st1) : st1.ast = st.ast := by
  unfold _ps_continue_statement at h
  obtain ⟨t, -, h⟩ := bind_eq_ok h
  split at h
  · dsimp only at h
    split at h
    · obtain ⟨p, -, h⟩ := bind_eq_ok h
      cases h
    · cases h; rfl
  · cases h; rfl

theorem remove_newline_ast {tokens : List PStoken} {st st1 : PSparseState}
    (h : _ps_remove_newline tokens st = .ok st1) : st1.ast = st.ast := by
  unfold _ps_remove_newline at h
  obtain ⟨t, -, h⟩ := bind_eq_ok h
  split at h <;> cases h <;> rfl

theorem grows_continue {tokens : List PStoken} {st st1 : PSparseState}
    (h : _ps_continue_statement tokens st = .ok st1) : Grows st st1 :=
  Grows.of_same (continue_statement_ast h)

theorem grows_remove_newline {tokens : List PStoken} {st st1 : PSparseState}
    (h : _ps_remove_newline tokens st = .ok st1) : Grows st st1 :=
  Grows.of_same (remove_newline_ast h)

theorem handlesBelow_leaf (n : Nat) (node : PSnode) (hty : node.type = PSnodeType.NUMBER) :
    node.HandlesBelow n := by
  refine ⟨fun c => ?_, fun c => ?_, fun c => ?_⟩ <;> rw [hty] at c <;> cases c

theorem handlesBelow_id (n : Nat) (node : PSnode) (hty : node.type = PSnodeType.ID)
    (hp : ∀ h ∈ node.id.params, h < n) : node.HandlesBelow n := by
  refine ⟨fun c => ?_, fun c => ?_, fun _ => hp⟩ <;> rw [hty] at c <;> cases c

theorem handlesBelow_op (n : Nat) (node : PSnode) (hty : node.type = PSnodeType.OP)
    (hl : node.op.left < n) (hr : node.op.right < n) : node.HandlesBelow n := by
  refine ⟨fun _ => ⟨hl, hr⟩, fun c => ?_, fun c => ?_⟩ <;> rw [hty] at c <;> cases c

/-- The three nodes of a leading `-` keep the invariant. -/
theorem grows_addMinusNode (uninit : Nat → Bool) (lineNum : Nat) (operand : PSnode) (st : PSparseState)
    (hop : operand.HandlesBelow (st.ast.nodePool.length + 1)) :
    Grows st (addMinusNode uninit lineNum operand st).2 ∧
      (addMinusNode uninit lineNum operand st).1 < (addMinusNode uninit lineNum operand st).2.ast.nodePool.length := by
  unfold addMinusNode
  dsimp only
  have lenA : ∀ (s : PSparseState) (n : PSnode),
      (_ps_add_node s n).2.ast.nodePool.length = s.ast.nodePool.length + 1 := by
    intro s n; simp
  refine ⟨(grows_add_node _ _ ?_).1.gtrans ((grows_add_node _ _ ?_).1.gtrans
    (grows_add_node _ _ ?_).1), (grows_add_node _ _ ?_).2⟩
  · exact handlesBelow_leaf _ _ rfl
  · exact HandlesBelow.mono hop (by rw [lenA]; omega)
  · refine handlesBelow_op _ _ rfl ?_ ?_
    · simp only [add_node_handle, lenA]
      exact u32_lt_of_lt (by omega)
    · simp only [add_node_handle, lenA]
      exact u32_lt_of_lt (by omega)
  · refine handlesBelow_op _ _ rfl ?_ ?_
    · simp only [add_node_handle, lenA]
      exact u32_lt_of_lt (by omega)
    · simp only [add_node_handle, lenA]
      exact u32_lt_of_lt (by omega)

theorem advance_ast (st : PSparseState) (k : Nat) : (st.advance k).ast = st.ast := rfl

theorem openParen_ast (st : PSparseState) : st.openParen.ast = st.ast := rfl

theorem closeParen_ast (st : PSparseState) : st.closeParen.ast = st.ast := by
  unfold PSparseState.closeParen
  rfl

theorem mem_lt_of_le {l : List PSnodeHandle} {n m : Nat} (h : ∀ x ∈ l, x < n) (hnm : n ≤ m) :
    ∀ x ∈ l, x < m := fun x hx => lt_of_lt_of_le (h x hx) hnm

theorem mem_append_lt {l : List PSnodeHandle} {a n : Nat} (h : ∀ x ∈ l, x < n) (ha : a < n) :
    ∀ x ∈ l ++ [a], x < n := by
  intro x hx
  rcases List.mem_append.mp hx with hx | hx
  · exact h x hx
  · rw [List.mem_singleton.mp hx]; exact ha

theorem parseArgs_good {stmt : PSparseState → Except PSparseFail (PSnodeHandle × PSparseState)}
    (hs : GoodStmt stmt) (tokens : List PStoken) (fuel : Nat) :
    ∀ (params : List PSnodeHandle) (st : PSparseState) (l : List PSnodeHandle)
      (st1 : PSparseState),
      parseArgs stmt tokens fuel params st = .ok (l, st1) →
      Grows st st1 ∧ ((∀ h ∈ params, h < st.ast.nodePool.length) →
        ∀ h ∈ l, h < st1.ast.nodePool.length) := by
  induction fuel with
  | zero => intro params st l st1 h; cases h
  | succ fuel ih =>
    intro params st l st1 h
    rw [parseArgs] at h
    obtain ⟨⟨a, sa⟩, hsa, h⟩ := bind_eq_ok h
    dsimp only at h
    obtain ⟨t, -, h⟩ := bind_eq_ok h
    obtain ⟨ga, hlt⟩ := hs _ _ _ hsa
    split at h
    · cases h
      exact ⟨ga, fun hp => mem_append_lt (mem_lt_of_le hp ga.len) hlt⟩
    · split at h
      · cases h
      · obtain ⟨s2, hc, h⟩ := bind_eq_ok h
        obtain ⟨g2, hl⟩ := ih _ _ _ _ h
        have gc : Grows sa s2 := Grows.of_same (by rw [continue_statement_ast hc, advance_ast])
        refine ⟨ga.gtrans (gc.gtrans g2), fun hp => hl ?_⟩
        exact mem_append_lt (mem_lt_of_le hp (ga.gtrans gc).len) (lt_of_lt_of_le hlt gc.len)

theorem good_add {st0 st st1 : PSparseState} {node : PSnode} {h : PSnodeHandle}
    (hp : (Except.ok (_ps_add_node st node) : Except PSparseFail _) = .ok (h, st1))
    (g : Grows st0 st) (hn : node.HandlesBelow (st.ast.nodePool.length + 1)) :
    Grows st0 st1 ∧ h < st1.ast.nodePool.length := by
  cases hp
  have := grows_add_node st node hn
  exact ⟨g.gtrans this.1, this.2⟩

theorem good_minus {uninit : Nat → Bool} {st0 st st1 : PSparseState} {node : PSnode} {h : PSnodeHandle} {line : Nat}
    (hp : (Except.ok (addMinusNode uninit line node st) : Except PSparseFail _) = .ok (h, st1))
    (g : Grows st0 st) (hn : node.HandlesBelow (st.ast.nodePool.length + 1)) :
    Grows st0 st1 ∧ h < st1.ast.nodePool.length := by
  cases hp
  have := grows_addMinusNode uninit line node st hn
  exact ⟨g.gtrans this.1, this.2⟩

theorem parse_id_good {stof : String → Option Nat} {uninit : Nat → Bool}
    {stmt : PSparseState → Except PSparseFail (PSnodeHandle × PSparseState)}
    (hs : GoodStmt stmt) (fuel : Nat) (tokens : List PStoken) :
    GoodStmt (_ps_parse_id stof uninit stmt fuel tokens) := by
  intro st h st1 hp
  unfold _ps_parse_id at hp
  obtain ⟨t0, -, hp⟩ := bind_eq_ok hp
  dsimp only at hp
  -- the state after an optional leading minus has the same AST
  generalize hst : (if (decide (t0.str = "-")) = true then st.advance 1 else st) = sm at hp
  have gm : Grows st sm := Grows.of_same (by rw [← hst]; split <;> rfl)
  obtain ⟨t, -, hp⟩ := bind_eq_ok hp
  obtain ⟨_, -, hp⟩ := bind_eq_ok hp
  obtain ⟨next, -, hp⟩ := bind_eq_ok hp
  split at hp
  · -- function call
    obtain ⟨s1, hc, hp⟩ := bind_eq_ok hp
    have g1 : Grows sm s1 := Grows.of_same (by
      rw [continue_statement_ast hc, openParen_ast, advance_ast])
    obtain ⟨t1, -, hp⟩ := bind_eq_ok hp
    split at hp
    · cases hp
      have := grows_add_node ((s1.advance 1).closeParen)
        { type := PSnodeType.ID, lineNum := t.lineNum,
          id := { type := PSidType.FUNC, name := t.str } }
        (handlesBelow_id _ _ rfl (by intro x hx; cases hx))
      have gx : Grows s1 ((s1.advance 1).closeParen) := Grows.of_same rfl
      exact ⟨gm.gtrans (g1.gtrans (gx.gtrans this.1)), this.2⟩
    · obtain ⟨⟨params, s2⟩, hargs, hp⟩ := bind_eq_ok hp
      dsimp only at hp
      obtain ⟨g2, hl⟩ := parseArgs_good hs tokens fuel _ _ _ _ hargs
      have hl2 := hl (by intro x hx; cases hx)
      have gx : Grows s2 ((s2.advance 1).closeParen) := Grows.of_same rfl
      have hnode : PSnode.HandlesBelow (((s2.advance 1).closeParen).ast.nodePool.length + 1)
          { type := PSnodeType.ID, lineNum := t.lineNum,
            id := { type := PSidType.FUNC, name := t.str, params := params } } :=
        handlesBelow_id _ _ rfl (fun x hx => Nat.lt_succ_of_lt (hl2 x hx))
      split at hp
      · obtain ⟨t3, -, hp⟩ := bind_eq_ok hp
        cases hp
        have := grows_addMinusNode uninit t3.lineNum _ ((s2.advance 1).closeParen) hnode
        exact ⟨gm.gtrans (g1.gtrans (g2.gtrans (gx.gtrans this.1))), this.2⟩
      · cases hp
        have := grows_add_node ((s2.advance 1).closeParen) _ hnode
        exact ⟨gm.gtrans (g1.gtrans (g2.gtrans (gx.gtrans this.1))), this.2⟩
  · split at hp
    · -- number
      split at hp
      · obtain ⟨bad, -, hp⟩ := bind_eq_ok hp
        cases hp
      · obtain ⟨prev, -, hp⟩ := bind_eq_ok hp
        split at hp
        · split at hp
          · cases hp
          · exact good_add hp (gm.gtrans (Grows.of_same rfl)) (handlesBelow_leaf _ _ rfl)
        · split at hp
          · cases hp
          · exact good_add hp (gm.gtrans (Grows.of_same rfl)) (handlesBelow_leaf _ _ rfl)
    · -- variable
      obtain ⟨t1, -, hp⟩ := bind_eq_ok hp
      obtain ⟨⟨vn, sv⟩, hv, hp⟩ := bind_eq_ok hp
      dsimp only at hp
      have hvn : Grows sm sv ∧ vn.HandlesBelow (sv.ast.nodePool.length + 1) := by
        split at hv
        · obtain ⟨s1, hc, hv⟩ := bind_eq_ok hv
          obtain ⟨⟨hidx, s2⟩, hi, hv⟩ := bind_eq_ok hv
          dsimp only at hv
          obtain ⟨s3, hc3, hv⟩ := bind_eq_ok hv
          obtain ⟨t3, -, hv⟩ := bind_eq_ok hv
          split at hv
          · cases hv
          · cases hv
            obtain ⟨gi, hlt⟩ := hs _ _ _ hi
            have g1 : Grows sm (s1.advance 1) := Grows.of_same (by
              rw [advance_ast, continue_statement_ast hc, openParen_ast, advance_ast])
            have g3 : Grows s2 ((s3.closeParen).advance 1) := Grows.of_same (by
              rw [advance_ast, closeParen_ast, continue_statement_ast hc3])
            refine ⟨g1.gtrans (gi.gtrans g3), handlesBelow_id _ _ rfl ?_⟩
            intro x hx
            simp only [List.nil_append, List.mem_singleton] at hx
            rw [hx]
            exact Nat.lt_succ_of_lt (lt_of_lt_of_le hlt g3.len)
        · cases hv
          exact ⟨Grows.of_same (advance_ast _ _), handlesBelow_id _ _ rfl
            (by intro x hx; cases hx)⟩
      split at hp
      · obtain ⟨t4, -, hp⟩ := bind_eq_ok hp
        cases hp
        have := grows_addMinusNode uninit t4.lineNum vn sv hvn.2
        exact ⟨gm.gtrans (hvn.1.gtrans this.1), this.2⟩
      · cases hp
        have := grows_add_node sv vn hvn.2
        exact ⟨gm.gtrans (hvn.1.gtrans this.1), this.2⟩

theorem nodeAt_ok {pool : List PSnode} {h : PSnodeHandle} {n : PSnode}
    (hn : nodeAt pool h = .ok n) : pool[h]? = some n := by
  unfold nodeAt at hn
  cases hh : pool[h]? with
  | none => rw [hh] at hn; cases hn
  | some m => rw [hh] at hn; cases hn; rfl

/-- Replacing a node of the pool by one whose handles are below the size keeps the
invariant. -/
theorem poolOK_set {pool : List PSnode} {i : Nat} {m : PSnode} (hok : PoolOK pool)
    (hm : m.HandlesBelow pool.length) : PoolOK (pool.set i m) := by
  intro x hx
  rw [List.length_set]
  rcases List.mem_or_eq_of_mem_set hx with hx | rfl
  · exact hok x hx
  · exact hm

theorem handlesBelow_of_mem {pool : List PSnode} {i : Nat} {n : PSnode} (hok : PoolOK pool)
    (hn : pool[i]? = some n) : n.HandlesBelow pool.length :=
  hok n (by
    obtain ⟨hlt, heq⟩ := List.getElem?_eq_some_iff.mp hn
    rw [← heq]
    exact List.getElem_mem hlt)

/-- Changing the `inParens` flag of a node does not change the handles it stores. -/
theorem handlesBelow_inParens {k : Nat} {n : PSnode} (b : Bool) (h : n.HandlesBelow k) :
    PSnode.HandlesBelow k { n with op := { n.op with inParens := b } } := h

theorem parse_statement_in_parens_good
    {stmt : PSparseState → Except PSparseFail (PSnodeHandle × PSparseState)}
    (hs : GoodStmt stmt) (tokens : List PStoken) :
    GoodStmt (_ps_parse_statement_in_parens stmt tokens) := by
  intro st h st1 hp
  unfold _ps_parse_statement_in_parens at hp
  obtain ⟨⟨node, s1⟩, hn, hp⟩ := bind_eq_ok hp
  dsimp only at hp
  obtain ⟨t, -, hp⟩ := bind_eq_ok hp
  obtain ⟨g1, hlt⟩ := hs _ _ _ hn
  split at hp
  · cases hp
  · obtain ⟨n, hnode, hp⟩ := bind_eq_ok hp
    have hget := nodeAt_ok hnode
    have g0 : Grows st ((st.advance 1).openParen) := Grows.of_same rfl
    have g2 : Grows s1 { s1 with ast := { s1.ast with nodePool :=
        (s1.ast.nodePool.set node { n with op := { n.op with inParens := true } }) } } := by
      refine ⟨fun hok => ?_, ?_, rfl⟩
      · exact poolOK_set hok (handlesBelow_inParens true (handlesBelow_of_mem hok hget))
      · show s1.ast.nodePool.length ≤ (s1.ast.nodePool.set node _).length
        rw [List.length_set]
    cases hp
    refine ⟨g0.gtrans (g1.gtrans (g2.gtrans (Grows.of_same ?_))), ?_⟩
    · rw [advance_ast, closeParen_ast]
    · show h < (s1.ast.nodePool.set h _).length
      rw [List.length_set]
      exact hlt

theorem parse_non_op_good {stof : String → Option Nat} {uninit : Nat → Bool}
    {stmt : PSparseState → Except PSparseFail (PSnodeHandle × PSparseState)}
    (hs : GoodStmt stmt) (fuel : Nat) (tokens : List PStoken) :
    GoodStmt (_ps_parse_non_op stof uninit stmt fuel tokens) := by
  intro st h st1 hp
  unfold _ps_parse_non_op at hp
  obtain ⟨t, -, hp⟩ := bind_eq_ok hp
  obtain ⟨⟨node, s1⟩, hn, hp⟩ := bind_eq_ok hp
  dsimp only at hp
  obtain ⟨s2, hc, hp⟩ := bind_eq_ok hp
  have gc := grows_continue hc
  have g1 : Grows st s1 ∧ node < s1.ast.nodePool.length := by
    split at hn
    · exact parse_statement_in_parens_good hs tokens _ _ _ hn
    · exact parse_id_good hs fuel tokens _ _ _ hn
  cases hp
  exact ⟨g1.1.gtrans gc, lt_of_lt_of_le g1.2 gc.len⟩

theorem parseBlock_good
    {stmt : PSparseState → Except PSparseFail (PSnodeHandle × PSparseState)}
    (hs : GoodStmt stmt) (tokens : List PStoken) (fuel : Nat) :
    ∀ (code : List PSnodeHandle) (st : PSparseState) (l : List PSnodeHandle)
      (st1 : PSparseState),
      parseBlock stmt tokens fuel code st = .ok (l, st1) →
      Grows st st1 ∧ ((∀ h ∈ code, h < st.ast.nodePool.length) →
        ∀ h ∈ l, h < st1.ast.nodePool.length) := by
  induction fuel with
  | zero => intro code st l st1 h; cases h
  | succ fuel ih =>
    intro code st l st1 h
    rw [parseBlock] at h
    obtain ⟨t, -, h⟩ := bind_eq_ok h
    split at h
    · obtain ⟨⟨a, sa⟩, hsa, h⟩ := bind_eq_ok h
      dsimp only at h
      obtain ⟨s2, hr, h⟩ := bind_eq_ok h
      obtain ⟨ga, hlt⟩ := hs _ _ _ hsa
      have gr := grows_remove_newline hr
      obtain ⟨g2, hl⟩ := ih _ _ _ _ h
      refine ⟨ga.gtrans (gr.gtrans g2), fun hp => hl ?_⟩
      exact mem_append_lt (mem_lt_of_le hp (ga.gtrans gr).len) (lt_of_lt_of_le hlt gr.len)
    · cases h
      exact ⟨Grows.grefl _, id⟩

theorem parseBody_good
    {stmt : PSparseState → Except PSparseFail (PSnodeHandle × PSparseState)}
    (hs : GoodStmt stmt) (fuel : Nat) (tokens : List PStoken)
    {st st1 : PSparseState} {l : List PSnodeHandle}
    (h : parseBody stmt fuel tokens st = .ok (l, st1)) :
    Grows st st1 ∧ ∀ h ∈ l, h < st1.ast.nodePool.length := by
  unfold parseBody at h
  obtain ⟨t, -, h⟩ := bind_eq_ok h
  split at h
  · obtain ⟨s1, hr, h⟩ := bind_eq_ok h
    obtain ⟨⟨code, s2⟩, hb, h⟩ := bind_eq_ok h
    cases h
    have g0 : Grows st (st.advance 1) := Grows.of_same rfl
    have gr := grows_remove_newline hr
    obtain ⟨g2, hl⟩ := parseBlock_good hs tokens fuel _ _ _ _ hb
    have g3 : Grows s2 (s2.advance 1) := Grows.of_same rfl
    exact ⟨g0.gtrans (gr.gtrans (g2.gtrans g3)), hl (by intro x hx; cases hx)⟩
  · obtain ⟨⟨a, sa⟩, hsa, h⟩ := bind_eq_ok h
    cases h
    obtain ⟨ga, hlt⟩ := hs _ _ _ hsa
    refine ⟨ga, ?_⟩
    intro x hx
    rw [List.mem_singleton.mp hx]
    exact hlt

theorem parseParamNames_ast (tokens : List PStoken) (fuel : Nat) :
    ∀ (names : List String) (st : PSparseState) (l : List String) (st1 : PSparseState),
      parseParamNames tokens fuel names st = .ok (l, st1) → st1.ast = st.ast := by
  induction fuel with
  | zero => intro names st l st1 h; cases h
  | succ fuel ih =>
    intro names st l st1 h
    rw [parseParamNames] at h
    obtain ⟨t, -, h⟩ := bind_eq_ok h
    obtain ⟨_, -, h⟩ := bind_eq_ok h
    dsimp only at h
    obtain ⟨t1, -, h⟩ := bind_eq_ok h
    split at h
    · cases h; rfl
    · split at h
      · cases h
      · obtain ⟨s2, hc, h⟩ := bind_eq_ok h
        rw [ih _ _ _ _ h, continue_statement_ast hc]
        rfl

theorem findRightMost_lt (pool : List PSnode) (newPrec : Nat) (fuel : Nat) :
    ∀ (rm : Option PSnodeHandle) (r : PSnodeHandle) (rm1 : Option PSnodeHandle)
      (r1 : PSnodeHandle),
      findRightMost pool newPrec fuel rm r = .ok (rm1, r1) → r1 < pool.length := by
  induction fuel with
  | zero => intro rm r rm1 r1 h; cases h
  | succ fuel ih =>
    intro rm r rm1 r1 h
    rw [findRightMost] at h
    obtain ⟨rmr, hn, h⟩ := bind_eq_ok h
    have hget := nodeAt_ok hn
    split at h
    · exact ih _ _ _ _ h
    · cases h
      exact (List.getElem?_eq_some_iff.mp hget).1

theorem findRightMost_op (pool : List PSnode) (newPrec : Nat) (fuel : Nat) :
    ∀ (rm : Option PSnodeHandle) (r : PSnodeHandle) (rm1 : Option PSnodeHandle)
      (r1 : PSnodeHandle),
      findRightMost pool newPrec fuel rm r = .ok (rm1, r1) →
      (∀ i, rm = some i → ∃ n, pool[i]? = some n ∧ n.type = PSnodeType.OP ∧
        n.op.inParens = false) →
      ∀ i, rm1 = some i → ∃ n, pool[i]? = some n ∧ n.type = PSnodeType.OP ∧
        n.op.inParens = false := by
  induction fuel with
  | zero => intro rm r rm1 r1 h; cases h
  | succ fuel ih =>
    intro rm r rm1 r1 h hrm
    rw [findRightMost] at h
    obtain ⟨rmr, hn, h⟩ := bind_eq_ok h
    have hget := nodeAt_ok hn
    split at h
    · rename_i hc
      refine ih _ _ _ _ h ?_
      intro i hi
      cases hi
      exact ⟨rmr, hget, hc.1, hc.2.2⟩
    · cases h
      exact hrm

theorem TopOK.grow {opNode : PSnode} {st st1 : PSparseState} (h : TopOK opNode st)
    (g : st.ast.nodePool.length ≤ st1.ast.nodePool.length) : TopOK opNode st1 :=
  ⟨h.1, lt_of_lt_of_le h.2.1 g, lt_of_lt_of_le h.2.2 g⟩

theorem insertOp_good {moves : Nat → Bool} {opNode newOp op1 : PSnode} {right : PSnodeHandle}
    {st st1 : PSparseState}
    (h : insertOp moves opNode newOp right st = .ok (op1, st1))
    (htop : TopOK opNode st) (hnew : newOp.type = PSnodeType.OP)
    (hr : right < st.ast.nodePool.length) :
    Grows st st1 ∧ TopOK op1 st1 := by
  unfold insertOp at h
  split at h
  · cases h
    have := grows_add_node st opNode
      (handlesBelow_op _ _ htop.1 (Nat.lt_succ_of_lt htop.2.1) (Nat.lt_succ_of_lt htop.2.2))
    refine ⟨this.1, hnew, ?_, ?_⟩
    · exact this.2
    · exact lt_of_lt_of_le hr this.1.len
  · obtain ⟨⟨rm, rmRight⟩, hf, h⟩ := bind_eq_ok h
    dsimp only at h
    have hlt := findRightMost_lt _ _ _ _ _ _ _ hf
    have hop := findRightMost_op _ _ _ _ _ _ _ hf (by intro i hi; cases hi)
    have hnode : PSnode.HandlesBelow (st.ast.nodePool.length + 1)
        { newOp with op := { newOp.op with left := rmRight, right := right } } :=
      handlesBelow_op _ _ hnew (Nat.lt_succ_of_lt hlt) (Nat.lt_succ_of_lt hr)
    have ga := grows_add_node st _ hnode
    split at h
    · cases h
      refine ⟨ga.1, htop.1, ?_, ?_⟩
      · exact lt_of_lt_of_le htop.2.1 ga.1.len
      · exact ga.2
    · rename_i i
      by_cases hmv : moves st.ast.nodePool.length = true
      · rw [if_pos hmv] at h; cases h
      rw [if_neg hmv] at h
      obtain ⟨n, hn, h⟩ := bind_eq_ok h
      cases h
      have hget := nodeAt_ok hn
      obtain ⟨n0, hn0, hty, -⟩ := hop i rfl
      have hi : i < st.ast.nodePool.length := (List.getElem?_eq_some_iff.mp hn0).1
      have hsame : n = n0 := by
        rw [add_node_pool, List.getElem?_append_left hi, hn0] at hget
        cases hget; rfl
      subst hsame
      refine ⟨ga.1.gtrans ⟨fun hok => ?_, ?_, rfl⟩, htop.1, ?_, ?_⟩
      · refine poolOK_set hok (handlesBelow_op _ _ hty ?_ ?_)
        · exact ((handlesBelow_of_mem hok hget).1 hty).1
        · exact ga.2
      · show _ ≤ (List.set _ _ _).length
        rw [List.length_set]
      · show _ < (List.set _ _ _).length
        rw [List.length_set]
        exact lt_of_lt_of_le htop.2.1 ga.1.len
      · show _ < (List.set _ _ _).length
        rw [List.length_set]
        exact lt_of_lt_of_le htop.2.2 ga.1.len

theorem parseOps_good {stof : String → Option Nat} {uninit moves : Nat → Bool}
    {stmt : PSparseState → Except PSparseFail (PSnodeHandle × PSparseState)}
    (hs : GoodStmt stmt) (fuel : Nat) (tokens : List PStoken) (n : Nat) :
    ∀ (opNode : PSnode) (st : PSparseState) (op1 : PSnode) (st1 : PSparseState),
      parseOps stof uninit moves stmt fuel tokens n opNode st = .ok (op1, st1) →
      TopOK opNode st → Grows st st1 ∧ TopOK op1 st1 := by
  induction n with
  | zero => intro opNode st op1 st1 h; cases h
  | succ n ih =>
    intro opNode st op1 st1 h htop
    rw [parseOps] at h
    split at h
    · obtain ⟨t, -, h⟩ := bind_eq_ok h
      split at h
      · cases h
        exact ⟨Grows.grefl _, htop⟩
      · obtain ⟨⟨newOp, s1⟩, hop, h⟩ := bind_eq_ok h
        dsimp only at h
        obtain ⟨⟨right, s2⟩, hr, h⟩ := bind_eq_ok h
        dsimp only at h
        obtain ⟨⟨op2, s3⟩, hi, h⟩ := bind_eq_ok h
        dsimp only at h
        obtain ⟨_, _, _, hnew, hast, _, _, _⟩ := get_op_node_ok hop
        have g1 : Grows st s1 := Grows.of_same hast
        obtain ⟨g2, hlt⟩ := parse_non_op_good hs fuel tokens _ _ _ hr
        obtain ⟨g3, htop3⟩ := insertOp_good hi (htop.grow (g1.gtrans g2).len) hnew hlt
        obtain ⟨g4, htop4⟩ := ih _ _ _ _ h htop3
        exact ⟨g1.gtrans (g2.gtrans (g3.gtrans g4)), htop4⟩
    · cases h
      exact ⟨Grows.grefl _, htop⟩

theorem handlesBelow_keyword (n : Nat) (node : PSnode) (hty : node.type = PSnodeType.KEYWORD)
    (hcode : ∀ h ∈ node.keyword.code, h < n) (helse : ∀ h ∈ node.keyword.elseCode, h < n)
    (hcond : (node.keyword.type = PSkeywordType.IF ∨ node.keyword.type = PSkeywordType.FOR) →
      node.keyword.condition < n)
    (hret : node.keyword.type = PSkeywordType.RETURN →
      node.keyword.returnVal = UINT32_MAX ∨ node.keyword.returnVal < n) :
    node.HandlesBelow n := by
  refine ⟨fun c => ?_, fun _ => ⟨hcode, helse, hcond, hret⟩, fun c => ?_⟩ <;>
    rw [hty] at c <;> cases c

theorem no_mem_nil {n : Nat} : ∀ h ∈ ([] : List PSnodeHandle), h < n := by
  intro x hx; cases hx

theorem parseStatementBody_good {stof : String → Option Nat} {uninit moves : Nat → Bool}
    {stmt : PSparseState → Except PSparseFail (PSnodeHandle × PSparseState)}
    (hs : GoodStmt stmt) (fuel : Nat) (tokens : List PStoken) :
    GoodStmt (parseStatementBody stof uninit moves stmt fuel tokens) := by
  intro st h st1 hp
  unfold parseStatementBody at hp
  obtain ⟨t, -, hp⟩ := bind_eq_ok hp
  split at hp
  · -- if / for
    dsimp only at hp
    split at hp
    · cases hp
    · obtain ⟨⟨cond, s1⟩, hc, hp⟩ := bind_eq_ok hp
      dsimp only at hp
      obtain ⟨s2, hr2, hp⟩ := bind_eq_ok hp
      obtain ⟨⟨code, s3⟩, hb, hp⟩ := bind_eq_ok hp
      dsimp only at hp
      obtain ⟨g1, hcl⟩ := hs _ _ _ hc
      have g0 : Grows st (st.advance 1) := Grows.of_same rfl
      have g2 := grows_remove_newline hr2
      obtain ⟨g3, hcode⟩ := parseBody_good hs fuel tokens hb
      have g03 : Grows st s3 := g0.gtrans (g1.gtrans (g2.gtrans g3))
      have hcl3 : cond < s3.ast.nodePool.length := lt_of_lt_of_le hcl (g2.gtrans g3).len
      split at hp
      · refine good_add hp g03 (handlesBelow_keyword _ _ rfl ?_ ?_ ?_ ?_)
        · exact fun x hx => Nat.lt_succ_of_lt (hcode x hx)
        · exact no_mem_nil
        · exact fun _ => Nat.lt_succ_of_lt hcl3
        · intro c; first | (split at c <;> simp at c; done) | (simp at c; done)
      · obtain ⟨s4, hr4, hp⟩ := bind_eq_ok hp
        obtain ⟨t4, -, hp⟩ := bind_eq_ok hp
        have g4 := grows_remove_newline hr4
        split at hp
        · obtain ⟨s5, hr5, hp⟩ := bind_eq_ok hp
          obtain ⟨⟨elseCode, s6⟩, hb6, hp⟩ := bind_eq_ok hp
          dsimp only at hp
          have g5 : Grows s4 s5 := Grows.of_same (by rw [remove_newline_ast hr5, advance_ast])
          obtain ⟨g6, helse⟩ := parseBody_good hs fuel tokens hb6
          have g36 : Grows s3 s6 := g4.gtrans (g5.gtrans g6)
          refine good_add hp (g03.gtrans g36) (handlesBelow_keyword _ _ rfl ?_ ?_ ?_ ?_)
          · exact fun x hx => Nat.lt_succ_of_lt (lt_of_lt_of_le (hcode x hx) g36.len)
          · exact fun x hx => Nat.lt_succ_of_lt (helse x hx)
          · exact fun _ => Nat.lt_succ_of_lt (lt_of_lt_of_le hcl3 g36.len)
          · intro c; first | (split at c <;> simp at c; done) | (simp at c; done)
        · refine good_add hp (g03.gtrans g4) (handlesBelow_keyword _ _ rfl ?_ ?_ ?_ ?_)
          · exact fun x hx => Nat.lt_succ_of_lt (lt_of_lt_of_le (hcode x hx) g4.len)
          · exact no_mem_nil
          · exact fun _ => Nat.lt_succ_of_lt (lt_of_lt_of_le hcl3 g4.len)
          · intro c; first | (split at c <;> simp at c; done) | (simp at c; done)
  · split at hp
    · -- func
      obtain ⟨s1, hr1, hp⟩ := bind_eq_ok hp
      obtain ⟨nameTok, -, hp⟩ := bind_eq_ok hp
      obtain ⟨_, -, hp⟩ := bind_eq_ok hp
      obtain ⟨s2, hr2, hp⟩ := bind_eq_ok hp
      obtain ⟨t2, -, hp⟩ := bind_eq_ok hp
      obtain ⟨⟨paramNames, s3⟩, hpn, hp⟩ := bind_eq_ok hp
      dsimp only at hp
      obtain ⟨s4, hr4, hp⟩ := bind_eq_ok hp
      obtain ⟨t4, -, hp⟩ := bind_eq_ok hp
      have g1 : Grows st s1 := Grows.of_same (by rw [remove_newline_ast hr1, advance_ast])
      have g2 : Grows s1 s2 := Grows.of_same (by rw [remove_newline_ast hr2, advance_ast])
      have g3 : Grows s2 s3 := by
        split at hpn
        · obtain ⟨s21, hc, hpn⟩ := bind_eq_ok hpn
          obtain ⟨⟨names, s22⟩, hn, hpn⟩ := bind_eq_ok hpn
          cases hpn
          exact Grows.of_same (by
            rw [closeParen_ast, advance_ast, parseParamNames_ast _ _ _ _ _ _ hn,
              continue_statement_ast hc, openParen_ast, advance_ast])
        · cases hpn
          exact Grows.grefl _
      have g4 := grows_remove_newline hr4
      split at hp
      · cases hp
      · obtain ⟨s5, hr5, hp⟩ := bind_eq_ok hp
        obtain ⟨⟨code, s6⟩, hb, hp⟩ := bind_eq_ok hp
        dsimp only at hp
        have g5 : Grows s4 s5 := Grows.of_same (by rw [remove_newline_ast hr5, advance_ast])
        obtain ⟨g6, hcode⟩ := parseBlock_good hs tokens fuel _ _ _ _ hb
        have g7 : Grows s6 (s6.advance 1) := Grows.of_same rfl
        refine good_add hp (g1.gtrans (g2.gtrans (g3.gtrans (g4.gtrans (g5.gtrans (g6.gtrans g7))))))
          (handlesBelow_keyword _ _ rfl ?_ ?_ ?_ ?_)
        · exact fun x hx => Nat.lt_succ_of_lt (hcode no_mem_nil x hx)
        · exact no_mem_nil
        · intro c; rcases c with c | c <;> cases c
        · intro c; cases c
    · split at hp
      · -- ret
        dsimp only at hp
        obtain ⟨t1, -, hp⟩ := bind_eq_ok hp
        have g0 : Grows st (st.advance 1) := Grows.of_same rfl
        split at hp
        · obtain ⟨⟨rv, s2⟩, hv, hp⟩ := bind_eq_ok hp
          dsimp only at hp
          obtain ⟨g1, hlt⟩ := hs _ _ _ hv
          refine good_add hp (g0.gtrans g1) (handlesBelow_keyword _ _ rfl ?_ ?_ ?_ ?_)
          · exact no_mem_nil
          · exact no_mem_nil
          · intro c; rcases c with c | c <;> cases c
          · exact fun _ => Or.inr (Nat.lt_succ_of_lt hlt)
        · refine good_add hp g0 (handlesBelow_keyword _ _ rfl ?_ ?_ ?_ ?_)
          · exact no_mem_nil
          · exact no_mem_nil
          · intro c; rcases c with c | c <;> cases c
          · exact fun _ => Or.inl rfl
      · split at hp
        · -- break / continue
          dsimp only at hp
          obtain ⟨t1, -, hp⟩ := bind_eq_ok hp
          have g0 : Grows st (st.advance 1) := Grows.of_same rfl
          split at hp
          · cases hp
          · refine good_add hp g0 (handlesBelow_keyword _ _ rfl ?_ ?_ ?_ ?_)
            · exact no_mem_nil
            · exact no_mem_nil
            · intro c; split at c <;> rcases c with c | c <;> cases c
            · intro c; first | (split at c <;> simp at c; done) | (simp at c; done)
        · -- expression
          obtain ⟨⟨left, s1⟩, hl, hp⟩ := bind_eq_ok hp
          dsimp only at hp
          obtain ⟨t1, -, hp⟩ := bind_eq_ok hp
          obtain ⟨g1, hll⟩ := parse_non_op_good hs fuel tokens _ _ _ hl
          split at hp
          · cases hp
            exact ⟨g1, hll⟩
          · obtain ⟨⟨opNode, s2⟩, hop, hp⟩ := bind_eq_ok hp
            dsimp only at hp
            obtain ⟨⟨right, s3⟩, hr, hp⟩ := bind_eq_ok hp
            dsimp only at hp
            obtain ⟨⟨op4, s4⟩, hops, hp⟩ := bind_eq_ok hp
            dsimp only at hp
            obtain ⟨_, _, _, hty, hast, _, _, _⟩ := get_op_node_ok hop
            have g2 : Grows s1 s2 := Grows.of_same hast
            obtain ⟨g3, hrl⟩ := parse_non_op_good hs fuel tokens _ _ _ hr
            obtain ⟨g4, htop⟩ := parseOps_good hs fuel tokens fuel _ _ _ _ hops
              ⟨hty, lt_of_lt_of_le hll (g2.gtrans g3).len, hrl⟩
            exact good_add hp (g1.gtrans (g2.gtrans (g3.gtrans g4)))
              (handlesBelow_op _ _ htop.1 (Nat.lt_succ_of_lt htop.2.1)
                (Nat.lt_succ_of_lt htop.2.2))

theorem parse_statement_good (stof : String → Option Nat) (uninit moves : Nat → Bool) (tokens : List PStoken)
    (fuel : Nat) : GoodStmt (_ps_parse_statement stof uninit moves tokens fuel) := by
  induction fuel with
  | zero => intro st h st1 hp; cases hp
  | succ fuel ih =>
    intro st h st1 hp
    rw [_ps_parse_statement] at hp
    exact parseStatementBody_good ih fuel tokens _ _ _ hp

/-- The top-level loop keeps the pool invariant and appends handles of the pool to the
list of top-level statements. -/
theorem parseTop_good (stof : String → Option Nat) (uninit moves : Nat → Bool) (tokens : List PStoken) (fuel n : Nat) :
    ∀ (st st1 : PSparseState), parseTop stof uninit moves tokens fuel n st = .ok st1 →
      PoolOK st.ast.nodePool → (∀ h ∈ st.ast.parentNodes, h < st.ast.nodePool.length) →
      PoolOK st1.ast.nodePool ∧ ∀ h ∈ st1.ast.parentNodes, h < st1.ast.nodePool.length := by
  induction n with
  | zero => intro st st1 h; cases h
  | succ n ih =>
    intro st st1 h hok hpar
    rw [parseTop] at h
    split at h
    · obtain ⟨⟨a, sa⟩, hsa, h⟩ := bind_eq_ok h
      dsimp only at h
      obtain ⟨s3, hr, h⟩ := bind_eq_ok h
      obtain ⟨ga, hlt⟩ := parse_statement_good stof uninit moves tokens fuel _ _ _ hsa
      have e3 := remove_newline_ast hr
      refine ih _ _ h ?_ ?_
      · rw [e3]; exact ga.ok hok
      · rw [e3]
        show ∀ h ∈ sa.ast.parentNodes ++ [a], h < sa.ast.nodePool.length
        rw [ga.parents]
        exact mem_append_lt (mem_lt_of_le hpar ga.len) hlt
    · cases h
      exact ⟨hok, hpar⟩

/-- C5. Parse stability: when `ps_parse_tokens` succeeds, every handle in `parentNodes`
is smaller than the pool size, and so is every child handle stored in a node: the left
and right handles of an operator node; the code and else-code entries of a keyword node
and the condition of an `if` or `for`; the value of a `ret`, unless it is the sentinel
`UINT32_MAX`; the parameters of an identifier node. -/
theorem parse_handles_valid (stof : String → Option Nat) (uninit moves : Nat → Bool) (fuel : Nat)
    (tokens : List PStoken) (ast : PSast)
    (h : ps_parse_tokens stof uninit moves fuel tokens = .ok ast) :
    (∀ p ∈ ast.parentNodes, p < ast.nodePool.length) ∧
    ∀ node ∈ ast.nodePool, node.HandlesBelow ast.nodePool.length := by
  unfold ps_parse_tokens at h
  split at h
  · rename_i st hst
    cases h
    have := parseTop_good stof uninit moves tokens fuel fuel _ _ hst
      (by intro x hx; cases hx) (by intro x hx; cases hx)
    exact ⟨this.2, this.1⟩
  · cases h

/-! ## Theorems: nodes below the start of a statement are left alone -/

theorem Frame.frefl {L : Nat} (st : PSparseState) : Frame L st st :=
  ⟨le_refl _, fun _ _ h => ⟨fun _ _ => rfl, h⟩⟩

theorem Frame.ftrans {L : Nat} {a b c : PSparseState} (h1 : Frame L a b) (h2 : Frame L b c) :
    Frame L a c := by
  refine ⟨le_trans h1.len h2.len, fun hw hL hsc => ?_⟩
  obtain ⟨k1, s1⟩ := h1.keeps (le_trans h2.len hw) hL hsc
  obtain ⟨k2, s2⟩ := h2.keeps hw (le_trans hL h1.len) s1
  exact ⟨fun i hi => Eq.trans (k2 i hi) (k1 i hi), s2⟩

theorem Frame.of_eq {L : Nat} {st st1 : PSparseState} (h : st1.ast = st.ast) :
    Frame L st st1 := by
  refine ⟨by rw [h], fun _ _ hsc => ⟨fun i _ => by rw [h], ?_⟩⟩
  rw [h]; exact hsc

theorem scoped_start (pool : List PSnode) : Scoped pool.length pool := by
  intro i n hi hn
  have := (List.getElem?_eq_some_iff.mp hn).1
  omega

theorem add_node_handle_eq (st : PSparseState) (node : PSnode)
    (h : st.ast.nodePool.length < 4294967296) :
    (_ps_add_node st node).1 = st.ast.nodePool.length := u32_of_lt h

theorem add_node_len (st : PSparseState) (node : PSnode) :
    (_ps_add_node st node).2.ast.nodePool.length = st.ast.nodePool.length + 1 := by
  simp

theorem id_ne_op : PSnodeType.ID ≠ PSnodeType.OP := by decide

theorem number_ne_op : PSnodeType.NUMBER ≠ PSnodeType.OP := by decide

theorem keyword_ne_op : PSnodeType.KEYWORD ≠ PSnodeType.OP := by decide

/-- Pushing a node that, if it is an operator, has its right child at `L` or above. -/
theorem frame_add_node {L : Nat} (st : PSparseState) (node : PSnode)
    (hnode : st.ast.nodePool.length < 4294967296 → L ≤ st.ast.nodePool.length →
      node.type = PSnodeType.OP → L ≤ node.op.right) :
    Frame L st (_ps_add_node st node).2 := by
  refine ⟨by rw [add_node_len]; omega, fun hw hL hsc => ⟨fun i hi => ?_, ?_⟩⟩
  · rw [add_node_pool, List.getElem?_append_left (lt_of_lt_of_le hi hL)]
  · rw [add_node_len] at hw
    intro i n hi hn hty
    rw [add_node_pool] at hn
    by_cases hlt : i < st.ast.nodePool.length
    · rw [List.getElem?_append_left hlt] at hn
      exact hsc i n hi hn hty
    · have hlen := (List.getElem?_eq_some_iff.mp hn).1
      simp only [List.length_append, List.length_singleton] at hlen
      have hi2 : i = st.ast.nodePool.length := by omega
      subst hi2
      simp only [List.getElem?_concat_length, Option.some.injEq] at hn
      subst hn
      exact hnode (by omega) hL hty

theorem frame_add {st0 st st1 : PSparseState} {node : PSnode} {h : PSnodeHandle}
    (hp : (Except.ok (_ps_add_node st node) : Except PSparseFail _) = .ok (h, st1))
    (f : ∀ L, Frame L st0 st) (hnode : node.type ≠ PSnodeType.OP) :
    (∀ L, Frame L st0 st1) ∧
      (st1.ast.nodePool.length ≤ 4294967296 → st0.ast.nodePool.length ≤ h) := by
  obtain ⟨rfl, rfl⟩ : h = (_ps_add_node st node).1 ∧ st1 = (_ps_add_node st node).2 := by
    cases hp; exact ⟨rfl, rfl⟩
  refine ⟨fun L => (f L).ftrans (frame_add_node st node (fun _ _ c => absurd c hnode)), ?_⟩
  intro hw
  rw [add_node_len] at hw
  rw [add_node_handle_eq st node (by omega)]
  exact (f 0).len

theorem frame_addMinusNode (uninit : Nat → Bool) (line : Nat) (node : PSnode) (st : PSparseState)
    (hnode : node.type ≠ PSnodeType.OP) :
    (∀ L, Frame L st (addMinusNode uninit line node st).2) ∧
      ((addMinusNode uninit line node st).2.ast.nodePool.length ≤ 4294967296 →
        st.ast.nodePool.length ≤ (addMinusNode uninit line node st).1) := by
  unfold addMinusNode
  dsimp only
  have e2 : st.ast.nodePool.length + 1 < 4294967296 →
      (_ps_add_node (_ps_add_node st
      { type := PSnodeType.NUMBER, lineNum := line,
        literal := { type := PSliteralType.INT, intNum := -1 } }).2 node).1
      = st.ast.nodePool.length + 1 := by
    intro hlt
    rw [add_node_handle_eq _ _ (by rw [add_node_len]; omega), add_node_len]
  refine ⟨fun L => ?_, ?_⟩
  · have f12 := (frame_add_node (L := L) st
      { type := PSnodeType.NUMBER, lineNum := line,
        literal := { type := PSliteralType.INT, intNum := -1 } }
      (fun _ _ c => absurd c number_ne_op)).ftrans
      (frame_add_node _ node (fun _ _ c => absurd c hnode))
    refine ⟨by simp only [add_node_len]; omega, fun hw hL hsc => ?_⟩
    refine (f12.ftrans (frame_add_node _ _ ?_)).keeps hw hL hsc
    intro hlt _ _
    simp only [add_node_len] at hlt
    show L ≤ (_ps_add_node (_ps_add_node st _).2 node).1
    rw [e2 (by omega)]; omega
  · intro hw
    simp only [add_node_len] at hw
    rw [add_node_handle_eq _ _ (by simp only [add_node_len]; omega)]
    simp only [add_node_len]; omega

theorem frame_minus {uninit : Nat → Bool} {st0 st st1 : PSparseState} {node : PSnode} {h : PSnodeHandle}
    {line : Nat}
    (hp : (Except.ok (addMinusNode uninit line node st) : Except PSparseFail _) = .ok (h, st1))
    (f : ∀ L, Frame L st0 st) (hnode : node.type ≠ PSnodeType.OP) :
    (∀ L, Frame L st0 st1) ∧
      (st1.ast.nodePool.length ≤ 4294967296 → st0.ast.nodePool.length ≤ h) := by
  obtain ⟨rfl, rfl⟩ : h = (addMinusNode uninit line node st).1 ∧ st1 = (addMinusNode uninit line node st).2 := by
    cases hp; exact ⟨rfl, rfl⟩
  have := frame_addMinusNode uninit line node st hnode
  exact ⟨fun L => (f L).ftrans (this.1 L), fun hw => le_trans (f 0).len (this.2 hw)⟩

theorem parseArgs_frame {stmt : PSparseState → Except PSparseFail (PSnodeHandle × PSparseState)}
    (hf : FrameStmt stmt) (tokens : List PStoken) (fuel : Nat) :
    ∀ (params : List PSnodeHandle) (st : PSparseState) (l : List PSnodeHandle)
      (st1 : PSparseState),
      parseArgs stmt tokens fuel params st = .ok (l, st1) → ∀ L, Frame L st st1 := by
  induction fuel with
  | zero => intro params st l st1 h; cases h
  | succ fuel ih =>
    intro params st l st1 h L
    rw [parseArgs] at h
    obtain ⟨⟨a, sa⟩, hsa, h⟩ := bind_eq_ok h
    dsimp only at h
    obtain ⟨t, -, h⟩ := bind_eq_ok h
    obtain ⟨ga, -⟩ := hf _ _ _ hsa
    split at h
    · cases h
      exact ga L
    · split at h
      · cases h
      · obtain ⟨s2, hc, h⟩ := bind_eq_ok h
        have g2 := ih _ _ _ _ h L
        have gc : Frame L sa s2 := Frame.of_eq (by rw [continue_statement_ast hc, advance_ast])
        exact (ga L).ftrans (gc.ftrans g2)


theorem parse_id_frame {stof : String → Option Nat} {uninit : Nat → Bool}
    {stmt : PSparseState → Except PSparseFail (PSnodeHandle × PSparseState)}
    (hf : FrameStmt stmt) (fuel : Nat) (tokens : List PStoken) :
    FrameStmt (_ps_parse_id stof uninit stmt fuel tokens) := by
  intro st h st1 hp
  unfold _ps_parse_id at hp
  obtain ⟨t0, -, hp⟩ := bind_eq_ok hp
  dsimp only at hp
  generalize hst : (if (decide (t0.str = "-")) = true then st.advance 1 else st) = sm at hp
  have gm : ∀ L, Frame L st sm := fun L => Frame.of_eq (by rw [← hst]; split <;> rfl)
  obtain ⟨t, -, hp⟩ := bind_eq_ok hp
  obtain ⟨_, -, hp⟩ := bind_eq_ok hp
  obtain ⟨next, -, hp⟩ := bind_eq_ok hp
  split at hp
  · -- function call
    obtain ⟨s1, hc, hp⟩ := bind_eq_ok hp
    have g1 : ∀ L, Frame L sm s1 := fun L => Frame.of_eq (by
      rw [continue_statement_ast hc, openParen_ast, advance_ast])
    obtain ⟨t1, -, hp⟩ := bind_eq_ok hp
    split at hp
    · have gx : ∀ L, Frame L s1 ((s1.advance 1).closeParen) := fun L => Frame.of_eq rfl
      exact frame_add hp (fun L => (gm L).ftrans ((g1 L).ftrans (gx L))) id_ne_op
    · obtain ⟨⟨params, s2⟩, hargs, hp⟩ := bind_eq_ok hp
      dsimp only at hp
      have g2 := parseArgs_frame hf tokens fuel _ _ _ _ hargs
      have gx : ∀ L, Frame L s2 ((s2.advance 1).closeParen) := fun L => Frame.of_eq rfl
      have gall : ∀ L, Frame L st ((s2.advance 1).closeParen) :=
        fun L => (gm L).ftrans ((g1 L).ftrans ((g2 L).ftrans (gx L)))
      split at hp
      · obtain ⟨t3, -, hp⟩ := bind_eq_ok hp
        exact frame_minus hp gall id_ne_op
      · exact frame_add hp gall id_ne_op
  · split at hp
    · -- number
      split at hp
      · obtain ⟨bad, -, hp⟩ := bind_eq_ok hp
        cases hp
      · obtain ⟨prev, -, hp⟩ := bind_eq_ok hp
        split at hp
        · split at hp
          · cases hp
          · exact frame_add hp (fun L => (gm L).ftrans (Frame.of_eq rfl)) number_ne_op
        · split at hp
          · cases hp
          · exact frame_add hp (fun L => (gm L).ftrans (Frame.of_eq rfl)) number_ne_op
    · -- variable
      obtain ⟨t1, -, hp⟩ := bind_eq_ok hp
      obtain ⟨⟨vn, sv⟩, hv, hp⟩ := bind_eq_ok hp
      dsimp only at hp
      have hvn : (∀ L, Frame L sm sv) ∧ vn.type ≠ PSnodeType.OP := by
        split at hv
        · obtain ⟨s1, hc, hv⟩ := bind_eq_ok hv
          obtain ⟨⟨hidx, s2⟩, hi, hv⟩ := bind_eq_ok hv
          dsimp only at hv
          obtain ⟨s3, hc3, hv⟩ := bind_eq_ok hv
          obtain ⟨t3, -, hv⟩ := bind_eq_ok hv
          split at hv
          · cases hv
          · cases hv
            obtain ⟨gi, -⟩ := hf _ _ _ hi
            have g1 : ∀ L, Frame L sm (s1.advance 1) := fun L => Frame.of_eq (by
              rw [advance_ast, continue_statement_ast hc, openParen_ast, advance_ast])
            have g3 : ∀ L, Frame L s2 ((s3.closeParen).advance 1) := fun L => Frame.of_eq (by
              rw [advance_ast, closeParen_ast, continue_statement_ast hc3])
            exact ⟨fun L => (g1 L).ftrans ((gi L).ftrans (g3 L)), id_ne_op⟩
        · cases hv
          exact ⟨fun L => Frame.of_eq (advance_ast _ _), id_ne_op⟩
      split at hp
      · obtain ⟨t4, -, hp⟩ := bind_eq_ok hp
        exact frame_minus hp (fun L => (gm L).ftrans (hvn.1 L)) hvn.2
      · exact frame_add hp (fun L => (gm L).ftrans (hvn.1 L)) hvn.2


/-- Replacing the node at an index at or above `L` by one that stays scoped. -/
theorem frame_set {L : Nat} {s s1 : PSparseState} {i : Nat} {n m : PSnode}
    (hpool : s1.ast.nodePool = s.ast.nodePool.set i m)
    (hget : s.ast.nodePool[i]? = some n) (hi : L ≤ i)
    (hm : m.type = PSnodeType.OP →
      L ≤ m.op.right ∨ (n.type = PSnodeType.OP ∧ m.op.right = n.op.right)) :
    Frame L s s1 := by
  refine ⟨by rw [hpool, List.length_set], fun _ _ hsc => ⟨fun j hj => ?_, ?_⟩⟩
  · rw [hpool, List.getElem?_set_ne (by omega)]
  · intro j x hj hx hty
    rw [hpool] at hx
    by_cases hji : i = j
    · subst hji
      have hlt : i < s.ast.nodePool.length := (List.getElem?_eq_some_iff.mp hget).1
      rw [List.getElem?_set_eq hlt, Option.some.injEq] at hx
      subst hx
      rcases hm hty with h1 | ⟨h1, h2⟩
      · exact h1
      · rw [h2]; exact hsc i n hi hget h1
    · rw [List.getElem?_set_ne hji] at hx
      exact hsc j x hj hx hty

theorem parse_statement_in_parens_frame
    {stmt : PSparseState → Except PSparseFail (PSnodeHandle × PSparseState)}
    (hf : FrameStmt stmt) (tokens : List PStoken) :
    FrameStmt (_ps_parse_statement_in_parens stmt tokens) := by
  intro st h st1 hp
  unfold _ps_parse_statement_in_parens at hp
  obtain ⟨⟨node, s1⟩, hn, hp⟩ := bind_eq_ok hp
  dsimp only at hp
  obtain ⟨t, -, hp⟩ := bind_eq_ok hp
  obtain ⟨g1, hle⟩ := hf _ _ _ hn
  split at hp
  · cases hp
  · obtain ⟨n, hnode, hp⟩ := bind_eq_ok hp
    have hget := nodeAt_ok hnode
    have g0 : ∀ L, Frame L st ((st.advance 1).openParen) := fun L => Frame.of_eq rfl
    cases hp
    have hlen : (s1.ast.nodePool.set h { n with op := { n.op with inParens := true } }).length
        = s1.ast.nodePool.length := List.length_set _ _ _
    refine ⟨fun L => ⟨?_, fun hw hL hsc => ?_⟩, fun hw => ?_⟩
    · show st.ast.nodePool.length ≤ (s1.ast.nodePool.set h _).length
      rw [hlen]; exact (g1 0).len
    · have hw1 : s1.ast.nodePool.length ≤ 4294967296 := by rw [← hlen]; exact hw
      have f2 : Frame L s1 (({ s1 with ast := { s1.ast with nodePool :=
          (s1.ast.nodePool.set h { n with op := { n.op with inParens := true } }) } }
            : PSparseState).closeParen.advance 1) :=
        frame_set (n := n) rfl hget (le_trans hL (hle hw1)) (fun hty => Or.inr ⟨hty, rfl⟩)
      exact ((g0 L).ftrans ((g1 L).ftrans f2)).keeps hw hL hsc
    · have hw1 : s1.ast.nodePool.length ≤ 4294967296 := by rw [← hlen]; exact hw
      exact hle hw1

theorem parse_non_op_frame {stof : String → Option Nat} {uninit : Nat → Bool}
    {stmt : PSparseState → Except PSparseFail (PSnodeHandle × PSparseState)}
    (hf : FrameStmt stmt) (fuel : Nat) (tokens : List PStoken) :
    FrameStmt (_ps_parse_non_op stof uninit stmt fuel tokens) := by
  intro st h st1 hp
  unfold _ps_parse_non_op at hp
  obtain ⟨t, -, hp⟩ := bind_eq_ok hp
  obtain ⟨⟨node, s1⟩, hn, hp⟩ := bind_eq_ok hp
  dsimp only at hp
  obtain ⟨s2, hc, hp⟩ := bind_eq_ok hp
  have hast := continue_statement_ast hc
  have g1 : (∀ L, Frame L st s1) ∧
      (s1.ast.nodePool.length ≤ 4294967296 → st.ast.nodePool.length ≤ node) := by
    split at hn
    · exact parse_statement_in_parens_frame hf tokens _ _ _ hn
    · exact parse_id_frame hf fuel tokens _ _ _ hn
  cases hp
  refine ⟨fun L => (g1.1 L).ftrans (Frame.of_eq hast), fun hw => g1.2 ?_⟩
  rw [hast] at hw; exact hw

theorem parseBlock_frame
    {stmt : PSparseState → Except PSparseFail (PSnodeHandle × PSparseState)}
    (hf : FrameStmt stmt) (tokens : List PStoken) (fuel : Nat) :
    ∀ (code : List PSnodeHandle) (st : PSparseState) (l : List PSnodeHandle)
      (st1 : PSparseState),
      parseBlock stmt tokens fuel code st = .ok (l, st1) → ∀ L, Frame L st st1 := by
  induction fuel with
  | zero => intro code st l st1 h; cases h
  | succ fuel ih =>
    intro code st l st1 h L
    rw [parseBlock] at h
    obtain ⟨t, -, h⟩ := bind_eq_ok h
    split at h
    · obtain ⟨⟨a, sa⟩, hsa, h⟩ := bind_eq_ok h
      dsimp only at h
      obtain ⟨s2, hr, h⟩ := bind_eq_ok h
      obtain ⟨ga, -⟩ := hf _ _ _ hsa
      have gr : Frame L sa s2 := Frame.of_eq (remove_newline_ast hr)
      exact (ga L).ftrans (gr.ftrans (ih _ _ _ _ h L))
    · cases h
      exact Frame.frefl _

theorem parseBody_frame
    {stmt : PSparseState → Except PSparseFail (PSnodeHandle × PSparseState)}
    (hf : FrameStmt stmt) (fuel : Nat) (tokens : List PStoken)
    {st st1 : PSparseState} {l : List PSnodeHandle}
    (h : parseBody stmt fuel tokens st = .ok (l, st1)) : ∀ L, Frame L st st1 := by
  intro L
  unfold parseBody at h
  obtain ⟨t, -, h⟩ := bind_eq_ok h
  split at h
  · obtain ⟨s1, hr, h⟩ := bind_eq_ok h
    obtain ⟨⟨code, s2⟩, hb, h⟩ := bind_eq_ok h
    cases h
    have g0 : Frame L st (st.advance 1) := Frame.of_eq rfl
    have gr : Frame L (st.advance 1) s1 := Frame.of_eq (remove_newline_ast hr)
    have g2 := parseBlock_frame hf tokens fuel _ _ _ _ hb L
    have g3 : Frame L s2 (s2.advance 1) := Frame.of_eq rfl
    exact g0.ftrans (gr.ftrans (g2.ftrans g3))
  · obtain ⟨⟨a, sa⟩, hsa, h⟩ := bind_eq_ok h
    cases h
    exact (hf _ _ _ hsa).1 L


theorem findRightMost_scoped {L : Nat} (pool : List PSnode) (hsc : Scoped L pool)
    (newPrec : Nat) (fuel : Nat) :
    ∀ (rm : Option PSnodeHandle) (r : PSnodeHandle) (rm1 : Option PSnodeHandle)
      (r1 : PSnodeHandle),
      findRightMost pool newPrec fuel rm r = .ok (rm1, r1) →
      L ≤ r → (∀ i, rm = some i → L ≤ i) → L ≤ r1 ∧ ∀ i, rm1 = some i → L ≤ i := by
  induction fuel with
  | zero => intro rm r rm1 r1 h; cases h
  | succ fuel ih =>
    intro rm r rm1 r1 h hr hrm
    rw [findRightMost] at h
    obtain ⟨rmr, hn, h⟩ := bind_eq_ok h
    have hget := nodeAt_ok hn
    split at h
    · rename_i hc
      refine ih _ _ _ _ h (hsc r rmr hr hget hc.1) ?_
      intro i hi
      cases hi
      exact hr
    · cases h
      exact ⟨hr, hrm⟩

theorem add_node_le (st : PSparseState) (node : PSnode) :
    st.ast.nodePool.length ≤ (_ps_add_node st node).2.ast.nodePool.length := by
  rw [add_node_len]; omega

theorem insertOp_frame {moves : Nat → Bool} {L : Nat} {opNode newOp op1 : PSnode} {right : PSnodeHandle}
    {st st1 : PSparseState}
    (h : insertOp moves opNode newOp right st = .ok (op1, st1)) :
    st.ast.nodePool.length ≤ st1.ast.nodePool.length ∧
    (st1.ast.nodePool.length ≤ 4294967296 → L ≤ st.ast.nodePool.length →
      Scoped L st.ast.nodePool → L ≤ opNode.op.right → L ≤ right →
      (∀ i, i < L → st1.ast.nodePool[i]? = st.ast.nodePool[i]?) ∧
        Scoped L st1.ast.nodePool ∧ L ≤ op1.op.right) := by
  unfold insertOp at h
  split at h
  · cases h
    refine ⟨add_node_le st opNode, fun hw hL hsc htop hr => ?_⟩
    have := (frame_add_node (L := L) st opNode (fun _ _ _ => htop)).keeps hw hL hsc
    exact ⟨this.1, this.2, hr⟩
  · obtain ⟨⟨rm, rmRight⟩, hf, h⟩ := bind_eq_ok h
    dsimp only at h
    have hop := findRightMost_op _ _ _ _ _ _ _ hf (by intro i hi; cases hi)
    split at h
    · cases h
      refine ⟨add_node_le st _, fun hw hL hsc htop hr => ?_⟩
      have := (frame_add_node (L := L) st
        { newOp with op := { newOp.op with left := rmRight, right := right } }
        (fun _ _ _ => hr)).keeps hw hL hsc
      refine ⟨this.1, this.2, ?_⟩
      have hw1 : (_ps_add_node st
        { newOp with op := { newOp.op with left := rmRight, right := right } }
        ).2.ast.nodePool.length ≤ 4294967296 := hw
      rw [add_node_len] at hw1
      show L ≤ (_ps_add_node st
        { newOp with op := { newOp.op with left := rmRight, right := right } }).1
      rw [add_node_handle_eq st _ (by omega)]
      exact hL
    · rename_i i
      by_cases hmv : moves st.ast.nodePool.length = true
      · rw [if_pos hmv] at h; cases h
      rw [if_neg hmv] at h
      obtain ⟨n, hn, h⟩ := bind_eq_ok h
      cases h
      have hget := nodeAt_ok hn
      refine ⟨?_, fun hw hL hsc htop hr => ?_⟩
      · show _ ≤ (List.set _ _ _).length
        rw [List.length_set]
        exact add_node_le st _
      · have hw1 : st.ast.nodePool.length + 1 ≤ 4294967296 := by
          have : (List.set (_ps_add_node st
            { newOp with op := { newOp.op with left := rmRight, right := right } }
            ).2.ast.nodePool i { n with op := { n.op with right := (_ps_add_node st
            { newOp with op := { newOp.op with left := rmRight, right := right } }).1 } }
            ).length ≤ 4294967296 := hw
          rw [List.length_set, add_node_len] at this
          exact this
        obtain ⟨-, hi⟩ := findRightMost_scoped _ hsc _ _ _ _ _ _ hf htop
          (by intro j hj; cases hj)
        have f1 := frame_add_node (L := L) st
          { newOp with op := { newOp.op with left := rmRight, right := right } }
          (fun _ _ _ => hr)
        have hh : L ≤ (_ps_add_node st
            { newOp with op := { newOp.op with left := rmRight, right := right } }).1 := by
          rw [add_node_handle_eq st _ (by omega)]
          exact hL
        have f2 : Frame L (_ps_add_node st
            { newOp with op := { newOp.op with left := rmRight, right := right } }).2
            { (_ps_add_node st
              { newOp with op := { newOp.op with left := rmRight, right := right } }).2 with
              ast := { (_ps_add_node st
                { newOp with op := { newOp.op with left := rmRight, right := right } }).2.ast
                with nodePool := (_ps_add_node st
                  { newOp with op := { newOp.op with left := rmRight, right := right } }
                  ).2.ast.nodePool.set i { n with op := { n.op with right := (_ps_add_node st
                  { newOp with op := { newOp.op with left := rmRight, right := right } }
                  ).1 } } } } :=
          frame_set (n := n) rfl hget (hi i rfl) (fun _ => Or.inl hh)
        have := (f1.ftrans f2).keeps hw hL hsc
        exact ⟨this.1, this.2, htop⟩

theorem parseOps_frame {stof : String → Option Nat} {uninit moves : Nat → Bool}
    {stmt : PSparseState → Except PSparseFail (PSnodeHandle × PSparseState)}
    (hf : FrameStmt stmt) (fuel : Nat) (tokens : List PStoken) (L : Nat) (n : Nat) :
    ∀ (opNode : PSnode) (st : PSparseState) (op1 : PSnode) (st1 : PSparseState),
      parseOps stof uninit moves stmt fuel tokens n opNode st = .ok (op1, st1) →
      st.ast.nodePool.length ≤ st1.ast.nodePool.length ∧
      (st1.ast.nodePool.length ≤ 4294967296 → L ≤ st.ast.nodePool.length →
        Scoped L st.ast.nodePool → L ≤ opNode.op.right →
        (∀ i, i < L → st1.ast.nodePool[i]? = st.ast.nodePool[i]?) ∧
          Scoped L st1.ast.nodePool ∧ L ≤ op1.op.right) := by
  induction n with
  | zero => intro opNode st op1 st1 h; cases h
  | succ n ih =>
    intro opNode st op1 st1 h
    rw [parseOps] at h
    split at h
    · obtain ⟨t, -, h⟩ := bind_eq_ok h
      split at h
      · cases h
        exact ⟨le_refl _, fun _ _ hsc htop => ⟨fun _ _ => rfl, hsc, htop⟩⟩
      · obtain ⟨⟨newOp, s1⟩, hop, h⟩ := bind_eq_ok h
        dsimp only at h
        obtain ⟨⟨right, s2⟩, hr, h⟩ := bind_eq_ok h
        dsimp only at h
        obtain ⟨⟨op2, s3⟩, hi, h⟩ := bind_eq_ok h
        dsimp only at h
        obtain ⟨_, _, _, hnew, hast, _, _, _⟩ := get_op_node_ok hop
        obtain ⟨g2, hrl⟩ := parse_non_op_frame hf fuel tokens _ _ _ hr
        obtain ⟨l3, k3⟩ := insertOp_frame (L := L) hi
        obtain ⟨l4, k4⟩ := ih _ _ _ _ h
        have l2 := (g2 L).len
        have l1 : s1.ast.nodePool.length = st.ast.nodePool.length := by rw [hast]
        refine ⟨by omega, fun hw hL hsc htop => ?_⟩
        have hsc1 : Scoped L s1.ast.nodePool := by rw [hast]; exact hsc
        obtain ⟨a2, b2⟩ := (g2 L).keeps (by omega) (by omega) hsc1
        obtain ⟨a3, b3, c3⟩ := k3 (by omega) (by omega) b2 htop
          (le_trans (by omega) (hrl (by omega)))
        obtain ⟨a4, b4, c4⟩ := k4 hw (by omega) b3 c3
        refine ⟨fun i hi => ?_, b4, c4⟩
        rw [a4 i hi, a3 i hi, a2 i hi, hast]
    · cases h
      exact ⟨le_refl _, fun _ _ hsc htop => ⟨fun _ _ => rfl, hsc, htop⟩⟩


theorem parseStatementBody_frame {stof : String → Option Nat} {uninit moves : Nat → Bool}
    {stmt : PSparseState → Except PSparseFail (PSnodeHandle × PSparseState)}
    (hf : FrameStmt stmt) (fuel : Nat) (tokens : List PStoken) :
    FrameStmt (parseStatementBody stof uninit moves stmt fuel tokens) := by
  intro st h st1 hp
  unfold parseStatementBody at hp
  obtain ⟨t, -, hp⟩ := bind_eq_ok hp
  split at hp
  · -- if / for
    dsimp only at hp
    split at hp
    · cases hp
    · obtain ⟨⟨cond, s1⟩, hc, hp⟩ := bind_eq_ok hp
      dsimp only at hp
      obtain ⟨s2, hr2, hp⟩ := bind_eq_ok hp
      obtain ⟨⟨code, s3⟩, hb, hp⟩ := bind_eq_ok hp
      dsimp only at hp
      obtain ⟨g1, -⟩ := hf _ _ _ hc
      have g0 : ∀ L, Frame L st (st.advance 1) := fun L => Frame.of_eq rfl
      have g2 : ∀ L, Frame L s1 s2 := fun L => Frame.of_eq (remove_newline_ast hr2)
      have g3 := parseBody_frame hf fuel tokens hb
      have g03 : ∀ L, Frame L st s3 :=
        fun L => (g0 L).ftrans ((g1 L).ftrans ((g2 L).ftrans (g3 L)))
      split at hp
      · exact frame_add hp g03 keyword_ne_op
      · obtain ⟨s4, hr4, hp⟩ := bind_eq_ok hp
        obtain ⟨t4, -, hp⟩ := bind_eq_ok hp
        have g4 : ∀ L, Frame L s3 s4 := fun L => Frame.of_eq (remove_newline_ast hr4)
        split at hp
        · obtain ⟨s5, hr5, hp⟩ := bind_eq_ok hp
          obtain ⟨⟨elseCode, s6⟩, hb6, hp⟩ := bind_eq_ok hp
          dsimp only at hp
          have g5 : ∀ L, Frame L s4 s5 :=
            fun L => Frame.of_eq (by rw [remove_newline_ast hr5, advance_ast])
          have g6 := parseBody_frame hf fuel tokens hb6
          exact frame_add hp
            (fun L => (g03 L).ftrans ((g4 L).ftrans ((g5 L).ftrans (g6 L)))) keyword_ne_op
        · exact frame_add hp (fun L => (g03 L).ftrans (g4 L)) keyword_ne_op
  · split at hp
    · -- func
      obtain ⟨s1, hr1, hp⟩ := bind_eq_ok hp
      obtain ⟨nameTok, -, hp⟩ := bind_eq_ok hp
      obtain ⟨_, -, hp⟩ := bind_eq_ok hp
      obtain ⟨s2, hr2, hp⟩ := bind_eq_ok hp
      obtain ⟨t2, -, hp⟩ := bind_eq_ok hp
      obtain ⟨⟨paramNames, s3⟩, hpn, hp⟩ := bind_eq_ok hp
      dsimp only at hp
      obtain ⟨s4, hr4, hp⟩ := bind_eq_ok hp
      obtain ⟨t4, -, hp⟩ := bind_eq_ok hp
      have e1 : s1.ast = st.ast := by rw [remove_newline_ast hr1, advance_ast]
      have e2 : s2.ast = s1.ast := by rw [remove_newline_ast hr2, advance_ast]
      have e3 : s3.ast = s2.ast := by
        split at hpn
        · obtain ⟨s21, hc, hpn⟩ := bind_eq_ok hpn
          obtain ⟨⟨names, s22⟩, hn, hpn⟩ := bind_eq_ok hpn
          cases hpn
          rw [closeParen_ast, advance_ast, parseParamNames_ast _ _ _ _ _ _ hn,
            continue_statement_ast hc, openParen_ast, advance_ast]
        · cases hpn
          rfl
      have e4 := remove_newline_ast hr4
      split at hp
      · cases hp
      · obtain ⟨s5, hr5, hp⟩ := bind_eq_ok hp
        obtain ⟨⟨code, s6⟩, hb, hp⟩ := bind_eq_ok hp
        dsimp only at hp
        have e5 : s5.ast = st.ast := by
          rw [remove_newline_ast hr5, advance_ast, e4, e3, e2, e1]
        have g6 := parseBlock_frame hf tokens fuel _ _ _ _ hb
        exact frame_add hp
          (fun L => (Frame.of_eq e5).ftrans ((g6 L).ftrans (Frame.of_eq rfl))) keyword_ne_op
    · split at hp
      · -- ret
        dsimp only at hp
        obtain ⟨t1, -, hp⟩ := bind_eq_ok hp
        have g0 : ∀ L, Frame L st (st.advance 1) := fun L => Frame.of_eq rfl
        split at hp
        · obtain ⟨⟨rv, s2⟩, hv, hp⟩ := bind_eq_ok hp
          dsimp only at hp
          obtain ⟨g1, -⟩ := hf _ _ _ hv
          exact frame_add hp (fun L => (g0 L).ftrans (g1 L)) keyword_ne_op
        · exact frame_add hp g0 keyword_ne_op
      · split at hp
        · -- break / continue
          dsimp only at hp
          obtain ⟨t1, -, hp⟩ := bind_eq_ok hp
          have g0 : ∀ L, Frame L st (st.advance 1) := fun L => Frame.of_eq rfl
          split at hp
          · cases hp
          · exact frame_add hp g0 keyword_ne_op
        · -- expression
          obtain ⟨⟨left, s1⟩, hl, hp⟩ := bind_eq_ok hp
          dsimp only at hp
          obtain ⟨t1, -, hp⟩ := bind_eq_ok hp
          obtain ⟨g1, hll⟩ := parse_non_op_frame hf fuel tokens _ _ _ hl
          split at hp
          · cases hp
            exact ⟨g1, hll⟩
          · obtain ⟨⟨opNode, s2⟩, hop, hp⟩ := bind_eq_ok hp
            dsimp only at hp
            obtain ⟨⟨right, s3⟩, hr, hp⟩ := bind_eq_ok hp
            dsimp only at hp
            obtain ⟨⟨op4, s4⟩, hops, hp⟩ := bind_eq_ok hp
            dsimp only at hp
            obtain ⟨_, _, _, hty, hast, _, _, _⟩ := get_op_node_ok hop
            obtain ⟨g3, hrl⟩ := parse_non_op_frame hf fuel tokens _ _ _ hr
            obtain ⟨rfl, rfl⟩ : h = (_ps_add_node s4 op4).1 ∧ st1 = (_ps_add_node s4 op4).2 := by
              cases hp; exact ⟨rfl, rfl⟩
            have l1 := (g1 0).len
            have l2 : s2.ast.nodePool.length = s1.ast.nodePool.length := by rw [hast]
            have l3 := (g3 0).len
            have l5 := add_node_len s4 op4
            refine ⟨fun L => ?_, fun hw => ?_⟩
            · obtain ⟨l4, k4⟩ := parseOps_frame hf fuel tokens L fuel _ _ _ _ hops
              refine ⟨by omega, fun hw hL hsc => ?_⟩
              obtain ⟨a1, b1⟩ := (g1 L).keeps (by omega) hL hsc
              have b2 : Scoped L s2.ast.nodePool := by rw [hast]; exact b1
              obtain ⟨a3, b3⟩ := (g3 L).keeps (by omega) (by omega) b2
              obtain ⟨a4, b4, c4⟩ := k4 (by omega) (by omega) b3
                (le_trans (by omega) (hrl (by omega)))
              obtain ⟨a5, b5⟩ := (frame_add_node (L := L) s4 op4
                (fun _ _ _ => c4)).keeps hw (by omega) b4
              refine ⟨fun i hi => ?_, b5⟩
              rw [a5 i hi, a4 i hi, a3 i hi, hast, a1 i hi]
            · obtain ⟨l4, -⟩ := parseOps_frame hf fuel tokens 0 fuel _ _ _ _ hops
              rw [add_node_handle_eq s4 op4 (by omega)]
              omega

theorem parse_statement_frame (stof : String → Option Nat) (uninit moves : Nat → Bool) (tokens : List PStoken)
    (fuel : Nat) : FrameStmt (_ps_parse_statement stof uninit moves tokens fuel) := by
  induction fuel with
  | zero => intro st h st1 hp; cases hp
  | succ fuel ih =>
    intro st h st1 hp
    rw [_ps_parse_statement] at hp
    exact parseStatementBody_frame ih fuel tokens _ _ _ hp

/-- An operand parse leaves the existing nodes of the pool alone, as long as handles do
not wrap around. -/
theorem parseOperand_frame {stof : String → Option Nat} {uninit moves : Nat → Bool} {tokens : List PStoken} {fuel : Nat}
    {st st1 : PSparseState} {h : PSnodeHandle}
    (hp : parseOperand stof uninit moves tokens fuel st = .ok (h, st1))
    (hw : st1.ast.nodePool.length ≤ 4294967296) :
    st.ast.nodePool.length ≤ st1.ast.nodePool.length ∧ st.ast.nodePool.length ≤ h ∧
      ∀ i, i < st.ast.nodePool.length → st1.ast.nodePool[i]? = st.ast.nodePool[i]? := by
  obtain ⟨g, hh⟩ := parse_non_op_frame
    (parse_statement_frame stof uninit moves tokens fuel) fuel tokens _ _ _ hp
  exact ⟨(g 0).len, hh hw,
    ((g st.ast.nodePool.length).keeps hw (le_refl _) (scoped_start _)).1⟩


/-! ## Theorems: precedence and parentheses -/

/-- Insertion of an operator of smaller precedence value than the running top, when the
node at the right child of the top stops the walk: the new operator takes that child as
its left operand and becomes the right child of the top. -/
theorem insertOp_stop {moves : Nat → Bool} {opNode newOp nb : PSnode} {right : PSnodeHandle} {st : PSparseState}
    (h : _ps_precedence newOp.op.type < _ps_precedence opNode.op.type)
    (hb : st.ast.nodePool[opNode.op.right]? = some nb)
    (hstop : nb.type = PSnodeType.OP →
      _ps_precedence nb.op.type ≤ _ps_precedence newOp.op.type ∨ nb.op.inParens = true) :
    insertOp moves opNode newOp right st =
      .ok ({ opNode with op := { opNode.op with right := u32 st.ast.nodePool.length } },
           (_ps_add_node st (newOp.withChildren opNode.op.right right)).2) := by
  have hcond : ¬ (nb.type = PSnodeType.OP ∧
      _ps_precedence newOp.op.type < _ps_precedence nb.op.type ∧ nb.op.inParens = false) := by
    rintro ⟨c1, c2, c3⟩
    rcases hstop c1 with c | c
    · omega
    · rw [c3] at c; cases c
  unfold insertOp
  rw [if_neg (by omega)]
  simp only [findRightMost, nodeAt, hb, bind, Except.bind, if_neg hcond, pure, Except.pure]
  rfl

theorem isOp_of_get {pool : List PSnode} {h : PSnodeHandle} {n : PSnode}
    (hget : pool[h]? = some n) (hn : n.type = PSnodeType.OP) :
    IsOp pool h n.op.type n.op.left n.op.right := ⟨n, hget, hn, rfl, rfl, rfl⟩

theorem getElem?_append_two {α : Type} (l : List α) (x y : α) {i : Nat} (hi : i < l.length) :
    (l ++ [x] ++ [y])[i]? = l[i]? := by
  rw [List.append_assoc, List.getElem?_append_left hi]

/-- C2. Precedence.  (1) When an expression is made of four operands `a`, `b`, `c`, `d`,
the root node of `b` being a variable, a literal or a call, separated by `+`, `*` and `-`
and followed by a statement end, `_ps_parse_statement` succeeds and returns a node
`SUB(ADD(a, MULT(b, c)), d)`, whatever the never-assigned `inParens` flags read.  (2) The
program `x = 3 + 4 * 2`, `print(x)` prints the int 11 when the never-assigned flag of the
`+` node reads `false`, and (3) the int 14 when it reads `true`. -/
theorem parse_precedence :
    (∀ (stof : String → Option Nat) (uninit moves : Nat → Bool) (tokens : List PStoken) (fuel : Nat)
      (st0 s1 s1' s2 s2' s3 s3' s4 : PSparseState) (a b c d : PSnodeHandle)
      (n1 n2 n3 nb : PSnode) (t0 tEnd : PStoken),
      3 ≤ fuel →
      tokenAt tokens st0.curTokenIdx = .ok t0 → t0.str ∉ statementKeywords →
      parseOperand stof uninit moves tokens fuel st0 = .ok (a, s1) →
      _ps_get_op_node uninit tokens s1 = .ok (n1, s1') → n1.op.type = PSopType.ADD →
      parseOperand stof uninit moves tokens fuel s1' = .ok (b, s2) →
      s2.ast.nodePool[b]? = some nb → nb.type ≠ PSnodeType.OP →
      _ps_get_op_node uninit tokens s2 = .ok (n2, s2') → n2.op.type = PSopType.MULT →
      parseOperand stof uninit moves tokens fuel s2' = .ok (c, s3) →
      _ps_get_op_node uninit tokens (_ps_add_node s3 (n2.withChildren b c)).2 = .ok (n3, s3') →
      n3.op.type = PSopType.SUB →
      parseOperand stof uninit moves tokens fuel s3' = .ok (d, s4) →
      tokenAt tokens s4.curTokenIdx = .ok tEnd → isStatementEnd tEnd = true →
      s4.ast.nodePool.length + 2 ≤ 4294967296 →
      ∃ h h1 h2 st', _ps_parse_statement stof uninit moves tokens (fuel + 1) st0 = .ok (h, st') ∧
        IsOp st'.ast.nodePool h PSopType.SUB h1 d ∧
        IsOp st'.ast.nodePool h1 PSopType.ADD a h2 ∧
        IsOp st'.ast.nodePool h2 PSopType.MULT b c) ∧
    (ps_parse_tokens stofNone uninitFalse movesDoubling 4 tokensAssign11).toOption.map
        (fun ast => (ps_execute hostZero 4 {} {} ast).output?) = some (some [[.INT 11]]) ∧
    (ps_parse_tokens stofNone uninitTrue movesDoubling 4 tokensAssign11).toOption.map
        (fun ast => (ps_execute hostZero 4 {} {} ast).output?) = some (some [[.INT 14]]) := by
  refine ⟨?_, by decide!, by decide!⟩
  intro stof uninit moves tokens fuel st0 s1 s1' s2 s2' s3 s3' s4 a b c d n1 n2 n3 nb t0 tEnd hfuel h0 hk
    ha hop1 ht1 hb hnb hnbty hop2 ht2 hc hop3 ht3 hd hend hend2 hsize
  obtain ⟨k, rfl⟩ : ∃ k, fuel = k + 3 := ⟨fuel - 3, by omega⟩
  obtain ⟨_, _, _, hn1, _, _, _, _⟩ := get_op_node_ok hop1
  obtain ⟨_, _, _, hn2, hast2, _, _, _⟩ := get_op_node_ok hop2
  obtain ⟨_, _, _, hn3, hast3, _, _, _⟩ := get_op_node_ok hop3
  -- sizes of the pools along the way
  obtain ⟨l4, -, f4⟩ := parseOperand_frame hd (by omega)
  have l3' : s3'.ast.nodePool.length = s3.ast.nodePool.length + 1 := by
    rw [hast3, add_node_len]
  obtain ⟨l3, -, f3⟩ := parseOperand_frame hc (by omega)
  have hblt : b < s2.ast.nodePool.length := (List.getElem?_eq_some_iff.mp hnb).1
  -- the root of `b` is still there after `c` has been parsed
  have hnb3 : s3.ast.nodePool[(n1.asTop a b).op.right]? = some nb := by
    show s3.ast.nodePool[b]? = some nb
    rw [f3 b (by rw [hast2]; exact hblt), hast2]
    exact hnb
  have hp1 : _ps_precedence n2.op.type < _ps_precedence (n1.asTop a b).op.type := by
    show _ps_precedence n2.op.type < _ps_precedence n1.op.type
    rw [ht1, ht2]; decide
  have hp2 : _ps_precedence n3.op.type ≥
      _ps_precedence (n1.asTop a (u32 s3.ast.nodePool.length)).op.type := by
    show _ps_precedence n3.op.type ≥ _ps_precedence n1.op.type
    rw [ht1, ht3]; decide
  have hins : insertOp moves (n1.asTop a b) n2 c s3 =
      .ok (n1.asTop a (u32 s3.ast.nodePool.length),
        (_ps_add_node s3 (n2.withChildren b c)).2) :=
    insertOp_stop hp1 hnb3 (fun c => absurd c hnbty)
  rw [parse_statement_expr h0 hk ha hop1 hb, parseOps_step hop2 hc, hins]
  simp only [Except.bind]
  rw [parseOps_step hop3 hd, insertOp_wrap hp2]
  simp only [Except.bind]
  rw [parseOps_end (by simpa using hend) hend2]
  simp only [Except.bind]
  have e3 : u32 s3.ast.nodePool.length = s3.ast.nodePool.length := u32_of_lt (by omega)
  have e4 : u32 s4.ast.nodePool.length = s4.ast.nodePool.length := u32_of_lt (by omega)
  have e5 : u32 (s4.ast.nodePool.length + 1) = s4.ast.nodePool.length + 1 :=
    u32_of_lt (by omega)
  -- the `MULT` node pushed before `d` was parsed is still there
  have hm : s4.ast.nodePool[s3.ast.nodePool.length]? = some (n2.withChildren b c) := by
    rw [f4 _ (by omega), hast3, add_node_pool, List.getElem?_concat_length]
  refine ⟨_, s4.ast.nodePool.length, s3.ast.nodePool.length, _, rfl, ?_, ?_, ?_⟩
  · simp only [add_node_pool, add_node_handle, List.length_append, List.length_singleton, e4,
      e5]
    have := isOp_append_last (s4.ast.nodePool ++ [n1.asTop a s3.ast.nodePool.length])
      (n3.withChildren s4.ast.nodePool.length d) hn3
    simpa [PSnode.withChildren, PSnode.asTop, ht3, e3] using this
  · simp only [add_node_pool]
    apply isOp_append_left
    have := isOp_append_last s4.ast.nodePool (n1.asTop a s3.ast.nodePool.length) hn1
    simpa [PSnode.withChildren, PSnode.asTop, ht1, e3] using this
  · simp only [add_node_pool]
    apply isOp_append_left
    apply isOp_append_left
    have := isOp_of_get hm hn2
    simpa [PSnode.withChildren, PSnode.asTop, ht2] using this


theorem parse_precedence_witness :
    ∃ h h1 h2 st', _ps_parse_statement stofNone uninitFalse movesDoubling tokensAddMulSub 4 (stAt [] 0) = .ok (h, st') ∧
      IsOp st'.ast.nodePool h PSopType.SUB h1 4 ∧
      IsOp st'.ast.nodePool h1 PSopType.ADD 0 h2 ∧
      IsOp st'.ast.nodePool h2 PSopType.MULT 1 2 :=
  parse_precedence.1 stofNone uninitFalse movesDoubling tokensAddMulSub 3
    (stAt [] 0) (stAt [varNode "a"] 1) (stAt [varNode "a"] 2)
    (stAt [varNode "a", varNode "b"] 3) (stAt [varNode "a", varNode "b"] 4)
    (stAt [varNode "a", varNode "b", varNode "c"] 5)
    (stAt [varNode "a", varNode "b", varNode "c", opNode PSopType.MULT 1 2] 6)
    (stAt [varNode "a", varNode "b", varNode "c", opNode PSopType.MULT 1 2, varNode "d"] 7)
    0 1 2 4 (opNode PSopType.ADD 0 0) (opNode PSopType.MULT 0 0) (opNode PSopType.SUB 0 0)
    (varNode "b") (tokId "a") tokNl
    (by decide) (by decide) (by decide) (by decide!) (by decide!) (by decide) (by decide!)
    (by decide) (by decide) (by decide!) (by decide) (by decide!) (by decide!) (by decide)
    (by decide!) (by decide) (by decide) (by decide)


theorem parse_left_associative_witness :
    (∃ h h1 st', _ps_parse_statement stofNone uninitFalse movesDoubling tokensSubSub 3 (stAt [] 0) = .ok (h, st') ∧
      IsOp st'.ast.nodePool h PSopType.SUB h1 2 ∧ IsOp st'.ast.nodePool h1 PSopType.SUB 0 1) ∧
    (ps_parse_tokens stofNone uninitFalse movesDoubling 3 tokensSubSub = .ok astSubSub ∧
      _ps_evaluate_statement {} astSubSub 3 (opNode PSopType.SUB 3 2) [] [] stateABC
        = .ok (PSevalResult.mk0 (.INT (i32 (i32 (7 - 2) - 1))) [] [] stateABC)) :=
  ⟨parse_left_associative.1 stofNone uninitFalse movesDoubling tokensSubSub 2
    (stAt [] 0) (stAt [varNode "a"] 1) (stAt [varNode "a"] 2)
    (stAt [varNode "a", varNode "b"] 3) (stAt [varNode "a", varNode "b"] 4)
    (stAt [varNode "a", varNode "b", varNode "c"] 5)
    0 1 2 (opNode PSopType.SUB 0 0) (opNode PSopType.SUB 0 0) (tokId "a") tokNl
    (by decide) (by decide) (by decide) (by decide!) (by decide!) (by decide!) (by decide!)
    (by decide!) (by decide) (by decide) (by decide) (by decide),
   parse_left_associative.2 {} 7 2 1 stateABC [] [] (by decide) (by decide) (by decide)
    (by decide) (by decide) (by decide)⟩

set_option maxRecDepth 100000 in
theorem parse_handles_valid_witness :
    ps_parse_tokens stofNone uninitFalse movesDoubling 6 tokensFuncFor = .ok astFuncFor ∧
    (∀ p ∈ astFuncFor.parentNodes, p < astFuncFor.nodePool.length) ∧
    ∀ node ∈ astFuncFor.nodePool, node.HandlesBelow astFuncFor.nodePool.length :=
  ⟨by decide!, parse_handles_valid stofNone uninitFalse movesDoubling 6 tokensFuncFor astFuncFor (by decide!)⟩


/-- The root node of a parenthesised operand is flagged `inParens`. -/
theorem parseOperand_paren_root {stof : String → Option Nat} {uninit moves : Nat → Bool} {tokens : List PStoken}
    {fuel : Nat} {st st1 : PSparseState} {p : PSnodeHandle} {t0 : PStoken}
    (h0 : tokenAt tokens st.curTokenIdx = .ok t0) (hparen : t0.str = "(")
    (hp : parseOperand stof uninit moves tokens fuel st = .ok (p, st1)) :
    ∃ nP, st1.ast.nodePool[p]? = some nP ∧ nP.op.inParens = true := by
  unfold parseOperand _ps_parse_non_op at hp
  obtain ⟨t, ht, hp⟩ := bind_eq_ok hp
  rw [h0] at ht
  cases ht
  rw [if_pos hparen] at hp
  obtain ⟨⟨node, s1⟩, hn, hp⟩ := bind_eq_ok hp
  dsimp only at hp
  obtain ⟨s2, hc, hp⟩ := bind_eq_ok hp
  cases hp
  rw [continue_statement_ast hc]
  unfold _ps_parse_statement_in_parens at hn
  obtain ⟨⟨node1, s0⟩, -, hn⟩ := bind_eq_ok hn
  dsimp only at hn
  obtain ⟨t1, -, hn⟩ := bind_eq_ok hn
  split at hn
  · cases hn
  · obtain ⟨n, hnode, hn⟩ := bind_eq_ok hn
    have hget := nodeAt_ok hnode
    have hlt : node1 < s0.ast.nodePool.length := (List.getElem?_eq_some_iff.mp hget).1
    cases hn
    refine ⟨{ n with op := { n.op with inParens := true } }, ?_, rfl⟩
    show (s0.ast.nodePool.set p _)[p]? = _
    rw [List.getElem?_set_self hlt]

/-- The operator insertion never changes a node flagged `inParens`. -/
theorem insertOp_freeze {moves : Nat → Bool} {opNode newOp op1 : PSnode} {right : PSnodeHandle}
    {st st1 : PSparseState} (h : insertOp moves opNode newOp right st = .ok (op1, st1))
    {i : Nat} {n : PSnode} (hn : st.ast.nodePool[i]? = some n) (hpar : n.op.inParens = true) :
    st1.ast.nodePool[i]? = some n := by
  have hi : i < st.ast.nodePool.length := (List.getElem?_eq_some_iff.mp hn).1
  unfold insertOp at h
  split at h
  · cases h
    show (st.ast.nodePool ++ [opNode])[i]? = some n
    rw [List.getElem?_append_left hi]; exact hn
  · obtain ⟨⟨rm, rmRight⟩, hf, h⟩ := bind_eq_ok h
    dsimp only at h
    have hop := findRightMost_op _ _ _ _ _ _ _ hf (by intro i hi; cases hi)
    split at h
    · cases h
      show (st.ast.nodePool ++ [_])[i]? = some n
      rw [List.getElem?_append_left hi]; exact hn
    · rename_i j
      by_cases hmv : moves st.ast.nodePool.length = true
      · rw [if_pos hmv] at h; cases h
      rw [if_neg hmv] at h
      obtain ⟨m, -, h⟩ := bind_eq_ok h
      cases h
      obtain ⟨n0, hn0, -, hflag⟩ := hop j rfl
      have hne : j ≠ i := by
        intro c
        subst c
        rw [hn] at hn0
        cases hn0
        rw [hpar] at hflag
        cases hflag
      show ((st.ast.nodePool ++ [_]).set j _)[i]? = some n
      rw [List.getElem?_set_ne hne, List.getElem?_append_left hi]; exact hn

theorem paren_not_keyword {t : PStoken} (h : t.str = "(") : t.str ∉ statementKeywords := by
  rw [h]; decide

/-- C4. Parentheses freeze the grouping.  (1) In `(E) op c` the parenthesised operand `E`
is the left child of `op` and its root node, flagged `inParens`, is in the final pool as
the operand parser left it.  (2) In `x op0 (E) op2 c` with `op2` binding tighter than `op0`
the result is `op0(x, op2(E, c))`, the root of `E` again unchanged and flagged.  (3) The
insertion of an operator never changes a node flagged `inParens`.  (4) `(a + b) * c` and
`x + (a + b) * c` parse to `MULT(ADD(a, b), c)` and `ADD(x, MULT(ADD(a, b), c))`. -/
theorem parse_parens_freeze :
    (∀ (stof : String → Option Nat) (uninit moves : Nat → Bool) (tokens : List PStoken) (fuel : Nat)
      (st0 s1 s1' s2 : PSparseState) (p c : PSnodeHandle) (n1 : PSnode) (t0 tEnd : PStoken),
      1 ≤ fuel →
      tokenAt tokens st0.curTokenIdx = .ok t0 → t0.str = "(" →
      parseOperand stof uninit moves tokens fuel st0 = .ok (p, s1) →
      _ps_get_op_node uninit tokens s1 = .ok (n1, s1') →
      parseOperand stof uninit moves tokens fuel s1' = .ok (c, s2) →
      tokenAt tokens s2.curTokenIdx = .ok tEnd → isStatementEnd tEnd = true →
      s2.ast.nodePool.length + 1 ≤ 4294967296 →
      ∃ h st' nP, _ps_parse_statement stof uninit moves tokens (fuel + 1) st0 = .ok (h, st') ∧
        IsOp st'.ast.nodePool h n1.op.type p c ∧
        s1.ast.nodePool[p]? = some nP ∧ nP.op.inParens = true ∧
        st'.ast.nodePool[p]? = some nP) ∧
    (∀ (stof : String → Option Nat) (uninit moves : Nat → Bool) (tokens : List PStoken) (fuel : Nat)
      (st0 s1 s1' s2 s2' s3 : PSparseState) (x p c : PSnodeHandle) (n0 n2 : PSnode)
      (t0 tp tEnd : PStoken),
      2 ≤ fuel →
      tokenAt tokens st0.curTokenIdx = .ok t0 → t0.str ∉ statementKeywords →
      parseOperand stof uninit moves tokens fuel st0 = .ok (x, s1) →
      _ps_get_op_node uninit tokens s1 = .ok (n0, s1') →
      tokenAt tokens s1'.curTokenIdx = .ok tp → tp.str = "(" →
      parseOperand stof uninit moves tokens fuel s1' = .ok (p, s2) →
      _ps_get_op_node uninit tokens s2 = .ok (n2, s2') →
      parseOperand stof uninit moves tokens fuel s2' = .ok (c, s3) →
      tokenAt tokens s3.curTokenIdx = .ok tEnd → isStatementEnd tEnd = true →
      _ps_precedence n2.op.type < _ps_precedence n0.op.type →
      s3.ast.nodePool.length + 2 ≤ 4294967296 →
      ∃ h h2 st' nP, _ps_parse_statement stof uninit moves tokens (fuel + 1) st0 = .ok (h, st') ∧
        IsOp st'.ast.nodePool h n0.op.type x h2 ∧
        IsOp st'.ast.nodePool h2 n2.op.type p c ∧
        s2.ast.nodePool[p]? = some nP ∧ nP.op.inParens = true ∧
        st'.ast.nodePool[p]? = some nP) ∧
    (∀ (moves : Nat → Bool) (opNode newOp op1 : PSnode) (right : PSnodeHandle)
      (st st1 : PSparseState) (i : Nat) (n : PSnode),
      insertOp moves opNode newOp right st = .ok (op1, st1) →
      st.ast.nodePool[i]? = some n → n.op.inParens = true →
      st1.ast.nodePool[i]? = some n) ∧
    ps_parse_tokens stofNone uninitFalse movesDoubling 4 tokensParenMul = .ok astParenMul ∧
    ps_parse_tokens stofNone uninitFalse movesDoubling 4 tokensAddParenMul = .ok astAddParenMul := by
  refine ⟨?_, ?_, ?_, by decide!, by decide!⟩
  · intro stof uninit moves tokens fuel st0 s1 s1' s2 p c n1 t0 tEnd hfuel h0 hparen hp hop1 hc hend hend2
      hsize
    obtain ⟨k, rfl⟩ : ∃ k, fuel = k + 1 := ⟨fuel - 1, by omega⟩
    obtain ⟨_, _, _, hn1, hast1, _, _, _⟩ := get_op_node_ok hop1
    obtain ⟨nP, hnP, hflag⟩ := parseOperand_paren_root h0 hparen hp
    obtain ⟨-, -, f2⟩ := parseOperand_frame hc (by omega)
    have hplt : p < s1.ast.nodePool.length := (List.getElem?_eq_some_iff.mp hnP).1
    have hnP2 : s2.ast.nodePool[p]? = some nP := by
      rw [f2 p (by rw [hast1]; exact hplt), hast1]; exact hnP
    rw [parse_statement_expr h0 (paren_not_keyword hparen) hp hop1 hc,
      parseOps_end hend hend2]
    simp only [Except.bind]
    have e2 : u32 s2.ast.nodePool.length = s2.ast.nodePool.length := u32_of_lt (by omega)
    refine ⟨_, _, nP, rfl, ?_, hnP, hflag, ?_⟩
    · simp only [add_node_pool, add_node_handle, e2]
      have := isOp_append_last s2.ast.nodePool (n1.asTop p c) hn1
      simpa [PSnode.withChildren, PSnode.asTop] using this
    · simp only [add_node_pool]
      rw [List.getElem?_append_left (lt_of_lt_of_le hplt (by rw [← hast1]; exact
        (parseOperand_frame hc (by omega)).1))]
      exact hnP2
  · intro stof uninit moves tokens fuel st0 s1 s1' s2 s2' s3 x p c n0 n2 t0 tp tEnd hfuel h0 hk hx hop0
      htp hparen hp hop2 hc hend hend2 hprec hsize
    obtain ⟨k, rfl⟩ : ∃ k, fuel = k + 2 := ⟨fuel - 2, by omega⟩
    obtain ⟨_, _, _, hn0, _, _, _, _⟩ := get_op_node_ok hop0
    obtain ⟨_, _, _, hn2, hast2, _, _, _⟩ := get_op_node_ok hop2
    obtain ⟨nP, hnP, hflag⟩ := parseOperand_paren_root htp hparen hp
    obtain ⟨l3, -, f3⟩ := parseOperand_frame hc (by omega)
    have hplt : p < s2.ast.nodePool.length := (List.getElem?_eq_some_iff.mp hnP).1
    have hnP3 : s3.ast.nodePool[p]? = some nP := by
      rw [f3 p (by rw [hast2]; exact hplt), hast2]; exact hnP
    have hplt3 : p < s3.ast.nodePool.length := (List.getElem?_eq_some_iff.mp hnP3).1
    have hins : insertOp moves (n0.asTop x p) n2 c s3 =
        .ok (n0.asTop x (u32 s3.ast.nodePool.length),
          (_ps_add_node s3 (n2.withChildren p c)).2) :=
      @insertOp_stop moves (n0.asTop x p) n2 nP c s3 hprec hnP3 (fun _ => Or.inr hflag)
    rw [parse_statement_expr h0 hk hx hop0 hp, parseOps_step hop2 hc, hins]
    simp only [Except.bind]
    rw [parseOps_end (by simpa using hend) hend2]
    simp only [Except.bind]
    have e3 : u32 s3.ast.nodePool.length = s3.ast.nodePool.length := u32_of_lt (by omega)
    have e4 : u32 (s3.ast.nodePool.length + 1) = s3.ast.nodePool.length + 1 :=
      u32_of_lt (by omega)
    refine ⟨_, s3.ast.nodePool.length, _, nP, rfl, ?_, ?_, hnP, hflag, ?_⟩
    · simp only [add_node_pool, add_node_handle, List.length_append, List.length_singleton,
        e4]
      have := isOp_append_last (s3.ast.nodePool ++ [n2.withChildren p c])
        (n0.asTop x s3.ast.nodePool.length) hn0
      simpa [PSnode.withChildren, PSnode.asTop, e3] using this
    · simp only [add_node_pool]
      apply isOp_append_left
      have := isOp_append_last s3.ast.nodePool (n2.withChildren p c) hn2
      simpa [PSnode.withChildren, PSnode.asTop] using this
    · simp only [add_node_pool]
      rw [getElem?_append_two _ _ _ hplt3]
      exact hnP3
  · intro moves opNode newOp op1 right st st1 i n h hn hpar
    exact insertOp_freeze h hn hpar

theorem parse_parens_freeze_witness :
    (∃ h st' nP, _ps_parse_statement stofNone uninitFalse movesDoubling tokensParenMul 4 (stAt [] 0) = .ok (h, st') ∧
      IsOp st'.ast.nodePool h PSopType.MULT 2 3 ∧
      (stAt [varNode "a", varNode "b", parenNode (opNode PSopType.ADD 0 1)] 5).ast.nodePool[2]?
        = some nP ∧ nP.op.inParens = true ∧ st'.ast.nodePool[2]? = some nP) ∧
    (∃ h h2 st' nP,
      _ps_parse_statement stofNone uninitFalse movesDoubling tokensAddParenMul 4 (stAt [] 0) = .ok (h, st') ∧
      IsOp st'.ast.nodePool h PSopType.ADD 0 h2 ∧ IsOp st'.ast.nodePool h2 PSopType.MULT 3 4 ∧
      (stAt [varNode "x", varNode "a", varNode "b", parenNode (opNode PSopType.ADD 1 2)]
        7).ast.nodePool[3]? = some nP ∧ nP.op.inParens = true ∧
      st'.ast.nodePool[3]? = some nP) ∧
    (stAt [varNode "x", varNode "a", varNode "b", parenNode (opNode PSopType.ADD 1 2),
      varNode "c", opNode PSopType.MULT 3 4] 9).ast.nodePool[3]?
        = some (parenNode (opNode PSopType.ADD 1 2)) :=
  ⟨parse_parens_freeze.1 stofNone uninitFalse movesDoubling tokensParenMul 3
    (stAt [] 0) (stAt [varNode "a", varNode "b", parenNode (opNode PSopType.ADD 0 1)] 5)
    (stAt [varNode "a", varNode "b", parenNode (opNode PSopType.ADD 0 1)] 6)
    (stAt [varNode "a", varNode "b", parenNode (opNode PSopType.ADD 0 1), varNode "c"] 7)
    2 3 (opNode PSopType.MULT 0 0) (tokOp "(") tokNl
    (by decide) (by decide) (by decide) (by decide!) (by decide!) (by decide!) (by decide)
    (by decide) (by decide),
   parse_parens_freeze.2.1 stofNone uninitFalse movesDoubling tokensAddParenMul 3
    (stAt [] 0) (stAt [varNode "x"] 1) (stAt [varNode "x"] 2)
    (stAt [varNode "x", varNode "a", varNode "b", parenNode (opNode PSopType.ADD 1 2)] 7)
    (stAt [varNode "x", varNode "a", varNode "b", parenNode (opNode PSopType.ADD 1 2)] 8)
    (stAt [varNode "x", varNode "a", varNode "b", parenNode (opNode PSopType.ADD 1 2),
      varNode "c"] 9)
    0 3 4 (opNode PSopType.ADD 0 0) (opNode PSopType.MULT 0 0) (tokId "x") (tokOp "(") tokNl
    (by decide) (by decide) (by decide) (by decide!) (by decide!) (by decide) (by decide)
    (by decide!) (by decide!) (by decide!) (by decide) (by decide) (by decide) (by decide),
   parse_parens_freeze.2.2.1 movesDoubling (opNode PSopType.ADD 0 3) (opNode PSopType.MULT 0 0)
    (opNode PSopType.ADD 0 5) 4
    (stAt [varNode "x", varNode "a", varNode "b", parenNode (opNode PSopType.ADD 1 2),
      varNode "c"] 9)
    (stAt [varNode "x", varNode "a", varNode "b", parenNode (opNode PSopType.ADD 1 2),
      varNode "c", opNode PSopType.MULT 3 4] 9)
    3 (parenNode (opNode PSopType.ADD 1 2)) (by decide!) (by decide) (by decide)⟩


/-! ## Theorems: function calls -/

theorem map_set_of_not_has {α : Type} (m : PSmap α) (name : String) (v : α)
    (h : m.has name = false) : m.set name v = m ++ [(name, v)] := by
  induction m with
  | nil => rfl
  | cons kv rest ih =>
    obtain ⟨k, w⟩ := kv
    unfold PSmap.has PSmap.find at h
    rw [List.lookup_cons] at h
    by_cases hk : name = k
    · subst hk
      simp at h
    · have hk2 : (name == k) = false := by simpa using hk
      rw [hk2] at h
      have hk3 : ¬ k = name := fun c => hk c.symm
      rw [PSmap.set, if_neg hk3, ih (by unfold PSmap.has PSmap.find; exact h)]
      rfl

theorem map_find_zip_none {α : Type} (ps : List String) (vals : List α) (name : String)
    (h : name ∉ ps) : PSmap.find (ps.zip vals) name = none := by
  unfold PSmap.find
  induction ps generalizing vals with
  | nil => rfl
  | cons p ps ih =>
    cases vals with
    | nil => rfl
    | cons v vals =>
      have hne : ¬ name = p := fun c => h (c ▸ List.mem_cons_self _ _)
      have hk2 : (name == p) = false := by simpa using hne
      rw [List.zip_cons_cons, List.lookup_cons, hk2]
      exact ih vals (fun c => h (List.mem_cons_of_mem _ c))

/-- The loop that fills `funcVars` binds the parameter names, in order, to the values the
argument loop `evalParams` computes. -/
theorem bindParams_zip (eval : PSeval) (ast : PSast) (funcNode : PSnode) :
    ∀ (ps : List String) (as : List PSnodeHandle) (fv : PSmap PSdata) (acc : List PSdata)
      (af av : List String) (st : PSstate) (fv1 : PSmap PSdata) (af1 av1 : List String)
      (st1 : PSstate),
      bindParams eval ast funcNode ps as fv af av st = .ok (fv1, af1, av1, st1) →
      ∃ vals, vals.length = ps.length ∧ fv1 = fv ++ ps.zip vals ∧
        evalParams eval ast (as.take ps.length) acc af av st
          = .ok (acc ++ vals, af1, av1, st1) := by
  intro ps
  induction ps with
  | nil =>
    intro as fv acc af av st fv1 af1 av1 st1 h
    rw [bindParams] at h
    cases h
    refine ⟨[], rfl, by simp, ?_⟩
    simp [evalParams]
  | cons p ps ih =>
    intro as fv acc af av st fv1 af1 av1 st1 h
    cases as with
    | nil => rw [bindParams] at h; cases h
    | cons a as =>
      rw [bindParams] at h
      split at h
      · cases h
      · rename_i hhas
        obtain ⟨argNode, hn, h⟩ := bind_eq_ok h
        obtain ⟨r, hr, h⟩ := bind_eq_ok h
        obtain ⟨vals, hlen, hfv, hev⟩ := ih as _ (acc ++ [r.val]) _ _ _ _ _ _ _ h
        refine ⟨r.val :: vals, by simp [hlen], ?_, ?_⟩
        · rw [hfv, map_set_of_not_has _ _ _ (by simpa using hhas)]
          simp
        · simp only [List.length_cons, List.take_succ_cons, evalParams, hn, hr, bind,
            Except.bind]
          rw [hev]
          simp

/-- Reading a variable that is neither a constant nor in the variable map. -/
theorem read_undefined (env : PSenv) (ast : PSast) (k : Nat) (vnode : PSnode)
    (af av : List String) (st : PSstate)
    (hty : vnode.type = PSnodeType.ID) (hvar : vnode.id.type = PSidType.VAR)
    (hc : env.g_psConstants.find vnode.id.name = none)
    (hv : st.g_psVariables.find vnode.id.name = none) :
    _ps_evaluate_statement env ast (k + 1) vnode af av st =
      .error (.throw .UNDEFINED_VARIABLE vnode st) := by
  have h1 : ¬ vnode.type = PSnodeType.OP := by rw [hty]; decide
  have h2 : ¬ vnode.id.type = PSidType.FUNC := by rw [hvar]; decide
  rw [_ps_evaluate_statement, evaluateBody, if_neg h1, if_pos hty, if_neg h2]
  simp only [hc, hv]

/-- C8. Function bodies see only their parameters.  (1) The map `funcVars` that is swapped
in for the body binds exactly the parameter names, in order, to the values of the
arguments as the argument loop computes them.  (2) When the first statement of the body
reads a variable that is neither a parameter nor a constant, the call throws
`UNDEFINED_VARIABLE` at that node, whatever variables the caller holds; the variable map
at that moment is `funcVars`.  (3) At any point, reading a variable that is neither a
constant nor in the current variable map throws `UNDEFINED_VARIABLE`. -/
theorem function_body_sees_only_params :
    (∀ (eval : PSeval) (ast : PSast) (funcNode : PSnode) (as : List PSnodeHandle)
      (af av : List String) (st : PSstate) (fv : PSmap PSdata) (af1 av1 : List String)
      (st1 : PSstate),
      funcNode.keyword.paramNames.length = as.length →
      bindParams eval ast funcNode funcNode.keyword.paramNames as [] af av st
        = .ok (fv, af1, av1, st1) →
      ∃ vals, evalParams eval ast as [] af av st = .ok (vals, af1, av1, st1) ∧
        fv = funcNode.keyword.paramNames.zip vals ∧
        vals.length = funcNode.keyword.paramNames.length) ∧
    (∀ (env : PSenv) (ast : PSast) (k : Nat) (node : PSnode) (af av : List String)
      (st : PSstate) (funcNode : PSnode) (fv : PSmap PSdata) (af1 av1 : List String)
      (st1 : PSstate) (h : PSnodeHandle) (rest : List PSnodeHandle) (vnode : PSnode),
      st.g_psFunctions.find node.id.name = some funcNode →
      funcNode.keyword.paramNames.length = node.id.params.length →
      bindParams (_ps_evaluate_statement env ast (k + 1)) ast funcNode
        funcNode.keyword.paramNames node.id.params [] af av st = .ok (fv, af1, av1, st1) →
      funcNode.keyword.code = h :: rest → poolAt ast h = .ok vnode →
      vnode.type = PSnodeType.ID → vnode.id.type = PSidType.VAR →
      vnode.id.name ∉ funcNode.keyword.paramNames →
      env.g_psConstants.find vnode.id.name = none →
      fv.find vnode.id.name = none ∧
      _ps_execute_function (_ps_evaluate_statement env ast (k + 1)) ast node af av st =
        .error (.throw .UNDEFINED_VARIABLE vnode { st1 with g_psVariables := fv })) ∧
    (∀ (env : PSenv) (ast : PSast) (k : Nat) (vnode : PSnode) (af av : List String)
      (st : PSstate),
      vnode.type = PSnodeType.ID → vnode.id.type = PSidType.VAR →
      env.g_psConstants.find vnode.id.name = none →
      st.g_psVariables.find vnode.id.name = none →
      _ps_evaluate_statement env ast (k + 1) vnode af av st =
        .error (.throw .UNDEFINED_VARIABLE vnode st)) := by
  refine ⟨?_, ?_, read_undefined⟩
  · intro eval ast funcNode as af av st fv af1 av1 st1 hlen hb
    obtain ⟨vals, hl, hfv, hev⟩ := bindParams_zip eval ast funcNode _ _ _ [] _ _ _ _ _ _ _ hb
    rw [hlen, List.take_length] at hev
    exact ⟨vals, by simpa using hev, by simpa using hfv, hl⟩
  · intro env ast k node af av st funcNode fv af1 av1 st1 h rest vnode hf hlen hb hcode hpool
      hty hvar hnot hc
    obtain ⟨vals, hl, hfv, -⟩ := bindParams_zip _ ast funcNode _ _ _ [] _ _ _ _ _ _ _ hb
    have hfind : fv.find vnode.id.name = none := by
      rw [hfv]
      exact map_find_zip_none _ _ _ hnot
    refine ⟨hfind, ?_⟩
    have hread := read_undefined env ast k vnode [] [] { st1 with g_psVariables := fv } hty hvar
      hc hfind
    unfold _ps_execute_function
    simp only [hf, Option.getD_some, hlen, ne_eq, not_true_eq_false, if_false, hb, bind,
      Except.bind, _ps_execute_statements, hcode, executeLoop, hpool, hread]

theorem function_body_sees_only_params_witness :
    (∃ vals, evalParams (_ps_evaluate_statement {} astReadsCaller 2) astReadsCaller [1] []
        [] [] stateCallerY = .ok (vals, [], [], stateCallerY) ∧
      [("p", PSdata.INT 1)] = ["p"].zip vals ∧ vals.length = 1) ∧
    stateCallerY.g_psVariables.find "y" = some (.INT 5) ∧
    (PSmap.find [("p", PSdata.INT 1)] "y" = none ∧
      _ps_execute_function (_ps_evaluate_statement {} astReadsCaller 2) astReadsCaller
        (callNode "f" [1]) [] [] stateCallerY =
          .error (.throw .UNDEFINED_VARIABLE (varNode "y")
            { stateCallerY with g_psVariables := [("p", .INT 1)] })) ∧
    _ps_evaluate_statement {} astReadsCaller 1 (varNode "z") [] [] stateCallerY =
      .error (.throw .UNDEFINED_VARIABLE (varNode "z") stateCallerY) :=
  ⟨function_body_sees_only_params.1 (_ps_evaluate_statement {} astReadsCaller 2)
      astReadsCaller
      (kwNode { type := PSkeywordType.FUNC, code := [0], name := "f", paramNames := ["p"] })
      [1] [] [] stateCallerY [("p", .INT 1)] [] [] stateCallerY (by decide) (by decide!),
   by decide,
   function_body_sees_only_params.2.1 {} astReadsCaller 1 (callNode "f" [1]) [] []
      stateCallerY
      (kwNode { type := PSkeywordType.FUNC, code := [0], name := "f", paramNames := ["p"] })
      [("p", .INT 1)] [] [] stateCallerY 0 [] (varNode "y")
      (by decide) (by decide) (by decide!) (by decide) (by decide) (by decide) (by decide)
      (by decide) (by decide),
   function_body_sees_only_params.2.2 {} astReadsCaller 0 (varNode "z") [] [] stateCallerY
      (by decide) (by decide) (by decide) (by decide)⟩


/-! ## Theorems: runs in which the interpreter departs from the specification -/

set_option maxRecDepth 100000 in
/-- C6. Scope cleanup fails: the program `if x = 1 \x7b \x7d`, `print(7)`, run from empty
maps, completes without a runtime error and leaves `x = 1` in the variable map. -/
theorem if_condition_variable_leaks :
    (runTokens stofNone uninitFalse movesDoubling 6 tokensIfLeak).map PSexecuteResult.summary? =
      some (some { error := none, vars := [("x", .INT 1)], funcs := [],
                   output := [[.INT 7]] }) := by
  decide!

set_option maxRecDepth 100000 in
/-- C7. A call erases caller variables: `tokensCallErases` parses to `astCallErases`; the
caller holds `x = 1` before the call `f(2)`, the call completes without error, and the
variable map it leaves to the caller is empty, so `x` is gone; the whole program then stops
at `print(x)` with `UNDEFINED_VARIABLE`. -/
theorem call_erases_caller_variable :
    ps_parse_tokens stofNone uninitFalse movesDoubling 6 tokensCallErases = .ok astCallErases ∧
    stateBeforeCall.g_psVariables = [("x", .INT 1)] ∧
    (_ps_evaluate_statement defaultEnv astCallErases 3 (callNode "f" [4]) [] []
        stateBeforeCall).toOption.map (fun r => r.st.g_psVariables) = some [] ∧
    (runTokens stofNone uninitFalse movesDoubling 6 tokensCallErases).map PSexecuteResult.summary? =
      some (some { error := some .UNDEFINED_VARIABLE, vars := [], funcs := [],
                   output := [] }) := by
  refine ⟨by decide!, rfl, by decide!, by decide!⟩

set_option maxRecDepth 100000 in
/-- C9. A nested call loses the return value: `tokensNestedRet` parses to `astNestedRet`;
with `y = 3` the expression `sq(y)` of `ret sq(y)` has the value 9 and leaves the return
flag false.  The body of `sq`, the statement `ret x * x` run with `x = 3`, ends with the
return flag true and the stored return value 9, which the call then yields.  The body of
`h`, the statement `ret sq(y)` run with `y = 3`, ends with the stored return value 9 but
with the return flag false: the flag, set before the expression is evaluated, was consumed
by the call `sq(y)`.  So the call `h(3)` does not take the branch of `_ps_execute_function`
that yields the stored value; it leaves the flag false and the value 9 stored.  The
program `print(sq(5))` prints 25. -/
theorem nested_call_loses_return_value :
    ps_parse_tokens stofNone uninitFalse movesDoubling 6 tokensNestedRet = .ok astNestedRet ∧
    (_ps_evaluate_statement defaultEnv astNestedRet 6 (callNode "sq" [5]) [] []
        (stateNestedRet [("y", .INT 3)])).toOption.map
        (fun r => (r.val, r.st.g_psReturnFlag)) = some (.INT 9, false) ∧
    (_ps_execute_statements (_ps_evaluate_statement defaultEnv astNestedRet 5) astNestedRet [3]
        (stateNestedRet [("x", .INT 3)])).toOption.map
        (fun s => (s.g_psReturnFlag, s.g_psReturnVal)) = some (true, .INT 9) ∧
    (_ps_execute_statements (_ps_evaluate_statement defaultEnv astNestedRet 7) astNestedRet [7]
        (stateNestedRet [("y", .INT 3)])).toOption.map
        (fun s => (s.g_psReturnFlag, s.g_psReturnVal)) = some (false, .INT 9) ∧
    (_ps_evaluate_statement defaultEnv astNestedRet 8 (callNode "h" [10]) [] []
        (stateNestedRet [])).toOption.map
        (fun r => (r.st.g_psReturnFlag, r.st.g_psReturnVal)) = some (false, .INT 9) ∧
    (runTokens stofNone uninitFalse movesDoubling 6 tokensSq5).map PSexecuteResult.summary? =
      some (some { error := none, vars := [], funcs := [], output := [[.INT 25]] }) := by
  refine ⟨by decide!, by decide!, by decide!, by decide!, by decide!, by decide!⟩

set_option maxRecDepth 100000 in
/-- C10. The loop variable of a `for` does not stay an int: the program
`func f(i) \x7b \x7d`, `for i in range(0, 1) \x7b print(i)`, `f(i)`, `if i = 0.5 \x7b \x7d \x7d`
runs without error, executes no `break`, `continue` or `ret`, and prints the int 0 and
then the float 1; the program `for i in range(0, 4) \x7b print(i) \x7d` prints the ints 0,
1, 2, 3, 4. -/
theorem for_loop_variable_becomes_float :
    (runTokens stofHalf uninitFalse movesDoubling 8 tokensForFloat).map PSexecuteResult.summary? =
      some (some { error := none, vars := [], funcs := [],
                   output := [[.INT 0], [.FLOAT (.finite 1)]] }) ∧
    (runTokens stofNone uninitFalse movesDoubling 6 tokensFor04).map PSexecuteResult.summary? =
      some (some { error := none, vars := [], funcs := [],
                   output := [[.INT 0], [.INT 1], [.INT 2], [.INT 3], [.INT 4]] }) := by
  refine ⟨by decide!, by decide!⟩


/-! ## Theorems: assignment -/

theorem map_find_set_self {α : Type} (m : PSmap α) (name : String) (v : α) :
    (m.set name v).find name = some v := by
  induction m with
  | nil => simp [PSmap.set, PSmap.find, List.lookup]
  | cons kv rest ih =>
    obtain ⟨k, w⟩ := kv
    by_cases hk : k = name
    · subst hk
      simp [PSmap.set, PSmap.find, List.lookup]
    · have hk2 : (name == k) = false := by simpa using fun c : name = k => hk c.symm
      rw [PSmap.set, if_neg hk]
      unfold PSmap.find at ih ⊢
      rw [List.lookup_cons, hk2]
      exact ih

theorem map_find_set_ne {α : Type} (m : PSmap α) (name other : String) (v : α)
    (h : other ≠ name) : (m.set name v).find other = m.find other := by
  induction m with
  | nil =>
    have h2 : (other == name) = false := by simpa using h
    simp [PSmap.set, PSmap.find, List.lookup, h2]
  | cons kv rest ih =>
    obtain ⟨k, w⟩ := kv
    by_cases hk : k = name
    · subst hk
      have h2 : (other == k) = false := by simpa using h
      rw [PSmap.set, if_pos rfl]
      unfold PSmap.find
      rw [List.lookup_cons, List.lookup_cons, h2]
    · rw [PSmap.set, if_neg hk]
      unfold PSmap.find at ih ⊢
      rw [List.lookup_cons, List.lookup_cons, ih]

/-- C13. Assignment type rule.  For a plain (unindexed) assignment of a non-void value
`val` to an existing variable holding `cur`: when the types are equal the value is
stored; when the variable is a float and the value the int `i`, the float `(float)i` is
stored and the variable stays a float; for every other pair of types the assignment
throws `INVALID_ASSIGNMENT` (so a float assigned to an int variable does).  A stored
value is what the variable holds afterwards, and the other variables are untouched. -/
theorem assignment_type_rule (eval : PSeval) (ast : PSast) (var : PSnode) (cur val : PSdata)
    (af av : List String) (st : PSstate)
    (hty : var.type = PSnodeType.ID) (hvar : var.id.type = PSidType.VAR)
    (hplain : var.id.params = []) (hval : val.type ≠ PSdataType.VOID)
    (hcur : st.g_psVariables.find var.id.name = some cur) :
    (cur.type = val.type →
      _ps_equal eval ast var val af av st =
        .ok (PSevalResult.mk0 val af av
          { st with g_psVariables := st.g_psVariables.set var.id.name val })) ∧
    (∀ i, cur.type = PSdataType.FLOAT → val = .INT i →
      _ps_equal eval ast var val af av st =
        .ok (PSevalResult.mk0 (.FLOAT (F32.ofInt i)) af av
          { st with g_psVariables :=
              st.g_psVariables.set var.id.name (.FLOAT (F32.ofInt i)) })) ∧
    (cur.type ≠ val.type → ¬ (cur.type = PSdataType.FLOAT ∧ val.type = PSdataType.INT) →
      _ps_equal eval ast var val af av st = .error (.throw .INVALID_ASSIGNMENT var st)) ∧
    (∀ v, (st.g_psVariables.set var.id.name v).find var.id.name = some v) ∧
    (∀ v other, other ≠ var.id.name →
      (st.g_psVariables.set var.id.name v).find other = st.g_psVariables.find other) := by
  have h1 : ¬ (var.type ≠ PSnodeType.ID ∨ var.id.type ≠ PSidType.VAR) := by
    rw [hty, hvar]; simp
  have hlen : ¬ (var.id.params.length = 1) := by rw [hplain]; simp
  refine ⟨?_, ?_, ?_, fun v => map_find_set_self _ _ v,
    fun v other h => map_find_set_ne _ _ _ v h⟩
  · intro hsame
    unfold _ps_equal
    rw [if_neg h1, if_neg hval]
    simp only [hcur]
    cases cur <;> cases val <;> simp_all [PSdata.type]
  · intro i hf hv
    subst hv
    unfold _ps_equal
    rw [if_neg h1, if_neg hval]
    simp only [hcur]
    cases cur <;> simp_all [PSdata.type]
  · intro hne hnot
    unfold _ps_equal
    rw [if_neg h1, if_neg hval]
    simp only [hcur]
    cases cur <;> cases val <;> simp_all [PSdata.type]

theorem assignment_type_rule_witness :
    _ps_equal (_ps_evaluate_statement {} {} 1) {} (varNode "x") (.INT 7) [] []
        (stateX (.INT 1)) =
      .ok (PSevalResult.mk0 (.INT 7) [] []
        { stateX (.INT 1) with g_psVariables := (stateX (.INT 1)).g_psVariables.set "x" (.INT 7) }) ∧
    _ps_equal (_ps_evaluate_statement {} {} 1) {} (varNode "x") (.INT 7) [] []
        (stateX (.FLOAT (.finite 2))) =
      .ok (PSevalResult.mk0 (.FLOAT (F32.ofInt 7)) [] []
        { stateX (.FLOAT (.finite 2)) with g_psVariables :=
            (stateX (.FLOAT (.finite 2))).g_psVariables.set "x" (.FLOAT (F32.ofInt 7)) }) ∧
    _ps_equal (_ps_evaluate_statement {} {} 1) {} (varNode "x") (.FLOAT (.finite 2)) [] []
        (stateX (.INT 1)) =
      .error (.throw .INVALID_ASSIGNMENT (varNode "x") (stateX (.INT 1))) :=
  ⟨(assignment_type_rule (_ps_evaluate_statement {} {} 1) {} (varNode "x") (.INT 1) (.INT 7)
      [] [] (stateX (.INT 1)) rfl rfl rfl (by decide) (by decide)).1 rfl,
   (assignment_type_rule (_ps_evaluate_statement {} {} 1) {} (varNode "x")
      (.FLOAT (.finite 2)) (.INT 7) [] [] (stateX (.FLOAT (.finite 2))) rfl rfl rfl
      (by decide) (by decide!)).2.1 7 rfl rfl,
   (assignment_type_rule (_ps_evaluate_statement {} {} 1) {} (varNode "x") (.INT 1)
      (.FLOAT (.finite 2)) [] [] (stateX (.INT 1)) rfl rfl rfl (by decide) (by decide)).2.2.1
      (by decide) (by decide)⟩


/-! ## Theorems: operators -/

/-- C14, as amended.  For two operands of the same non-void type `T`: `+`, `-` and `*`
succeed and yield a value of type `T`; `/` does so when `T` is not the quaternion type
(for two ints: when the divisor is not zero and the quotient is not `INT_MIN / -1`); `/`
on two quaternions throws `INVALID_OP`. -/
theorem same_shape_arithmetic (a b : PSdata) (node : PSnode) (st : PSstate)
    (hsame : a.type = b.type) (hnv : a.type ≠ PSdataType.VOID) :
    (∃ v, _ps_add a b node st = .ok v ∧ v.type = a.type) ∧
    (∃ v, _ps_sub a b node st = .ok v ∧ v.type = a.type) ∧
    (∃ v, _ps_mult a b node st = .ok v ∧ v.type = a.type) ∧
    (a.type ≠ PSdataType.QUATERNION →
      (∀ x y, a = .INT x → b = .INT y → y ≠ 0 ∧ ¬ (x = -2147483648 ∧ y = -1)) →
      ∃ v, _ps_div a b node st = .ok v ∧ v.type = a.type) ∧
    (a.type = PSdataType.QUATERNION →
      _ps_div a b node st = .error (.throw .INVALID_OP node st)) := by
  refine ⟨?_, ?_, ?_, ?_, ?_⟩
  · cases a <;> cases b <;> simp_all [PSdata.type, _ps_add]
  · cases a <;> cases b <;> simp_all [PSdata.type, _ps_sub]
  · cases a <;> cases b <;> simp_all [PSdata.type, _ps_mult, qmQuaternionMul]
  · intro hq hint
    cases a <;> cases b <;> simp_all [PSdata.type, _ps_div, intDiv]
    rename_i x y
    have hc : ¬ (x = -2147483648 ∧ y = -1) := fun c => hint.2 c.1 c.2
    rw [if_neg hc]
    exact ⟨_, rfl, rfl⟩
  · intro hq
    cases a <;> cases b <;> simp_all [PSdata.type, _ps_div, PSdata.isScalar]

theorem same_shape_arithmetic_witness :
    (∃ v, _ps_div (.INT 7) (.INT 2) {} {} = .ok v ∧ v.type = (PSdata.INT 7).type) ∧
    _ps_div (.QUATERNION (.finite 1) (.finite 0) (.finite 0) (.finite 0))
        (.QUATERNION (.finite 1) (.finite 0) (.finite 0) (.finite 0)) {} {} =
      .error (.throw .INVALID_OP {} {}) :=
  ⟨(same_shape_arithmetic (.INT 7) (.INT 2) {} {} rfl (by decide)).2.2.2.1 (by decide)
      (by
        intro x y hx hy
        cases hx
        cases hy
        decide),
   (same_shape_arithmetic (.QUATERNION (.finite 1) (.finite 0) (.finite 0) (.finite 0))
      (.QUATERNION (.finite 1) (.finite 0) (.finite 0) (.finite 0)) {} {} rfl
        (by decide)).2.2.2.2 rfl⟩

/-- C14, counterexample.  The quotient of two quaternions is no quaternion: the division
throws `INVALID_OP`.  The quotient of the ints -2147483648 and -1, whose divisor is not
zero, is no int either: the division overflows and is undefined. -/
theorem quaternion_division_fails :
    (¬ ∃ v, _ps_div (.QUATERNION (.finite 1) (.finite 0) (.finite 0) (.finite 0))
        (.QUATERNION (.finite 1) (.finite 0) (.finite 0) (.finite 0)) {} {} = .ok v ∧
      v.type = PSdataType.QUATERNION) ∧
    _ps_div (.QUATERNION (.finite 1) (.finite 0) (.finite 0) (.finite 0))
        (.QUATERNION (.finite 1) (.finite 0) (.finite 0) (.finite 0)) {} {} =
      .error (.throw .INVALID_OP {} {}) ∧
    (-1 : Int) ≠ 0 ∧
    (¬ ∃ v, _ps_div (.INT (-2147483648)) (.INT (-1)) {} {} = .ok v ∧
      v.type = PSdataType.INT) ∧
    _ps_div (.INT (-2147483648)) (.INT (-1)) {} {} = .error .undefined := by
  refine ⟨?_, rfl, by decide, ?_, rfl⟩
  · rintro ⟨v, h, -⟩
    cases h
  · rintro ⟨v, h, -⟩
    cases h


/-! ## Theorems: conversion of ints to floats -/

theorem log2Fuel_spec : ∀ (fuel n : Nat), 1 ≤ n → n ≤ fuel →
    2 ^ log2Fuel fuel n ≤ n ∧ n < 2 ^ (log2Fuel fuel n + 1) := by
  intro fuel
  induction fuel with
  | zero => intro n h1 h2; omega
  | succ fuel ih =>
    intro n h1 h2
    rw [log2Fuel]
    by_cases hn : n < 2
    · rw [if_pos hn]
      have : n = 1 := by omega
      subst this
      simp
    · rw [if_neg hn]
      obtain ⟨a, b⟩ := ih (n / 2) (by omega) (by omega)
      constructor
      · rw [pow_succ]; omega
      · rw [pow_succ]; omega

theorem natLog2_spec (n : Nat) (h : 1 ≤ n) :
    2 ^ natLog2 n ≤ n ∧ n < 2 ^ (natLog2 n + 1) :=
  log2Fuel_spec n n h (le_refl n)

theorem pow2_natCast (k : Nat) : pow2 (k : Int) = (2 : ℚ) ^ k := by
  unfold pow2
  simp

theorem ilog2_natCast (n : Nat) (h : 1 ≤ n) : ilog2 (n : ℚ) = (natLog2 n : Int) := by
  have h1 : natLog2 1 = 0 := by decide
  have hle : pow2 (natLog2 n : Int) ≤ (n : ℚ) := by
    rw [pow2_natCast]
    exact_mod_cast (natLog2_spec n h).1
  unfold ilog2
  simp only [Rat.num_natCast, Int.toNat_ofNat, Rat.den_natCast, h1, Nat.cast_zero, sub_zero]
  rw [if_pos hle]

theorem roundHalfEven_intCast (m : Int) : roundHalfEven (m : ℚ) = m := by
  unfold roundHalfEven
  have hf : (m : ℚ).floor = m := by
    show ⌊(m : ℚ)⌋ = m
    exact Int.floor_intCast m
  simp only [hf, sub_self]
  rw [if_pos (by norm_num)]

/-- Rounding to binary32 is exact on the integers up to `2 ^ 24`. -/
theorem F32_round_natCast (n : Nat) (h1 : 1 ≤ n) (h2 : n ≤ 16777216) (negative : Bool) :
    F32.round (if negative then -(n : ℚ) else (n : ℚ)) =
      .finite (if negative then -(n : ℚ) else (n : ℚ)) := by
  have hn0 : (n : ℚ) ≠ 0 := by exact_mod_cast (by omega : n ≠ 0)
  have hpos : (0 : ℚ) < n := by exact_mod_cast (by omega : 0 < n)
  obtain ⟨hlo, hhi⟩ := natLog2_spec n h1
  have hL : natLog2 n ≤ 24 := by
    by_contra hc
    have : 2 ^ 25 ≤ 2 ^ natLog2 n := Nat.pow_le_pow_right (by norm_num) (by omega)
    have : (2 : Nat) ^ 25 = 33554432 := by norm_num
    omega
  have habs : |(if negative then -(n : ℚ) else (n : ℚ))| = n := by
    cases negative
    · simp
    · simp
  have hq0 : (if negative then -(n : ℚ) else (n : ℚ)) ≠ 0 := by
    cases negative <;> simp [hn0]
  -- the integer `m` with `n = m * ulp`
  have hm : ∃ m : Int, (n : ℚ) / pow2 ((natLog2 n : Int) - 23) = m := by
    by_cases h23 : natLog2 n ≤ 23
    · refine ⟨(n : Int) * 2 ^ (23 - natLog2 n), ?_⟩
      have e : (natLog2 n : Int) - 23 = -((23 - natLog2 n : Nat) : Int) := by omega
      rw [e]
      unfold pow2
      by_cases hz : 23 - natLog2 n = 0
      · simp [hz]
      · have hneg : ¬ (0 : Int) ≤ -((23 - natLog2 n : Nat) : Int) := by omega
        rw [if_neg hneg]
        simp
    · have h24 : natLog2 n = 24 := by omega
      rw [h24] at hlo
      have hn : n = 16777216 := by
        have : (2 : Nat) ^ 24 = 16777216 := by norm_num
        omega
      refine ⟨8388608, ?_⟩
      rw [h24, hn]
      unfold pow2
      norm_num
  obtain ⟨m, hm⟩ := hm
  have hulp : pow2 ((natLog2 n : Int) - 23) ≠ 0 := by
    unfold pow2
    split
    · positivity
    · positivity
  unfold F32.round
  rw [if_neg hq0]
  simp only [habs, ilog2_natCast n h1]
  have hmax : max (natLog2 n : Int) (-126) = natLog2 n := by omega
  rw [hmax, hm, roundHalfEven_intCast, ← hm, div_mul_cancel₀ _ hulp]
  have hbig : ¬ pow2 128 ≤ (n : ℚ) := by
    have e : pow2 128 = (2 : ℚ) ^ 128 := pow2_natCast 128
    have : (n : ℚ) ≤ 16777216 := by exact_mod_cast h2
    rw [e]
    intro c
    have : (2 : ℚ) ^ 128 ≤ 16777216 := le_trans c this
    norm_num at this
  rw [if_neg hbig]
  cases negative
  · simp
  · simp [hpos]

/-- The conversion `(float)i` is exact for `|i| ≤ 2 ^ 24`. -/
theorem F32_ofInt_exact (a : Int) (h : |a| ≤ 16777216) : F32.ofInt a = .finite (a : ℚ) := by
  unfold F32.ofInt
  rcases lt_trichotomy a 0 with hneg | hz | hpos
  · have hb := abs_le.mp h
    have := F32_round_natCast (-a).toNat (by omega) (by omega) true
    have e : (((-a).toNat : Nat) : ℚ) = -(a : ℚ) := by
      have : (((-a).toNat : Nat) : Int) = -a := Int.toNat_of_nonneg (by omega)
      have h2 : (((-a).toNat : Nat) : ℚ) = (((-a).toNat : Nat) : Int) := by norm_cast
      rw [h2, this]
      push_cast
      ring
    simpa [e] using this
  · subst hz
    simp [F32.round]
  · have hb := abs_le.mp h
    have := F32_round_natCast a.toNat (by omega) (by omega) false
    have e : ((a.toNat : Nat) : ℚ) = (a : ℚ) := by
      have : ((a.toNat : Nat) : Int) = a := Int.toNat_of_nonneg (by omega)
      have h2 : ((a.toNat : Nat) : ℚ) = ((a.toNat : Nat) : Int) := by norm_cast
      rw [h2, this]
    simpa [e] using this

theorem equality_ints (a b : Int) (node : PSnode) (st : PSstate) (ha : |a| ≤ 16777216)
    (hb : |b| ≤ 16777216) :
    _ps_equality (.INT a) (.INT b) node st = .ok (.INT (if a = b then 1 else 0)) := by
  simp only [_ps_equality, PSdata.isScalar, PSdata.scalar, and_self, if_true, boolData,
    F32_ofInt_exact a ha, F32_ofInt_exact b hb, F32.eq]
  by_cases h : a = b
  · simp [h]
  · have : ¬ ((a : ℚ) = (b : ℚ)) := by exact_mod_cast h
    simp [h, this]

/-- C17, as amended.  `a == b` on two ints compares the two ints converted to `float`:
for every pair of ints, `_ps_equality` and the operator `==` yield `INT 1` if the two
floats are equal and `INT 0` otherwise, and the operator `!=` yields the opposite.  When
both ints are at most `2 ^ 24` in absolute value the conversion is exact, so `a == b`
yields `INT 1` if `a` and `b` are the same integer and `INT 0` otherwise, and `a != b`
yields the opposite. -/
theorem int_equality_through_float (a b : Int) :
    (∀ (node : PSnode) (st : PSstate),
      _ps_equality (.INT a) (.INT b) node st =
        .ok (boolData (F32.eq (F32.ofInt a) (F32.ofInt b)))) ∧
    (|a| ≤ 16777216 → |b| ≤ 16777216 →
      ∀ (eval : PSeval) (env : PSenv) (ast : PSast) (node ln rn : PSnode)
        (af av : List String) (st : PSstate) (l r : PSevalResult),
        node.type = PSnodeType.OP →
        poolAt ast node.op.left = .ok ln → eval ln af av st = .ok l →
        poolAt ast node.op.right = .ok rn →
        eval rn l.addedFuncs l.addedVars l.st = .ok r →
        l.val = .INT a → r.val = .INT b →
        (node.op.type = PSopType.EQUALITY →
          evaluateBody eval env ast node af av st =
            .ok (PSevalResult.mk0 (.INT (if a = b then 1 else 0))
              r.addedFuncs r.addedVars r.st)) ∧
        (node.op.type = PSopType.NONEQUALITY →
          evaluateBody eval env ast node af av st =
            .ok (PSevalResult.mk0 (.INT (if a = b then 0 else 1))
              r.addedFuncs r.addedVars r.st))) ∧
    (∀ (eval : PSeval) (env : PSenv) (ast : PSast) (node ln rn : PSnode)
      (af av : List String) (st : PSstate) (l r : PSevalResult),
      node.type = PSnodeType.OP →
      poolAt ast node.op.left = .ok ln → eval ln af av st = .ok l →
      poolAt ast node.op.right = .ok rn →
      eval rn l.addedFuncs l.addedVars l.st = .ok r →
      l.val = .INT a → r.val = .INT b →
      (node.op.type = PSopType.EQUALITY →
        evaluateBody eval env ast node af av st =
          .ok (PSevalResult.mk0 (.INT (if F32.eq (F32.ofInt a) (F32.ofInt b) then 1 else 0))
            r.addedFuncs r.addedVars r.st)) ∧
      (node.op.type = PSopType.NONEQUALITY →
        evaluateBody eval env ast node af av st =
          .ok (PSevalResult.mk0 (.INT (if F32.eq (F32.ofInt a) (F32.ofInt b) then 0 else 1))
            r.addedFuncs r.addedVars r.st))) := by
  refine ⟨fun node st => rfl, ?_, ?_⟩
  rotate_left
  · intro eval env ast node ln rn af av st l r hty hl el hr er vl vr
    have heq : _ps_equality (.INT a) (.INT b) node r.st =
        .ok (.INT (if F32.eq (F32.ofInt a) (F32.ofInt b) then 1 else 0)) := rfl
    constructor
    · intro hop
      unfold evaluateBody
      simp only [hty, hop, hl, el, hr, er, vl, vr, heq, bind, Except.bind, pure, Except.pure,
        if_true]
      simp [PSopType.EQUALITY, PSopType.EQUAL, PSopType.MULT, PSopType.DIV, PSopType.MOD,
        PSopType.ADD, PSopType.SUB, PSopType.MULTEQUAL, PSopType.DIVEQUAL, PSopType.MODEQUAL,
        PSopType.ADDEQUAL, PSopType.SUBEQUAL, PSopType.LESSTHAN, PSopType.GREATERTHAN,
        PSopType.LESSTHANEQUAL, PSopType.GREATERTHANEQUAL]
    · intro hop
      unfold evaluateBody
      simp only [hty, hop, hl, el, hr, er, vl, vr, heq, bind, Except.bind, pure, Except.pure,
        if_true]
      cases F32.eq (F32.ofInt a) (F32.ofInt b) <;>
      simp [PSopType.EQUALITY, PSopType.EQUAL, PSopType.MULT, PSopType.DIV, PSopType.MOD,
        PSopType.ADD, PSopType.SUB, PSopType.MULTEQUAL, PSopType.DIVEQUAL, PSopType.MODEQUAL,
        PSopType.ADDEQUAL, PSopType.SUBEQUAL, PSopType.LESSTHAN, PSopType.GREATERTHAN,
        PSopType.LESSTHANEQUAL, PSopType.GREATERTHANEQUAL, PSopType.NONEQUALITY]
  intro ha hb eval env ast node ln rn af av st l r hty hl el hr er vl vr
  have heq := equality_ints a b node r.st ha hb
  constructor
  · intro hop
    unfold evaluateBody
    simp only [hty, hop, hl, el, hr, er, vl, vr, heq, bind, Except.bind, pure, Except.pure,
      if_true]
    simp [PSopType.EQUALITY, PSopType.EQUAL, PSopType.MULT, PSopType.DIV, PSopType.MOD,
      PSopType.ADD, PSopType.SUB, PSopType.MULTEQUAL, PSopType.DIVEQUAL, PSopType.MODEQUAL,
      PSopType.ADDEQUAL, PSopType.SUBEQUAL, PSopType.LESSTHAN, PSopType.GREATERTHAN,
      PSopType.LESSTHANEQUAL, PSopType.GREATERTHANEQUAL]
  · intro hop
    unfold evaluateBody
    simp only [hty, hop, hl, el, hr, er, vl, vr, heq, bind, Except.bind, pure, Except.pure,
      if_true]
    simp [PSopType.EQUALITY, PSopType.EQUAL, PSopType.MULT, PSopType.DIV, PSopType.MOD,
      PSopType.ADD, PSopType.SUB, PSopType.MULTEQUAL, PSopType.DIVEQUAL, PSopType.MODEQUAL,
      PSopType.ADDEQUAL, PSopType.SUBEQUAL, PSopType.LESSTHAN, PSopType.GREATERTHAN,
      PSopType.LESSTHANEQUAL, PSopType.GREATERTHANEQUAL, PSopType.NONEQUALITY]

theorem int_equality_through_float_witness :
    evaluateBody (_ps_evaluate_statement {} astEq55 1) {} astEq55 (opNode PSopType.EQUALITY 0 1)
        [] [] {} =
      .ok (PSevalResult.mk0 (.INT (if (5 : Int) = 5 then 1 else 0)) [] [] {}) :=
  ((int_equality_through_float 5 5).2.1 (by decide) (by decide)
    (_ps_evaluate_statement {} astEq55 1) {} astEq55 (opNode PSopType.EQUALITY 0 1)
    (intNode 5) (intNode 5) [] [] {} (PSevalResult.mk0 (.INT 5) [] [] {})
    (PSevalResult.mk0 (.INT 5) [] [] {}) rfl (by decide) (by decide) (by decide) (by decide)
    rfl rfl).1 rfl

set_option maxRecDepth 100000 in
/-- C17, counterexample.  The ints 16777217 and 16777216 are different, yet `==` yields
`INT 1` on them. -/
theorem int_equality_inexact :
    (16777217 : Int) ≠ 16777216 ∧
    _ps_equality (.INT 16777217) (.INT 16777216) {} {} = .ok (.INT 1) := by
  refine ⟨by decide, by decide!⟩


/-! ## Theorems: further runs in which the interpreter departs from the specification -/

set_option maxRecDepth 100000 in
/-- C12. A negative index is not rejected: after `v = vec2(1, 2)` both the read
`print(v[-1])` and the write `v[-1] = 5` pass the index test and go on to an access
outside the vector (undefined behaviour) instead of throwing `INVALID_INDEX`; the index 2
is rejected with `INVALID_INDEX` in both forms. -/
theorem negative_index_not_rejected :
    (runTokens stofNone uninitFalse movesDoubling 8 (tokensVec2Then tokensReadMinusOne)).map
      PSexecuteResult.isUndefined = some true ∧
    (runTokens stofNone uninitFalse movesDoubling 8 (tokensVec2Then tokensWriteMinusOne)).map
      PSexecuteResult.isUndefined = some true ∧
    (runTokens stofNone uninitFalse movesDoubling 8 (tokensVec2Then tokensReadTwo)).map
      PSexecuteResult.summary? =
      some (some { error := some .INVALID_INDEX, vars := [], funcs := [], output := [] }) ∧
    (runTokens stofNone uninitFalse movesDoubling 8 (tokensVec2Then tokensWriteTwo)).map
      PSexecuteResult.summary? =
      some (some { error := some .INVALID_INDEX, vars := [], funcs := [], output := [] }) := by
  refine ⟨by decide!, by decide!, by decide!, by decide!⟩

set_option maxRecDepth 100000 in
/-- C18. A non-scalar right operand is accepted when the left one decides: on the values
`0 and vec2(1, 2)` the function `_ps_and` yields `INT 0`, and `1 or vec2(1, 2)` yields
`INT 1`, where `vec2(1, 2) and 0` throws `INVALID_OP`; the ASTs of `print(0 and vec2(1, 2))`
and `print(1 or vec2(1, 2))` run without error and print 0 and 1. -/
theorem logical_operator_skips_right_check :
    _ps_and (.INT 0) (.VEC2 (.finite 1) (.finite 2)) {} {} = .ok (.INT 0) ∧
    _ps_or (.INT 1) (.VEC2 (.finite 1) (.finite 2)) {} {} = .ok (.INT 1) ∧
    _ps_and (.VEC2 (.finite 1) (.finite 2)) (.INT 0) {} {} =
      .error (.throw .INVALID_OP {} {}) ∧
    runAst 4 astAndVector =
      some { error := none, vars := [], funcs := [], output := [[.INT 0]] } ∧
    runAst 4 astOrVector =
      some { error := none, vars := [], funcs := [], output := [[.INT 1]] } ∧
    runAst 4 astVectorAnd =
      some { error := some .INVALID_OP, vars := [], funcs := [], output := [] } := by
  refine ⟨by decide!, by decide!, by decide!, by decide!, by decide!, by decide!⟩

set_option maxRecDepth 100000 in
/-- C19. A `break` in a function called from a loop is accepted: the program
`func f \x7b break \x7d`, `for i in range(0, 2) \x7b f()`, `print(i) \x7d`, `print(9)` runs
without error, the `break` of `f` ends the loop of the caller (nothing is printed in the
loop) and 9 is printed; the program `break` alone throws `INVALID_BREAK_CONTINUE`. -/
theorem break_in_callee_accepted :
    (runTokens stofNone uninitFalse movesDoubling 8 tokensBreakInCallee).map PSexecuteResult.summary? =
      some (some { error := none, vars := [], funcs := [], output := [[.INT 9]] }) ∧
    (runTokens stofNone uninitFalse movesDoubling 8 tokensBreakAlone).map PSexecuteResult.summary? =
      some (some { error := some .INVALID_BREAK_CONTINUE, vars := [], funcs := [],
                   output := [] }) := by
  refine ⟨by decide!, by decide!⟩

set_option maxRecDepth 100000 in
/-- C20. `vec4` rejects four scalars: `_ps_vec4` on the four values 1, 2, 3, 4 throws
`INVALID_PARAMS`, and so does the program `print(vec4(1, 2, 3, 4))`. -/
theorem vec4_rejects_four_scalars :
    _ps_vec4 [.INT 1, .INT 2, .INT 3, .INT 4] (callNode "vec4" [1, 2, 3, 4]) {} =
      .throw .INVALID_PARAMS (callNode "vec4" [1, 2, 3, 4]) {} ∧
    (runTokens stofNone uninitFalse movesDoubling 8 tokensVec4Four).map PSexecuteResult.summary? =
      some (some { error := some .INVALID_PARAMS, vars := [], funcs := [], output := [] }) := by
  refine ⟨rfl, by decide!⟩


/-! ## Theorems: indexed access -/

theorem FuelLe.rfl_ {α : Type} (x : Except PSfail α) : FuelLe x x := Or.inr rfl

theorem FuelLe.eq_of_ne {α : Type} {x y : Except PSfail α} (h : FuelLe x y)
    (hne : x ≠ .error .outOfFuel) : x = y := by
  rcases h with h | h
  · exact absurd h hne
  · exact h

theorem FuelLe.trans_ {α : Type} {x y z : Except PSfail α} (h1 : FuelLe x y)
    (h2 : FuelLe y z) : FuelLe x z := by
  rcases h1 with h | h
  · exact Or.inl h
  · rw [h]; exact h2

theorem FuelLe.bind_ {α β : Type} {x y : Except PSfail α} {f g : α → Except PSfail β}
    (h : FuelLe x y) (hf : ∀ a, FuelLe (f a) (g a)) : FuelLe (x >>= f) (y >>= g) := by
  rcases h with h | h
  · left; rw [h]; rfl
  · subst h
    cases x with
    | error e => right; rfl
    | ok a => exact hf a

theorem FuelLe.ite_ {α : Type} {c : Prop} [Decidable c] {a b a2 b2 : Except PSfail α}
    (h1 : FuelLe a a2) (h2 : FuelLe b b2) :
    FuelLe (if c then a else b) (if c then a2 else b2) := by
  by_cases h : c
  · rw [if_pos h, if_pos h]; exact h1
  · rw [if_neg h, if_neg h]; exact h2

theorem executeLoop_mono {e1 e2 : PSeval} (hle : EvalLe e1 e2) (ast : PSast)
    (nodes : List PSnodeHandle) (af av : List String) (st : PSstate) :
    FuelLe (executeLoop e1 ast nodes af av st) (executeLoop e2 ast nodes af av st) := by
  induction nodes generalizing af av st with
  | nil => exact FuelLe.rfl_ _
  | cons h rest ih =>
    unfold executeLoop
    refine FuelLe.bind_ (FuelLe.rfl_ _) fun node => ?_
    refine FuelLe.bind_ (hle _ _ _ _) fun r => ?_
    split
    · exact FuelLe.rfl_ _
    · exact ih _ _ _

theorem execute_statements_mono {e1 e2 : PSeval} (hle : EvalLe e1 e2) (ast : PSast)
    (nodes : List PSnodeHandle) (st : PSstate) :
    FuelLe (_ps_execute_statements e1 ast nodes st) (_ps_execute_statements e2 ast nodes st) := by
  unfold _ps_execute_statements
  exact FuelLe.bind_ (executeLoop_mono hle _ _ _ _ _) fun _ => FuelLe.rfl_ _

theorem bindParams_mono {e1 e2 : PSeval} (hle : EvalLe e1 e2) (ast : PSast)
    (funcNode : PSnode) (ps : List String) (as : List PSnodeHandle) (fv : PSmap PSdata)
    (af av : List String) (st : PSstate) :
    FuelLe (bindParams e1 ast funcNode ps as fv af av st)
      (bindParams e2 ast funcNode ps as fv af av st) := by
  induction ps generalizing as fv af av st with
  | nil => unfold bindParams; exact FuelLe.rfl_ _
  | cons p ps ih =>
    cases as with
    | nil => unfold bindParams; exact FuelLe.rfl_ _
    | cons a as =>
      unfold bindParams
      split
      · exact FuelLe.rfl_ _
      · refine FuelLe.bind_ (FuelLe.rfl_ _) fun node => ?_
        refine FuelLe.bind_ (hle _ _ _ _) fun r => ?_
        exact ih _ _ _ _ _

theorem evalParams_mono {e1 e2 : PSeval} (hle : EvalLe e1 e2) (ast : PSast)
    (as : List PSnodeHandle) (params : List PSdata) (af av : List String) (st : PSstate) :
    FuelLe (evalParams e1 ast as params af av st) (evalParams e2 ast as params af av st) := by
  induction as generalizing params af av st with
  | nil => exact FuelLe.rfl_ _
  | cons a as ih =>
    unfold evalParams
    refine FuelLe.bind_ (FuelLe.rfl_ _) fun node => ?_
    refine FuelLe.bind_ (hle _ _ _ _) fun r => ?_
    exact ih _ _ _ _

theorem execute_function_mono {e1 e2 : PSeval} (hle : EvalLe e1 e2) (ast : PSast)
    (node : PSnode) (af av : List String) (st : PSstate) :
    FuelLe (_ps_execute_function e1 ast node af av st)
      (_ps_execute_function e2 ast node af av st) := by
  unfold _ps_execute_function
  simp only []
  split
  · exact FuelLe.rfl_ _
  · refine FuelLe.bind_ (bindParams_mono hle _ _ _ _ _ _ _ _) fun x => ?_
    obtain ⟨fv, af1, av1, st1⟩ := x
    exact FuelLe.bind_ (execute_statements_mono hle _ _ _) fun _ => FuelLe.rfl_ _

theorem equal_mono {e1 e2 : PSeval} (hle : EvalLe e1 e2) (ast : PSast) (var : PSnode)
    (val : PSdata) (af av : List String) (st : PSstate) :
    FuelLe (_ps_equal e1 ast var val af av st) (_ps_equal e2 ast var val af av st) := by
  unfold _ps_equal
  simp only []
  split
  · exact FuelLe.rfl_ _
  split
  · exact FuelLe.rfl_ _
  split
  · split
    · exact FuelLe.rfl_ _
    · split
      · refine FuelLe.bind_ (FuelLe.rfl_ _) fun node => ?_
        refine FuelLe.bind_ (hle _ _ _ _) fun r => ?_
        exact FuelLe.rfl_ _
      · exact FuelLe.rfl_ _
  · exact FuelLe.rfl_ _

theorem forLoop_mono {e1 e2 : PSeval} (hle : EvalLe e1 e2) (ast : PSast) (var : PSnode)
    (code : List PSnodeHandle) (n : Nat) (i : Int) (ff fv : List String) (st : PSstate) :
    FuelLe (forLoop e1 ast var code n i ff fv st) (forLoop e2 ast var code n i ff fv st) := by
  induction n generalizing i ff fv st with
  | zero => exact FuelLe.rfl_ _
  | succ n ih =>
    unfold forLoop
    refine FuelLe.bind_ (equal_mono hle _ _ _ _ _ _) fun r => ?_
    refine FuelLe.bind_ (execute_statements_mono hle _ _ _) fun st1 => ?_
    split
    · exact FuelLe.rfl_ _
    · simp only []
      split
      · exact FuelLe.rfl_ _
      · exact ih _ _ _ _

theorem evaluateBody_mono {e1 e2 : PSeval} (hle : EvalLe e1 e2) (env : PSenv) (ast : PSast)
    (node : PSnode) (af av : List String) (st : PSstate) :
    FuelLe (evaluateBody e1 env ast node af av st) (evaluateBody e2 env ast node af av st) := by
  unfold evaluateBody
  by_cases hop : node.type = PSnodeType.OP
  · rw [if_pos hop, if_pos hop]
    refine FuelLe.ite_ ?_ ?_
    · refine FuelLe.bind_ (FuelLe.rfl_ _) fun varNode => ?_
      refine FuelLe.bind_ (FuelLe.rfl_ _) fun rightNode => ?_
      refine FuelLe.bind_ (hle _ _ _ _) fun r => ?_
      exact equal_mono hle _ _ _ _ _ _
    · refine FuelLe.bind_ (FuelLe.rfl_ _) fun leftNode => ?_
      refine FuelLe.bind_ (hle _ _ _ _) fun l => ?_
      refine FuelLe.bind_ (FuelLe.rfl_ _) fun rightNode => ?_
      refine FuelLe.bind_ (hle _ _ _ _) fun r => ?_
      repeat first
        | exact FuelLe.rfl_ _
        | exact FuelLe.bind_ (FuelLe.rfl_ _) fun d =>
            FuelLe.bind_ (FuelLe.rfl_ _) fun varNode => equal_mono hle _ _ _ _ _ _
        | refine FuelLe.ite_ ?_ ?_
  rw [if_neg hop, if_neg hop]
  by_cases hid : node.type = PSnodeType.ID
  · rw [if_pos hid, if_pos hid]
    split
    · refine FuelLe.bind_ (evalParams_mono hle _ _ _ _ _ _) fun x => ?_
      obtain ⟨params, af1, av1, st1⟩ := x
      simp only []
      split
      · exact FuelLe.rfl_ _
      · split
        · exact execute_function_mono hle _ _ _ _ _
        · exact FuelLe.rfl_ _
    · split
      · exact FuelLe.rfl_ _
      · split
        · exact FuelLe.rfl_ _
        · split
          · exact FuelLe.rfl_ _
          · split
            · exact FuelLe.rfl_ _
            · refine FuelLe.bind_ (FuelLe.rfl_ _) fun indexNode => ?_
              refine FuelLe.bind_ (hle _ _ _ _) fun r => ?_
              exact FuelLe.rfl_ _
  rw [if_neg hid, if_neg hid]
  by_cases hnum : node.type = PSnodeType.NUMBER
  · rw [if_pos hnum, if_pos hnum]
    exact FuelLe.rfl_ _
  rw [if_neg hnum, if_neg hnum]
  by_cases hkw : node.type = PSnodeType.KEYWORD
  · rw [if_pos hkw, if_pos hkw]
    by_cases hif : node.keyword.type = PSkeywordType.IF
    · rw [if_pos hif, if_pos hif]
      refine FuelLe.bind_ (FuelLe.rfl_ _) fun condNode => ?_
      refine FuelLe.bind_ (hle _ _ _ _) fun c => ?_
      refine FuelLe.bind_ (FuelLe.rfl_ _) fun scalar => ?_
      split
      · exact FuelLe.bind_ (execute_statements_mono hle _ _ _) fun _ => FuelLe.rfl_ _
      · split
        · exact FuelLe.bind_ (execute_statements_mono hle _ _ _) fun _ => FuelLe.rfl_ _
        · exact FuelLe.rfl_ _
    rw [if_neg hif, if_neg hif]
    by_cases hfor : node.keyword.type = PSkeywordType.FOR
    · rw [if_pos hfor, if_pos hfor]
      refine FuelLe.bind_ (FuelLe.rfl_ _) fun condNode => ?_
      split
      · exact FuelLe.rfl_ _
      · refine FuelLe.bind_ (FuelLe.rfl_ _) fun var => ?_
        split
        · exact FuelLe.rfl_ _
        · refine FuelLe.bind_ (FuelLe.rfl_ _) fun rangeNode => ?_
          refine FuelLe.bind_ (hle _ _ _ _) fun range => ?_
          split
          · simp only []
            split
            · refine FuelLe.bind_ (forLoop_mono hle _ _ _ _ _ _ _ _) fun x => ?_
              exact FuelLe.rfl_ _
            · exact FuelLe.rfl_ _
          · exact FuelLe.rfl_ _
    rw [if_neg hfor, if_neg hfor]
    by_cases hfunc : node.keyword.type = PSkeywordType.FUNC
    · rw [if_pos hfunc, if_pos hfunc]
      exact FuelLe.rfl_ _
    rw [if_neg hfunc, if_neg hfunc]
    by_cases hret : node.keyword.type = PSkeywordType.RETURN
    · rw [if_pos hret, if_pos hret]
      simp only []
      split
      · refine FuelLe.bind_ (FuelLe.rfl_ _) fun valNode => ?_
        refine FuelLe.bind_ (hle _ _ _ _) fun r => ?_
        exact FuelLe.rfl_ _
      · exact FuelLe.rfl_ _
    rw [if_neg hret, if_neg hret]
    exact FuelLe.rfl_ _
  rw [if_neg hkw, if_neg hkw]
  exact FuelLe.rfl_ _

theorem evaluate_statement_mono (env : PSenv) (ast : PSast) (fuel : Nat) :
    EvalLe (_ps_evaluate_statement env ast fuel) (_ps_evaluate_statement env ast (fuel + 1)) := by
  induction fuel with
  | zero => intro node af av st; exact Or.inl rfl
  | succ n ih =>
    intro node af av st
    exact evaluateBody_mono ih env ast node af av st


/-! ## Theorems: compound assignment -/

theorem SameOutcome.sbind {α β : Type} {n1 n2 : PSnode} {x y : Except PSfail α}
    {f : α → Except PSfail β} (h : SameOutcome n1 n2 x y) :
    SameOutcome n1 n2 (x >>= f) (y >>= f) := by
  rcases h with h | ⟨e, st, hx, hy⟩
  · rw [h]; exact Or.inl rfl
  · rw [hx, hy]; exact Or.inr ⟨e, st, rfl, rfl⟩

theorem SameOutcome.sbind_left {α β : Type} {n1 n2 : PSnode} (x : Except PSfail α)
    {f g : α → Except PSfail β} (h : ∀ a, SameOutcome n1 n2 (f a) (g a)) :
    SameOutcome n1 n2 (x >>= f) (x >>= g) := by
  cases x with
  | error e => exact Or.inl rfl
  | ok a => exact h a

theorem mult_renode (l r : PSdata) (n1 n2 : PSnode) (st : PSstate) :
    SameOutcome n1 n2 (_ps_mult l r n1 st) (_ps_mult l r n2 st) := by
  unfold _ps_mult
  repeat' split
  all_goals first
    | exact Or.inl rfl
    | exact Or.inr ⟨_, _, rfl, rfl⟩

theorem div_renode (l r : PSdata) (n1 n2 : PSnode) (st : PSstate) :
    SameOutcome n1 n2 (_ps_div l r n1 st) (_ps_div l r n2 st) := by
  unfold _ps_div
  repeat' split
  all_goals first
    | exact Or.inl rfl
    | exact Or.inr ⟨_, _, rfl, rfl⟩

theorem mod_renode (l r : PSdata) (n1 n2 : PSnode) (st : PSstate) :
    SameOutcome n1 n2 (_ps_mod l r n1 st) (_ps_mod l r n2 st) := by
  unfold _ps_mod
  repeat' split
  all_goals first
    | exact Or.inl rfl
    | exact Or.inr ⟨_, _, rfl, rfl⟩

theorem add_renode (l r : PSdata) (n1 n2 : PSnode) (st : PSstate) :
    SameOutcome n1 n2 (_ps_add l r n1 st) (_ps_add l r n2 st) := by
  unfold _ps_add
  repeat' split
  all_goals first
    | exact Or.inl rfl
    | exact Or.inr ⟨_, _, rfl, rfl⟩

theorem sub_renode (l r : PSdata) (n1 n2 : PSnode) (st : PSstate) :
    SameOutcome n1 n2 (_ps_sub l r n1 st) (_ps_sub l r n2 st) := by
  unfold _ps_sub
  repeat' split
  all_goals first
    | exact Or.inl rfl
    | exact Or.inr ⟨_, _, rfl, rfl⟩

theorem arith_renode (ty : Nat) (l r : PSdata) (n1 n2 : PSnode) (st : PSstate) :
    SameOutcome n1 n2 (arith ty l r n1 st) (arith ty l r n2 st) := by
  unfold arith
  repeat' split
  · exact mult_renode _ _ _ _ _
  · exact div_renode _ _ _ _ _
  · exact mod_renode _ _ _ _ _
  · exact add_renode _ _ _ _ _
  · exact sub_renode _ _ _ _ _

theorem compoundBase_cases {ty base : Nat} (h : compoundBase ty = some base) :
    (ty = PSopType.MULTEQUAL ∧ base = PSopType.MULT) ∨
    (ty = PSopType.DIVEQUAL ∧ base = PSopType.DIV) ∨
    (ty = PSopType.MODEQUAL ∧ base = PSopType.MOD) ∨
    (ty = PSopType.ADDEQUAL ∧ base = PSopType.ADD) ∨
    (ty = PSopType.SUBEQUAL ∧ base = PSopType.SUB) := by
  unfold compoundBase at h
  split_ifs at h with h1 h2 h3 h4 h5 <;> simp only [Option.some.injEq] at h <;> subst h <;>
    simp_all

theorem evaluateBody_arith (e : PSeval) (env : PSenv) (ast : PSast) (node : PSnode)
    (af av : List String) (st : PSstate) {ty base : Nat} (hb : compoundBase ty = some base)
    (hty : node.type = PSnodeType.OP) (hop : node.op.type = base) :
    evaluateBody e env ast node af av st = (do
      let leftNode ← poolAt ast node.op.left
      let l ← e leftNode af av st
      let rightNode ← poolAt ast node.op.right
      let r ← e rightNode l.addedFuncs l.addedVars l.st
      let d ← arith base l.val r.val node r.st
      pure (PSevalResult.mk0 d r.addedFuncs r.addedVars r.st)) := by
  rcases compoundBase_cases hb with h | h | h | h | h <;> obtain ⟨-, rfl⟩ := h <;>
    unfold evaluateBody arith <;> simp only [hty, hop, if_true] <;> rfl

theorem evaluateBody_compound (e : PSeval) (env : PSenv) (ast : PSast) (node : PSnode)
    (af av : List String) (st : PSstate) {base : Nat}
    (hty : node.type = PSnodeType.OP) (hb : compoundBase node.op.type = some base) :
    evaluateBody e env ast node af av st = (do
      let leftNode ← poolAt ast node.op.left
      let l ← e leftNode af av st
      let rightNode ← poolAt ast node.op.right
      let r ← e rightNode l.addedFuncs l.addedVars l.st
      let d ← arith base l.val r.val node r.st
      let varNode ← poolAt ast node.op.left
      _ps_equal e ast varNode d r.addedFuncs r.addedVars r.st) := by
  rcases compoundBase_cases hb with h | h | h | h | h <;> obtain ⟨hop, rfl⟩ := h <;>
    unfold evaluateBody arith <;> simp only [hty, hop, if_true] <;> rfl

theorem evaluateBody_plain (e : PSeval) (env : PSenv) (ast : PSast) (node : PSnode)
    (af av : List String) (st : PSstate)
    (hty : node.type = PSnodeType.OP) (hop : node.op.type = PSopType.EQUAL) :
    evaluateBody e env ast node af av st = (do
      let varNode ← poolAt ast node.op.left
      let rightNode ← poolAt ast node.op.right
      let r ← e rightNode af av st
      _ps_equal e ast varNode r.val r.addedFuncs r.addedVars r.st) := by
  unfold evaluateBody
  simp only [hty, hop, if_true]

theorem compound_core (e : PSeval) (env : PSenv) (ast : PSast) (node inner : PSnode)
    (af av : List String) (st : PSstate) {base : Nat}
    (hty : node.type = PSnodeType.OP) (hb : compoundBase node.op.type = some base)
    (hit : inner.type = PSnodeType.OP) (hio : inner.op.type = base)
    (hil : inner.op.left = node.op.left) (hir : inner.op.right = node.op.right) :
    SameOutcome node inner (evaluateBody e env ast node af av st) (do
      let varNode ← poolAt ast node.op.left
      let r ← evaluateBody e env ast inner af av st
      _ps_equal e ast varNode r.val r.addedFuncs r.addedVars r.st) := by
  rw [evaluateBody_compound e env ast node af av st hty hb,
    evaluateBody_arith e env ast inner af av st hb hit hio, hil, hir]
  cases hl : poolAt ast node.op.left with
  | error x => exact Or.inl rfl
  | ok ln =>
    cases hel : e ln af av st with
    | error x => simp only [bind, Except.bind, hel]; exact Or.inl rfl
    | ok l =>
      cases hr : poolAt ast node.op.right with
      | error x => simp only [bind, Except.bind, hel, hr]; exact Or.inl rfl
      | ok rn =>
        cases her : e rn l.addedFuncs l.addedVars l.st with
        | error x => simp only [bind, Except.bind, hel, hr, her]; exact Or.inl rfl
        | ok r =>
          simp only [bind, Except.bind, hel, hr, her]
          rcases arith_renode base l.val r.val node inner r.st with h | ⟨x, s, h1, h2⟩
          · rw [← h]
            cases arith base l.val r.val node r.st with
            | error x => exact Or.inl rfl
            | ok d => exact Or.inl rfl
          · rw [h1, h2]
            exact Or.inr ⟨x, s, rfl, rfl⟩

theorem SameOutcome.ne_fuel {α : Type} {n1 n2 : PSnode} {x y : Except PSfail α}
    (h : SameOutcome n1 n2 x y) (hx : x ≠ .error .outOfFuel) : y ≠ .error .outOfFuel := by
  rcases h with h | ⟨e, st, -, hy⟩
  · rw [← h]; exact hx
  · rw [hy]; simp

theorem SameOutcome.ne_fuel_left {α : Type} {n1 n2 : PSnode} {x y : Except PSfail α}
    (h : SameOutcome n1 n2 x y) (hy : y ≠ .error .outOfFuel) : x ≠ .error .outOfFuel := by
  rcases h with h | ⟨e, st, hx, -⟩
  · rw [h]; exact hy
  · rw [hx]; simp

set_option maxRecDepth 100000 in
/-- C15. Compound assignment is assignment of the arithmetic result.  For a node
`l op= r` with `op` one of `* / % + -`, a node `l op r` (`inner`) on the same two children
and the plain assignment node `l = (l op r)`: whenever the evaluation of one of the two
assignments ends within the bound of the model, the other ends with the same outcome (given
one more level of recursion, which the plain form needs for `l op r`): the same value, the
same two vectors of added names and the same globals, or the same error code thrown with
the same globals, an `INVALID_OP` of the operator itself naming the operator node of each
form.  With `x = 1`, `x += 2` leaves `x = INT 3`, and the program `x = 1`, `x += 2`,
`print(x)` prints `3`. -/
theorem compound_assignment_refines (env : PSenv) (ast : PSast) (node inner plain : PSnode)
    (base fuel : Nat) (af av : List String) (st : PSstate)
    (hty : node.type = PSnodeType.OP) (hb : compoundBase node.op.type = some base)
    (hit : inner.type = PSnodeType.OP) (hio : inner.op.type = base)
    (hil : inner.op.left = node.op.left) (hir : inner.op.right = node.op.right)
    (hpt : plain.type = PSnodeType.OP) (hpo : plain.op.type = PSopType.EQUAL)
    (hpl : plain.op.left = node.op.left) (hpr : poolAt ast plain.op.right = .ok inner) :
    (_ps_evaluate_statement env ast (fuel + 1) node af av st ≠ .error .outOfFuel →
      SameOutcome node inner (_ps_evaluate_statement env ast (fuel + 1) node af av st)
        (_ps_evaluate_statement env ast (fuel + 2) plain af av st)) ∧
    (_ps_evaluate_statement env ast (fuel + 2) plain af av st ≠ .error .outOfFuel →
      SameOutcome node inner (_ps_evaluate_statement env ast (fuel + 2) node af av st)
        (_ps_evaluate_statement env ast (fuel + 2) plain af av st)) ∧
    _ps_evaluate_statement {} astCompound 2 (opNode PSopType.ADDEQUAL 0 1) [] []
        (stateX (.INT 1))
      = .ok (PSevalResult.mk0 (.INT 3) [] [] (stateX (.INT 3))) ∧
    (runTokens stofNone uninitFalse movesDoubling 8 tokensCompound).map PSexecuteResult.summary?
      = some (some { error := none, vars := [], funcs := [], output := [[.INT 3]] }) := by
  have hplain : ∀ k, _ps_evaluate_statement env ast (k + 2) plain af av st = (do
      let varNode ← poolAt ast node.op.left
      let r ← evaluateBody (_ps_evaluate_statement env ast k) env ast inner af av st
      _ps_equal (_ps_evaluate_statement env ast (k + 1)) ast varNode r.val r.addedFuncs
        r.addedVars r.st) := by
    intro k
    show evaluateBody (_ps_evaluate_statement env ast (k + 1)) env ast plain af av st = _
    rw [evaluateBody_plain _ env ast plain af av st hpt hpo, hpl, hpr]
    rfl
  have hmono := evaluate_statement_mono env ast
  refine ⟨fun hne => ?_, fun hne => ?_, by decide!, by decide!⟩
  · have hcore := compound_core (_ps_evaluate_statement env ast fuel) env ast node inner af av
      st hty hb hit hio hil hir
    have hle : FuelLe (do
        let varNode ← poolAt ast node.op.left
        let r ← evaluateBody (_ps_evaluate_statement env ast fuel) env ast inner af av st
        _ps_equal (_ps_evaluate_statement env ast fuel) ast varNode r.val r.addedFuncs
          r.addedVars r.st)
        (_ps_evaluate_statement env ast (fuel + 2) plain af av st) := by
      rw [hplain fuel]
      refine FuelLe.bind_ (FuelLe.rfl_ _) fun varNode => ?_
      refine FuelLe.bind_ (FuelLe.rfl_ _) fun r => ?_
      exact equal_mono (hmono fuel) _ _ _ _ _ _
    have heq := hle.eq_of_ne (hcore.ne_fuel hne)
    rw [← heq]
    exact hcore
  · have hcore := compound_core (_ps_evaluate_statement env ast (fuel + 1)) env ast node inner
      af av st hty hb hit hio hil hir
    have hle : FuelLe (_ps_evaluate_statement env ast (fuel + 2) plain af av st) (do
        let varNode ← poolAt ast node.op.left
        let r ← evaluateBody (_ps_evaluate_statement env ast (fuel + 1)) env ast inner af av st
        _ps_equal (_ps_evaluate_statement env ast (fuel + 1)) ast varNode r.val r.addedFuncs
          r.addedVars r.st) := by
      rw [hplain fuel]
      refine FuelLe.bind_ (FuelLe.rfl_ _) fun varNode => ?_
      refine FuelLe.bind_ (evaluateBody_mono (hmono fuel) _ _ _ _ _ _) fun r => ?_
      exact FuelLe.rfl_ _
    have heq := hle.eq_of_ne hne
    rw [heq]
    exact hcore

set_option maxRecDepth 100000 in
theorem compound_assignment_refines_witness :
    SameOutcome (opNode PSopType.ADDEQUAL 0 1) (opNode PSopType.ADD 0 1)
      (_ps_evaluate_statement {} astCompound 2 (opNode PSopType.ADDEQUAL 0 1) [] []
        (stateX (.INT 1)))
      (_ps_evaluate_statement {} astCompound 3 (opNode PSopType.EQUAL 0 3) [] []
        (stateX (.INT 1))) :=
  (compound_assignment_refines {} astCompound (opNode PSopType.ADDEQUAL 0 1)
    (opNode PSopType.ADD 0 1) (opNode PSopType.EQUAL 0 3) PSopType.ADD 1 [] []
    (stateX (.INT 1)) rfl rfl rfl rfl rfl rfl rfl rfl rfl rfl).1 (by decide!)


/-! ## Theorems: lexer -/

theorem lexFinish_ne_fuel (s : PSlexState) : lexFinish s ≠ .outOfFuel := by
  unfold lexFinish
  simp only []
  split
  · simp
  · split <;> simp

/-- The bound of `ps_lex_file` is never reached: the main loop reads at least one
character in every turn. -/
theorem lexLoop_ne_fuel (oob : Nat → Nat → Char) (fuel : Nat) (rest : List Char)
    (s : PSlexState) (h : rest.length ≤ fuel) : lexLoop oob fuel rest s ≠ .outOfFuel := by
  induction fuel generalizing rest s with
  | zero =>
    cases rest with
    | nil => unfold lexLoop; exact lexFinish_ne_fuel s
    | cons c r => simp at h
  | succ n ih =>
    cases rest with
    | nil => unfold lexLoop; exact lexFinish_ne_fuel s
    | cons c r =>
      have hr : r.length ≤ n := by simpa using h
      have hd : ∀ k, (r.drop k).length ≤ n := fun k => by
        rw [List.length_drop]; omega
      unfold lexLoop
      simp only []
      split
      · exact ih _ _ hr
      split
      · exact ih _ _ hr
      split
      · simp
      split
      · exact ih _ _ hr
      split
      · split
        · simp
        · split
          · simp
          · split
            · exact ih _ _ (hd _)
            · exact ih _ _ (hd _)
      · exact ih _ _ hr

theorem ps_lex_file_ne_fuel (oob : Nat → Nat → Char) (file : Option (List Char)) :
    ps_lex_file oob file ≠ .outOfFuel := by
  unfold ps_lex_file
  cases file with
  | none => simp
  | some chars => exact lexLoop_ne_fuel oob _ chars {} (Nat.le_refl _)

set_option maxRecDepth 100000 in
/-- C16. The lexer has no entry for the percent sign followed by the equals sign: the
file `x %= y` is lexed as the four tokens `x`, `%`, `=`, `y` (and the newline), which the
parser rejects at the `=` with `UNEXPECTED_OPERATOR`, although the parser's table maps that
spelling to `MODEQUAL`.  Each of the sixteen other spellings, written between `x` and `y`,
is lexed as one operator token carrying the spelling, which the parser's table maps to the
tag of the same name. -/
theorem lexer_splits_mod_equal :
    ps_lex_file oobNul (fileBinary "%=")
      = .tokens [tokId "x", tokOp "%", tokOp "=", tokId "y", tokNl] ∧
    is_op_str "%=" = false ∧
    PS_STRING_TO_OP_TYPE.lookup "%=" = some PSopType.MODEQUAL ∧
    ps_parse_tokens stofNone uninitFalse movesDoubling 8
        [tokId "x", tokOp "%", tokOp "=", tokId "y", tokNl]
      = .error (.error .UNEXPECTED_OPERATOR (tokOp "=")) ∧
    (∀ p ∈ spellingsLexed,
      ps_lex_file oobNul (fileBinary p.1) = .tokens [tokId "x", tokOp p.1, tokId "y", tokNl] ∧
      PS_STRING_TO_OP_TYPE.lookup p.1 = some p.2) := by
  refine ⟨by decide!, by decide!, by decide!, by decide!, by decide!⟩


theorem is_op_char_percent (oob : Nat → Nat → Char) : is_op_char oob '%' 0 = true := by
  simp [is_op_char, PS_LEXER_OPERATORS, isOpCharFrom, opCharAt, String.length]

theorem shortenOp_is_op (opString : List Char) (n k : Nat)
    (h : shortenOp opString n = some k) :
    is_op_str (String.mk (opString.take k)) = true := by
  induction n with
  | zero => simp [shortenOp] at h
  | succ n ih =>
    unfold shortenOp at h
    split at h
    · rename_i hop
      cases h
      exact hop
    · exact ih h

theorem try_add_no_mod_equal (idString : List Char) (lineNum : Nat) (tokens : List PStoken)
    (ht : ∀ t ∈ tokens, t.str ≠ "%=") (hid : '%' ∉ idString) :
    ∀ t ∈ try_add_id_token idString lineNum tokens, t.str ≠ "%=" := by
  unfold try_add_id_token
  split
  · exact ht
  · intro t hmem
    simp only [List.mem_append, List.mem_singleton] at hmem
    rcases hmem with hmem | hmem
    · exact ht t hmem
    · subst hmem
      intro heq
      apply hid
      have : idString = ['%', '='] := by
        have := congrArg String.data heq
        simpa using this
      rw [this]
      simp

theorem lexFinish_no_mod_equal (s : PSlexState) (ts : List PStoken)
    (ht : ∀ t ∈ s.tokens, t.str ≠ "%=") (hid : '%' ∉ s.idString)
    (h : lexFinish s = .tokens ts) : ∀ t ∈ ts, t.str ≠ "%=" := by
  have hadd := try_add_no_mod_equal s.idString s.curLine s.tokens ht hid
  unfold lexFinish at h
  simp only [] at h
  split at h
  · cases h
  · split at h
    · cases h
      intro t hmem
      simp only [List.mem_append, List.mem_singleton] at hmem
      rcases hmem with hmem | hmem
      · exact hadd t hmem
      · subst hmem; simp
    · cases h
      exact hadd

/-- No file makes the lexer return a token spelled with the percent sign followed by the
equals sign, whatever the reads outside the entries of the operator table give. -/
theorem lexLoop_no_mod_equal (oob : Nat → Nat → Char) (fuel : Nat) (rest : List Char)
    (s : PSlexState) (ts : List PStoken)
    (ht : ∀ t ∈ s.tokens, t.str ≠ "%=") (hid : '%' ∉ s.idString)
    (h : lexLoop oob fuel rest s = .tokens ts) : ∀ t ∈ ts, t.str ≠ "%=" := by
  induction fuel generalizing rest s with
  | zero =>
    cases rest with
    | nil => unfold lexLoop at h; exact lexFinish_no_mod_equal s ts ht hid h
    | cons c r => unfold lexLoop at h; cases h
  | succ n ih =>
    cases rest with
    | nil => unfold lexLoop at h; exact lexFinish_no_mod_equal s ts ht hid h
    | cons c r =>
      have hadd := try_add_no_mod_equal s.idString s.curLine s.tokens ht hid
      unfold lexLoop at h
      simp only [] at h
      split at h
      · refine ih _ _ ?_ (by simp) h
        split
        · intro t hmem
          simp only [List.mem_append, List.mem_singleton] at hmem
          rcases hmem with hmem | hmem
          · exact hadd t hmem
          · subst hmem; simp
        · exact hadd
      split at h
      · exact ih _ _ ht hid h
      split at h
      · cases h
      split at h
      · exact ih _ _ hadd (by simp) h
      split at h
      · split at h
        · cases h
        · split at h
          · cases h
          · rename_i _ opString opLen rest2 hscan _ opLen1 hshort
            have hop := shortenOp_is_op opString opLen opLen1 hshort
            split at h
            · exact ih _ _ hadd (by simp) h
            · refine ih _ _ ?_ (by simp) h
              intro t hmem
              simp only [List.mem_append, List.mem_singleton] at hmem
              rcases hmem with hmem | hmem
              · exact hadd t hmem
              · subst hmem
                intro heq
                simp only at heq
                rw [heq] at hop
                revert hop
                decide
      · rename_i hnop
        refine ih r { s with idString := s.idString ++ [c] } ht ?_ h
        simp only [List.mem_append, List.mem_singleton, not_or]
        refine ⟨hid, ?_⟩
        intro hc
        rw [← hc] at hnop
        exact hnop (is_op_char_percent oob)

theorem lexer_never_mod_equal (oob : Nat → Nat → Char) (file : Option (List Char))
    (ts : List PStoken) (h : ps_lex_file oob file = .tokens ts) :
    ∀ t ∈ ts, t.str ≠ "%=" := by
  unfold ps_lex_file at h
  cases file with
  | none =>
    cases h
    intro t hmem
    cases hmem
  | some chars =>
    exact lexLoop_no_mod_equal oob _ chars {} ts (fun t hmem => by cases hmem) (by simp) h


/-! ## Theorems: newline tokens of the lexer -/

theorem adjacent_append (ts : List PStoken) (t : PStoken)
    (h : hasAdjacentNewlines ts = false)
    (ht : t.type ≠ PStokenType.NEWLINE ∨
      ts.getLast?.map PStoken.type ≠ some PStokenType.NEWLINE) :
    hasAdjacentNewlines (ts ++ [t]) = false := by
  induction ts with
  | nil => rfl
  | cons a rest ih =>
    cases rest with
    | nil =>
      simp only [List.nil_append, List.cons_append, hasAdjacentNewlines, Bool.or_false,
        Bool.and_eq_false_imp, decide_eq_true_eq, decide_eq_false_iff_not]
      intro ha
      rcases ht with ht | ht
      · exact ht
      · simp [ha] at ht
    | cons b rest2 =>
      simp only [List.cons_append, hasAdjacentNewlines, Bool.or_eq_false_iff] at h ⊢
      refine ⟨h.1, ?_⟩
      apply ih h.2
      rcases ht with ht | ht
      · exact Or.inl ht
      · right
        simpa [List.getLast?_cons_cons] using ht

theorem try_add_adjacent (idString : List Char) (lineNum : Nat) (tokens : List PStoken)
    (h : hasAdjacentNewlines tokens = false) :
    hasAdjacentNewlines (try_add_id_token idString lineNum tokens) = false := by
  unfold try_add_id_token
  split
  · exact h
  · apply adjacent_append _ _ h
    left
    simp only []
    split <;> simp

theorem lexFinish_adjacent (s : PSlexState) (ts : List PStoken)
    (hs : hasAdjacentNewlines s.tokens = false) (h : lexFinish s = .tokens ts) :
    hasAdjacentNewlines ts = false := by
  have hadd := try_add_adjacent s.idString s.curLine s.tokens hs
  unfold lexFinish at h
  simp only [] at h
  split at h
  · cases h
  · rename_i last hlast
    split at h
    · rename_i hne
      cases h
      apply adjacent_append _ _ hadd
      right
      rw [hlast]
      simpa using hne
    · cases h
      exact hadd

theorem lexLoop_adjacent (oob : Nat → Nat → Char) (fuel : Nat) (rest : List Char)
    (s : PSlexState) (ts : List PStoken)
    (hs : hasAdjacentNewlines s.tokens = false) (h : lexLoop oob fuel rest s = .tokens ts) :
    hasAdjacentNewlines ts = false := by
  induction fuel generalizing rest s with
  | zero =>
    cases rest with
    | nil => unfold lexLoop at h; exact lexFinish_adjacent s ts hs h
    | cons c r => unfold lexLoop at h; cases h
  | succ n ih =>
    cases rest with
    | nil => unfold lexLoop at h; exact lexFinish_adjacent s ts hs h
    | cons c r =>
      have hadd := try_add_adjacent s.idString s.curLine s.tokens hs
      unfold lexLoop at h
      simp only [] at h
      split at h
      · refine ih _ _ ?_ h
        simp only []
        split
        · rename_i hcond
          exact adjacent_append _ _ hadd (Or.inr hcond.2)
        · exact hadd
      split at h
      · exact ih _ _ hs h
      split at h
      · cases h
      split at h
      · exact ih _ _ hadd h
      split at h
      · split at h
        · cases h
        · split at h
          · cases h
          · split at h
            · exact ih _ _ hadd h
            · refine ih _ _ ?_ h
              exact adjacent_append _ _ hadd (Or.inl (by simp))
      · exact ih r { s with idString := s.idString ++ [c] } hs h

set_option maxRecDepth 100000 in
/-- C22. No back-to-back newlines: whenever the lexer returns a token stream, whatever the
text of the file and whatever the reads outside the entries of the operator table give, no
two NEWLINE tokens of the stream stand next to each other.  A text with runs of line
terminators, blank lines and a comment-only line is lexed to a stream with one NEWLINE
after each of its two statements. -/
theorem lexer_no_adjacent_newlines (oob : Nat → Nat → Char) (file : Option (List Char))
    (ts : List PStoken) (h : ps_lex_file oob file = .tokens ts) :
    hasAdjacentNewlines ts = false ∧
    ps_lex_file oobNul (some textBlankLines)
      = .tokens [tokIdAt "x" 1, tokOpAt "=" 1, tokIdAt "1" 1, tokNlAt 1,
                 tokIdAt "y" 7, tokOpAt "=" 7, tokIdAt "2" 7, tokNlAt 7] := by
  refine ⟨?_, by decide!⟩
  unfold ps_lex_file at h
  cases file with
  | none => cases h; rfl
  | some chars => exact lexLoop_adjacent oob _ chars {} ts rfl h

set_option maxRecDepth 100000 in
theorem lexer_no_adjacent_newlines_witness :
    hasAdjacentNewlines [tokIdAt "x" 1, tokOpAt "=" 1, tokIdAt "1" 1, tokNlAt 1,
                         tokIdAt "y" 7, tokOpAt "=" 7, tokIdAt "2" 7, tokNlAt 7] = false :=
  (lexer_no_adjacent_newlines oobNul (some textBlankLines) _ (by decide!)).1


theorem lexFinish_ends (s : PSlexState) (ts : List PStoken) (h : lexFinish s = .tokens ts) :
    endsWithNewline ts = true := by
  unfold lexFinish at h
  simp only [] at h
  split at h
  · cases h
  · rename_i last hlast
    split at h
    · cases h
      simp [endsWithNewline]
    · rename_i hty
      cases h
      simp only [endsWithNewline, hlast, Option.map_some', decide_eq_true_eq]
      simpa using hty

theorem lexLoop_ends (oob : Nat → Nat → Char) (fuel : Nat) (rest : List Char)
    (s : PSlexState) (ts : List PStoken) (h : lexLoop oob fuel rest s = .tokens ts) :
    endsWithNewline ts = true := by
  induction fuel generalizing rest s with
  | zero =>
    cases rest with
    | nil => unfold lexLoop at h; exact lexFinish_ends s ts h
    | cons c r => unfold lexLoop at h; cases h
  | succ n ih =>
    cases rest with
    | nil => unfold lexLoop at h; exact lexFinish_ends s ts h
    | cons c r =>
      unfold lexLoop at h
      simp only [] at h
      split at h
      · exact ih _ _ h
      split at h
      · exact ih _ _ h
      split at h
      · cases h
      split at h
      · exact ih _ _ h
      split at h
      · split at h
        · cases h
        · split at h
          · cases h
          · split at h
            · exact ih _ _ h
            · exact ih _ _ h
      · exact ih _ _ h

/-- Whenever the lexer returns the tokens of a file it could open, the last of them is a
NEWLINE token. -/
theorem lexer_ends_with_newline (oob : Nat → Nat → Char) (chars : List Char)
    (ts : List PStoken) (h : ps_lex_file oob (some chars) = .tokens ts) :
    endsWithNewline ts = true :=
  lexLoop_ends oob _ chars {} ts h

set_option maxRecDepth 100000 in
/-- C23. The lexer reads `tokens[tokens.size() - 1]` when there is no token: on the empty
text (whatever the reads outside the operator table give), on a whitespace-only text and
on a comment-only text it returns no token stream, its behaviour is undefined.  A text
with one token and no line terminator is lexed to that token and a NEWLINE. -/
theorem lexer_empty_text_undefined :
    (∀ oob : Nat → Nat → Char, ps_lex_file oob (some []) = .undefined) ∧
    ps_lex_file oobNul (some "  \n \n".toList) = .undefined ∧
    ps_lex_file oobNul (some "# c\n".toList) = .undefined ∧
    ps_lex_file oobNul (some "x".toList) = .tokens [tokId "x", tokNl] := by
  refine ⟨fun oob => rfl, by decide!, by decide!, by decide!⟩

set_option maxRecDepth 100000 in
/-- C24. The lexer pushes a NEWLINE token only when there are two tokens or more: the text
of the two lines `x` and `y` is lexed to `x`, `y` and one NEWLINE, with no NEWLINE between
the two identifiers, also when blank lines stand between them.  After two tokens or more a
run of line terminators gives one NEWLINE. -/
theorem lexer_drops_first_newline :
    ps_lex_file oobNul (some "x\ny\n".toList)
      = .tokens [tokIdAt "x" 1, tokIdAt "y" 2, tokNlAt 2] ∧
    ps_lex_file oobNul (some "x\n\n\ny\n".toList)
      = .tokens [tokIdAt "x" 1, tokIdAt "y" 4, tokNlAt 4] ∧
    ps_lex_file oobNul (some "a b\n\n\nc\n".toList)
      = .tokens [tokIdAt "a" 1, tokIdAt "b" 1, tokNlAt 1, tokIdAt "c" 4, tokNlAt 4] := by
  refine ⟨by decide!, by decide!, by decide!⟩

/-- C21. `vec4` with three scalars reads a fourth parameter: for all scalar values `x`,
`y`, `z`, `_ps_vec4` on the three parameters reads `params[3]`, outside the vector, and
raises no error: its behaviour is undefined. -/
theorem vec4_three_scalars_reads_fourth (x y z : PSdata) (node : PSnode) (world : PSworld)
    (hx : x.isScalar = true) (hy : y.isScalar = true) (hz : z.isScalar = true) :
    _ps_vec4 [x, y, z] node world = .undefined := by
  cases x <;> simp [PSdata.isScalar] at hx <;>
    cases y <;> simp [PSdata.isScalar] at hy <;>
      cases z <;> simp [PSdata.isScalar] at hz <;>
        simp [_ps_vec4, paramScalar, PSdata.isScalar]

set_option maxRecDepth 100000 in
theorem vec4_three_scalars_reads_fourth_witness :
    _ps_vec4 [.INT 1, .INT 2, .INT 3] (callNode "vec4" [1, 2, 3]) {} = .undefined ∧
    (runTokens stofNone uninitFalse movesDoubling 8 tokensVec4Three).map PSexecuteResult.isUndefined
      = some true :=
  ⟨vec4_three_scalars_reads_fourth (.INT 1) (.INT 2) (.INT 3) (callNode "vec4" [1, 2, 3]) {}
    rfl rfl rfl, by decide!⟩


/-! ## Theorems: declarations, unary minus and newlines in the parser -/

set_option maxRecDepth 100000 in
/-- C26. The table `PS_KEYWORDS` lacks `break` and `continue`: the declarations
`func break \x7b \x7d` and `func continue \x7b \x7d` are lexed and parsed to an AST with a
function of that name.  For each of the eight other keywords the declaration ends with a
parse error and no AST. -/
theorem func_named_break_accepted :
    lexThenParse oobNul stofNone uninitFalse movesDoubling 8 (fileFuncNamed "break")
      = some (.ok (astFuncNamed "break")) ∧
    lexThenParse oobNul stofNone uninitFalse movesDoubling 8 (fileFuncNamed "continue")
      = some (.ok (astFuncNamed "continue")) ∧
    "break" ∉ PS_KEYWORDS ∧ "continue" ∉ PS_KEYWORDS ∧
    (∀ k ∈ ["func", "ret", "if", "else", "for", "in", "and", "or"],
      isParseError (lexThenParse oobNul stofNone uninitFalse movesDoubling 8 (fileFuncNamed k)) = true) := by
  refine ⟨by decide!, by decide!, by decide!, by decide!, by decide!⟩

set_option maxRecDepth 100000 in
/-- C27. The minus before a call without arguments is dropped: `-f()` parses to the call
node alone, the same AST as `f()`.  Before a variable, an indexed variable and a call with
arguments the minus gives the `SUB` node over the literal `-1` and the operand. -/
theorem minus_before_empty_call_dropped :
    lexThenParse oobNul stofNone uninitFalse movesDoubling 8 (some "-f()\n".toList)
      = some (.ok { parentNodes := [0], nodePool := [callNode "f" []] }) ∧
    lexThenParse oobNul stofNone uninitFalse movesDoubling 8 (some "-f()\n".toList)
      = lexThenParse oobNul stofNone uninitFalse movesDoubling 8 (some "f()\n".toList) ∧
    lexThenParse oobNul stofNone uninitFalse movesDoubling 8 (some "-x\n".toList)
      = some (.ok { parentNodes := [2],
                    nodePool := [intNode (-1), varNode "x", opNode PSopType.SUB 0 1] }) ∧
    lexThenParse oobNul stofNone uninitFalse movesDoubling 8 (some "-x[0]\n".toList)
      = some (.ok { parentNodes := [3],
                    nodePool := [intNode 0, intNode (-1), indexedVarNode "x" 0,
                                 opNode PSopType.SUB 1 2] }) ∧
    lexThenParse oobNul stofNone uninitFalse movesDoubling 8 (some "-f(1, 2)\n".toList)
      = some (.ok { parentNodes := [4],
                    nodePool := [intNode 1, intNode 2, intNode (-1), callNode "f" [0, 1],
                                 opNode PSopType.SUB 2 3] }) := by
  refine ⟨by decide!, by decide!, by decide!, by decide!, by decide!⟩

set_option maxRecDepth 100000 in
/-- C29. A NEWLINE token directly after the `(` of a parenthesised expression or after the
`[` of an index is not skipped: `(a + b) * c` and `x[0]` with the token inserted there end
with the parse error `UNEXPECTED_OPERATOR` at the NEWLINE.  Directly after the `(` of a
call, and after an operand, an operator or a comma inside the brackets, the token is
skipped and the AST is the one parsed without it. -/
theorem newline_after_opener_rejected :
    ps_parse_tokens stofNone uninitFalse movesDoubling 8
        [tokOp "(", tokNl, tokId "a", tokOp "+", tokId "b", tokOp ")", tokOp "*", tokId "c",
         tokNl]
      = .error (.error .UNEXPECTED_OPERATOR tokNl) ∧
    ps_parse_tokens stofNone uninitFalse movesDoubling 8
        [tokId "x", tokOp "[", tokNl, tokId "0", tokOp "]", tokNl]
      = .error (.error .UNEXPECTED_OPERATOR tokNl) ∧
    ps_parse_tokens stofNone uninitFalse movesDoubling 8
        [tokOp "(", tokId "a", tokOp "+", tokId "b", tokOp ")", tokOp "*", tokId "c", tokNl]
      = .ok astParenSum ∧
    ps_parse_tokens stofNone uninitFalse movesDoubling 8
        [tokId "x", tokOp "[", tokId "0", tokOp "]", tokNl]
      = .ok astIndexZero ∧
    (∀ ts ∈ [[tokOp "(", tokId "a", tokNl, tokOp "+", tokId "b", tokOp ")", tokOp "*",
              tokId "c", tokNl],
             [tokOp "(", tokId "a", tokOp "+", tokNl, tokId "b", tokOp ")", tokOp "*",
              tokId "c", tokNl],
             [tokOp "(", tokId "a", tokOp "+", tokId "b", tokNl, tokOp ")", tokOp "*",
              tokId "c", tokNl]],
      ps_parse_tokens stofNone uninitFalse movesDoubling 8 ts = .ok astParenSum) ∧
    ps_parse_tokens stofNone uninitFalse movesDoubling 8
        [tokId "x", tokOp "[", tokId "0", tokNl, tokOp "]", tokNl]
      = .ok astIndexZero ∧
    (∀ ts ∈ [[tokId "f", tokOp "(", tokId "a", tokOp ",", tokId "b", tokOp ")", tokNl],
             [tokId "f", tokOp "(", tokNl, tokId "a", tokOp ",", tokId "b", tokOp ")", tokNl],
             [tokId "f", tokOp "(", tokId "a", tokNl, tokOp ",", tokId "b", tokOp ")", tokNl],
             [tokId "f", tokOp "(", tokId "a", tokOp ",", tokNl, tokId "b", tokOp ")", tokNl],
             [tokId "f", tokOp "(", tokId "a", tokOp ",", tokId "b", tokNl, tokOp ")", tokNl]],
      ps_parse_tokens stofNone uninitFalse movesDoubling 8 ts = .ok astCallAB) := by
  refine ⟨by decide!, by decide!, by decide!, by decide!, by decide!, by decide!, by decide!⟩

set_option maxRecDepth 100000 in
/-- C30. An empty parenthesised parameter list is rejected: `func f() \x7b print(1) \x7d`
ends with the parse error `UNEXPECTED_OPERATOR` at the `)`, while
`func f \x7b print(1) \x7d` parses to the function `f` without parameters. -/
theorem empty_parameter_list_rejected :
    lexThenParse oobNul stofNone uninitFalse movesDoubling 8
        (some "func f() \x7b print(1) \x7d\n".toList)
      = some (.error (.error .UNEXPECTED_OPERATOR (tokOp ")"))) ∧
    lexThenParse oobNul stofNone uninitFalse movesDoubling 8
        (some "func f \x7b print(1) \x7d\n".toList)
      = some (.ok astFuncPrint) := by
  refine ⟨by decide!, by decide!⟩


theorem is_op_char_equals_one (oob : Nat → Nat → Char) : is_op_char oob '=' 1 = true := by
  simp [is_op_char, PS_LEXER_OPERATORS, isOpCharFrom, opCharAt, String.length]

theorem scanOp_shape (oob : Nat → Nat → Char) (c0 : Char) (rest os r3 : List Char) (k : Nat)
    (h : scanOp oob 2 [c0, c0] 1 rest = some (os, k, r3)) :
    (k = 1 ∧ os = [c0, c0] ∧ ∀ c1 r, rest = c1 :: r → is_op_char oob c1 1 = false) ∨
    (∃ c1 r, rest = c1 :: r ∧ is_op_char oob c1 1 = true ∧ os = [c0, c1] ∧
      (k = 2 ∨ (k = 3 ∧ ∃ r2, r = Char.ofNat 0 :: r2))) := by
  cases rest with
  | nil =>
    unfold scanOp at h
    split at h
    · cases h
    · cases h
      exact Or.inl ⟨rfl, rfl, fun c1 r hc => by cases hc⟩
  | cons c1 r =>
    unfold scanOp at h
    by_cases h1 : is_op_char oob c1 1 = true
    · right
      refine ⟨c1, r, rfl, h1, ?_⟩
      simp only [h1, if_true, List.length_cons, List.length_nil] at h
      simp only [show (1 < 0 + 1 + 1) = True from by simp, if_true, List.set] at h
      cases r with
      | nil =>
        unfold scanOp at h
        split at h
        · cases h
        · cases h
          exact ⟨rfl, Or.inl rfl⟩
      | cons c2 r2 =>
        unfold scanOp at h
        by_cases h2 : is_op_char oob c2 2 = true
        · simp only [h2, if_true, List.length_cons, List.length_nil] at h
          simp only [show ¬ (2 < 0 + 1 + 1) from by simp, if_false] at h
          by_cases hn : c2 = Char.ofNat 0
          · subst hn
            simp only [if_true] at h
            cases r2 with
            | nil =>
              unfold scanOp at h
              split at h
              · cases h
              · cases h
                exact ⟨rfl, Or.inr ⟨rfl, [], rfl⟩⟩
            | cons c3 r4 =>
              unfold scanOp at h
              split at h
              · cases h
              · cases h
                exact ⟨rfl, Or.inr ⟨rfl, c3 :: r4, rfl⟩⟩
          · simp only [hn, if_false] at h
            cases h
        · simp only [h2, if_false, Bool.false_eq_true] at h
          cases h
          exact ⟨rfl, Or.inl rfl⟩
    · left
      simp only [h1, if_false, Bool.false_eq_true] at h
      cases h
      refine ⟨rfl, rfl, ?_⟩
      intro c r hc
      cases hc
      simpa using h1

theorem g_maxOpLen_eq : g_maxOpLen = 2 := by decide

theorem lexLoop_op_step (oob : Nat → Nat → Char) (fuel : Nat) (c0 : Char) (rest : List Char)
    (s : PSlexState) (os r3 : List Char) (k k1 : Nat)
    (hnl : c0 ≠ '\n') (hin : s.inComment = false) (hascii : ¬ c0.toNat ≥ 128)
    (hsp : isspace c0 = false) (hop : is_op_char oob c0 0 = true)
    (hscan : scanOp oob 2 [c0, c0] 1 rest = some (os, k, r3))
    (hshort : shortenOp os k = some k1) :
    lexLoop oob (fuel + 1) (c0 :: rest) s
      = lexLoop oob fuel (rest.drop (k1 - 1)) (afterOp s (String.mk (os.take k1))) := by
  have hrep : List.replicate 2 c0 = [c0, c0] := rfl
  rw [lexLoop]
  unfold afterOp
  simp only [hnl, hin, hascii, hsp, hop, g_maxOpLen_eq, hrep, hscan, hshort, if_false,
    if_true, Bool.false_eq_true]
  split <;> rfl

theorem is_op_str_mem {str : String} (h : is_op_str str = true) :
    str ∈ PS_LEXER_OPERATORS := by
  unfold is_op_str at h
  rw [List.any_eq_true] at h
  obtain ⟨x, hx, hxe⟩ := h
  have : x = str := by simpa using hxe
  rw [← this]
  exact hx

theorem mem_is_op_str {str : String} (h : str ∈ PS_LEXER_OPERATORS) :
    is_op_str str = true := by
  unfold is_op_str
  rw [List.any_eq_true]
  exact ⟨str, h, by simp⟩

/-- The step of the lexer at an entry of one character that no entry of two characters
extends at this place. -/
theorem one_char_step (oob : Nat → Nat → Char) (fuel : Nat) (c0 : Char) (rest : List Char)
    (s : PSlexState)
    (hnl : c0 ≠ '\n') (hin : s.inComment = false) (hascii : ¬ c0.toNat ≥ 128)
    (hsp : isspace c0 = false) (hop : is_op_char oob c0 0 = true)
    (hone : is_op_str (String.mk [c0]) = true)
    (hno2 : ∀ c1 r, rest = c1 :: r → is_op_str (String.mk [c0, c1]) = false)
    (hdef : scanOp oob 2 [c0, c0] 1 rest ≠ none) :
    lexLoop oob (fuel + 1) (c0 :: rest) s
      = lexLoop oob fuel rest (afterOp s (String.mk [c0])) := by
  cases hscan : scanOp oob 2 [c0, c0] 1 rest with
  | none => exact absurd hscan hdef
  | some res =>
    obtain ⟨os, k, r3⟩ := res
    rcases scanOp_shape oob c0 rest os r3 k hscan with ⟨hk, hos, -⟩ | ⟨c1, r, hr, -, hos, hk⟩
    · subst hk hos
      have hshort : shortenOp [c0, c0] 1 = some 1 := by
        unfold shortenOp
        simp only [List.take, Nat.zero_add]
        rw [if_pos hone]
      have := lexLoop_op_step oob fuel c0 rest s _ r3 1 1 hnl hin hascii hsp hop hscan hshort
      simpa using this
    · subst hos
      have h2 := hno2 c1 r hr
      have hshort : shortenOp [c0, c1] k = some 1 := by
        rcases hk with hk | ⟨hk, -⟩
        · subst hk
          unfold shortenOp
          simp only [Nat.reduceAdd, List.take, h2, if_false, Bool.false_eq_true]
          unfold shortenOp
          simp only [Nat.zero_add, List.take]
          rw [if_pos hone]
        · subst hk
          unfold shortenOp
          simp only [Nat.reduceAdd, List.take, h2, if_false, Bool.false_eq_true]
          unfold shortenOp
          simp only [Nat.reduceAdd, List.take, h2, if_false, Bool.false_eq_true]
          unfold shortenOp
          simp only [Nat.zero_add, List.take]
          rw [if_pos hone]
      have := lexLoop_op_step oob fuel c0 rest s _ r3 k 1 hnl hin hascii hsp hop hscan hshort
      simpa using this

/-- The step of the lexer at an entry of two characters that no NUL character follows. -/
theorem two_char_step (oob : Nat → Nat → Char) (fuel : Nat) (c0 : Char) (rest : List Char)
    (s : PSlexState)
    (hnl : c0 ≠ '\n') (hin : s.inComment = false) (hascii : ¬ c0.toNat ≥ 128)
    (hsp : isspace c0 = false) (hop : is_op_char oob c0 0 = true)
    (htwo : is_op_str (String.mk [c0, '=']) = true)
    (hnul : rest.head? ≠ some (Char.ofNat 0))
    (hdef : scanOp oob 2 [c0, c0] 1 ('=' :: rest) ≠ none) :
    lexLoop oob (fuel + 1) (c0 :: '=' :: rest) s
      = lexLoop oob fuel rest (afterOp s (String.mk [c0, '='])) := by
  cases hscan : scanOp oob 2 [c0, c0] 1 ('=' :: rest) with
  | none => exact absurd hscan hdef
  | some res =>
    obtain ⟨os, k, r3⟩ := res
    rcases scanOp_shape oob c0 _ os r3 k hscan with ⟨-, -, hno⟩ | ⟨c1, r, hr, -, hos, hk⟩
    · have := hno '=' rest rfl
      rw [is_op_char_equals_one] at this
      cases this
    · cases hr
      subst hos
      rcases hk with hk | ⟨-, r2, hr2⟩
      · subst hk
        have hshort : shortenOp [c0, '='] 2 = some 2 := by
          unfold shortenOp
          simp only [Nat.reduceAdd, List.take]
          rw [if_pos htwo]
        have := lexLoop_op_step oob fuel c0 _ s _ r3 2 2 hnl hin hascii hsp hop hscan hshort
        simpa using this
      · rw [hr2] at hnul
        exact absurd rfl hnul

theorem argmax_foldl (l : List String) (acc : Option String) (r : String)
    (h : l.foldl (fun best e =>
        match best with
        | none => some e
        | some b => if b.length < e.length then some e else some b) acc = some r) :
    (r ∈ l ∨ acc = some r) ∧ (∀ x ∈ l, x.length ≤ r.length) ∧
      (∀ b, acc = some b → b.length ≤ r.length) := by
  induction l generalizing acc with
  | nil =>
    simp only [List.foldl] at h
    refine ⟨Or.inr h, fun x hx => absurd hx (List.not_mem_nil x), fun b hb => ?_⟩
    rw [h] at hb
    cases hb
    exact Nat.le_refl _
  | cons x xs ih =>
    simp only [List.foldl] at h
    obtain ⟨hmem, hall, hacc⟩ := ih _ h
    cases acc with
    | none =>
      have hx := hacc x rfl
      refine ⟨Or.inl ?_, ?_, fun b hb => by cases hb⟩
      · rcases hmem with hm | hm
        · exact List.mem_cons_of_mem _ hm
        · cases hm
          exact List.mem_cons_self _ _
      · intro y hy
        rcases List.mem_cons.mp hy with hy | hy
        · rw [hy]; exact hx
        · exact hall y hy
    | some b =>
      by_cases hlt : b.length < x.length
      · simp only [hlt, if_true] at hmem hacc
        have hx := hacc x rfl
        refine ⟨Or.inl ?_, ?_, fun b2 hb => ?_⟩
        · rcases hmem with hm | hm
          · exact List.mem_cons_of_mem _ hm
          · cases hm
            exact List.mem_cons_self _ _
        · intro y hy
          rcases List.mem_cons.mp hy with hy | hy
          · rw [hy]; exact hx
          · exact hall y hy
        · cases hb
          omega
      · simp only [hlt, if_false] at hmem hacc
        have hb := hacc b rfl
        refine ⟨?_, ?_, fun b2 hb2 => ?_⟩
        · rcases hmem with hm | hm
          · exact Or.inl (List.mem_cons_of_mem _ hm)
          · exact Or.inr hm
        · intro y hy
          rcases List.mem_cons.mp hy with hy | hy
          · rw [hy]; omega
          · exact hall y hy
        · cases hb2
          exact hb

theorem specLongestOp_spec {input : List Char} {e : String}
    (h : specLongestOp input = some e) :
    e ∈ PS_LEXER_OPERATORS ∧ e.data.isPrefixOf input = true ∧
      ∀ e2 ∈ PS_LEXER_OPERATORS, e2.data.isPrefixOf input = true → e2.length ≤ e.length := by
  unfold specLongestOp at h
  obtain ⟨hmem, hall, -⟩ := argmax_foldl _ _ _ h
  have hmem2 : e ∈ PS_LEXER_OPERATORS.filter (fun e => e.data.isPrefixOf input) := by
    rcases hmem with hm | hm
    · exact hm
    · cases hm
  rw [List.mem_filter] at hmem2
  refine ⟨hmem2.1, hmem2.2, fun e2 he2 hp => ?_⟩
  exact hall e2 (List.mem_filter.mpr ⟨he2, hp⟩)

theorem no_longer_entry (c0 : Char) (rest : List Char) (e : String)
    (hmax : ∀ e2 ∈ PS_LEXER_OPERATORS, e2.data.isPrefixOf (c0 :: rest) = true →
      e2.length ≤ e.length)
    (hlen : e.length = 1) :
    ∀ c1 r, rest = c1 :: r → is_op_str (String.mk [c0, c1]) = false := by
  intro c1 r hr
  cases hop : is_op_str (String.mk [c0, c1]) with
  | false => rfl
  | true =>
    have hm := is_op_str_mem hop
    have hp : (String.mk [c0, c1]).data.isPrefixOf (c0 :: rest) = true := by
      rw [hr]
      simp [List.isPrefixOf]
    have := hmax _ hm hp
    rw [hlen] at this
    simp [String.length] at this

/-- One turn of the main loop at the longest entry of the operator table that is a prefix
of the input. -/
theorem lexer_longest_operator_step (oob : Nat → Nat → Char) (fuel : Nat) (input : List Char)
    (e : String) (s : PSlexState) (hin : s.inComment = false)
    (he : specLongestOp input = some e)
    (hdef : scanOp oob 2 [input.headD ' ', input.headD ' '] 1 input.tail ≠ none)
    (hnul : e.length = 2 → (input.drop 2).head? ≠ some (Char.ofNat 0)) :
    lexLoop oob (fuel + 1) input s = lexLoop oob fuel (input.drop e.length) (afterOp s e) := by
  obtain ⟨hmem, hpre, hmax⟩ := specLongestOp_spec he
  obtain ⟨rest, rfl⟩ := List.isPrefixOf_iff_prefix.mp hpre
  simp only [PS_LEXER_OPERATORS, List.mem_cons, List.mem_singleton, List.not_mem_nil,
    or_false] at hmem
  rcases hmem with rfl | rfl | rfl | rfl | rfl | rfl | rfl | rfl | rfl | rfl | rfl | rfl | rfl | rfl | rfl | rfl | rfl | rfl | rfl | rfl | rfl | rfl | rfl | rfl
  · exact one_char_step oob fuel '+' rest s (by decide) hin (by decide) (by decide)
      (by simp [is_op_char, PS_LEXER_OPERATORS, isOpCharFrom, opCharAt, String.length])
      (by decide) (no_longer_entry '+' rest "+" hmax rfl) hdef
  · exact one_char_step oob fuel '-' rest s (by decide) hin (by decide) (by decide)
      (by simp [is_op_char, PS_LEXER_OPERATORS, isOpCharFrom, opCharAt, String.length])
      (by decide) (no_longer_entry '-' rest "-" hmax rfl) hdef
  · exact one_char_step oob fuel '*' rest s (by decide) hin (by decide) (by decide)
      (by simp [is_op_char, PS_LEXER_OPERATORS, isOpCharFrom, opCharAt, String.length])
      (by decide) (no_longer_entry '*' rest "*" hmax rfl) hdef
  · exact one_char_step oob fuel '/' rest s (by decide) hin (by decide) (by decide)
      (by simp [is_op_char, PS_LEXER_OPERATORS, isOpCharFrom, opCharAt, String.length])
      (by decide) (no_longer_entry '/' rest "/" hmax rfl) hdef
  · exact one_char_step oob fuel '%' rest s (by decide) hin (by decide) (by decide)
      (by simp [is_op_char, PS_LEXER_OPERATORS, isOpCharFrom, opCharAt, String.length])
      (by decide) (no_longer_entry '%' rest "%" hmax rfl) hdef
  · exact one_char_step oob fuel '=' rest s (by decide) hin (by decide) (by decide)
      (by simp [is_op_char, PS_LEXER_OPERATORS, isOpCharFrom, opCharAt, String.length])
      (by decide) (no_longer_entry '=' rest "=" hmax rfl) hdef
  · exact two_char_step oob fuel '+' rest s (by decide) hin (by decide) (by decide)
      (by simp [is_op_char, PS_LEXER_OPERATORS, isOpCharFrom, opCharAt, String.length])
      (by decide) (hnul rfl) hdef
  · exact two_char_step oob fuel '-' rest s (by decide) hin (by decide) (by decide)
      (by simp [is_op_char, PS_LEXER_OPERATORS, isOpCharFrom, opCharAt, String.length])
      (by decide) (hnul rfl) hdef
  · exact two_char_step oob fuel '*' rest s (by decide) hin (by decide) (by decide)
      (by simp [is_op_char, PS_LEXER_OPERATORS, isOpCharFrom, opCharAt, String.length])
      (by decide) (hnul rfl) hdef
  · exact two_char_step oob fuel '/' rest s (by decide) hin (by decide) (by decide)
      (by simp [is_op_char, PS_LEXER_OPERATORS, isOpCharFrom, opCharAt, String.length])
      (by decide) (hnul rfl) hdef
  · exact one_char_step oob fuel '<' rest s (by decide) hin (by decide) (by decide)
      (by simp [is_op_char, PS_LEXER_OPERATORS, isOpCharFrom, opCharAt, String.length])
      (by decide) (no_longer_entry '<' rest "<" hmax rfl) hdef
  · exact one_char_step oob fuel '>' rest s (by decide) hin (by decide) (by decide)
      (by simp [is_op_char, PS_LEXER_OPERATORS, isOpCharFrom, opCharAt, String.length])
      (by decide) (no_longer_entry '>' rest ">" hmax rfl) hdef
  · exact two_char_step oob fuel '<' rest s (by decide) hin (by decide) (by decide)
      (by simp [is_op_char, PS_LEXER_OPERATORS, isOpCharFrom, opCharAt, String.length])
      (by decide) (hnul rfl) hdef
  · exact two_char_step oob fuel '>' rest s (by decide) hin (by decide) (by decide)
      (by simp [is_op_char, PS_LEXER_OPERATORS, isOpCharFrom, opCharAt, String.length])
      (by decide) (hnul rfl) hdef
  · exact two_char_step oob fuel '=' rest s (by decide) hin (by decide) (by decide)
      (by simp [is_op_char, PS_LEXER_OPERATORS, isOpCharFrom, opCharAt, String.length])
      (by decide) (hnul rfl) hdef
  · exact two_char_step oob fuel '!' rest s (by decide) hin (by decide) (by decide)
      (by simp [is_op_char, PS_LEXER_OPERATORS, isOpCharFrom, opCharAt, String.length])
      (by decide) (hnul rfl) hdef
  · exact one_char_step oob fuel '(' rest s (by decide) hin (by decide) (by decide)
      (by simp [is_op_char, PS_LEXER_OPERATORS, isOpCharFrom, opCharAt, String.length])
      (by decide) (no_longer_entry '(' rest "(" hmax rfl) hdef
  · exact one_char_step oob fuel ')' rest s (by decide) hin (by decide) (by decide)
      (by simp [is_op_char, PS_LEXER_OPERATORS, isOpCharFrom, opCharAt, String.length])
      (by decide) (no_longer_entry ')' rest ")" hmax rfl) hdef
  · exact one_char_step oob fuel '\x7b' rest s (by decide) hin (by decide) (by decide)
      (by simp [is_op_char, PS_LEXER_OPERATORS, isOpCharFrom, opCharAt, String.length])
      (by decide) (no_longer_entry '\x7b' rest "\x7b" hmax rfl) hdef
  · exact one_char_step oob fuel '\x7d' rest s (by decide) hin (by decide) (by decide)
      (by simp [is_op_char, PS_LEXER_OPERATORS, isOpCharFrom, opCharAt, String.length])
      (by decide) (no_longer_entry '\x7d' rest "\x7d" hmax rfl) hdef
  · exact one_char_step oob fuel '[' rest s (by decide) hin (by decide) (by decide)
      (by simp [is_op_char, PS_LEXER_OPERATORS, isOpCharFrom, opCharAt, String.length])
      (by decide) (no_longer_entry '[' rest "[" hmax rfl) hdef
  · exact one_char_step oob fuel ']' rest s (by decide) hin (by decide) (by decide)
      (by simp [is_op_char, PS_LEXER_OPERATORS, isOpCharFrom, opCharAt, String.length])
      (by decide) (no_longer_entry ']' rest "]" hmax rfl) hdef
  · exact one_char_step oob fuel ',' rest s (by decide) hin (by decide) (by decide)
      (by simp [is_op_char, PS_LEXER_OPERATORS, isOpCharFrom, opCharAt, String.length])
      (by decide) (no_longer_entry ',' rest "," hmax rfl) hdef
  · exact one_char_step oob fuel '#' rest s (by decide) hin (by decide) (by decide)
      (by simp [is_op_char, PS_LEXER_OPERATORS, isOpCharFrom, opCharAt, String.length])
      (by decide) (no_longer_entry '#' rest "#" hmax rfl) hdef

set_option maxRecDepth 100000 in
/-- C25. The operator step of the lexer emits the longest entry: when the lexer is not
inside a comment and `e` is the longest entry of the operator table that is a prefix of the
input, the scan of the operator has defined behaviour, and no NUL character follows an
entry of two characters, then one turn of the main loop pushes the pending identifier and
the operator token `e` (or begins the comment, for the comment sign) and goes on with the
input right after `e`; `<=` is one token and `<-` is the two tokens `<`, `-`.  A NUL
character right after an entry of two characters is read as part of the operator and lost:
`x <=` NUL `y` is lexed to `x`, `<=`, `y`, while after an entry of one character the NUL
stays in the input and begins the next identifier. -/
theorem lexer_longest_operator (oob : Nat → Nat → Char) (fuel : Nat) (input : List Char)
    (e : String) (s : PSlexState) (hin : s.inComment = false)
    (he : specLongestOp input = some e)
    (hdef : scanOp oob 2 [input.headD ' ', input.headD ' '] 1 input.tail ≠ none)
    (hnul : e.length = 2 → (input.drop 2).head? ≠ some (Char.ofNat 0)) :
    lexLoop oob (fuel + 1) input s = lexLoop oob fuel (input.drop e.length) (afterOp s e) ∧
    ps_lex_file oobNul (some "x <= y <- z\n".toList)
      = .tokens [tokId "x", tokOp "<=", tokId "y", tokOp "<", tokOp "-", tokId "z", tokNl] ∧
    specLongestOp ['<', '=', Char.ofNat 0, 'y', '\n'] = some "<=" ∧
    ps_lex_file oobNul (some textNulAfterLe)
      = .tokens [tokId "x", tokOp "<=", tokId "y", tokNl] ∧
    ps_lex_file oobNul (some textNulAfterLt)
      = .tokens [tokId "x", tokOp "<", tokId (String.mk [Char.ofNat 0, 'y']), tokNl] :=
  ⟨lexer_longest_operator_step oob fuel input e s hin he hdef hnul, by decide!, by decide!,
    by decide!, by decide!⟩

set_option maxRecDepth 100000 in
theorem lexer_longest_operator_witness :
    lexLoop oobNul 5 "<= y\n".toList {} = lexLoop oobNul 4 " y\n".toList (afterOp {} "<=") :=
  (lexer_longest_operator oobNul 4 "<= y\n".toList "<=" {} rfl (by decide!) (by decide!)
    (fun _ => by decide!)).1

/-- The node built for a leading minus: the handle returned names a `SUB` node whose left
child is the literal `-1` and whose right child is the operand. -/
theorem addMinusNode_shape (uninit : Nat → Bool) (lineNum : Nat) (operand : PSnode)
    (st : PSparseState) (hlen : st.ast.nodePool.length + 2 < 4294967296) :
    ∃ root negOne,
      (addMinusNode uninit lineNum operand st).2.ast.nodePool[(addMinusNode uninit lineNum operand st).1]?
        = some root ∧
      root.type = PSnodeType.OP ∧ root.op.type = PSopType.SUB ∧
      (addMinusNode uninit lineNum operand st).2.ast.nodePool[root.op.left]? = some negOne ∧
      negOne.type = PSnodeType.NUMBER ∧ negOne.literal.type = PSliteralType.INT ∧
      negOne.literal.intNum = -1 ∧
      (addMinusNode uninit lineNum operand st).2.ast.nodePool[root.op.right]? = some operand := by
  have h0 : u32 st.ast.nodePool.length = st.ast.nodePool.length := u32_of_lt (by omega)
  have h1 : u32 (st.ast.nodePool.length + 1) = st.ast.nodePool.length + 1 :=
    u32_of_lt (by omega)
  have h2 : u32 (st.ast.nodePool.length + 1 + 1) = st.ast.nodePool.length + 2 :=
    u32_of_lt (by omega)
  have hres : addMinusNode uninit lineNum operand st =
      (st.ast.nodePool.length + 2,
       { st with ast := { st.ast with nodePool := st.ast.nodePool ++
          [{ type := PSnodeType.NUMBER, lineNum := lineNum,
             literal := { type := PSliteralType.INT, intNum := -1 } },
           operand,
           { type := PSnodeType.OP, lineNum := lineNum,
             op := { type := PSopType.SUB, left := st.ast.nodePool.length,
                     right := st.ast.nodePool.length + 1,
                     inParens := uninit (2 * st.curTokenIdx + 1) } }] } }) := by
    have h2b : u32 (st.ast.nodePool.length + 2) = st.ast.nodePool.length + 2 :=
      u32_of_lt (by omega)
    simp only [addMinusNode, _ps_add_node, List.length_append, List.length_singleton, h0, h1,
      h2, List.append_assoc, List.singleton_append, List.length_cons, List.length_nil,
      List.cons_append, List.nil_append, h2b]
  rw [hres]
  refine ⟨{ type := PSnodeType.OP, lineNum := lineNum,
             op := { type := PSopType.SUB, left := st.ast.nodePool.length,
                     right := st.ast.nodePool.length + 1,
                     inParens := uninit (2 * st.curTokenIdx + 1) } },
           { type := PSnodeType.NUMBER, lineNum := lineNum,
             literal := { type := PSliteralType.INT, intNum := -1 } },
    ?_, rfl, rfl, ?_, rfl, rfl, rfl, ?_⟩
  · show (st.ast.nodePool ++ _)[st.ast.nodePool.length + 2]? = _
    rw [List.getElem?_append_right (by omega)]
    simp
  · show (st.ast.nodePool ++ _)[st.ast.nodePool.length]? = _
    rw [List.getElem?_append_right (by omega)]
    simp
  · show (st.ast.nodePool ++ _)[st.ast.nodePool.length + 1]? = _
    rw [List.getElem?_append_right (by omega)]
    simp

/-- The minus before a call without arguments is dropped, for every name: `_ps_parse_id`
at `-`, a name, `(`, `)` adds the call node alone. -/
theorem parse_id_minus_call_no_args (stof : String → Option Nat) (uninit : Nat → Bool)
    (stmt : PSparseState → Except PSparseFail (PSnodeHandle × PSparseState)) (fuel : Nat)
    (tokens : List PStoken) (st : PSparseState) (minus t op cl : PStoken)
    (hcur : st.curTokenIdx + 4 < 4294967296) (hpar : st.numOpenParens + 1 < 4294967296)
    (h0 : tokens[st.curTokenIdx]? = some minus) (hminus : minus.str = "-")
    (h1 : tokens[st.curTokenIdx + 1]? = some t) (hid : t.type = PStokenType.ID)
    (hkw : t.str ∉ PS_KEYWORDS)
    (h2 : tokens[st.curTokenIdx + 2]? = some op) (hop : op.str = "(")
    (h3 : tokens[st.curTokenIdx + 3]? = some cl) (hcl : cl.str = ")")
    (hty : cl.type ≠ PStokenType.NEWLINE) :
    _ps_parse_id stof uninit stmt fuel tokens st =
      .ok (_ps_add_node { st with curTokenIdx := st.curTokenIdx + 4 }
        { type := PSnodeType.ID, lineNum := t.lineNum,
          id := { type := PSidType.FUNC, name := t.str } }) := by
  have hu1 : u32 (st.curTokenIdx + 1) = st.curTokenIdx + 1 := u32_of_lt (by omega)
  have hu2 : u32 (st.curTokenIdx + 1 + 1) = st.curTokenIdx + 2 := u32_of_lt (by omega)
  have hu3 : u32 (st.curTokenIdx + 1 + 2) = st.curTokenIdx + 3 := u32_of_lt (by omega)
  have hu4 : u32 (st.curTokenIdx + 3 + 1) = st.curTokenIdx + 4 := u32_of_lt (by omega)
  have hp1 : u32 (st.numOpenParens + 1) = st.numOpenParens + 1 := u32_of_lt (by omega)
  have hp2 : u32 (st.numOpenParens + 1 + 4294967295) = st.numOpenParens := by
    unfold u32; omega
  have hforce : _ps_force_id t = .ok () := by
    unfold _ps_force_id
    simp [hid, hkw]
    rfl
  have hcont : _ps_continue_statement tokens
      { st with curTokenIdx := st.curTokenIdx + 3, numOpenParens := st.numOpenParens + 1 }
      = .ok { st with curTokenIdx := st.curTokenIdx + 3,
                      numOpenParens := st.numOpenParens + 1 } := by
    unfold _ps_continue_statement
    simp only [tokenAt, h3, hty, false_and, if_false, bind, Except.bind, pure, Except.pure]
  unfold _ps_parse_id
  simp only [tokenAt, h0, hminus, decide_True, if_true, PSparseState.advance,
    PSparseState.openParen, hu1, hu2, hu3, hp1, h1, h2, hforce, hop, bind, Except.bind]
  rw [hcont]
  simp only [h3, hcl, if_true, PSparseState.advance, PSparseState.closeParen, hu4, hp2, pure,
    Except.pure]


/-- The minus before a plain variable, for every name: `_ps_parse_id` at `-`, a name that
is no number, and a token that opens neither a call nor an index adds the literal `-1`,
the variable node and the `SUB` node over them. -/
theorem parse_id_minus_variable (stof : String → Option Nat) (uninit : Nat → Bool)
    (stmt : PSparseState → Except PSparseFail (PSnodeHandle × PSparseState)) (fuel : Nat)
    (tokens : List PStoken) (st : PSparseState) (minus t next : PStoken)
    (hcur : st.curTokenIdx + 2 < 4294967296)
    (h0 : tokens[st.curTokenIdx]? = some minus) (hminus : minus.str = "-")
    (h1 : tokens[st.curTokenIdx + 1]? = some t) (hid : t.type = PStokenType.ID)
    (hkw : t.str ∉ PS_KEYWORDS)
    (hnum : isdigit (t.str.data.headD (Char.ofNat 0)) = false)
    (hdot : t.str.data.headD (Char.ofNat 0) ≠ '.')
    (h2 : tokens[st.curTokenIdx + 2]? = some next) (hcall : next.str ≠ "(")
    (hindex : next.str ≠ "[") :
    _ps_parse_id stof uninit stmt fuel tokens st =
      .ok (addMinusNode uninit next.lineNum
        { type := PSnodeType.ID, lineNum := next.lineNum,
          id := { type := PSidType.VAR, name := t.str } }
        { st with curTokenIdx := st.curTokenIdx + 2 }) := by
  have hu1 : u32 (st.curTokenIdx + 1) = st.curTokenIdx + 1 := u32_of_lt (by omega)
  have hu2 : u32 (st.curTokenIdx + 1 + 1) = st.curTokenIdx + 2 := u32_of_lt (by omega)
  have hforce : _ps_force_id t = .ok () := by
    unfold _ps_force_id
    simp [hid, hkw]
    rfl
  have hfirst : (isdigit (t.str.data.headD (Char.ofNat 0)) ||
      decide (t.str.data.headD (Char.ofNat 0) = '.')) = false := by
    rw [hnum, decide_eq_false hdot]
    rfl
  unfold _ps_parse_id
  simp only [tokenAt, h0, hminus, decide_True, if_true, PSparseState.advance, hu1, hu2,
    h1, h2, hforce, hcall, hindex, hfirst, bind, Except.bind, pure, Except.pure,
    if_false, Bool.false_eq_true]


/-- A declaration whose parameter list begins with an operator token, as the `)` of an
empty list does, is rejected for every name and every body: the parameter loop demands an
identifier first. -/
theorem func_params_need_a_name (stof : String → Option Nat) (uninit moves : Nat → Bool)
    (fuel : Nat) (tokens : List PStoken) (st : PSparseState) (kw name op cl : PStoken)
    (hcur : st.curTokenIdx + 3 < 4294967296)
    (h0 : tokens[st.curTokenIdx]? = some kw) (hkw : kw.str = "func")
    (h1 : tokens[st.curTokenIdx + 1]? = some name) (hid : name.type = PStokenType.ID)
    (hname : name.str ∉ PS_KEYWORDS)
    (h2 : tokens[st.curTokenIdx + 2]? = some op) (hop : op.str = "(")
    (hopty : op.type = PStokenType.OP)
    (h3 : tokens[st.curTokenIdx + 3]? = some cl) (hcl : cl.type = PStokenType.OP) :
    _ps_parse_statement stof uninit moves tokens (fuel + 2) st
      = .error (.error .UNEXPECTED_OPERATOR cl) := by
  have hu1 : u32 (st.curTokenIdx + 1) = st.curTokenIdx + 1 := u32_of_lt (by omega)
  have hu2 : u32 (st.curTokenIdx + 1 + 1) = st.curTokenIdx + 2 := u32_of_lt (by omega)
  have hu3 : u32 (st.curTokenIdx + 2 + 1) = st.curTokenIdx + 3 := u32_of_lt (by omega)
  have hforce : _ps_force_id name = .ok () := by
    unfold _ps_force_id
    simp [hid, hname]
    rfl
  have hforce2 : _ps_force_id cl = .error (.error .UNEXPECTED_OPERATOR cl) := by
    unfold _ps_force_id
    simp [hcl]
  have hk1 : ¬ (kw.str = "if" ∨ kw.str = "for") := by rw [hkw]; decide
  have hn1 : name.type ≠ PStokenType.NEWLINE := by rw [hid]; decide
  have hn2 : op.type ≠ PStokenType.NEWLINE := by rw [hopty]; decide
  have hn3 : cl.type ≠ PStokenType.NEWLINE := by rw [hcl]; decide
  show parseStatementBody stof uninit moves (_ps_parse_statement stof uninit moves tokens (fuel + 1))
    (fuel + 1) tokens st = _
  have hlit : ¬ ("func" = "if" ∨ "func" = "for") := by decide
  unfold parseStatementBody
  simp only [tokenAt, h0, hkw, hlit, if_true, if_false, PSparseState.advance,
    PSparseState.openParen, _ps_remove_newline, _ps_continue_statement, parseParamNames,
    hu1, hu2, hu3, h1, h2, h3, hn1, hn2, hn3, hforce, hforce2, hop, bind, Except.bind, pure,
    Except.pure, false_and]


/-- A statement cannot begin at a NEWLINE token: `_ps_parse_statement` at such a token
ends with `UNEXPECTED_OPERATOR`, whatever the number of open brackets. -/
theorem statement_at_newline_rejected (stof : String → Option Nat) (uninit moves : Nat → Bool)
    (fuel : Nat) (tokens : List PStoken) (st : PSparseState) (nl : PStoken)
    (h0 : tokens[st.curTokenIdx]? = some nl) (hty : nl.type = PStokenType.NEWLINE)
    (hstr : nl.str = "") :
    _ps_parse_statement stof uninit moves tokens (fuel + 1) st
      = .error (.error .UNEXPECTED_OPERATOR nl) := by
  have hforce : _ps_force_id nl = .error (.error .UNEXPECTED_OPERATOR nl) := by
    unfold _ps_force_id
    simp [hty]
  show parseStatementBody stof uninit moves (_ps_parse_statement stof uninit moves tokens fuel) fuel
    tokens st = _
  have hl1 : ¬ ("" = "if" ∨ "" = "for") := by decide
  have hl2 : ¬ ("" = "func") := by decide
  have hl3 : ¬ ("" = "ret") := by decide
  have hl4 : ¬ ("" = "break" ∨ "" = "continue") := by decide
  have hl5 : ¬ ("" = "(") := by decide
  have hl6 : ¬ ("" = "-") := by decide
  unfold parseStatementBody _ps_parse_non_op _ps_parse_id
  simp only [tokenAt, h0, hstr, hl1, hl2, hl3, hl4, hl5, hl6, decide_False, if_false,
    Bool.false_eq_true, hforce, bind, Except.bind, pure, Except.pure]

/-- A NEWLINE token directly after the `(` of a parenthesised expression is rejected, for
every expression that follows. -/
theorem newline_after_paren_rejected (stof : String → Option Nat) (uninit moves : Nat → Bool)
    (fuel : Nat) (tokens : List PStoken) (st : PSparseState) (nl : PStoken)
    (hcur : st.curTokenIdx + 1 < 4294967296)
    (h1 : tokens[st.curTokenIdx + 1]? = some nl) (hty : nl.type = PStokenType.NEWLINE)
    (hstr : nl.str = "") :
    _ps_parse_statement_in_parens (_ps_parse_statement stof uninit moves tokens (fuel + 1)) tokens st
      = .error (.error .UNEXPECTED_OPERATOR nl) := by
  have hu1 : u32 (st.curTokenIdx + 1) = st.curTokenIdx + 1 := u32_of_lt (by omega)
  unfold _ps_parse_statement_in_parens
  rw [statement_at_newline_rejected stof uninit moves fuel tokens (st.advance 1).openParen nl
    (by simpa [PSparseState.advance, PSparseState.openParen, hu1] using h1) hty hstr]
  rfl

/-! ## Theorems: the registries -/

theorem lastValue_cons {α : Type} (k : String) (v : α) (rest : List (String × α))
    (name : String) :
    lastValue ((k, v) :: rest) name =
      match lastValue rest name with
      | some w => some w
      | none => if k = name then some v else none := rfl

theorem lastValue_none_iff {α : Type} (l : List (String × α)) (name : String) :
    lastValue l name = none ↔ name ∉ l.map Prod.fst := by
  induction l with
  | nil => simp [lastValue]
  | cons kv rest ih =>
    obtain ⟨k, v⟩ := kv
    rw [lastValue_cons]
    cases hr : lastValue rest name with
    | some w =>
      have : ¬ (name ∉ rest.map Prod.fst) := fun h => by
        rw [ih.mpr h] at hr; cases hr
      simp only [List.map_cons, List.mem_cons, not_or]
      constructor
      · intro h; cases h
      · intro h; exact absurd h.2 this
    | none =>
      have hn := ih.mp hr
      simp only [List.map_cons, List.mem_cons, not_or]
      by_cases hk : k = name
      · simp [hk]
      · simp only [if_neg hk, true_iff]
        exact ⟨fun h => hk h.symm, hn⟩

/-- Inserting a list of entries one after the other with `operator[]`: a name of the list
ends with the value of its last occurrence, every other name keeps what the map held. -/
theorem find_foldl_set {α : Type} (l : List (String × α)) (m : PSmap α) (name : String) :
    (l.foldl (fun m c => PSmap.set m c.1 c.2) m).find name =
      match lastValue l name with
      | some v => some v
      | none => m.find name := by
  induction l generalizing m with
  | nil => simp [lastValue]
  | cons kv rest ih =>
    obtain ⟨k, v⟩ := kv
    rw [List.foldl_cons, ih, lastValue_cons]
    cases hr : lastValue rest name with
    | some w => rfl
    | none =>
      by_cases hk : k = name
      · subst hk
        simp only [if_true]
        exact map_find_set_self m k v
      · simp only [if_neg hk]
        exact map_find_set_ne m k name v (fun h => hk h.symm)

theorem find_nil {α : Type} (name : String) : PSmap.find ([] : PSmap α) name = none := rfl

/-- C31: after `ps_set_constants cs` the constant table maps a name to the value of its
last occurrence in `cs`, a name that does not occur in `cs` to its default value when it
is a default name (`M_PI`, `M_TAU`, `M_E`) and to nothing otherwise, whatever the table
held before; `ps_set_functions` does the same over the default builtin list. -/
theorem registries_merge_with_defaults (host : PShost) (cs : List (String × PSdata))
    (fs : List (String × PSlibFunction)) (env : PSenv) (name : String) :
    ((ps_set_constants cs env).g_psConstants.find name =
      match lastValue cs name with
      | some v => some v
      | none => lastValue PS_DEFAULT_CONSTANTS name) ∧
    ((ps_set_functions host fs env).g_psLibFunctions.find name =
      match lastValue fs name with
      | some f => some f
      | none => lastValue (PS_DEFAULT_LIB_FUNCTIONS host) name) ∧
    (name ∈ cs.map Prod.fst ↔ (lastValue cs name).isSome = true) ∧
    (name ∈ fs.map Prod.fst ↔ (lastValue fs name).isSome = true) ∧
    (lastValue PS_DEFAULT_CONSTANTS name = PS_DEFAULT_CONSTANTS.lookup name) ∧
    (lastValue PS_DEFAULT_CONSTANTS name ≠ none ↔ name ∈ ["M_PI", "M_TAU", "M_E"]) ∧
    (lastValue (PS_DEFAULT_LIB_FUNCTIONS host) name ≠ none ↔
      name ∈ (PS_DEFAULT_LIB_FUNCTIONS host).map Prod.fst) := by
  have hmem : ∀ {α : Type} (l : List (String × α)),
      (name ∈ l.map Prod.fst ↔ (lastValue l name).isSome = true) := by
    intro α l
    have h := lastValue_none_iff l name
    cases hl : lastValue l name with
    | none => rw [hl] at h; simpa using h.mp rfl
    | some v =>
      rw [hl] at h
      simp only [Option.isSome_some, iff_true]
      by_contra hc
      exact absurd (h.mpr hc) (by simp)
  refine ⟨?_, ?_, hmem cs, hmem fs, ?_, ?_, ?_⟩
  · unfold ps_set_constants
    simp only
    rw [find_foldl_set, find_foldl_set, find_nil]
    cases lastValue cs name <;> cases lastValue PS_DEFAULT_CONSTANTS name <;> rfl
  · unfold ps_set_functions
    simp only
    rw [find_foldl_set, find_foldl_set, find_nil]
    cases lastValue fs name <;> cases lastValue (PS_DEFAULT_LIB_FUNCTIONS host) name <;> rfl
  · simp only [PS_DEFAULT_CONSTANTS, lastValue, List.lookup]
    by_cases h1 : "M_PI" = name
    · subst h1; decide!
    · by_cases h2 : "M_TAU" = name
      · subst h2; decide!
      · by_cases h3 : "M_E" = name
        · subst h3; decide!
        · have e1 : (name == "M_PI") = false := by simpa using fun h => h1 h.symm
          have e2 : (name == "M_TAU") = false := by simpa using fun h => h2 h.symm
          have e3 : (name == "M_E") = false := by simpa using fun h => h3 h.symm
          simp [h1, h2, h3, e1, e2, e3]
  · rw [Ne, lastValue_none_iff]
    exact not_not
  · rw [Ne, lastValue_none_iff]
    exact not_not

set_option maxRecDepth 100000 in
/-- Witness for C31 on a registration that overrides `M_PI` and names `G` twice: `G` reads
its last value, `M_PI` the override, `M_TAU` its default, and an unknown name nothing. -/
theorem registries_merge_with_defaults_witness :
    (ps_set_constants constantsExample { g_psConstants := [("OLD", .INT 9)] }).g_psConstants.find "G"
        = some (.INT 2) ∧
      (ps_set_constants constantsExample { g_psConstants := [("OLD", .INT 9)] }).g_psConstants.find "M_PI"
        = some (.INT 3) ∧
      (ps_set_constants constantsExample { g_psConstants := [("OLD", .INT 9)] }).g_psConstants.find "M_E"
        = some (.FLOAT (F32.ofBits 1076754516)) ∧
      (ps_set_constants constantsExample { g_psConstants := [("OLD", .INT 9)] }).g_psConstants.find "OLD"
        = none := by
  have h := fun n => (registries_merge_with_defaults hostZero constantsExample []
    { g_psConstants := [("OLD", .INT 9)] } n).1
  refine ⟨?_, ?_, ?_, ?_⟩
  · rw [h]; decide!
  · rw [h]; decide!
  · rw [h]; decide!
  · rw [h]; decide!

/-! ## Theorems: `ret` inside a loop -/

set_option maxRecDepth 100000 in
/-- C32: a `ret` inside a `for` loop of a function body does not end the loop.  For
`func f \x7b for i in range(0, 3) \x7b ret i \x7d \x7d` the call `f()` yields the int 3, the
value of the last turn, not the int 0 of the first `ret`.  When the body is `print(i)`,
`ret i`, `print(8)`, every turn of the loop still prints `i` (0, 1, 2, 3); the statements
after the `ret` and the statement after the loop are not executed. -/
theorem ret_in_loop_runs_on :
    (runText 8 textRetInLoop).map PSexecuteResult.summary? =
      some (some { error := none, vars := [], funcs := [], output := [[.INT 3]] }) ∧
    (runText 8 textRetInLoopTrace).map PSexecuteResult.summary? =
      some (some { error := none, vars := [], funcs := [],
                   output := [[.INT 0], [.INT 1], [.INT 2], [.INT 3], [.INT 0]] }) := by
  decide!

/-! ## Theorems: the lexer on `!` -/

/-- C33: on a `!` that is not followed by `=`, the loop that shortens the operator string
never ends, whatever the reads beyond the table entries give: `!` is the first character
of the entry `!=` and no entry itself, so the string is shortened to the empty string,
which is no entry either, and the length wraps around. -/
theorem lexer_bang_never_returns (oob : Nat → Nat → Char) :
    is_op_char oob '!' 0 = true ∧
    shortenOp ['!', '!'] 1 = none ∧
    ps_lex_file oob (some "x ! y\n".toList) = .diverges ∧
    ps_lex_file oob (some "!".toList) = .diverges := by
  refine ⟨?_, ?_, ?_, ?_⟩
  · rfl
  · rfl
  · rfl
  · rfl

/-! ## Theorems: integer division by zero -/

set_option maxRecDepth 100000 in
/-- C34: `_ps_div` and `_ps_mod` on two ints divide without a test of the divisor: for
every int `a`, `a / 0` and `a % 0` are the undefined integer division of C++, not the
error `INVALID_OP`; so are the programs `x = 7 / 0` and `x = 7 % 0`. -/
theorem int_division_by_zero_undefined (a : Int) (node : PSnode) (st : PSstate) :
    _ps_div (.INT a) (.INT 0) node st = .error .undefined ∧
    _ps_mod (.INT a) (.INT 0) node st = .error .undefined ∧
    (runText 8 "x = 7 / 0\n").map PSexecuteResult.isUndefined = some true ∧
    (runText 8 "x = 7 % 0\n").map PSexecuteResult.isUndefined = some true :=
  ⟨rfl, rfl, by decide!, by decide!⟩

/-! ## Theorems: the arguments of a call -/

set_option maxRecDepth 100000 in
/-- C36: the arguments of a call of a user function are evaluated twice, once when the
call node collects its parameters and once when `_ps_execute_function` binds them: after
`x = 0` and `func f(a) \x7b \x7d`, the call `f(x += 1)` leaves `x` at the int 2. -/
theorem call_evaluates_arguments_twice :
    (runText 8 textArgOnce).map PSexecuteResult.summary? =
      some (some { error := none, vars := [], funcs := [], output := [[.INT 2]] }) := by
  decide!

/-! ## Theorems: the control flags after a run -/

set_option maxRecDepth 100000 in
/-- C37: `ps_execute` does not reset the control flags when it returns after an error.
After an error inside a `for` body `g_psInLoop` is still set, and a later run accepts a
`break` outside every loop that a fresh interpreter rejects; after an error in the value
of a `ret`, `g_psReturnFlag` is still set, and a later run of two `print` statements stops
after the first one. -/
theorem flags_survive_runtime_error :
    (runText 8 textErrorInFor).map PSexecuteResult.error? = some (some .UNDEFINED_VARIABLE) ∧
    (runText 8 textErrorInFor).map PSexecuteResult.flags? =
      some (some { in_loop := true, return_flag := false, break_flag := false,
                   continue_flag := false }) ∧
    (runText 8 textErrorInRet).map PSexecuteResult.error? = some (some .UNDEFINED_VARIABLE) ∧
    (runText 8 textErrorInRet).map PSexecuteResult.flags? =
      some (some { in_loop := false, return_flag := true, break_flag := false,
                   continue_flag := false }) ∧
    (runText 8 textBreakOutside).map PSexecuteResult.error? =
      some (some .INVALID_BREAK_CONTINUE) ∧
    (runTextAfter 8 textErrorInFor textBreakOutside).map PSexecuteResult.error? =
      some none ∧
    (runTextAfter 8 textErrorInFor textBreakOutside).map PSexecuteResult.flags? =
      some (some { in_loop := true, return_flag := false, break_flag := true,
                   continue_flag := false }) ∧
    (runText 8 textTwoPrints).map PSexecuteResult.output? =
      some (some [[.INT 1], [.INT 2]]) ∧
    (runTextAfter 8 textErrorInRet textTwoPrints).map PSexecuteResult.output? =
      some (some [[.INT 1]]) := by
  decide!

/-! ## Theorems: token reads of the parser -/

set_option maxRecDepth 100000 in
/-- C35: the parser reads the token list at its length.  The text `if x \x7b y = 1 \x7d`
lexes to eight tokens that end in a NEWLINE; after the `\x7d` the parser skips that NEWLINE
and reads `tokens[8]` to look for `else`, which is outside the list: the parse is
undefined, neither an AST nor a parse error, whatever `stof`, the never-assigned flags and
the moves of the pool are.  The same holds for the unclosed block `func f \x7b y = 1`,
where the loop that looks for `\x7d` runs past the end.  With one more statement after the
`if` block the parse succeeds. -/
theorem parser_reads_past_last_token (stof : String → Option Nat) (uninit moves : Nat → Bool) :
    ps_lex_file oobNul (some textIfLast.toList) = .tokens tokensIfLast ∧
    endsWithNewline tokensIfLast = true ∧
    tokenAt tokensIfLast tokensIfLast.length = .error .undefined ∧
    ps_parse_tokens stof uninit moves 8 tokensIfLast = .error .undefined ∧
    ps_lex_file oobNul (some textUnclosed.toList) = .tokens tokensUnclosed ∧
    endsWithNewline tokensUnclosed = true ∧
    ps_parse_tokens stof uninit moves 8 tokensUnclosed = .error .undefined ∧
    (lexThenParse oobNul stofNone uninitFalse movesDoubling 8
      (some textIfThenMore.toList)).map Except.isOk = some true := by
  refine ⟨by decide!, by decide!, by decide!, ?_, by decide!, by decide!, ?_, by decide!⟩
  · rfl
  · rfl

/-! ## Theorems: reading a variable back -/

set_option maxRecDepth 100000 in
/-- C40, the claim as stated fails on a constant name: with the default constants, the
assignment `M_PI = 5` to the name `M_PI`, which is no variable, executes without error and
stores the int 5 under that name, but the identifier `M_PI` evaluated directly afterwards
yields the float constant, not the int 5; the program `M_PI = 5`, `print(M_PI)` prints the
constant. -/
theorem constant_name_not_read_back :
    (PSstate.g_psVariables {}).has "M_PI" = false ∧
    (_ps_equal (_ps_evaluate_statement defaultEnv {} 1) {} (varNode "M_PI") (.INT 5) [] [] {}).toOption.map
        (fun r => r.st.g_psVariables.find "M_PI") = some (some (.INT 5)) ∧
    readBack defaultEnv {} 1 (varNode "M_PI") (.INT 5) (varNode "M_PI") {} =
      some (.FLOAT (F32.ofBits 1078530011)) ∧
    PSdata.FLOAT (F32.ofBits 1078530011) ≠ .INT 5 ∧
    (runText 8 "M_PI = 5\nprint(M_PI)\n").map PSexecuteResult.output? =
      some (some [[.FLOAT (F32.ofBits 1078530011)]]) := by
  decide!

/-- C40, as amended.  For every name that is not registered as a constant and is not yet a
variable, and every non-void value `val`: when the plain assignment of `val` to the name
executes without error, the assignment yields `val`, and the identifier evaluated directly
afterwards, with the globals the assignment left, yields `val`.  For every name that is
registered as a constant, the identifier yields the constant in every state of the
globals, hence whatever was assigned to the name before. -/
theorem assignment_read_back (env : PSenv) (ast : PSast) (fuel : Nat) (ident : PSnode)
    (hid : ident.type = PSnodeType.ID) (hidv : ident.id.type = PSidType.VAR) :
    (∀ (var : PSnode) (val : PSdata) (af av : List String) (st : PSstate) (r : PSevalResult),
      env.g_psConstants.find var.id.name = none →
      st.g_psVariables.has var.id.name = false →
      val.type ≠ PSdataType.VOID →
      _ps_equal (_ps_evaluate_statement env ast fuel) ast var val af av st = .ok r →
      ident.id.name = var.id.name → ident.id.params = [] →
      r.val = val ∧
      _ps_evaluate_statement env ast (fuel + 1) ident r.addedFuncs r.addedVars r.st =
        .ok (PSevalResult.mk0 val r.addedFuncs r.addedVars r.st)) ∧
    (∀ (c : PSdata) (af av : List String) (st : PSstate),
      env.g_psConstants.find ident.id.name = some c →
      _ps_evaluate_statement env ast (fuel + 1) ident af av st =
        .ok (PSevalResult.mk0 c af av st)) := by
  have hnotop : ¬ (ident.type = PSnodeType.OP) := by rw [hid]; decide
  have hnotf : ¬ (ident.id.type = PSidType.FUNC) := by rw [hidv]; decide
  constructor
  · intro var val af av st r hconst hfresh hval hok hname hplain
    have hnone : st.g_psVariables.find var.id.name = none := by
      unfold PSmap.has at hfresh
      cases hf : st.g_psVariables.find var.id.name with
      | none => rfl
      | some c => rw [hf] at hfresh; cases hfresh
    unfold _ps_equal at hok
    by_cases h1 : var.type ≠ PSnodeType.ID ∨ var.id.type ≠ PSidType.VAR
    · rw [if_pos h1] at hok; cases hok
    rw [if_neg h1, if_neg hval] at hok
    simp only [hnone] at hok
    by_cases h2 : var.id.params.length ≠ 0
    · rw [if_pos h2] at hok; cases hok
    rw [if_neg h2] at hok
    cases hok
    refine ⟨rfl, ?_⟩
    rw [_ps_evaluate_statement]
    unfold evaluateBody
    rw [if_neg hnotop, if_pos hid, if_neg hnotf]
    simp only [PSevalResult.mk0, hname, hconst, map_find_set_self, hplain, List.length_nil,
      if_true]
  · intro c af av st hc
    rw [_ps_evaluate_statement]
    unfold evaluateBody
    rw [if_neg hnotop, if_pos hid, if_neg hnotf]
    simp only [hc]

set_option maxRecDepth 100000 in
theorem assignment_read_back_witness :
    ((PSevalResult.mk0 (.INT 5) [] ["x"] { g_psVariables := [("x", .INT 5)] }).val = .INT 5 ∧
      _ps_evaluate_statement defaultEnv {} 2 (varNode "x") [] ["x"]
          { g_psVariables := [("x", .INT 5)] } =
        .ok (PSevalResult.mk0 (.INT 5) [] ["x"] { g_psVariables := [("x", .INT 5)] })) ∧
    _ps_evaluate_statement defaultEnv {} 2 (varNode "M_PI") [] ["M_PI"]
        { g_psVariables := [("M_PI", .INT 5)] } =
      .ok (PSevalResult.mk0 (.FLOAT (F32.ofBits 1078530011)) [] ["M_PI"]
        { g_psVariables := [("M_PI", .INT 5)] }) :=
  ⟨(assignment_read_back defaultEnv {} 1 (varNode "x") rfl rfl).1 (varNode "x") (.INT 5) [] []
      {} (PSevalResult.mk0 (.INT 5) [] ["x"] { g_psVariables := [("x", .INT 5)] })
      (by decide!) (by decide) (by decide) (by decide!) rfl rfl,
   (assignment_read_back defaultEnv {} 1 (varNode "M_PI") rfl rfl).2
      (.FLOAT (F32.ofBits 1078530011)) [] ["M_PI"] { g_psVariables := [("M_PI", .INT 5)] }
      (by decide!)⟩

/-! ## Theorems: the shape of expression trees -/

theorem InOrder.lt_length {pool : List PSnode} {h : PSnodeHandle} {hs : List PSnodeHandle}
    (t : InOrder pool h hs) : ∀ x ∈ hs, x < pool.length := by
  induction t with
  | leaf hn _ =>
    intro x hx
    rw [List.mem_singleton] at hx
    subst hx
    exact (List.getElem?_eq_some_iff.mp hn).1
  | op hn _ _ _ ihl ihr =>
    intro x hx
    rw [List.mem_append, List.mem_cons] at hx
    rcases hx with hx | hx | hx
    · exact ihl x hx
    · subst hx; exact (List.getElem?_eq_some_iff.mp hn).1
    · exact ihr x hx

theorem InOrder.mem_self {pool : List PSnode} {h : PSnodeHandle} {hs : List PSnodeHandle}
    (t : InOrder pool h hs) : h ∈ hs := by
  cases t with
  | leaf _ _ => exact List.mem_singleton.mpr rfl
  | op _ _ _ _ => exact List.mem_append.mpr (Or.inr (List.mem_cons_self _ _))

/-- A listing only depends on the nodes it lists. -/
theorem InOrder.congr {pool pool2 : List PSnode} {h : PSnodeHandle} {hs : List PSnodeHandle}
    (t : InOrder pool h hs) (hsame : ∀ x ∈ hs, pool2[x]? = pool[x]?) : InOrder pool2 h hs := by
  induction t with
  | leaf hn hty =>
    exact InOrder.leaf ((hsame _ (List.mem_singleton.mpr rfl)).trans hn) hty
  | op hn hty _ _ ihl ihr =>
    refine InOrder.op ((hsame _ ?_).trans hn) hty (ihl ?_) (ihr ?_)
    · exact List.mem_append.mpr (Or.inr (List.mem_cons_self _ _))
    · intro x hx; exact hsame x (List.mem_append.mpr (Or.inl hx))
    · intro x hx
      exact hsame x (List.mem_append.mpr (Or.inr (List.mem_cons_of_mem _ hx)))

theorem InOrder.append {pool : List PSnode} {h : PSnodeHandle} {hs : List PSnodeHandle}
    (t : InOrder pool h hs) (n : PSnode) : InOrder (pool ++ [n]) h hs :=
  t.congr (fun x hx => List.getElem?_append_left (t.lt_length x hx))

/-- An operator node of a listing has both children in the pool. -/
theorem InOrder.children {pool : List PSnode} {h : PSnodeHandle} {hs : List PSnodeHandle}
    (t : InOrder pool h hs) :
    ∀ x ∈ hs, ∀ n, pool[x]? = some n → n.type = PSnodeType.OP →
      n.op.left < pool.length ∧ n.op.right < pool.length := by
  induction t with
  | leaf hn hty =>
    intro x hx n hxn hop
    rw [List.mem_singleton] at hx
    subst hx
    rw [hn] at hxn
    cases hxn
    exact absurd hop hty
  | op hn _ tl tr ihl ihr =>
    intro x hx n hxn hop
    rw [List.mem_append, List.mem_cons] at hx
    rcases hx with hx | hx | hx
    · exact ihl x hx n hxn hop
    · subst hx
      rw [hn] at hxn
      cases hxn
      exact ⟨tl.lt_length _ tl.mem_self, tr.lt_length _ tr.mem_self⟩
    · exact ihr x hx n hxn hop

theorem SameShape.srefl (pool : List PSnode) : SameShape pool pool :=
  fun _ n hn => ⟨n, hn, rfl, rfl, rfl⟩

theorem SameShape.strans {a b c : List PSnode} (h1 : SameShape a b) (h2 : SameShape b c) :
    SameShape a c := by
  intro j n hn
  obtain ⟨n2, hn2, e1, e2, e3⟩ := h1 j n hn
  obtain ⟨n3, hn3, f1, f2, f3⟩ := h2 j n2 hn2
  exact ⟨n3, hn3, f1.trans e1, f2.trans e2, f3.trans e3⟩

theorem SameShape.of_prefix {pool pool2 : List PSnode}
    (h : ∀ i, i < pool.length → pool2[i]? = pool[i]?) : SameShape pool pool2 := by
  intro j n hn
  have hj : j < pool.length := (List.getElem?_eq_some_iff.mp hn).1
  exact ⟨n, (h j hj).trans hn, rfl, rfl, rfl⟩

/-- The precedence invariant of a node whose children are in the pool carries over to a
pool of the same shape. -/
theorem ChildrenOK.shape {pool pool2 : List PSnode} {n : PSnode} (h : ChildrenOK pool n)
    (hs : SameShape pool pool2) (hl : n.op.left < pool.length) (hr : n.op.right < pool.length) :
    ChildrenOK pool2 n := by
  constructor
  · intro c hc hty hfl
    obtain ⟨c0, hc0⟩ : ∃ c0, pool[n.op.right]? = some c0 :=
      ⟨_, List.getElem?_eq_getElem hr⟩
    obtain ⟨c2, hc2, e1, e2, e3⟩ := hs _ _ hc0
    rw [hc] at hc2
    cases hc2
    have := h.1 c0 hc0 (e1.symm.trans hty) (e3.symm.trans hfl)
    rwa [e2]
  · intro c hc hty hfl
    obtain ⟨c0, hc0⟩ : ∃ c0, pool[n.op.left]? = some c0 :=
      ⟨_, List.getElem?_eq_getElem hl⟩
    obtain ⟨c2, hc2, e1, e2, e3⟩ := hs _ _ hc0
    rw [hc] at hc2
    cases hc2
    have := h.2 c0 hc0 (e1.symm.trans hty) (e3.symm.trans hfl)
    rwa [e2]

theorem chainItem_shape {pool pool2 : List PSnode} (hs : SameShape pool pool2)
    {h : PSnodeHandle} (hh : h < pool.length) : chainItem pool2 h = chainItem pool h := by
  obtain ⟨n, hn⟩ : ∃ n, pool[h]? = some n := ⟨_, List.getElem?_eq_getElem hh⟩
  obtain ⟨n2, hn2, e1, e2, _⟩ := hs _ _ hn
  unfold chainItem
  rw [hn, hn2]
  simp only [e1, e2]

theorem chainItem_map_shape {pool pool2 : List PSnode} (hs : SameShape pool pool2)
    {l : List PSnodeHandle} (hl : ∀ x ∈ l, x < pool.length) :
    l.map (chainItem pool2) = l.map (chainItem pool) :=
  List.map_congr_left (fun x hx => chainItem_shape hs (hl x hx))

/-- The walk of `findRightMost` down the right spine of a tree with listing `hs`: the
listing splits into the part `pre` before the stop and the listing `hB` of the subtree at
the stop; the node at the stop does not meet the test of the walk; and either the walk has
not moved, or its last node `i` lies in `pre`, met the test, and replacing its right child
by a tree with listing `hsNew` gives a tree with listing `pre ++ hsNew`. -/
theorem findRightMost_plug (pool : List PSnode) (p : Nat) (fuel : Nat) :
    ∀ (rm : Option PSnodeHandle) (r : PSnodeHandle) (rm1 : Option PSnodeHandle)
      (r1 : PSnodeHandle) (hs : List PSnodeHandle),
      findRightMost pool p fuel rm r = .ok (rm1, r1) → InOrder pool r hs → hs.Nodup →
      ∃ pre hB, hs = pre ++ hB ∧ InOrder pool r1 hB ∧
        (∀ c, pool[r1]? = some c →
          ¬ (c.type = PSnodeType.OP ∧ p < _ps_precedence c.op.type ∧ c.op.inParens = false)) ∧
        ((rm1 = rm ∧ r1 = r ∧ pre = []) ∨
         (∃ i ni, rm1 = some i ∧ i ∈ pre ∧ pool[i]? = some ni ∧ ni.type = PSnodeType.OP ∧
            ni.op.right = r1 ∧ p < _ps_precedence ni.op.type ∧ ni.op.inParens = false ∧
            ∀ (pool2 : List PSnode) (hNew : PSnodeHandle) (hsNew : List PSnodeHandle),
              (∀ x ∈ pre, x ≠ i → pool2[x]? = pool[x]?) →
              pool2[i]? = some { ni with op := { ni.op with right := hNew } } →
              InOrder pool2 hNew hsNew → InOrder pool2 r (pre ++ hsNew))) := by
  induction fuel with
  | zero => intro rm r rm1 r1 hs h; cases h
  | succ fuel ih =>
    intro rm r rm1 r1 hs h t hnd
    rw [findRightMost] at h
    obtain ⟨node, hn, h⟩ := bind_eq_ok h
    have hget := nodeAt_ok hn
    split at h
    · rename_i hc
      cases t with
      | leaf hn2 hty =>
        rw [hget] at hn2
        cases hn2
        exact absurd hc.1 hty
      | @op _ n2 l rr hn2 hty tl tr =>
        rw [hget] at hn2
        cases hn2
        have hnd2 : (r :: (l ++ rr)).Nodup := List.nodup_middle.mp hnd
        have hrn : r ∉ l ++ rr := (List.nodup_cons.mp hnd2).1
        have hlr : (l ++ rr).Nodup := (List.nodup_cons.mp hnd2).2
        have hrl : r ∉ l := fun c => hrn (List.mem_append.mpr (Or.inl c))
        have hrr : r ∉ rr := fun c => hrn (List.mem_append.mpr (Or.inr c))
        have hdis : ∀ x, x ∈ l → x ∉ rr := fun x hx hx2 =>
          (List.nodup_append.mp hlr).2.2 hx hx2
        obtain ⟨pre, hB, hsplit, tB, hstop, hcase⟩ :=
          ih (some r) node.op.right rm1 r1 rr h tr (List.nodup_append.mp hlr).2.1
        refine ⟨l ++ r :: pre, hB, by rw [hsplit]; simp, tB, hstop, Or.inr ?_⟩
        rcases hcase with ⟨h1, h2, h3⟩ | ⟨i, ni, h1, hi, hni, hity, hir, hip, hifl, hplug⟩
        · subst h3
          refine ⟨r, node, h1, by simp, hget, hc.1, h2.symm, hc.2.1, hc.2.2, ?_⟩
          intro pool2 hNew hsNew hagree hi2 tNew
          have tl2 : InOrder pool2 node.op.left l :=
            tl.congr (fun x hx => hagree x (by simp [hx]) (fun c => hrl (c ▸ hx)))
          have := InOrder.op hi2 hc.1 tl2 tNew
          simpa using this
        · have hipre : i ∈ rr := by rw [hsplit]; exact List.mem_append.mpr (Or.inl hi)
          have hri : r ≠ i := fun c => hrr (c ▸ hipre)
          refine ⟨i, ni, h1, by simp [hi], hni, hity, hir, hip, hifl, ?_⟩
          intro pool2 hNew hsNew hagree hi2 tNew
          have hr2 : pool2[r]? = some node := (hagree r (by simp) hri).trans hget
          have tl2 : InOrder pool2 node.op.left l :=
            tl.congr (fun x hx => hagree x (by simp [hx]) (fun c => hdis x hx (c ▸ hipre)))
          have tr2 : InOrder pool2 node.op.right (pre ++ hsNew) :=
            hplug pool2 hNew hsNew (fun x hx hxi => hagree x (by simp [hx]) hxi) hi2 tNew
          have := InOrder.op hr2 hc.1 tl2 tr2
          simpa using this
    · rename_i hc
      cases h
      refine ⟨[], hs, rfl, t, ?_, Or.inl ⟨rfl, rfl, rfl⟩⟩
      intro c hcn
      rw [hget] at hcn
      cases hcn
      exact hc

theorem sameShape_append (pool : List PSnode) (n : PSnode) : SameShape pool (pool ++ [n]) :=
  SameShape.of_prefix (fun _ hi => List.getElem?_append_left hi)

theorem sameShape_set {pool : List PSnode} {i : Nat} {ni n2 : PSnode}
    (hi : pool[i]? = some ni) (e1 : n2.type = ni.type) (e2 : n2.op.type = ni.op.type)
    (e3 : n2.op.inParens = ni.op.inParens) : SameShape pool (pool.set i n2) := by
  intro j n hn
  by_cases hji : i = j
  · subst hji
    rw [hi] at hn
    cases hn
    have hlt : i < pool.length := (List.getElem?_eq_some_iff.mp hi).1
    exact ⟨n2, by rw [List.getElem?_set_self hlt], e1, e2, e3⟩
  · exact ⟨n, by rw [List.getElem?_set_ne hji]; exact hn, rfl, rfl, rfl⟩

theorem chainItem_op {pool : List PSnode} {h : PSnodeHandle} {n : PSnode}
    (hn : pool[h]? = some n) (hty : n.type = PSnodeType.OP) :
    chainItem pool h = .operator n.op.type := by
  unfold chainItem
  rw [hn]
  simp only [hty, if_true]

theorem chainItem_leaf {pool : List PSnode} {h : PSnodeHandle} {n : PSnode}
    (hn : pool[h]? = some n) (hty : n.type ≠ PSnodeType.OP) :
    chainItem pool h = .operand h := by
  unfold chainItem
  rw [hn]
  simp only [hty, if_false]

/-- One turn of the operator loop on a chain whose new operand is a leaf outside the tree:
the invariant of the loop is kept, the listing of the new tree is the old listing followed
by the new operator and the new operand, the pool keeps its shape and grows by one node. -/
theorem insertOp_chain {moves : Nat → Bool} {opNode newOp op1 nr : PSnode}
    {right : PSnodeHandle} {st st1 : PSparseState} {hl hr : List PSnodeHandle}
    (h : insertOp moves opNode newOp right st = .ok (op1, st1))
    (inv : ChainInv st.ast.nodePool opNode hl hr)
    (hnew : newOp.type = PSnodeType.OP)
    (hright : st.ast.nodePool[right]? = some nr) (hleaf : nr.type ≠ PSnodeType.OP)
    (hfresh : right ∉ hl ++ hr)
    (hw : st.ast.nodePool.length < 4294967296) :
    ∃ hl1 hr1, ChainInv st1.ast.nodePool op1 hl1 hr1 ∧
      hl1.map (chainItem st1.ast.nodePool) ++
          .operator op1.op.type :: hr1.map (chainItem st1.ast.nodePool) =
        (hl.map (chainItem st.ast.nodePool) ++
          .operator opNode.op.type :: hr.map (chainItem st.ast.nodePool)) ++
          [.operator newOp.op.type, .operand right] ∧
      SameShape st.ast.nodePool st1.ast.nodePool ∧
      st1.ast.nodePool.length = st.ast.nodePool.length + 1 := by
  have hrlt : right < st.ast.nodePool.length := (List.getElem?_eq_some_iff.mp hright).1
  have hllt := inv.left.lt_length
  have hrrlt := inv.right.lt_length
  have hall : ∀ x ∈ hl ++ hr, x < st.ast.nodePool.length := by
    intro x hx
    rcases List.mem_append.mp hx with hx | hx
    · exact hllt x hx
    · exact hrrlt x hx
  have hlen_nm : st.ast.nodePool.length ∉ hl ++ hr := fun c => Nat.lt_irrefl _ (hall _ c)
  have htl : opNode.op.left < st.ast.nodePool.length := hllt _ inv.left.mem_self
  have htr : opNode.op.right < st.ast.nodePool.length := hrrlt _ inv.right.mem_self
  have hchild : ∀ x ∈ hl ++ hr, ∀ n, st.ast.nodePool[x]? = some n → n.type = PSnodeType.OP →
      n.op.left < st.ast.nodePool.length ∧ n.op.right < st.ast.nodePool.length := by
    intro x hx n hn hty
    rcases List.mem_append.mp hx with hx | hx
    · exact inv.left.children x hx n hn hty
    · exact inv.right.children x hx n hn hty
  unfold insertOp at h
  split at h
  · -- the new operator becomes the top, the old top its left child
    rename_i hge
    cases h
    have hhandle : (_ps_add_node st opNode).1 = st.ast.nodePool.length :=
      add_node_handle_eq st opNode hw
    have hsh : SameShape st.ast.nodePool (st.ast.nodePool ++ [opNode]) :=
      sameShape_append _ _
    have hat : (st.ast.nodePool ++ [opNode])[st.ast.nodePool.length]? = some opNode := by
      simp
    have hrt : (st.ast.nodePool ++ [opNode])[right]? = some nr := by
      rw [List.getElem?_append_left hrlt]; exact hright
    refine ⟨hl ++ st.ast.nodePool.length :: hr, [right], ?_, ?_, ?_, ?_⟩
    · refine ⟨hnew, ?_, ?_, ?_, ?_, ?_⟩
      · show InOrder (st.ast.nodePool ++ [opNode]) (_ps_add_node st opNode).1 _
        rw [hhandle]
        exact InOrder.op hat inv.top (inv.left.append opNode) (inv.right.append opNode)
      · exact InOrder.leaf hrt hleaf
      · have h1 : (hl ++ st.ast.nodePool.length :: hr).Nodup :=
          List.nodup_middle.mpr (List.nodup_cons.mpr ⟨hlen_nm, inv.nodup⟩)
        refine List.nodup_append.mpr ⟨h1, List.nodup_singleton _, ?_⟩
        intro x hx hx2
        rw [List.mem_singleton] at hx2
        rw [hx2] at hx
        rcases List.mem_append.mp hx with hx | hx
        · exact hfresh (List.mem_append.mpr (Or.inl hx))
        · rcases List.mem_cons.mp hx with hx | hx
          · exact absurd hx (Nat.ne_of_lt hrlt)
          · exact hfresh (List.mem_append.mpr (Or.inr hx))
      · intro x hx n hn hty
        have hx' : x ∈ hl ++ hr ∨ x = st.ast.nodePool.length ∨ x = right := by
          simp only [List.mem_append, List.mem_cons, List.mem_singleton, List.not_mem_nil,
            or_false] at hx ⊢
          tauto
        rcases hx' with hx | hx | hx
        · have hxl := hall x hx
          change (st.ast.nodePool ++ [opNode])[x]? = some n at hn
          rw [List.getElem?_append_left hxl] at hn
          obtain ⟨c1, c2⟩ := hchild x hx n hn hty
          exact (inv.prec x hx n hn hty).shape hsh c1 c2
        · subst hx
          change (st.ast.nodePool ++ [opNode])[st.ast.nodePool.length]? = some n at hn
          rw [hat] at hn
          cases hn
          exact inv.precTop.shape hsh htl htr
        · change (st.ast.nodePool ++ [opNode])[x]? = some n at hn
          rw [hx, hrt] at hn
          cases hn
          exact absurd hty hleaf
      · constructor
        · intro c hc _ _
          change (st.ast.nodePool ++ [opNode])[right]? = some c at hc
          rw [hrt] at hc
          cases hc
          exact absurd (by assumption) hleaf
        · intro c hc _ hfl
          change (st.ast.nodePool ++ [opNode])[(_ps_add_node st opNode).1]? = some c at hc
          rw [hhandle, hat] at hc
          cases hc
          exact hge
    · show _ = _
      simp only [add_node_pool, List.map_append, List.map_cons, List.map_nil]
      rw [chainItem_map_shape hsh hllt, chainItem_map_shape hsh hrrlt,
        chainItem_op hat inv.top, chainItem_leaf hrt hleaf]
      try simp
    · exact hsh
    · simp
  · -- the new operator goes below the last node of the walk
    rename_i hlt
    have hplt : _ps_precedence newOp.op.type < _ps_precedence opNode.op.type :=
      Nat.lt_of_not_le hlt
    obtain ⟨⟨rm, rmRight⟩, hf, h⟩ := bind_eq_ok h
    dsimp only at h
    have hrnd : hr.Nodup := (List.nodup_append.mp inv.nodup).2.1
    have hdis : ∀ x, x ∈ hl → x ∉ hr := fun x hx hx2 =>
      (List.nodup_append.mp inv.nodup).2.2 hx hx2
    obtain ⟨pre, hB, hsplit, tB, hstop, hcase⟩ :=
      findRightMost_plug _ _ _ _ _ _ _ hr hf inv.right hrnd
    have hBsub : ∀ x ∈ hB, x ∈ hr := fun x hx => by
      rw [hsplit]; exact List.mem_append.mpr (Or.inr hx)
    have hpresub : ∀ x ∈ pre, x ∈ hr := fun x hx => by
      rw [hsplit]; exact List.mem_append.mpr (Or.inl hx)
    have hpredis : ∀ x, x ∈ pre → x ∉ hB := fun x hx hx2 =>
      (List.nodup_append.mp (hsplit ▸ hrnd)).2.2 hx hx2
    have hrmlt : rmRight < st.ast.nodePool.length := tB.lt_length _ tB.mem_self
    -- the node that is pushed
    generalize hN : ({ newOp with op := { newOp.op with left := rmRight, right := right } }
      : PSnode) = N at h
    have hNty : N.type = PSnodeType.OP := by rw [← hN]; exact hnew
    have hNtag : N.op.type = newOp.op.type := by rw [← hN]
    have hNl : N.op.left = rmRight := by rw [← hN]
    have hNr : N.op.right = right := by rw [← hN]
    have hhandle : (_ps_add_node st N).1 = st.ast.nodePool.length :=
      add_node_handle_eq st N hw
    have hsh1 : SameShape st.ast.nodePool (st.ast.nodePool ++ [N]) := sameShape_append _ _
    have hat1 : (st.ast.nodePool ++ [N])[st.ast.nodePool.length]? = some N := by simp
    -- the precedence invariant of the pushed node in a pool that keeps `rmRight` and `right`
    have hNok : ∀ pool2 : List PSnode, pool2[rmRight]? = st.ast.nodePool[rmRight]? →
        pool2[right]? = some nr → ChildrenOK pool2 N := by
      intro pool2 h1 h2
      constructor
      · intro c hc hty _
        rw [hNr, h2] at hc
        cases hc
        exact absurd hty hleaf
      · intro c hc hty hfl
        rw [hNl, h1] at hc
        rw [hNtag]
        exact Nat.le_of_not_lt (fun hp => hstop c hc ⟨hty, hp, hfl⟩)
    split at h
    · -- the walk has not moved: the top gets the new right child
      cases h
      rcases hcase with ⟨-, h2, h3⟩ | ⟨i, ni, h1, -⟩
      swap
      · cases h1
      subst h3
      have hBeq : hB = hr := by rw [hsplit]; rfl
      subst hBeq
      have hrt : (st.ast.nodePool ++ [N])[right]? = some nr := by
        rw [List.getElem?_append_left hrlt]; exact hright
      have tNl : InOrder (st.ast.nodePool ++ [N]) N.op.left hB := by
        rw [hNl]; exact tB.append N
      have tNr : InOrder (st.ast.nodePool ++ [N]) N.op.right [right] := by
        rw [hNr]; exact InOrder.leaf hrt hleaf
      have tN : InOrder (st.ast.nodePool ++ [N]) st.ast.nodePool.length
          (hB ++ st.ast.nodePool.length :: [right]) := InOrder.op hat1 hNty tNl tNr
      refine ⟨hl, hB ++ st.ast.nodePool.length :: [right], ?_, ?_, hsh1, by simp⟩
      · refine ⟨inv.top, inv.left.append N, ?_, ?_, ?_, ?_⟩
        · show InOrder (st.ast.nodePool ++ [N]) (_ps_add_node st N).1 _
          rw [hhandle]
          exact tN
        · rw [← List.append_assoc]
          refine List.nodup_append.mpr ⟨inv.nodup, ?_, ?_⟩
          · refine List.nodup_cons.mpr ⟨?_, List.nodup_singleton _⟩
            rw [List.mem_singleton]
            exact Ne.symm (Nat.ne_of_lt hrlt)
          · intro x hx hx2
            rcases List.mem_cons.mp hx2 with hx2 | hx2
            · subst hx2; exact hlen_nm hx
            · rw [List.mem_singleton] at hx2
              exact hfresh (hx2 ▸ hx)
        · intro x hx n hn hty
          have hx' : x ∈ hl ++ hB ∨ x = st.ast.nodePool.length ∨ x = right := by
            simp only [List.mem_append, List.mem_cons, List.mem_singleton, List.not_mem_nil,
              or_false] at hx ⊢
            tauto
          rcases hx' with hx | hx | hx
          · have hxl := hall x hx
            change (st.ast.nodePool ++ [N])[x]? = some n at hn
            rw [List.getElem?_append_left hxl] at hn
            obtain ⟨c1, c2⟩ := hchild x hx n hn hty
            exact (inv.prec x hx n hn hty).shape hsh1 c1 c2
          · subst hx
            change (st.ast.nodePool ++ [N])[st.ast.nodePool.length]? = some n at hn
            rw [hat1] at hn
            cases hn
            exact hNok _ (List.getElem?_append_left hrmlt) hrt
          · change (st.ast.nodePool ++ [N])[x]? = some n at hn
            rw [hx, hrt] at hn
            cases hn
            exact absurd hty hleaf
        · have hold := inv.precTop.shape hsh1 htl htr
          constructor
          · intro c hc _ _
            change (st.ast.nodePool ++ [N])[(_ps_add_node st N).1]? = some c at hc
            rw [hhandle, hat1] at hc
            cases hc
            show _ps_precedence N.op.type < _ps_precedence opNode.op.type
            rw [hNtag]
            exact hplt
          · exact hold.2
      · show _ = _
        simp only [add_node_pool, List.map_append, List.map_cons, List.map_nil]
        rw [chainItem_map_shape hsh1 hllt, chainItem_map_shape hsh1 hrrlt,
          chainItem_op hat1 hNty, chainItem_leaf hrt hleaf, hNtag]
        try simp
    · -- the walk has gone down to the node `i`: its right child is replaced
      rename_i i
      by_cases hmv : moves st.ast.nodePool.length = true
      · rw [if_pos hmv] at h; cases h
      rw [if_neg hmv] at h
      obtain ⟨n, hn, h⟩ := bind_eq_ok h
      rcases hcase with ⟨h1, -, -⟩ | ⟨i2, ni, h1, hipre, hni, hity, hir, hip, hifl, hplug⟩
      · cases h1
      obtain rfl : i2 = i := (Option.some.inj h1).symm
      have hihr : i2 ∈ hr := hpresub i2 hipre
      have hilt : i2 < st.ast.nodePool.length := hrrlt i2 hihr
      obtain rfl : n = ni := by
        have := nodeAt_ok hn
        rw [add_node_pool, List.getElem?_append_left hilt, hni] at this
        cases this; rfl
      have key : ∀ P2 : List PSnode,
          P2 = (st.ast.nodePool ++ [N]).set i2
            { n with op := { n.op with right := st.ast.nodePool.length } } →
          ∃ hl1 hr1, ChainInv P2 opNode hl1 hr1 ∧
            hl1.map (chainItem P2) ++ .operator opNode.op.type :: hr1.map (chainItem P2) =
              (hl.map (chainItem st.ast.nodePool) ++
                .operator opNode.op.type :: hr.map (chainItem st.ast.nodePool)) ++
                [.operator newOp.op.type, .operand right] ∧
            SameShape st.ast.nodePool P2 ∧ P2.length = st.ast.nodePool.length + 1 := by
        intro P2 hP2
        have hi1 : (st.ast.nodePool ++ [N])[i2]? = some n := by
          rw [List.getElem?_append_left hilt]; exact hni
        have hP2i : P2[i2]? =
            some { n with op := { n.op with right := st.ast.nodePool.length } } := by
          rw [hP2, List.getElem?_set_self
            (by rw [List.length_append]; exact Nat.lt_add_right _ hilt)]
        have hP2ne : ∀ x, x ≠ i2 → P2[x]? = (st.ast.nodePool ++ [N])[x]? := by
          intro x hx
          rw [hP2, List.getElem?_set_ne (Ne.symm hx)]
        have hP2old : ∀ x, x ≠ i2 → x < st.ast.nodePool.length →
            P2[x]? = st.ast.nodePool[x]? := by
          intro x hx hxl
          rw [hP2ne x hx, List.getElem?_append_left hxl]
        have hP2len : P2[st.ast.nodePool.length]? = some N := by
          rw [hP2ne _ (Nat.ne_of_gt hilt), hat1]
        have hri : right ≠ i2 := fun c => hfresh (List.mem_append.mpr (Or.inr (c ▸ hihr)))
        have hrt : P2[right]? = some nr := (hP2old right hri hrlt).trans hright
        have hrmi : rmRight ≠ i2 := fun c => hpredis i2 hipre (c ▸ tB.mem_self)
        have hsh : SameShape st.ast.nodePool P2 := by
          rw [hP2]
          exact hsh1.strans (@sameShape_set _ i2 n _ hi1 rfl rfl rfl)
        have tB2 : InOrder P2 rmRight hB :=
          tB.congr (fun x hx => hP2old x (fun c => hpredis i2 hipre (c ▸ hx))
            (hrrlt x (hBsub x hx)))
        have tNl : InOrder P2 N.op.left hB := by rw [hNl]; exact tB2
        have tNr : InOrder P2 N.op.right [right] := by
          rw [hNr]; exact InOrder.leaf hrt hleaf
        have tN : InOrder P2 st.ast.nodePool.length
            (hB ++ st.ast.nodePool.length :: [right]) := InOrder.op hP2len hNty tNl tNr
        have tR : InOrder P2 opNode.op.right
            (pre ++ (hB ++ st.ast.nodePool.length :: [right])) :=
          hplug P2 _ _ (fun x hx hxi => hP2old x hxi (hrrlt x (hpresub x hx))) hP2i tN
        have tL : InOrder P2 opNode.op.left hl :=
          inv.left.congr (fun x hx => hP2old x (fun c => hdis x hx (c ▸ hihr)) (hllt x hx))
        refine ⟨hl, hr ++ st.ast.nodePool.length :: [right], ?_, ?_, hsh, ?_⟩
        · refine ⟨inv.top, tL, ?_, ?_, ?_, ?_⟩
          · have e : hr ++ st.ast.nodePool.length :: [right] =
                pre ++ (hB ++ st.ast.nodePool.length :: [right]) := by
              rw [hsplit]; simp
            rw [e]
            exact tR
          · rw [← List.append_assoc]
            refine List.nodup_append.mpr ⟨inv.nodup, ?_, ?_⟩
            · refine List.nodup_cons.mpr ⟨?_, List.nodup_singleton _⟩
              rw [List.mem_singleton]
              exact Ne.symm (Nat.ne_of_lt hrlt)
            · intro x hx hx2
              rcases List.mem_cons.mp hx2 with hx2 | hx2
              · subst hx2; exact hlen_nm hx
              · rw [List.mem_singleton] at hx2
                exact hfresh (hx2 ▸ hx)
          · intro x hx m hm hty
            have hx' : x ∈ hl ++ hr ∨ x = st.ast.nodePool.length ∨ x = right := by
              simp only [List.mem_append, List.mem_cons, List.mem_singleton,
                List.not_mem_nil, or_false] at hx ⊢
              tauto
            rcases hx' with hx | hx | hx
            · have hxl := hall x hx
              by_cases hxi : x = i2
              · rw [hxi, hP2i] at hm
                cases hm
                obtain ⟨c1, c2⟩ := hchild i2 (hxi ▸ hx) n hni hity
                have hold := (inv.prec i2 (hxi ▸ hx) n hni hity).shape hsh c1 c2
                constructor
                · intro c hc _ _
                  change P2[st.ast.nodePool.length]? = some c at hc
                  rw [hP2len] at hc
                  cases hc
                  show _ps_precedence N.op.type < _ps_precedence n.op.type
                  rw [hNtag]
                  exact hip
                · exact hold.2
              · rw [hP2old x hxi hxl] at hm
                obtain ⟨c1, c2⟩ := hchild x hx m hm hty
                exact (inv.prec x hx m hm hty).shape hsh c1 c2
            · rw [hx, hP2len] at hm
              cases hm
              exact hNok _ (hP2old rmRight hrmi hrmlt) hrt
            · rw [hx, hrt] at hm
              cases hm
              exact absurd hty hleaf
          · exact inv.precTop.shape hsh htl htr
        · simp only [List.map_append, List.map_cons, List.map_nil]
          rw [chainItem_map_shape hsh hllt, chainItem_map_shape hsh hrrlt,
            chainItem_op hP2len hNty, chainItem_leaf hrt hleaf, hNtag]
          try simp
        · rw [hP2]
          simp
      rw [hhandle] at h
      cases h
      exact key _ rfl

/-- One turn of the operator loop keeps the shape of the pool and adds one node. -/
theorem insertOp_shape {moves : Nat → Bool} {opNode newOp op1 : PSnode}
    {right : PSnodeHandle} {st st1 : PSparseState}
    (h : insertOp moves opNode newOp right st = .ok (op1, st1)) :
    SameShape st.ast.nodePool st1.ast.nodePool ∧
      st1.ast.nodePool.length = st.ast.nodePool.length + 1 := by
  unfold insertOp at h
  split at h
  · cases h
    exact ⟨sameShape_append _ _, by simp⟩
  · obtain ⟨⟨rm, rmRight⟩, -, h⟩ := bind_eq_ok h
    dsimp only at h
    split at h
    · cases h
      exact ⟨sameShape_append _ _, by simp⟩
    · rename_i i
      by_cases hmv : moves st.ast.nodePool.length = true
      · rw [if_pos hmv] at h; cases h
      rw [if_neg hmv] at h
      obtain ⟨n, hn, h⟩ := bind_eq_ok h
      cases h
      have hget := nodeAt_ok hn
      rw [add_node_pool] at hget
      refine ⟨(sameShape_append _ _).strans (@sameShape_set _ i n _ hget rfl rfl rfl), ?_⟩
      show (List.set _ _ _).length = _
      rw [List.length_set]
      simp

/-- The record of `parseOpsTrace` apart, it is `parseOps`. -/
theorem parseOpsTrace_erase {stof : String → Option Nat} {uninit moves : Nat → Bool}
    {stmt : PSparseState → Except PSparseFail (PSnodeHandle × PSparseState)}
    (fuel : Nat) (tokens : List PStoken) (n : Nat) :
    ∀ (opNode : PSnode) (st : PSparseState) (items : List (Nat × PSnodeHandle))
      (op1 : PSnode) (st1 : PSparseState),
      parseOpsTrace stof uninit moves stmt fuel tokens n opNode st = .ok (items, op1, st1) →
      parseOps stof uninit moves stmt fuel tokens n opNode st = .ok (op1, st1) := by
  induction n with
  | zero => intro opNode st items op1 st1 h; cases h
  | succ n ih =>
    intro opNode st items op1 st1 h
    rw [parseOpsTrace] at h
    rw [parseOps]
    split at h
    · rename_i hlt
      rw [if_pos hlt]
      obtain ⟨t, ht, h⟩ := bind_eq_ok h
      simp only [ht, bind, Except.bind]
      split at h
      · rename_i hend
        cases h
        simp only [hend, if_true]
        rfl
      · rename_i hend
        obtain ⟨⟨newOp, s1⟩, hop, h⟩ := bind_eq_ok h
        dsimp only at h
        obtain ⟨⟨right, s2⟩, hr, h⟩ := bind_eq_ok h
        dsimp only at h
        obtain ⟨⟨op2, s3⟩, hi, h⟩ := bind_eq_ok h
        dsimp only at h
        obtain ⟨⟨items2, r⟩, hrest, h⟩ := bind_eq_ok h
        cases h
        simp only [hend, Bool.false_eq_true, if_false, hop, hr, hi]
        exact ih _ _ _ _ _ hrest
    · rename_i hlt
      rw [if_neg hlt]
      cases h
      rfl

/-- A successful operator loop has a record. -/
theorem parseOpsTrace_exists {stof : String → Option Nat} {uninit moves : Nat → Bool}
    {stmt : PSparseState → Except PSparseFail (PSnodeHandle × PSparseState)}
    (fuel : Nat) (tokens : List PStoken) (n : Nat) :
    ∀ (opNode : PSnode) (st : PSparseState) (op1 : PSnode) (st1 : PSparseState),
      parseOps stof uninit moves stmt fuel tokens n opNode st = .ok (op1, st1) →
      ∃ items, parseOpsTrace stof uninit moves stmt fuel tokens n opNode st =
        .ok (items, op1, st1) := by
  induction n with
  | zero => intro opNode st op1 st1 h; cases h
  | succ n ih =>
    intro opNode st op1 st1 h
    rw [parseOps] at h
    rw [parseOpsTrace]
    split at h
    · rename_i hlt
      rw [if_pos hlt]
      obtain ⟨t, ht, h⟩ := bind_eq_ok h
      simp only [ht, bind, Except.bind]
      split at h
      · rename_i hend
        cases h
        exact ⟨[], by simp only [hend, if_true]; rfl⟩
      · rename_i hend
        obtain ⟨⟨newOp, s1⟩, hop, h⟩ := bind_eq_ok h
        dsimp only at h
        obtain ⟨⟨right, s2⟩, hr, h⟩ := bind_eq_ok h
        dsimp only at h
        obtain ⟨⟨op2, s3⟩, hi, h⟩ := bind_eq_ok h
        dsimp only at h
        obtain ⟨items, hrest⟩ := ih _ _ _ _ h
        refine ⟨(newOp.op.type, right) :: items, ?_⟩
        simp only [hend, Bool.false_eq_true, if_false, hop, hr, hi, hrest]
        rfl
    · rename_i hlt
      rw [if_neg hlt]
      cases h
      exact ⟨[], rfl⟩

/-- The loop invariant only depends on the nodes the pool holds. -/
theorem ChainInv.keep_prefix {pool pool2 : List PSnode} {opNode : PSnode}
    {hl hr : List PSnodeHandle} (inv : ChainInv pool opNode hl hr)
    (h : ∀ i, i < pool.length → pool2[i]? = pool[i]?) : ChainInv pool2 opNode hl hr := by
  have hsh : SameShape pool pool2 := SameShape.of_prefix h
  have hllt := inv.left.lt_length
  have hrrlt := inv.right.lt_length
  refine ⟨inv.top, inv.left.congr (fun x hx => h x (hllt x hx)),
    inv.right.congr (fun x hx => h x (hrrlt x hx)), inv.nodup, ?_, ?_⟩
  · intro x hx n hn hty
    have hxl : x < pool.length := by
      rcases List.mem_append.mp hx with hx | hx
      · exact hllt x hx
      · exact hrrlt x hx
    rw [h x hxl] at hn
    have hc : n.op.left < pool.length ∧ n.op.right < pool.length := by
      rcases List.mem_append.mp hx with hx | hx
      · exact inv.left.children x hx n hn hty
      · exact inv.right.children x hx n hn hty
    exact (inv.prec x hx n hn hty).shape hsh hc.1 hc.2
  · exact inv.precTop.shape hsh (hllt _ inv.left.mem_self) (hrrlt _ inv.right.mem_self)

/-- The operator loop keeps the shape of the pool. -/
theorem parseOpsTrace_shape {stof : String → Option Nat} {uninit moves : Nat → Bool}
    (fuel : Nat) (tokens : List PStoken) (n : Nat) :
    ∀ (opNode : PSnode) (st : PSparseState) (items : List (Nat × PSnodeHandle))
      (op1 : PSnode) (st1 : PSparseState),
      parseOpsTrace stof uninit moves (_ps_parse_statement stof uninit moves tokens fuel) fuel
        tokens n opNode st = .ok (items, op1, st1) →
      st.ast.nodePool.length ≤ st1.ast.nodePool.length ∧
      (st1.ast.nodePool.length ≤ 4294967296 →
        SameShape st.ast.nodePool st1.ast.nodePool) := by
  induction n with
  | zero => intro opNode st items op1 st1 h; cases h
  | succ n ih =>
    intro opNode st items op1 st1 h
    rw [parseOpsTrace] at h
    split at h
    · obtain ⟨t, -, h⟩ := bind_eq_ok h
      split at h
      · cases h
        exact ⟨le_refl _, fun _ => SameShape.srefl _⟩
      · obtain ⟨⟨newOp, s1⟩, hop, h⟩ := bind_eq_ok h
        dsimp only at h
        obtain ⟨⟨right, s2⟩, hr, h⟩ := bind_eq_ok h
        dsimp only at h
        obtain ⟨⟨op2, s3⟩, hi, h⟩ := bind_eq_ok h
        dsimp only at h
        obtain ⟨⟨items2, r⟩, hrest, h⟩ := bind_eq_ok h
        cases h
        obtain ⟨_, _, _, _, hast, _, _, _⟩ := get_op_node_ok hop
        obtain ⟨hlen3, hsh3⟩ := ih _ _ _ _ _ hrest
        obtain ⟨hsh2, hlen2⟩ := insertOp_shape hi
        have hp : parseOperand stof uninit moves tokens fuel s1 = .ok (right, s2) := hr
        have hlen1 : s1.ast.nodePool.length ≤ s2.ast.nodePool.length :=
          ((parse_non_op_frame (parse_statement_frame stof uninit moves tokens fuel)
            fuel tokens _ _ _ hr).1 0).len
        refine ⟨by rw [← hast]; omega, fun hw => ?_⟩
        obtain ⟨_, _, hsame⟩ := parseOperand_frame hp (by omega)
        rw [← hast]
        exact (SameShape.of_prefix hsame).strans (hsh2.strans (hsh3 hw))
    · cases h
      exact ⟨le_refl _, fun _ => SameShape.srefl _⟩

/-- The operator loop on a chain whose operands are leaves: the invariant of the loop is
kept, and the listing of the final tree is the listing at the start followed by the
operators and operands the loop has read, in that order. -/
theorem parseOps_chain {stof : String → Option Nat} {uninit moves : Nat → Bool}
    (fuel : Nat) (tokens : List PStoken) (n : Nat) :
    ∀ (opNode : PSnode) (st : PSparseState) (items : List (Nat × PSnodeHandle))
      (op1 : PSnode) (st1 : PSparseState) (hl hr : List PSnodeHandle),
      parseOpsTrace stof uninit moves (_ps_parse_statement stof uninit moves tokens fuel) fuel
        tokens n opNode st = .ok (items, op1, st1) →
      ChainInv st.ast.nodePool opNode hl hr →
      st1.ast.nodePool.length ≤ 4294967296 →
      (∀ it ∈ items, ∃ nr, st1.ast.nodePool[it.2]? = some nr ∧ nr.type ≠ PSnodeType.OP) →
      ∃ hl1 hr1, ChainInv st1.ast.nodePool op1 hl1 hr1 ∧
        hl1.map (chainItem st1.ast.nodePool) ++
            .operator op1.op.type :: hr1.map (chainItem st1.ast.nodePool) =
          (hl.map (chainItem st.ast.nodePool) ++
            .operator opNode.op.type :: hr.map (chainItem st.ast.nodePool)) ++
            items.flatMap (fun it => [.operator it.1, .operand it.2]) := by
  induction n with
  | zero => intro opNode st items op1 st1 hl hr h; cases h
  | succ n ih =>
    intro opNode st items op1 st1 hl hr h inv hw hleaf
    rw [parseOpsTrace] at h
    split at h
    · obtain ⟨t, -, h⟩ := bind_eq_ok h
      split at h
      · cases h
        exact ⟨hl, hr, inv, by simp⟩
      · obtain ⟨⟨newOp, s1⟩, hop, h⟩ := bind_eq_ok h
        dsimp only at h
        obtain ⟨⟨right, s2⟩, hr0, h⟩ := bind_eq_ok h
        dsimp only at h
        obtain ⟨⟨op2, s3⟩, hi, h⟩ := bind_eq_ok h
        dsimp only at h
        obtain ⟨⟨items2, r⟩, hrest, h⟩ := bind_eq_ok h
        cases h
        obtain ⟨_, _, _, hnew, hast, _, _, _⟩ := get_op_node_ok hop
        obtain ⟨hlen3, hsh3⟩ := parseOpsTrace_shape fuel tokens n _ _ _ _ _ hrest
        obtain ⟨hsh2, hlen2⟩ := insertOp_shape hi
        have hp : parseOperand stof uninit moves tokens fuel s1 = .ok (right, s2) := hr0
        obtain ⟨hlen1, hfr, hsame⟩ := parseOperand_frame hp (by omega)
        have hrlt : right < s2.ast.nodePool.length :=
          (parse_non_op_good (parse_statement_good stof uninit moves tokens fuel)
            fuel tokens _ _ _ hr0).2
        rw [hast] at hsame hfr hlen1
        -- the operand is a leaf when it is parsed
        obtain ⟨nr2, hnr2⟩ : ∃ nr2, s2.ast.nodePool[right]? = some nr2 :=
          ⟨_, List.getElem?_eq_getElem hrlt⟩
        obtain ⟨nr, hnr, hnrty⟩ := hleaf (newOp.op.type, right) (List.mem_cons_self _ _)
        obtain ⟨nr3, hnr3, e1, _, _⟩ := (hsh2.strans (hsh3 hw)) _ _ hnr2
        have hnr2ty : nr2.type ≠ PSnodeType.OP := by
          rw [hnr] at hnr3
          cases hnr3
          rw [← e1]
          exact hnrty
        -- the operand lies outside the tree
        have hall : ∀ x ∈ hl ++ hr, x < st.ast.nodePool.length := by
          intro x hx
          rcases List.mem_append.mp hx with hx | hx
          · exact inv.left.lt_length x hx
          · exact inv.right.lt_length x hx
        have hfresh : right ∉ hl ++ hr := fun c => absurd (hall right c) (Nat.not_lt.mpr hfr)
        have inv2 : ChainInv s2.ast.nodePool opNode hl hr := inv.keep_prefix hsame
        obtain ⟨hl3, hr3, inv3, hlab3, -, -⟩ :=
          insertOp_chain hi inv2 hnew hnr2 hnr2ty hfresh (by omega)
        obtain ⟨hl4, hr4, inv4, hlab4⟩ := ih _ _ _ _ _ hl3 hr3 hrest inv3 hw
          (fun it hit => hleaf it (List.mem_cons_of_mem _ hit))
        refine ⟨hl4, hr4, inv4, ?_⟩
        rw [hlab4, hlab3,
          chainItem_map_shape (SameShape.of_prefix hsame) (inv.left.lt_length),
          chainItem_map_shape (SameShape.of_prefix hsame) (inv.right.lt_length)]
        simp
    · cases h
      exact ⟨hl, hr, inv, by simp⟩

/-- A listing as a relation is what `specInOrder` computes, with fuel for every node. -/
theorem InOrder.computed {pool : List PSnode} {h : PSnodeHandle} {hs : List PSnodeHandle}
    (t : InOrder pool h hs) : ∀ fuel, hs.length ≤ fuel → specInOrder pool fuel h = some hs := by
  induction t with
  | leaf hn hty =>
    intro fuel hf
    obtain ⟨k, rfl⟩ : ∃ k, fuel = k + 1 := ⟨fuel - 1, by simp at hf; omega⟩
    rw [specInOrder, hn]
    simp only [hty, if_false]
  | @op _ _ l r hn hty _ _ ihl ihr =>
    intro fuel hf
    have hlen : l.length + r.length + 1 ≤ fuel := by
      simp only [List.length_append, List.length_cons] at hf
      omega
    obtain ⟨k, rfl⟩ : ∃ k, fuel = k + 1 := ⟨fuel - 1, by omega⟩
    rw [specInOrder, hn]
    simp only [hty, if_true, ihl k (by omega), ihr k (by omega)]
    simp

theorem ChildrenOK.checked {pool : List PSnode} {n : PSnode} (h : ChildrenOK pool n)
    (hl : n.op.left < pool.length) (hr : n.op.right < pool.length) :
    specChildrenOK pool n = true := by
  obtain ⟨cr, hcr⟩ : ∃ c, pool[n.op.right]? = some c := ⟨_, List.getElem?_eq_getElem hr⟩
  obtain ⟨cl, hcl⟩ : ∃ c, pool[n.op.left]? = some c := ⟨_, List.getElem?_eq_getElem hl⟩
  unfold specChildrenOK
  rw [hcr, hcl]
  simp only [Bool.and_eq_true]
  constructor
  · by_cases hc : cr.type = PSnodeType.OP ∧ cr.op.inParens = false
    · rw [if_pos hc]
      exact decide_eq_true (h.1 cr hcr hc.1 hc.2)
    · rw [if_neg hc]
  · by_cases hc : cl.type = PSnodeType.OP ∧ cl.op.inParens = false
    · rw [if_pos hc]
      exact decide_eq_true (h.2 cl hcl hc.1 hc.2)
    · rw [if_neg hc]

/-- A tree whose operator nodes all keep the precedence invariant passes the check
`specPrecedenceOK`, with fuel for every node. -/
theorem InOrder.specPrec {pool : List PSnode} {h : PSnodeHandle} {hs : List PSnodeHandle}
    (t : InOrder pool h hs) :
    (∀ x ∈ hs, ∀ n, pool[x]? = some n → n.type = PSnodeType.OP → ChildrenOK pool n) →
    ∀ fuel, hs.length ≤ fuel → specPrecedenceOK pool fuel h = true := by
  induction t with
  | leaf hn hty =>
    intro _ fuel hf
    obtain ⟨k, rfl⟩ : ∃ k, fuel = k + 1 := ⟨fuel - 1, by simp at hf; omega⟩
    rw [specPrecedenceOK, hn]
    simp only [hty, if_false]
  | @op h0 n l r hn hty tl tr ihl ihr =>
    intro hall fuel hf
    have hlen : l.length + r.length + 1 ≤ fuel := by
      simp only [List.length_append, List.length_cons] at hf
      omega
    obtain ⟨k, rfl⟩ : ∃ k, fuel = k + 1 := ⟨fuel - 1, by omega⟩
    have hself : h0 ∈ l ++ h0 :: r := List.mem_append.mpr (Or.inr (List.mem_cons_self _ _))
    have h1 := (hall h0 hself n hn hty).checked (tl.lt_length _ tl.mem_self)
      (tr.lt_length _ tr.mem_self)
    have h2 := ihl (fun x hx => hall x (List.mem_append.mpr (Or.inl hx))) k (by omega)
    have h3 := ihr (fun x hx => hall x
      (List.mem_append.mpr (Or.inr (List.mem_cons_of_mem _ hx)))) k (by omega)
    rw [specPrecedenceOK, hn]
    simp only [hty, if_true, h1, h2, h3, Bool.and_self]

theorem chainItems_length (first : PSnodeHandle) (rest : List (Nat × PSnodeHandle)) :
    (chainItems first rest).length = 2 * rest.length + 1 := by
  unfold chainItems
  induction rest with
  | nil => rfl
  | cons it rest ih =>
    simp only [List.flatMap_cons, List.length_cons, List.length_append, List.length_nil] at ih ⊢
    omega

/-- An expression statement that is a chain of leaf operands: the statement parses to the
handle of the node pushed last; the tree below it has a listing without repetition whose
items are the operands and operators of the chain in source order; and every operator node
of the tree keeps the precedence invariant. -/
theorem statement_chain {stof : String → Option Nat} {uninit moves : Nat → Bool}
    {tokens : List PStoken} {fuel : Nat} {st0 s1 s1' s2 s3 : PSparseState}
    {a b : PSnodeHandle} {n1 op1 : PSnode} {t0 : PStoken} {items : List (Nat × PSnodeHandle)}
    (h0 : tokenAt tokens st0.curTokenIdx = .ok t0) (hk : t0.str ∉ statementKeywords)
    (ha : parseOperand stof uninit moves tokens fuel st0 = .ok (a, s1))
    (hop1 : _ps_get_op_node uninit tokens s1 = .ok (n1, s1'))
    (hb : parseOperand stof uninit moves tokens fuel s1' = .ok (b, s2))
    (htr : parseOpsTrace stof uninit moves (_ps_parse_statement stof uninit moves tokens fuel)
      fuel tokens fuel (n1.asTop a b) s2 = .ok (items, op1, s3))
    (hw : s3.ast.nodePool.length < 4294967296)
    (hleaf : ∀ x ∈ a :: b :: items.map Prod.snd,
      ∃ nr, s3.ast.nodePool[x]? = some nr ∧ nr.type ≠ PSnodeType.OP) :
    _ps_parse_statement stof uninit moves tokens (fuel + 1) st0 =
        .ok (s3.ast.nodePool.length, (_ps_add_node s3 op1).2) ∧
    ∃ hs, InOrder (s3.ast.nodePool ++ [op1]) s3.ast.nodePool.length hs ∧ hs.Nodup ∧
      hs.map (chainItem (s3.ast.nodePool ++ [op1])) = chainItems a ((n1.op.type, b) :: items) ∧
      ∀ x ∈ hs, ∀ n, (s3.ast.nodePool ++ [op1])[x]? = some n → n.type = PSnodeType.OP →
        ChildrenOK (s3.ast.nodePool ++ [op1]) n := by
  obtain ⟨_, _, _, hn1, hast, _, _, _⟩ := get_op_node_ok hop1
  obtain ⟨hlen3, hsh3⟩ := parseOpsTrace_shape fuel tokens fuel _ _ _ _ _ htr
  have hsh3 := hsh3 (Nat.le_of_lt hw)
  have halt : a < s1.ast.nodePool.length :=
    (parse_non_op_good (parse_statement_good stof uninit moves tokens fuel)
      fuel tokens _ _ _ ha).2
  have hblt : b < s2.ast.nodePool.length :=
    (parse_non_op_good (parse_statement_good stof uninit moves tokens fuel)
      fuel tokens _ _ _ hb).2
  obtain ⟨hlen1, hfr, hsame⟩ := parseOperand_frame hb (by omega)
  rw [hast] at hlen1 hfr hsame
  have halt2 : a < s2.ast.nodePool.length := Nat.lt_of_lt_of_le halt hlen1
  -- the first two operands are leaves when the loop starts
  obtain ⟨na, hna⟩ : ∃ na, s2.ast.nodePool[a]? = some na := ⟨_, List.getElem?_eq_getElem halt2⟩
  obtain ⟨nb, hnb⟩ : ∃ nb, s2.ast.nodePool[b]? = some nb := ⟨_, List.getElem?_eq_getElem hblt⟩
  have hnaty : na.type ≠ PSnodeType.OP := by
    obtain ⟨nr, hnr, hty⟩ := hleaf a (by simp)
    obtain ⟨n3, hn3, e1, _, _⟩ := hsh3 _ _ hna
    rw [hnr] at hn3
    cases hn3
    rw [← e1]; exact hty
  have hnbty : nb.type ≠ PSnodeType.OP := by
    obtain ⟨nr, hnr, hty⟩ := hleaf b (by simp)
    obtain ⟨n3, hn3, e1, _, _⟩ := hsh3 _ _ hnb
    rw [hnr] at hn3
    cases hn3
    rw [← e1]; exact hty
  have hab : a ≠ b := Nat.ne_of_lt (Nat.lt_of_lt_of_le halt hfr)
  have inv : ChainInv s2.ast.nodePool (n1.asTop a b) [a] [b] := by
    refine ⟨hn1, InOrder.leaf hna hnaty, InOrder.leaf hnb hnbty, ?_, ?_, ?_⟩
    · simp [hab]
    · intro x hx n hn hty
      simp only [List.singleton_append, List.mem_cons, List.mem_singleton, List.not_mem_nil,
        or_false] at hx
      rcases hx with hx | hx
      · rw [hx, hna] at hn; cases hn; exact absurd hty hnaty
      · rw [hx, hnb] at hn; cases hn; exact absurd hty hnbty
    · constructor
      · intro c hc hty _
        change s2.ast.nodePool[b]? = some c at hc
        rw [hnb] at hc; cases hc; exact absurd hty hnbty
      · intro c hc hty _
        change s2.ast.nodePool[a]? = some c at hc
        rw [hna] at hc; cases hc; exact absurd hty hnaty
  obtain ⟨hl1, hr1, inv1, hlab⟩ := parseOps_chain fuel tokens fuel _ _ _ _ _ _ _ htr inv
    (Nat.le_of_lt hw)
    (fun it hit => hleaf it.2 (by
      simp only [List.mem_cons, List.mem_map]
      exact Or.inr (Or.inr ⟨it, hit, rfl⟩)))
  constructor
  · rw [parse_statement_expr h0 hk ha hop1 hb, parseOpsTrace_erase _ _ _ _ _ _ _ _ htr]
    show Except.ok (_ps_add_node s3 op1) = _
    rw [show _ps_add_node s3 op1 = ((_ps_add_node s3 op1).1, (_ps_add_node s3 op1).2) from rfl,
      add_node_handle_eq s3 op1 hw]
  · have hllt := inv1.left.lt_length
    have hrrlt := inv1.right.lt_length
    have hsh : SameShape s3.ast.nodePool (s3.ast.nodePool ++ [op1]) := sameShape_append _ _
    have hat : (s3.ast.nodePool ++ [op1])[s3.ast.nodePool.length]? = some op1 := by simp
    have hall : ∀ x ∈ hl1 ++ hr1, x < s3.ast.nodePool.length := by
      intro x hx
      rcases List.mem_append.mp hx with hx | hx
      · exact hllt x hx
      · exact hrrlt x hx
    refine ⟨hl1 ++ s3.ast.nodePool.length :: hr1, ?_, ?_, ?_, ?_⟩
    · exact InOrder.op hat inv1.top (inv1.left.append op1) (inv1.right.append op1)
    · exact List.nodup_middle.mpr (List.nodup_cons.mpr
        ⟨fun c => Nat.lt_irrefl _ (hall _ c), inv1.nodup⟩)
    · simp only [List.map_append, List.map_cons]
      rw [chainItem_map_shape hsh hllt, chainItem_map_shape hsh hrrlt,
        chainItem_op hat inv1.top, hlab]
      simp only [List.map_cons, List.map_nil, chainItem_leaf hna hnaty,
        chainItem_leaf hnb hnbty, chainItems, List.flatMap_cons]
      rfl
    · intro x hx n hn hty
      rcases List.mem_append.mp hx with hx | hx
      · have hxm : x ∈ hl1 ++ hr1 := List.mem_append.mpr (Or.inl hx)
        rw [List.getElem?_append_left (hall x hxm)] at hn
        obtain ⟨c1, c2⟩ := inv1.left.children x hx n hn hty
        exact (inv1.prec x hxm n hn hty).shape hsh c1 c2
      · rcases List.mem_cons.mp hx with hx | hx
        · rw [hx, hat] at hn
          cases hn
          exact inv1.precTop.shape hsh (hllt _ inv1.left.mem_self)
            (hrrlt _ inv1.right.mem_self)
        · have hxm : x ∈ hl1 ++ hr1 := List.mem_append.mpr (Or.inr hx)
          rw [List.getElem?_append_left (hall x hxm)] at hn
          obtain ⟨c1, c2⟩ := inv1.right.children x hx n hn hty
          exact (inv1.prec x hxm n hn hty).shape hsh c1 c2

theorem isLeafAt_spec {pool : List PSnode} {x : PSnodeHandle} (h : isLeafAt pool x = true) :
    ∃ nr, pool[x]? = some nr ∧ nr.type ≠ PSnodeType.OP := by
  unfold isLeafAt at h
  cases hx : pool[x]? with
  | none => rw [hx] at h; cases h
  | some n =>
    rw [hx] at h
    exact ⟨n, rfl, of_decide_eq_true h⟩

set_option maxRecDepth 100000 in
/-- C38. (1) For an expression statement that is a chain `x0 op1 x1 ... opn xn` whose
operands are leaves (identifier, call or number nodes, so no operand is a parenthesised
expression or carries a unary minus): when the operands parse and the operator loop ends
with the record `items`, the statement parses, and the tree below the returned handle
passes the check of the precedence invariant, whatever the never-assigned flags read and
wherever the pool moves.  (2) The operand `-b` is parsed to the operator node `SUB(-1, b)`,
whose `inParens` flag is never assigned; when the flag reads `false`, `a * -b` parses to
`MULT(a, SUB(-1, b))`, where the right child of the `*` node is an unflagged operator node
of the larger precedence value 2 against 1, and `-a * b` parses to `MULT(SUB(-1, a), b)`:
both trees fail the check. -/
theorem chain_precedence_invariant :
    (∀ (stof : String → Option Nat) (uninit moves : Nat → Bool) (tokens : List PStoken)
      (fuel : Nat) (st0 s1 s1' s2 s3 : PSparseState) (a b : PSnodeHandle) (n1 op1 : PSnode)
      (t0 : PStoken) (items : List (Nat × PSnodeHandle)),
      tokenAt tokens st0.curTokenIdx = .ok t0 → t0.str ∉ statementKeywords →
      parseOperand stof uninit moves tokens fuel st0 = .ok (a, s1) →
      _ps_get_op_node uninit tokens s1 = .ok (n1, s1') →
      parseOperand stof uninit moves tokens fuel s1' = .ok (b, s2) →
      parseOpsTrace stof uninit moves (_ps_parse_statement stof uninit moves tokens fuel) fuel
        tokens fuel (n1.asTop a b) s2 = .ok (items, op1, s3) →
      s3.ast.nodePool.length < 4294967296 →
      (∀ x ∈ a :: b :: items.map Prod.snd, isLeafAt s3.ast.nodePool x = true) →
      ∃ root st1, _ps_parse_statement stof uninit moves tokens (fuel + 1) st0 = .ok (root, st1) ∧
        specPrecedenceOK st1.ast.nodePool (2 * items.length + 3) root = true) ∧
    (lexThenParse oobNul stofNone uninitFalse movesDoubling 8 (some "a * -b\n".toList)
        = some (.ok astMulMinus) ∧
      specPrecedenceOK astMulMinus.nodePool 8 4 = false ∧
      astMulMinus.nodePool[4]? = some (opNode PSopType.MULT 0 3) ∧
      astMulMinus.nodePool[3]? = some (opNode PSopType.SUB 1 2) ∧
      (opNode PSopType.SUB 1 2).op.inParens = false ∧
      _ps_precedence PSopType.SUB = 2 ∧ _ps_precedence PSopType.MULT = 1 ∧
      lexThenParse oobNul stofNone uninitFalse movesDoubling 8 (some "-a * b\n".toList)
        = some (.ok astMinusMul) ∧
      specPrecedenceOK astMinusMul.nodePool 8 4 = false) := by
  refine ⟨?_, by decide!⟩
  intro stof uninit moves tokens fuel st0 s1 s1' s2 s3 a b n1 op1 t0 items h0 hk ha hop1 hb htr
    hw hleaf
  obtain ⟨hp, hs, t, -, hlab, hprec⟩ := statement_chain h0 hk ha hop1 hb htr hw
    (fun x hx => isLeafAt_spec (hleaf x hx))
  have hlen : hs.length = 2 * items.length + 3 := by
    have := congrArg List.length hlab
    rw [List.length_map, chainItems_length] at this
    rw [this, List.length_cons]
    omega
  exact ⟨_, _, hp, t.specPrec hprec _ (Nat.le_of_eq hlen)⟩

/-- Witness for C38 on `x = a + b * c`: the operands `x`, `a`, `b`, `c` are leaves, the
statement parses to the handle 6, and the tree below it passes the check. -/
theorem chain_precedence_invariant_witness :
    ∃ root st1, _ps_parse_statement stofNone uninitFalse movesDoubling tokensAssignChain 4
        (stAt [] 0) = .ok (root, st1) ∧
      specPrecedenceOK st1.ast.nodePool (2 * [(PSopType.ADD, 2), (PSopType.MULT, 4)].length + 3)
        root = true :=
  chain_precedence_invariant.1 stofNone uninitFalse movesDoubling tokensAssignChain 3
    (stAt [] 0) (stAt [varNode "x"] 1) (stAt [varNode "x"] 2)
    (stAt [varNode "x", varNode "a"] 3)
    (stAt [varNode "x", varNode "a", varNode "b", opNode PSopType.ADD 1 5, varNode "c",
      opNode PSopType.MULT 2 4] 7)
    0 1 (opNode PSopType.EQUAL 0 0) (opNode PSopType.EQUAL 0 3) (tokId "x")
    [(PSopType.ADD, 2), (PSopType.MULT, 4)]
    (by decide) (by decide) (by decide!) (by decide!) (by decide!) (by decide!) (by decide)
    (by decide)

set_option maxRecDepth 100000 in
/-- C39. (1) For an expression statement that is a chain `x0 op1 x1 ... opn xn` whose
operands are leaves (identifier, call or number nodes): when the operands parse and the
operator loop ends with the record `items` of the operators and operands it has read, the
statement parses, and the tree below the returned handle has an in-order listing without
repetition whose items are `x0, op1, x1, ..., opn, xn` in source order, whatever the
never-assigned flags read and wherever the pool moves.  (2) The loop does not always end:
the chain `x = a + b * c`, as the second statement of a program, is parsed with a write
through a pointer into a pool that has moved.  When `*` is reached the pool holds eight
nodes, the walk has gone down to the `+` node (its never-assigned flag reads `false`), and
the `push_back` of the `*` node moves a pool whose capacity doubles: the write of the link
`rightMost->op.right` is undefined, and the parser returns neither a tree nor a parse
error. -/
theorem chain_operand_order :
    (∀ (stof : String → Option Nat) (uninit moves : Nat → Bool) (tokens : List PStoken)
      (fuel : Nat) (st0 s1 s1' s2 s3 : PSparseState) (a b : PSnodeHandle) (n1 op1 : PSnode)
      (t0 : PStoken) (items : List (Nat × PSnodeHandle)),
      tokenAt tokens st0.curTokenIdx = .ok t0 → t0.str ∉ statementKeywords →
      parseOperand stof uninit moves tokens fuel st0 = .ok (a, s1) →
      _ps_get_op_node uninit tokens s1 = .ok (n1, s1') →
      parseOperand stof uninit moves tokens fuel s1' = .ok (b, s2) →
      parseOpsTrace stof uninit moves (_ps_parse_statement stof uninit moves tokens fuel) fuel
        tokens fuel (n1.asTop a b) s2 = .ok (items, op1, s3) →
      s3.ast.nodePool.length < 4294967296 →
      (∀ x ∈ a :: b :: items.map Prod.snd, isLeafAt s3.ast.nodePool x = true) →
      ∃ root st1 hs,
        _ps_parse_statement stof uninit moves tokens (fuel + 1) st0 = .ok (root, st1) ∧
        specInOrder st1.ast.nodePool (2 * items.length + 3) root = some hs ∧ hs.Nodup ∧
        hs.map (chainItem st1.ast.nodePool) = chainItems a ((n1.op.type, b) :: items)) ∧
    (ps_lex_file oobNul (some textChainSecond.toList) = .tokens tokensChainSecond ∧
      movesDoubling 8 = true ∧
      ps_parse_tokens stofNone uninitFalse movesDoubling 8 tokensChainSecond
        = .error .undefined ∧
      lexThenParse oobNul stofNone uninitFalse movesDoubling 8 (some textChainSecond.toList)
        = some (.error .undefined) ∧
      lexThenParse oobNul stofNone uninitFalse movesDoubling 8 (some "x = a + b * c\n".toList)
        = some (.ok astAssignChain) ∧
      inOrderSpellings 8 astAssignChain = some ["x", "=", "a", "+", "b", "*", "c"]) := by
  refine ⟨?_, by decide!⟩
  intro stof uninit moves tokens fuel st0 s1 s1' s2 s3 a b n1 op1 t0 items h0 hk ha hop1 hb htr
    hw hleaf
  obtain ⟨hp, hs, t, hnd, hlab, -⟩ := statement_chain h0 hk ha hop1 hb htr hw
    (fun x hx => isLeafAt_spec (hleaf x hx))
  have hlen : hs.length = 2 * items.length + 3 := by
    have := congrArg List.length hlab
    rw [List.length_map, chainItems_length] at this
    rw [this, List.length_cons]
    omega
  exact ⟨_, _, hs, hp, t.computed _ (Nat.le_of_eq hlen), hnd, hlab⟩

/-- Witness for C39 on `x = a + b * c` as the only statement: the statement parses, and
the listing of its tree spells `x = a + b * c`. -/
theorem chain_operand_order_witness :
    ∃ root st1 hs,
      _ps_parse_statement stofNone uninitFalse movesDoubling tokensAssignChain 4 (stAt [] 0)
        = .ok (root, st1) ∧
      specInOrder st1.ast.nodePool (2 * [(PSopType.ADD, 2), (PSopType.MULT, 4)].length + 3)
        root = some hs ∧ hs.Nodup ∧
      hs.map (chainItem st1.ast.nodePool) =
        chainItems 0 (((opNode PSopType.EQUAL 0 0).op.type, 1) ::
          [(PSopType.ADD, 2), (PSopType.MULT, 4)]) :=
  chain_operand_order.1 stofNone uninitFalse movesDoubling tokensAssignChain 3
    (stAt [] 0) (stAt [varNode "x"] 1) (stAt [varNode "x"] 2)
    (stAt [varNode "x", varNode "a"] 3)
    (stAt [varNode "x", varNode "a", varNode "b", opNode PSopType.ADD 1 5, varNode "c",
      opNode PSopType.MULT 2 4] 7)
    0 1 (opNode PSopType.EQUAL 0 0) (opNode PSopType.EQUAL 0 3) (tokId "x")
    [(PSopType.ADD, 2), (PSopType.MULT, 4)]
    (by decide) (by decide) (by decide!) (by decide!) (by decide!) (by decide!) (by decide)
    (by decide)

end PropScript
